import Mathlib

/-! # Point-to-point packet framing: a model of `hf1/common/p2p_packet_stream.hh`

The deframer `P2PPacketInputStream::Run` and the framer/scheduler/pacer
`P2PPacketOutputStream::Run` are embedded as pure tick functions over explicit
state.  Every call the C++ code makes on a collaborator (transport, clock,
store, packet filter) is either an argument of the tick or an entry of the
event list the tick returns.

The request handlers `CreateHeadMixedTrajectoryViewActionHandler::Run` and
`CreateHeadModulatedTrajectoryViewActionHandler::Run` of `hf1/arduino` are
embedded as functions on the handler and its trajectory store, and the
interpolation functions `Bezier` and `CentripetalCatmullRom` of
`hf1/arduino/trajectory_view.hh` as functions on a vector space of waypoints.
-/

namespace P2P

/-! ## Bytes and memory -/

/-- Byte memory addressed by a signed offset, as reached through a `uint8_t *`. -/
abbrev Mem := Int → Nat

/-- One byte store `m[i] = v`. -/
def Mem.set (m : Mem) (i : Int) (v : Nat) : Mem :=
  fun j => if j = i then v else m j

/-- The `n` bytes `m[start], …, m[start + n - 1]`. -/
def Mem.toList (m : Mem) (start : Int) (n : Nat) : List Nat :=
  (List.range n).map (fun (k : Nat) => m (start + (k : Int)))

/-- Stores the bytes of `l` at `m[start], m[start + 1], …`. -/
def Mem.setList (m : Mem) (start : Int) : List Nat → Mem
  | [] => m
  | b :: l => Mem.setList (m.set start b) (start + 1) l

/-- Reduction of a C `int` expression into an unsigned 64-bit value. -/
def wrap64 (x : Int) : Nat := (x % (2 ^ 64 : Int)).toNat

/-! ## Packets -/

/-- Fields of `P2PHeader`, named as the code accesses them. -/
structure P2PHeader where
  start_token : Nat
  priority : Nat
  is_continuation : Bool
  is_init : Bool
  requires_ack : Bool
  sequence_number : Nat
  length : Nat
deriving DecidableEq

/-- A `P2PPacket`: the header, the bytes reached through `content()` (the footer
is stored at `content() + length()`), and `commit_time_ns()`. -/
structure P2PPacket where
  header : P2PHeader
  content : Mem
  commit_time_ns : Nat

/-- Compile-time constants and object representations used by the two streams.
Their declarations are not part of the sources at hand, so they are parameters:
`kP2PStartToken`, `kP2PSpecialToken`, `P2PPriority::kNumLevels`,
`sizeof(P2PHeader)`, `sizeof(P2PFooter)`, the number of values of the header's
length field, the byte image of a `P2PHeader` and its inverse,
`NetworkToLocal`/`LocalToNetwork` on the length field and `NetworkToLocal` on the
footer's checksum (as a map of the footer bytes). -/
structure Protocol where
  kP2PStartToken : Nat
  kP2PSpecialToken : Nat
  kNumLevels : Nat
  sizeofHeader : Nat
  sizeofFooter : Nat
  lengthMod : Nat
  headerBytes : P2PHeader → List Nat
  headerOfBytes : List Nat → P2PHeader
  networkToLocal : Nat → Nat
  localToNetwork : Nat → Nat
  checksumNetworkToLocal : List Nat → List Nat

/-- Byte `k` of the packet object seen from `header()`: the header image at
offsets `0 ≤ k < sizeof(P2PHeader)`, and the memory around `content()`, which
starts right behind the header, at every other offset. -/
def Protocol.packetByte (P : Protocol) (p : P2PPacket) (k : Int) : Nat :=
  if 0 ≤ k ∧ k < (P.sizeofHeader : Int) then (P.headerBytes p.header).getD k.toNat 0
  else p.content (k - (P.sizeofHeader : Int))

/-- The `n` bytes of the packet object starting at offset `off`. -/
def Protocol.packetBytes (P : Protocol) (p : P2PPacket) (off : Int) (n : Nat) : List Nat :=
  (List.range n).map (fun (k : Nat) => P.packetByte p (off + (k : Int)))

/-! ## Deframer: `P2PPacketInputStream` -/

/-- States of `P2PPacketInputStream`. -/
inductive InState where
  | kWaitingForPacket
  | kReadingHeader
  | kReadingContent
  | kDisambiguatingStartTokenInContent
  | kReadingFooter
deriving DecidableEq

/-- Modelled from the spec: the receive side of the priority packet store, which
is an external collaborator.  `slot p` is the packet `NewValue(p)` hands out
(the same slot while a packet is being assembled); `Commit(p)` publishes the
slot, recorded here by appending it to `committed`. -/
structure InStore where
  slot : Nat → P2PPacket
  committed : List (Nat × P2PPacket)

/-- Replaces the slot of priority `p`. -/
def InStore.setSlot (b : InStore) (p : Nat) (v : P2PPacket) : InStore :=
  { b with slot := fun q => if q = p then v else b.slot q }

/-- Models `Commit(p)`. -/
def InStore.Commit (b : InStore) (p : Nat) : InStore :=
  { b with committed := b.committed ++ [(p, b.slot p)] }

/-- Member variables of `P2PPacketInputStream`. -/
structure InputStream where
  state_ : InState
  incoming_header_ : Mem
  current_field_read_bytes_ : Int
  write_offset_before_break_ : Nat → Int
  packet_buffer_ : InStore

/-- What one deframer tick did to its collaborators, in program order. -/
inductive InEvent where
  | read (b : Nat)
  | newValue (priority : Nat)
  | writeHeader (priority : Nat)
  | writeContent (priority : Nat) (index : Int) (b : Nat)
  | writeFooter (priority : Nat) (offset : Int) (b : Nat)
  | prepareToRead (ok : Bool)
  | filter (accepted : Bool)
  | clock (now : Nat)
  | commit (priority : Nat) (commit_time_ns : Nat)
deriving DecidableEq

/-- Collaborators of the deframer that do not change between ticks:
`P2PPacket::PrepareToRead` (its verdict and the packet it leaves behind) and the
optional `packet_filter_`. -/
structure InEnv where
  prepareToRead : P2PPacket → Bool × P2PPacket
  packet_filter_ : Option (P2PPacket → Bool)

/-- Updates one entry of a per-priority array. -/
def setAt {α : Type} (f : Nat → α) (p : Nat) (v : α) : Nat → α :=
  fun q => if q = p then v else f q

/-- The header currently held in `incoming_header_`. -/
def InputStream.incoming (P : Protocol) (s : InputStream) : P2PHeader :=
  P.headerOfBytes (s.incoming_header_.toList 0 P.sizeofHeader)

/-- Restart of header reading on a start token: `state_ = kReadingHeader`,
`incoming_header_.start_token = kP2PStartToken`, `current_field_read_bytes_ = 1`. -/
def InputStream.restartHeader (P : Protocol) (s : InputStream) : InputStream :=
  { s with state_ := InState.kReadingHeader,
           incoming_header_ := s.incoming_header_.set 0 P.kP2PStartToken,
           current_field_read_bytes_ := 1 }

/-- One call of `P2PPacketInputStream::Run()`.  `avail` is the byte the
transport would deliver to a `Read(_, 1)` in this tick (`none`: `Read` returns
0), `now` the value `GetSystemNanoseconds()` would return. -/
def P2PPacketInputStream.Run (P : Protocol) (E : InEnv) (avail : Option Nat) (now : Nat)
    (s : InputStream) : InputStream × List InEvent :=
  match s.state_ with
  | InState.kWaitingForPacket =>
    match avail with
    | none => (s, [])
    | some b =>
      let s1 := { s with incoming_header_ := s.incoming_header_.set 0 b }
      if b = P.kP2PStartToken then
        ({ s1 with state_ := InState.kReadingHeader, current_field_read_bytes_ := 1 },
          [InEvent.read b])
      else (s1, [InEvent.read b])
  | InState.kReadingHeader =>
    if (P.sizeofHeader : Int) ≤ s.current_field_read_bytes_ then
      let hdr := s.incoming P
      if P.kNumLevels ≤ hdr.priority then
        ({ s with state_ := InState.kWaitingForPacket }, [])
      else
        let packet := s.packet_buffer_.slot hdr.priority
        if hdr.is_continuation = false then
          let packet1 : P2PPacket :=
            { packet with header := { hdr with length := P.networkToLocal hdr.length } }
          ({ s with packet_buffer_ := s.packet_buffer_.setSlot hdr.priority packet1,
                    write_offset_before_break_ :=
                      setAt s.write_offset_before_break_ hdr.priority 0,
                    current_field_read_bytes_ := 0,
                    state_ := InState.kReadingContent },
            [InEvent.newValue hdr.priority, InEvent.writeHeader hdr.priority])
        else
          let remaining_length : Int := (P.networkToLocal hdr.length : Int)
          if hdr.sequence_number ≠ packet.header.sequence_number ∨
              remaining_length ≠
                (packet.header.length : Int) - s.write_offset_before_break_ hdr.priority then
            ({ s with state_ := InState.kWaitingForPacket }, [InEvent.newValue hdr.priority])
          else
            ({ s with current_field_read_bytes_ :=
                        (packet.header.length : Int) - remaining_length,
                      state_ := InState.kReadingContent },
              [InEvent.newValue hdr.priority])
    else
      match avail with
      | none => (s, [])
      | some b =>
        let s1 := { s with incoming_header_ :=
                             s.incoming_header_.set s.current_field_read_bytes_ b,
                           current_field_read_bytes_ := s.current_field_read_bytes_ + 1 }
        if b = P.kP2PStartToken then
          (s1.restartHeader P, [InEvent.read b])
        else if b = P.kP2PSpecialToken then
          ({ s1 with state_ := InState.kWaitingForPacket }, [InEvent.read b])
        else (s1, [InEvent.read b])
  | InState.kReadingContent =>
    let prio := (s.incoming P).priority
    let packet := s.packet_buffer_.slot prio
    if (packet.header.length : Int) ≤ s.current_field_read_bytes_ then
      ({ s with state_ := InState.kReadingFooter, current_field_read_bytes_ := 0 },
        [InEvent.newValue prio])
    else
      match avail with
      | none => (s, [InEvent.newValue prio])
      | some b =>
        let packet1 : P2PPacket :=
          { packet with content := packet.content.set s.current_field_read_bytes_ b }
        let s1 := { s with packet_buffer_ := s.packet_buffer_.setSlot prio packet1,
                           current_field_read_bytes_ := s.current_field_read_bytes_ + 1 }
        let evs := [InEvent.newValue prio, InEvent.read b,
                    InEvent.writeContent prio s.current_field_read_bytes_ b]
        if b = P.kP2PStartToken then
          if s1.current_field_read_bytes_ < (packet.header.length : Int) then
            ({ s1 with state_ := InState.kDisambiguatingStartTokenInContent }, evs)
          else
            ({ s1 with write_offset_before_break_ :=
                         setAt s1.write_offset_before_break_ prio
                           (s1.current_field_read_bytes_ - 1) }.restartHeader P, evs)
        else (s1, evs)
  | InState.kDisambiguatingStartTokenInContent =>
    let prio := (s.incoming P).priority
    let packet := s.packet_buffer_.slot prio
    match avail with
    | none => (s, [InEvent.newValue prio])
    | some b =>
      let packet1 : P2PPacket :=
        { packet with content := packet.content.set s.current_field_read_bytes_ b }
      let s1 := { s with packet_buffer_ := s.packet_buffer_.setSlot prio packet1,
                         current_field_read_bytes_ := s.current_field_read_bytes_ + 1 }
      let evs := [InEvent.newValue prio, InEvent.read b,
                  InEvent.writeContent prio s.current_field_read_bytes_ b]
      if b = P.kP2PSpecialToken then
        ({ s1 with state_ := InState.kReadingContent }, evs)
      else if b = P.kP2PStartToken then
        ({ s1 with write_offset_before_break_ :=
                     setAt s1.write_offset_before_break_ prio
                       (s1.current_field_read_bytes_ - 1) }.restartHeader P, evs)
      else
        let s2 := { s1 with write_offset_before_break_ :=
                              setAt s1.write_offset_before_break_ prio
                                (s1.current_field_read_bytes_ - 2) }.restartHeader P
        ({ s2 with incoming_header_ := s2.incoming_header_.set 1 b,
                   current_field_read_bytes_ := 2 }, evs)
  | InState.kReadingFooter =>
    let prio := (s.incoming P).priority
    let packet := s.packet_buffer_.slot prio
    if (P.sizeofFooter : Int) ≤ s.current_field_read_bytes_ then
      ({ s with state_ := InState.kWaitingForPacket }, [InEvent.newValue prio])
    else
      match avail with
      | none => (s, [InEvent.newValue prio])
      | some b =>
        let at_ : Int := (packet.header.length : Int) + s.current_field_read_bytes_
        let packet1 : P2PPacket := { packet with content := packet.content.set at_ b }
        let s1 := { s with packet_buffer_ := s.packet_buffer_.setSlot prio packet1,
                           current_field_read_bytes_ := s.current_field_read_bytes_ + 1 }
        let evs := [InEvent.newValue prio, InEvent.read b,
                    InEvent.writeFooter prio s.current_field_read_bytes_ b]
        if b = P.kP2PStartToken then
          ({ s1 with write_offset_before_break_ :=
                       setAt s1.write_offset_before_break_ prio
                         (packet.header.length : Int) }.restartHeader P, evs)
        else
          let s2 := if b = P.kP2PSpecialToken then
                      { s1 with state_ := InState.kWaitingForPacket } else s1
          if (P.sizeofFooter : Int) ≤ s2.current_field_read_bytes_ then
            let footer := packet1.content.toList (packet.header.length : Int) P.sizeofFooter
            let content2 := packet1.content.setList (packet.header.length : Int)
              (P.checksumNetworkToLocal footer)
            let packet2 : P2PPacket := { packet1 with content := content2 }
            let r := E.prepareToRead packet2
            let packet3 := r.2
            if r.1 = true then
              match E.packet_filter_ with
              | none =>
                let packet4 := { packet3 with commit_time_ns := now }
                ({ s2 with packet_buffer_ :=
                             (s2.packet_buffer_.setSlot prio packet4).Commit prio,
                           state_ := InState.kWaitingForPacket },
                  evs ++ [InEvent.prepareToRead true, InEvent.clock now,
                          InEvent.commit prio now])
              | some f =>
                if f packet3 = true then
                  let packet4 := { packet3 with commit_time_ns := now }
                  ({ s2 with packet_buffer_ :=
                               (s2.packet_buffer_.setSlot prio packet4).Commit prio,
                             state_ := InState.kWaitingForPacket },
                    evs ++ [InEvent.prepareToRead true, InEvent.filter true,
                            InEvent.clock now, InEvent.commit prio now])
                else
                  ({ s2 with packet_buffer_ := s2.packet_buffer_.setSlot prio packet3,
                             state_ := InState.kWaitingForPacket },
                    evs ++ [InEvent.prepareToRead true, InEvent.filter false])
            else
              ({ s2 with packet_buffer_ := s2.packet_buffer_.setSlot prio packet3,
                         state_ := InState.kWaitingForPacket },
                evs ++ [InEvent.prepareToRead false])
          else (s2, evs)

/-! ## Framer, scheduler and pacer: `P2PPacketOutputStream` -/

/-- States of `P2PPacketOutputStream`. -/
inductive OutState where
  | kGettingNextPacket
  | kSendingHeaderBurst
  | kWaitingForHeaderBurstIngestion
  | kSendingBurst
  | kWaitingForBurstIngestion
  | kWaitingForPartialBurstIngestionBeforeHigherPriorityPacket
deriving DecidableEq

/-- Modelled from the spec: the send side of the priority packet store, which is
an external collaborator: per priority level a FIFO of committed packets, oldest
first. -/
structure OutStore where
  queue : Nat → List P2PPacket

/-- A packet of zeros, read where a pointer into the store dangles. -/
def P2PPacket.zero : P2PPacket :=
  { header := { start_token := 0, priority := 0, is_continuation := false, is_init := false,
                requires_ack := false, sequence_number := 0, length := 0 },
    content := fun _ => 0, commit_time_ns := 0 }

/-- Modelled from the spec: `OldestValue()` peeks the head of the highest-priority
(numerically lowest) non-empty queue.  The pointer it returns is represented by
the index of that queue. -/
def OutStore.OldestValue (P : Protocol) (b : OutStore) : Option Nat :=
  (List.range P.kNumLevels).find? (fun q => !(b.queue q).isEmpty)

/-- The packet a pointer to the head of queue `q` designates. -/
def OutStore.front (b : OutStore) (q : Nat) : P2PPacket :=
  (b.queue q).headD P2PPacket.zero

/-- A store through the pointer to the head of queue `q`. -/
def OutStore.setFront (b : OutStore) (q : Nat) (v : P2PPacket) : OutStore :=
  { queue := setAt b.queue q (v :: (b.queue q).tail) }

/-- Modelled from the spec: `Consume(p)` removes the head of queue `p`. -/
def OutStore.Consume (b : OutStore) (p : Nat) : OutStore :=
  { queue := setAt b.queue p (b.queue p).tail }

/-- Modelled from the spec: a producer commits `v` at priority `p`. -/
def OutStore.Commit (b : OutStore) (p : Nat) (v : P2PPacket) : OutStore :=
  { queue := setAt b.queue p (b.queue p ++ [v]) }

/-- Per-priority statistics kept in `stats_`; unsigned 64-bit counters. -/
structure Stats where
  total_packets_ : Nat → Nat
  total_reliable_packets_ : Nat → Nat
  total_retransmissions_ : Nat → Nat
  total_packet_delay_ns_ : Nat → Nat
  total_packet_delay_per_byte_ns_ : Nat → Nat

/-- Member variables of `P2PPacketOutputStream`.  `current_packet_` is a pointer
to the head of a queue of the store, or null. -/
structure OutputStream where
  state_ : OutState
  current_packet_ : Option Nat
  total_packet_bytes_ : Nat → Int
  pending_packet_bytes_ : Int
  total_burst_bytes_ : Int
  pending_burst_bytes_ : Int
  after_burst_wait_end_timestamp_ns_ : Nat
  last_sent_sequence_number_ : Nat → Nat
  stats_ : Stats
  packet_buffer_ : OutStore

/-- Pacing parameters of the byte transport. -/
structure Transport where
  GetBurstMaxLength : Int
  GetAtomicSendMaxLength : Int
  GetBurstIngestionNanosecondsPerByte : Int

/-- What one framer tick did to its collaborators, in program order. -/
inductive OutEvent where
  | write (requested : Int) (bytes : List Nat)
  | assertFailed
  | filter (accepted : Bool)
  | consume (priority : Nat)
  | markContinuation (priority : Nat) (length : Nat)
deriving DecidableEq

/-- Result of one framer tick: the new state, the events, and the value
`Run()` returns (`time_until_next_event`). -/
structure OutResult where
  next : OutputStream
  events : List OutEvent
  time_until_next_event : Nat

/-- The sentinel `-1ULL`. -/
def kNeverSent : Nat := 2 ^ 64 - 1

/-- Sum of two unsigned 64-bit values. -/
def add64 (a b : Nat) : Nat := (a + b) % 2 ^ 64

/-- Difference of two unsigned 64-bit values. -/
def sub64 (a b : Nat) : Nat := wrap64 ((a : Int) - (b : Int))

/-- The packet `current_packet_` points to. -/
def OutputStream.current (s : OutputStream) : P2PPacket :=
  match s.current_packet_ with
  | some q => s.packet_buffer_.front q
  | none => P2PPacket.zero

/-- The value `pending_packet_bytes_ - sizeof(P2PFooter)` takes in the header's
length field. -/
def Protocol.toLength (P : Protocol) (x : Int) : Nat := (x % (P.lengthMod : Int)).toNat

/-- Statistics update of lines 277-295, for a packet that has just been sent
completely at clock reading `now`. -/
def OutputStream.account (s : OutputStream) (pkt : P2PPacket) (now : Nat) : OutputStream :=
  let priority := pkt.header.priority
  if pkt.header.is_init = false then
    if s.last_sent_sequence_number_ priority = kNeverSent ∨
        pkt.header.sequence_number > s.last_sent_sequence_number_ priority then
      let packet_delay := sub64 now pkt.commit_time_ns
      let st := s.stats_
      { s with
        last_sent_sequence_number_ :=
          setAt s.last_sent_sequence_number_ priority pkt.header.sequence_number,
        stats_ :=
          { st with
            total_packets_ := setAt st.total_packets_ priority
              (add64 (st.total_packets_ priority) 1),
            total_packet_delay_ns_ := setAt st.total_packet_delay_ns_ priority
              (add64 (st.total_packet_delay_ns_ priority) packet_delay),
            total_packet_delay_per_byte_ns_ := setAt st.total_packet_delay_per_byte_ns_ priority
              (add64 (st.total_packet_delay_per_byte_ns_ priority)
                (packet_delay / wrap64 (s.total_packet_bytes_ priority))),
            total_reliable_packets_ :=
              if pkt.header.requires_ack = true then
                setAt st.total_reliable_packets_ priority
                  (add64 (st.total_reliable_packets_ priority) 1)
              else st.total_reliable_packets_ } }
    else
      let st := s.stats_
      { s with
        stats_ :=
          { st with
            total_retransmissions_ := setAt st.total_retransmissions_ priority
              (add64 (st.total_retransmissions_ priority) 1) } }
  else s

/-- Start of a burst: `total_burst_bytes_ = std::min(pending_packet_bytes_,
GetBurstMaxLength())`, `pending_burst_bytes_ = total_burst_bytes_`. -/
def OutputStream.startBurst (T : Transport) (s : OutputStream) (st : OutState) : OutputStream :=
  { s with state_ := st,
           total_burst_bytes_ := min s.pending_packet_bytes_ T.GetBurstMaxLength,
           pending_burst_bytes_ := min s.pending_packet_bytes_ T.GetBurstMaxLength }

/-- The end of the ingestion wait for `n` bytes written, from clock reading `now`. -/
def Transport.waitEnd (T : Transport) (now : Nat) (n : Int) : Nat :=
  wrap64 ((now : Int) + n * T.GetBurstIngestionNanosecondsPerByte)

/-- Body of `case kSendingBurst` (lines 266-326).  It is a function of its own
because `case kWaitingForHeaderBurstIngestion` runs into it when the header is
not yet fully sent (there is no `break` before line 266). -/
def P2PPacketOutputStream.sendingBurst (P : Protocol) (T : Transport)
    (packet_filter_ : Option (P2PPacket → Bool)) (write : Int → Int) (now : Nat)
    (s : OutputStream) : OutResult :=
  let pkt := s.current
  let priority := pkt.header.priority
  let requested := min T.GetAtomicSendMaxLength s.pending_burst_bytes_
  let written_bytes := write requested
  let ev := OutEvent.write requested
    (P.packetBytes pkt (s.total_packet_bytes_ priority - s.pending_packet_bytes_)
      written_bytes.toNat)
  let s1 : OutputStream :=
    { s with pending_packet_bytes_ := s.pending_packet_bytes_ - written_bytes,
                     pending_burst_bytes_ := s.pending_burst_bytes_ - written_bytes }
  if s1.pending_packet_bytes_ ≤ 0 then
    let s2 : OutputStream := s1.account pkt now
    let s3 : OutputStream :=
      { s2 with after_burst_wait_end_timestamp_ns_ := T.waitEnd now s2.total_burst_bytes_,
                        state_ := OutState.kWaitingForBurstIngestion }
    match packet_filter_ with
    | none =>
      { next := { s3 with packet_buffer_ := s3.packet_buffer_.Consume priority },
        events := [ev, OutEvent.consume priority], time_until_next_event := 0 }
    | some f =>
      if f pkt = true then
        { next := { s3 with packet_buffer_ := s3.packet_buffer_.Consume priority },
          events := [ev, OutEvent.filter true, OutEvent.consume priority],
          time_until_next_event := 0 }
      else
        { next := s3, events := [ev, OutEvent.filter false], time_until_next_event := 0 }
  else if s1.pending_burst_bytes_ ≤ 0 then
    { next := { s1 with after_burst_wait_end_timestamp_ns_ :=
                          T.waitEnd now s1.total_burst_bytes_,
                        state_ := OutState.kWaitingForBurstIngestion },
      events := [ev], time_until_next_event := 0 }
  else
    match s1.packet_buffer_.OldestValue P, s1.current_packet_ with
    | some q, some c =>
      if q ≠ c then
        let len := P.localToNetwork (P.toLength (s1.pending_packet_bytes_ - (P.sizeofFooter : Int)))
        let pkt1 : P2PPacket :=
          { pkt with header := { pkt.header with is_continuation := true, length := len } }
        { next := { s1 with packet_buffer_ := s1.packet_buffer_.setFront c pkt1,
                            after_burst_wait_end_timestamp_ns_ :=
                              T.waitEnd now (s1.total_burst_bytes_ - s1.pending_burst_bytes_),
                            state_ :=
                              OutState.kWaitingForPartialBurstIngestionBeforeHigherPriorityPacket },
          events := [ev, OutEvent.markContinuation priority len], time_until_next_event := 0 }
      else { next := s1, events := [ev], time_until_next_event := 0 }
    | _, _ => { next := s1, events := [ev], time_until_next_event := 0 }

/-- One call of `P2PPacketOutputStream::Run()`.  `write n` is the count the
transport's `Write(_, n)` returns in this tick, `now` the value
`GetSystemNanoseconds()` returns in this tick. -/
def P2PPacketOutputStream.Run (P : Protocol) (T : Transport)
    (packet_filter_ : Option (P2PPacket → Bool)) (write : Int → Int) (now : Nat)
    (s : OutputStream) : OutResult :=
  match s.state_ with
  | OutState.kGettingNextPacket =>
    match s.packet_buffer_.OldestValue P with
    | none => { next := { s with current_packet_ := none }, events := [],
                time_until_next_event := 0 }
    | some q =>
      let pkt := s.packet_buffer_.front q
      let priority := pkt.header.priority
      let s1 : OutputStream := { s with current_packet_ := some q }
      let s2 : OutputStream :=
        if pkt.header.is_continuation = false then
          { s1 with total_packet_bytes_ := setAt s1.total_packet_bytes_ priority
                      ((P.sizeofHeader : Int) + (P.networkToLocal pkt.header.length : Int)
                        + (P.sizeofFooter : Int)) }
        else s1
      let evs :=
        if pkt.header.is_continuation = true ∧ s.total_packet_bytes_ priority < 0 then
          [OutEvent.assertFailed] else []
      { next := ({ s2 with pending_packet_bytes_ := (P.sizeofHeader : Int) }).startBurst T
                  OutState.kSendingHeaderBurst,
        events := evs, time_until_next_event := 0 }
  | OutState.kSendingHeaderBurst =>
    let pkt := s.current
    let written_bytes := write s.pending_burst_bytes_
    let ev := OutEvent.write s.pending_burst_bytes_
      (P.packetBytes pkt ((P.sizeofHeader : Int) - s.pending_packet_bytes_) written_bytes.toNat)
    let s1 : OutputStream :=
      { s with pending_packet_bytes_ := s.pending_packet_bytes_ - written_bytes,
                       pending_burst_bytes_ := s.pending_burst_bytes_ - written_bytes }
    if s1.pending_packet_bytes_ ≤ 0 then
      { next := { s1 with after_burst_wait_end_timestamp_ns_ :=
                            T.waitEnd now s1.total_burst_bytes_,
                          state_ := OutState.kWaitingForHeaderBurstIngestion },
        events := [ev], time_until_next_event := 0 }
    else if s1.pending_burst_bytes_ ≤ 0 then
      { next := { s1 with after_burst_wait_end_timestamp_ns_ :=
                            T.waitEnd now s1.total_burst_bytes_,
                          state_ := OutState.kWaitingForHeaderBurstIngestion },
        events := [ev], time_until_next_event := 0 }
    else { next := s1, events := [ev], time_until_next_event := 0 }
  | OutState.kWaitingForHeaderBurstIngestion =>
    if now < s.after_burst_wait_end_timestamp_ns_ then
      { next := s, events := [],
        time_until_next_event := s.after_burst_wait_end_timestamp_ns_ - now }
    else if s.pending_packet_bytes_ ≤ 0 then
      let pkt := s.current
      let pending : Int :=
        if pkt.header.is_continuation = true then
          (P.networkToLocal pkt.header.length : Int) + (P.sizeofFooter : Int)
        else s.total_packet_bytes_ pkt.header.priority - (P.sizeofHeader : Int)
      { next := ({ s with pending_packet_bytes_ := pending }).startBurst T OutState.kSendingBurst,
        events := [], time_until_next_event := 0 }
    else
      P2PPacketOutputStream.sendingBurst P T packet_filter_ write now
        (s.startBurst T OutState.kSendingHeaderBurst)
  | OutState.kSendingBurst =>
    P2PPacketOutputStream.sendingBurst P T packet_filter_ write now s
  | OutState.kWaitingForBurstIngestion =>
    if now < s.after_burst_wait_end_timestamp_ns_ then
      { next := s, events := [],
        time_until_next_event := s.after_burst_wait_end_timestamp_ns_ - now }
    else if s.pending_packet_bytes_ ≤ 0 then
      { next := { s with state_ := OutState.kGettingNextPacket }, events := [],
        time_until_next_event := 0 }
    else
      { next := s.startBurst T OutState.kSendingBurst, events := [],
        time_until_next_event := 0 }
  | OutState.kWaitingForPartialBurstIngestionBeforeHigherPriorityPacket =>
    if now < s.after_burst_wait_end_timestamp_ns_ then
      { next := s, events := [],
        time_until_next_event := s.after_burst_wait_end_timestamp_ns_ - now }
    else
      { next := { s with state_ := OutState.kGettingNextPacket }, events := [],
        time_until_next_event := 0 }

/-! ## Runs of several ticks -/

/-- Whether a deframer tick took a byte from the transport. -/
def consumed (evs : List InEvent) : Bool :=
  evs.any (fun e => match e with
    | InEvent.read _ => true
    | _ => false)

/-- Polls the deframer `n` times on the byte stream `bytes`: every tick is offered
the first byte not yet read and the clock reading `clk t` of its tick number.
Returns the final state and the bytes left unread. -/
def P2PPacketInputStream.runTicks (P : Protocol) (E : InEnv) (clk : Nat → Nat) :
    Nat → Nat → List Nat → InputStream → InputStream × List Nat
  | _, 0, bytes, s => (s, bytes)
  | t, n + 1, bytes, s =>
    let r := P2PPacketInputStream.Run P E bytes.head? (clk t) s
    P2PPacketInputStream.runTicks P E clk (t + 1) n
      (if consumed r.2 = true then bytes.tail else bytes) r.1

/-- The bytes the transport took in the `Write` calls of an event list. -/
def writtenBytes : List OutEvent → List Nat
  | [] => []
  | OutEvent.write _ bytes :: evs => bytes ++ writtenBytes evs
  | _ :: evs => writtenBytes evs

/-- What the environment answers in one framer tick. -/
structure OutTick where
  write : Int → Int
  now : Nat

/-- Polls the framer once per entry of `ticks`.  Returns the final state and all
bytes written, in order. -/
def P2PPacketOutputStream.runTicks (P : Protocol) (T : Transport)
    (packet_filter_ : Option (P2PPacket → Bool)) :
    List OutTick → OutputStream → OutputStream × List Nat
  | [], s => (s, [])
  | k :: ticks, s =>
    let r := P2PPacketOutputStream.Run P T packet_filter_ k.write k.now s
    let rest := P2PPacketOutputStream.runTicks P T packet_filter_ ticks r.next
    (rest.1, writtenBytes r.events ++ rest.2)

/-- A deframer right after construction. -/
def InputStream.init : InputStream :=
  { state_ := InState.kWaitingForPacket,
    incoming_header_ := fun _ => 0,
    current_field_read_bytes_ := 0,
    write_offset_before_break_ := fun _ => 0,
    packet_buffer_ := { slot := fun _ => P2PPacket.zero, committed := [] } }

/-- A framer right after construction, on the store `b`: nothing sent yet on any
priority. -/
def OutputStream.init (b : OutStore) : OutputStream :=
  { state_ := OutState.kGettingNextPacket,
    current_packet_ := none,
    total_packet_bytes_ := fun _ => -1,
    pending_packet_bytes_ := 0,
    total_burst_bytes_ := 0,
    pending_burst_bytes_ := 0,
    after_burst_wait_end_timestamp_ns_ := 0,
    last_sent_sequence_number_ := fun _ => kNeverSent,
    stats_ := { total_packets_ := fun _ => 0, total_reliable_packets_ := fun _ => 0,
                total_retransmissions_ := fun _ => 0, total_packet_delay_ns_ := fun _ => 0,
                total_packet_delay_per_byte_ns_ := fun _ => 0 },
    packet_buffer_ := b }

/-! ## A concrete protocol instance -/

/-- Little-endian bytes of `v`, `n` of them. -/
def leBytes : Nat → Nat → List Nat
  | 0, _ => []
  | n + 1, v => v % 256 :: leBytes n (v / 256)

/-- Value of a little-endian byte list. -/
def ofLeBytes : List Nat → Nat
  | [] => 0
  | b :: l => b + 256 * ofLeBytes l

/-- Byte swap of a 16-bit value. -/
def swap16 (v : Nat) : Nat := v % 256 * 256 + v / 256 % 256

/-- Modelled from the spec: an instance of the wire layout of section 6 on a
little-endian host: start token `0x7E`, escape token `0x7D`, four priority
levels, a 12-byte header (start token; priority and the three flags in one byte;
64-bit sequence number; 16-bit length) and a 2-byte footer. -/
def demoProtocol : Protocol :=
  { kP2PStartToken := 0x7E,
    kP2PSpecialToken := 0x7D,
    kNumLevels := 4,
    sizeofHeader := 12,
    sizeofFooter := 2,
    lengthMod := 65536,
    headerBytes := fun h =>
      [h.start_token,
       h.priority % 4 + 4 * (if h.is_continuation then 1 else 0)
         + 8 * (if h.is_init then 1 else 0) + 16 * (if h.requires_ack then 1 else 0)]
      ++ leBytes 8 h.sequence_number ++ leBytes 2 h.length,
    headerOfBytes := fun l =>
      { start_token := l.getD 0 0,
        priority := l.getD 1 0 % 4,
        is_continuation := decide (l.getD 1 0 / 4 % 2 = 1),
        is_init := decide (l.getD 1 0 / 8 % 2 = 1),
        requires_ack := decide (l.getD 1 0 / 16 % 2 = 1),
        sequence_number := ofLeBytes ((l.drop 2).take 8),
        length := ofLeBytes ((l.drop 10).take 2) },
    networkToLocal := swap16,
    localToNetwork := swap16,
    checksumNetworkToLocal := List.reverse }

/-! ## Vocabulary of the statements -/

/-- The tick reads the last byte of the footer: the deframer is in
`kReadingFooter` with exactly one footer byte missing and the transport delivers
a byte. -/
def readsFinalFooterByte (P : Protocol) (avail : Option Nat) (s : InputStream) : Prop :=
  s.state_ = InState.kReadingFooter ∧ avail ≠ none ∧
    s.current_field_read_bytes_ < (P.sizeofFooter : Int) ∧
    (P.sizeofFooter : Int) ≤ s.current_field_read_bytes_ + 1

/-- A deframer environment whose integrity check accepts every packet and leaves
it as it is, without a packet filter. -/
def demoEnv : InEnv := { prepareToRead := fun p => (true, p), packet_filter_ := none }

/-- The deframer after the header of a fresh priority-0 packet of declared length
2 and the content byte `0x7E`. -/
def afterStartTokenInContent : InputStream :=
  (P2PPacketInputStream.runTicks demoProtocol demoEnv (fun _ => 0) 0 14
    [0x7E, 0, 1, 0, 0, 0, 0, 0, 0, 0, 0, 2, 0x7E] InputStream.init).1

/-- The deframer after a fresh priority-1 packet of declared length 5 was
interrupted at content offset 2 by a start token, and the complete header of a
continuation with remaining length 3 has been read. -/
def afterContinuationHeader : InputStream :=
  (P2PPacketInputStream.runTicks demoProtocol demoEnv (fun _ => 0) 0 27
    [0x7E, 1, 9, 0, 0, 0, 0, 0, 0, 0, 0, 5, 0x11, 0x22, 0x7E,
     5, 9, 0, 0, 0, 0, 0, 0, 0, 0, 3] InputStream.init).1

/-- The deframer has just taken the start token and `b` as header bytes 0 and 1. -/
def Resynced (P : Protocol) (b : Nat) (rest : List Nat) (c : List (Nat × P2PPacket))
    (r : InputStream × List Nat) : Prop :=
  r.2 = rest ∧ r.1.state_ = InState.kReadingHeader ∧
    r.1.incoming_header_ 0 = P.kP2PStartToken ∧ r.1.incoming_header_ 1 = b ∧
    r.1.current_field_read_bytes_ = 2 ∧ r.1.packet_buffer_.committed = c

/-- Resynchronisation within `k` ticks. -/
def ResyncWithin (P : Protocol) (E : InEnv) (clk : Nat → Nat) (b : Nat) (rest : List Nat)
    (k t : Nat) (s : InputStream) : Prop :=
  ∃ n, n ≤ k ∧ Resynced P b rest s.packet_buffer_.committed
    (P2PPacketInputStream.runTicks P E clk t n (P.kP2PStartToken :: b :: rest) s)

/-- A fresh packet of the demo protocol: `content` is the payload as it goes on
the wire, `footer` the footer bytes stored behind it. -/
def demoPacket (priority seq : Nat) (content footer : List Nat) : P2PPacket :=
  { header := { start_token := 0x7E, priority := priority, is_continuation := false,
                is_init := false, requires_ack := true, sequence_number := seq,
                length := swap16 content.length },
    content := fun i => (content ++ footer).getD i.toNat 0,
    commit_time_ns := 5 }

/-- A store holding the packets `l` in queue 1 and nothing else. -/
def lowPriorityStore (l : List P2PPacket) : OutStore :=
  { queue := fun q => if q = 1 then l else [] }

/-- Tick number `t` of an ideal environment: the transport takes every byte
offered and the clock advances by one millisecond per tick. -/
def idealTick (t : Nat) : OutTick := { write := fun r => r, now := 1000000 * (t + 1) }

/-- The ideal ticks `start`, …, `start + n - 1`. -/
def idealTicksFrom (start n : Nat) : List OutTick :=
  (List.range n).map (fun i => idealTick (start + i))

/-- The first `n` ideal ticks. -/
def idealTicks (n : Nat) : List OutTick := idealTicksFrom 0 n

/-- A transport that takes one byte per `Write`. -/
def byteWiseTransport : Transport :=
  { GetBurstMaxLength := 16, GetAtomicSendMaxLength := 1,
    GetBurstIngestionNanosecondsPerByte := 10 }

/-- A transport whose bursts are written by a single `Write`. -/
def wholeBurstTransport : Transport :=
  { GetBurstMaxLength := 12, GetAtomicSendMaxLength := 12,
    GetBurstIngestionNanosecondsPerByte := 10 }

/-- The framer on `byteWiseTransport` after it has written the header and the
only content byte of a priority-1 packet, two footer bytes pending; then a
priority-0 packet is committed. -/
def footerPendingThenUrgent : OutputStream :=
  let s := (P2PPacketOutputStream.runTicks demoProtocol byteWiseTransport none (idealTicks 4)
    (OutputStream.init (lowPriorityStore [demoPacket 1 7 [0x11] [0xA, 0xB]]))).1
  { s with packet_buffer_ := s.packet_buffer_.Commit 0 (demoPacket 0 3 [0x22] [0xC, 0xD]) }

/-- The framer on `wholeBurstTransport` after the header of a priority-1 packet
of 12 content bytes, about to write the first content burst; then a priority-0
packet is committed. -/
def burstPendingThenUrgent : OutputStream :=
  let s := (P2PPacketOutputStream.runTicks demoProtocol wholeBurstTransport none (idealTicks 3)
    (OutputStream.init
      (lowPriorityStore [demoPacket 1 7 [1, 2, 3, 4, 5, 6, 7, 8, 9, 10, 11, 12] [0xA, 0xB]]))).1
  { s with packet_buffer_ := s.packet_buffer_.Commit 0 (demoPacket 0 3 [0x22] [0xC, 0xD]) }

/-- The tick writes the last byte of the current packet: it runs the body of
`case kSendingBurst` (directly, or falling into it from
`case kWaitingForHeaderBurstIngestion`) and `pending_packet_bytes_` drops to zero
or below, so that lines 277-304 run. -/
def sendsLastByte (T : Transport) (k : OutTick) (s : OutputStream) : Bool :=
  decide ((s.state_ = OutState.kSendingBurst ∧
      s.pending_packet_bytes_
        - k.write (min T.GetAtomicSendMaxLength s.pending_burst_bytes_) ≤ 0) ∨
    (s.state_ = OutState.kWaitingForHeaderBurstIngestion ∧
      ¬ k.now < s.after_burst_wait_end_timestamp_ns_ ∧ ¬ s.pending_packet_bytes_ ≤ 0 ∧
      s.pending_packet_bytes_
        - k.write (min T.GetAtomicSendMaxLength
            (min s.pending_packet_bytes_ T.GetBurstMaxLength)) ≤ 0))

/-- No tick of the run writes the last byte of a packet. -/
def quiet (P : Protocol) (T : Transport) (packet_filter_ : Option (P2PPacket → Bool)) :
    List OutTick → OutputStream → Bool
  | [], _ => true
  | k :: ks, s =>
    !sendsLastByte T k s &&
      quiet P T packet_filter_ ks (P2PPacketOutputStream.Run P T packet_filter_ k.write k.now s).next

/-- The framer on `wholeBurstTransport` with the given packets in queue 1, after
`n` ideal ticks. -/
def sentOnQueueOne (l : List P2PPacket) (n : Nat) : OutputStream :=
  (P2PPacketOutputStream.runTicks demoProtocol wholeBurstTransport none (idealTicks n)
    (OutputStream.init (lowPriorityStore l))).1

/-- Two packets of sequence number 7 queued at priority 1: the framer about to
write content and footer of the first one. -/
def firstOfTwoPending : OutputStream :=
  sentOnQueueOne [demoPacket 1 7 [1] [2, 3], demoPacket 1 7 [1] [2, 3]] 3

/-- The state `firstOfTwoPending` after the tick that completes the first packet. -/
def firstOfTwoSent : OutputStream :=
  (P2PPacketOutputStream.Run demoProtocol wholeBurstTransport none (idealTick 3).write
    (idealTick 3).now firstOfTwoPending).next

/-- The framer about to write content and footer of the second packet. -/
def secondOfTwoPending : OutputStream :=
  (P2PPacketOutputStream.runTicks demoProtocol wholeBurstTransport none (idealTicksFrom 4 4)
    firstOfTwoSent).1

/-- The state `secondOfTwoPending` after the tick that completes the second packet. -/
def secondOfTwoSent : OutputStream :=
  (P2PPacketOutputStream.Run demoProtocol wholeBurstTransport none (idealTick 8).write
    (idealTick 8).now secondOfTwoPending).next

/-- The number of content and footer bytes the framer sends after the header of
`p`, `tot` being the size recorded for the priority of `p` (lines 249-253). -/
def Protocol.pendingAfterHeader (P : Protocol) (tot : Int) (p : P2PPacket) : Int :=
  if p.header.is_continuation = true then
    (P.networkToLocal p.header.length : Int) + (P.sizeofFooter : Int)
  else tot - (P.sizeofHeader : Int)

/-- The bytes of `p` behind its header that are still to be sent: the last
`pendingAfterHeader` bytes of the `tot` bytes of the packet. -/
def Protocol.bodyBytes (P : Protocol) (tot : Int) (p : P2PPacket) : List Nat :=
  P.packetBytes p (tot - P.pendingAfterHeader tot p) (P.pendingAfterHeader tot p).toNat

/-- The size the framer uses for `p`: the one recorded under its priority for a
continuation, header + length + footer for a fresh packet. -/
def Protocol.totalFor (P : Protocol) (tpb : Nat → Int) (p : P2PPacket) : Int :=
  if p.header.is_continuation = true then tpb p.header.priority
  else (P.sizeofHeader : Int) + (P.networkToLocal p.header.length : Int) + (P.sizeofFooter : Int)

/-- The frame of a queued packet: its header image, then the bytes behind the
header that are still to be sent. -/
def Protocol.frameBytes (P : Protocol) (tpb : Nat → Int) (p : P2PPacket) : List Nat :=
  P.headerBytes p.header ++ P.bodyBytes (P.totalFor tpb p) p

/-- The queued packets in the order the framer selects them: by priority, oldest
first. -/
def OutStore.packets (P : Protocol) (b : OutStore) : List P2PPacket :=
  (List.range P.kNumLevels).flatMap b.queue

/-- The frames of all queued packets, in selection order. -/
def Protocol.storeStream (P : Protocol) (tpb : Nat → Int) (b : OutStore) : List Nat :=
  (b.packets P).flatMap (P.frameBytes tpb)

/-- The bytes the framer still has to write for the packets in its store, given where it is in
the current packet. -/
def OutputStream.remaining (P : Protocol) (s : OutputStream) : List Nat :=
  match s.state_ with
  | OutState.kSendingHeaderBurst | OutState.kWaitingForHeaderBurstIngestion =>
    P.packetBytes s.current ((P.sizeofHeader : Int) - s.pending_packet_bytes_)
        s.pending_packet_bytes_.toNat
      ++ P.bodyBytes (s.total_packet_bytes_ s.current.header.priority) s.current
      ++ P.storeStream s.total_packet_bytes_ (s.packet_buffer_.Consume s.current.header.priority)
  | OutState.kSendingBurst =>
    P.packetBytes s.current
        (s.total_packet_bytes_ s.current.header.priority - s.pending_packet_bytes_)
        s.pending_packet_bytes_.toNat
      ++ P.storeStream s.total_packet_bytes_ (s.packet_buffer_.Consume s.current.header.priority)
  | OutState.kWaitingForBurstIngestion =>
    if s.pending_packet_bytes_ ≤ 0 then P.storeStream s.total_packet_bytes_ s.packet_buffer_
    else
      P.packetBytes s.current
          (s.total_packet_bytes_ s.current.header.priority - s.pending_packet_bytes_)
          s.pending_packet_bytes_.toNat
        ++ P.storeStream s.total_packet_bytes_
            (s.packet_buffer_.Consume s.current.header.priority)
  | _ => P.storeStream s.total_packet_bytes_ s.packet_buffer_

/-- Well-formed send store: a packet sits in the queue of its priority, and only
the head of a queue can be a continuation. -/
structure StoreOK (P : Protocol) (b : OutStore) : Prop where
  prio : ∀ q, q < P.kNumLevels → ∀ p ∈ b.queue q, p.header.priority = q
  fresh : ∀ q, q < P.kNumLevels → ∀ p ∈ (b.queue q).tail, p.header.is_continuation = false

/-- The framer is sending the head of the highest-priority non-empty queue. -/
def OutputStream.onOldest (P : Protocol) (s : OutputStream) : Prop :=
  ∃ c, s.current_packet_ = some c ∧ s.packet_buffer_.OldestValue P = some c

/-- Invariant of a framer that is not being preempted. -/
def OutputStream.Good (P : Protocol) (s : OutputStream) : Prop :=
  StoreOK P s.packet_buffer_ ∧
  match s.state_ with
  | OutState.kSendingHeaderBurst =>
    s.onOldest P ∧ 0 < s.pending_packet_bytes_ ∧ s.pending_packet_bytes_ ≤ (P.sizeofHeader : Int) ∧
      s.pending_burst_bytes_ = s.pending_packet_bytes_ ∧
      (s.current.header.is_continuation = false →
        s.total_packet_bytes_ s.current.header.priority
          = (P.sizeofHeader : Int) + (P.networkToLocal s.current.header.length : Int)
            + (P.sizeofFooter : Int))
  | OutState.kWaitingForHeaderBurstIngestion =>
    s.onOldest P ∧ s.pending_packet_bytes_ = 0 ∧
      (s.current.header.is_continuation = false →
        s.total_packet_bytes_ s.current.header.priority
          = (P.sizeofHeader : Int) + (P.networkToLocal s.current.header.length : Int)
            + (P.sizeofFooter : Int))
  | OutState.kSendingBurst =>
    s.onOldest P ∧ 0 ≤ s.pending_burst_bytes_ ∧ s.pending_burst_bytes_ ≤ s.pending_packet_bytes_ ∧
      (0 < s.pending_packet_bytes_ → 0 < s.pending_burst_bytes_)
  | OutState.kWaitingForBurstIngestion =>
    0 ≤ s.pending_packet_bytes_ ∧ (0 < s.pending_packet_bytes_ → s.onOldest P)
  | _ => True

/-- The transport's answer lies between 0 and the count requested. -/
def OutTick.valid (k : OutTick) : Prop :=
  ∀ n : Int, 0 ≤ n → 0 ≤ k.write n ∧ k.write n ≤ n

/-! ## Fair runs of the framer -/

/-- The framer is in one of its three waiting states. -/
def OutputStream.waiting (s : OutputStream) : Prop :=
  s.state_ = OutState.kWaitingForHeaderBurstIngestion ∨
    s.state_ = OutState.kWaitingForBurstIngestion ∨
    s.state_ = OutState.kWaitingForPartialBurstIngestionBeforeHigherPriorityPacket

/-- A tick in which the link makes progress: the transport's answer is valid, it
takes at least one byte when asked for at least one, and a waiting framer finds
its ingestion wait elapsed. -/
def OutTick.fair (k : OutTick) (s : OutputStream) : Prop :=
  k.valid ∧ (∀ n : Int, 1 ≤ n → 1 ≤ k.write n) ∧
    (s.waiting → ¬ k.now < s.after_burst_wait_end_timestamp_ns_)

/-- Every tick of the run is fair in the state it meets. -/
def fairRun (P : Protocol) (T : Transport) (packet_filter_ : Option (P2PPacket → Bool)) :
    List OutTick → OutputStream → Prop
  | [], _ => True
  | k :: ks, s =>
    k.fair s ∧ fairRun P T packet_filter_ ks
      (P2PPacketOutputStream.Run P T packet_filter_ k.write k.now s).next

/-- A bound on the number of fair ticks the framer spends on a queued packet. -/
def Protocol.cost (P : Protocol) (tpb : Nat → Int) (p : P2PPacket) : Nat :=
  2 * (P.sizeofHeader + (P.pendingAfterHeader (P.totalFor tpb p) p).toNat) + 4

/-- A bound on the number of fair ticks the framer spends on the queued packets. -/
def Protocol.storeCost (P : Protocol) (tpb : Nat → Int) (b : OutStore) : Nat :=
  ((b.packets P).map (P.cost tpb)).sum

/-- A bound on the number of fair ticks until the framer is idle on an empty store. -/
def OutputStream.potential (P : Protocol) (s : OutputStream) : Nat :=
  match s.state_ with
  | OutState.kGettingNextPacket => P.storeCost s.total_packet_bytes_ s.packet_buffer_
  | OutState.kSendingHeaderBurst =>
    2 * s.pending_packet_bytes_.toNat
      + 2 * (P.pendingAfterHeader (s.total_packet_bytes_ s.current.header.priority)
          s.current).toNat + 3
      + P.storeCost s.total_packet_bytes_ (s.packet_buffer_.Consume s.current.header.priority)
  | OutState.kWaitingForHeaderBurstIngestion =>
    2 * (P.pendingAfterHeader (s.total_packet_bytes_ s.current.header.priority)
          s.current).toNat + 3
      + P.storeCost s.total_packet_bytes_ (s.packet_buffer_.Consume s.current.header.priority)
  | OutState.kSendingBurst =>
    2 * s.pending_packet_bytes_.toNat + 2
      + P.storeCost s.total_packet_bytes_ (s.packet_buffer_.Consume s.current.header.priority)
  | OutState.kWaitingForBurstIngestion =>
    if s.pending_packet_bytes_ ≤ 0 then 1 + P.storeCost s.total_packet_bytes_ s.packet_buffer_
    else
      2 * s.pending_packet_bytes_.toNat + 3
        + P.storeCost s.total_packet_bytes_ (s.packet_buffer_.Consume s.current.header.priority)
  | OutState.kWaitingForPartialBurstIngestionBeforeHigherPriorityPacket =>
    1 + P.storeCost s.total_packet_bytes_ s.packet_buffer_

/-! ## Frames as the deframer reads them -/

/-- Stuffed payload: every byte equal to the start token is followed by the
escape token. -/
def Protocol.stuffed (P : Protocol) : List Nat → Bool
  | [] => true
  | b :: l =>
    if b = P.kP2PStartToken then
      match l with
      | [] => false
      | c :: l' => decide (c = P.kP2PSpecialToken) && P.stuffed l'
    else P.stuffed l

/-- The deframer `s` after `l` has been stored at offset `i` of the content
buffer of the slot of priority `prio`, in state `st` with `crb` bytes of the
current field read. -/
def InputStream.stored (s : InputStream) (prio : Nat) (i : Int) (l : List Nat) (st : InState)
    (crb : Int) : InputStream :=
  { s with state_ := st, current_field_read_bytes_ := crb,
           packet_buffer_ := s.packet_buffer_.setSlot prio
             { s.packet_buffer_.slot prio with
               content := (s.packet_buffer_.slot prio).content.setList i l } }

/-- The packet the deframer hands to `PrepareToRead` when `b` completes the footer. -/
def InputStream.assembled (P : Protocol) (s : InputStream) (b : Nat) : P2PPacket :=
  let packet := s.packet_buffer_.slot (s.incoming P).priority
  let content1 := packet.content.set
    ((packet.header.length : Int) + s.current_field_read_bytes_) b
  { packet with
    content := content1.setList (packet.header.length : Int)
      (P.checksumNetworkToLocal (content1.toList (packet.header.length : Int) P.sizeofFooter)) }

/-- The packet length in local byte order. -/
def Protocol.localLength (P : Protocol) (p : P2PPacket) : Nat :=
  P.networkToLocal p.header.length

/-- The frame of a fresh packet on the wire: header image, content, footer. -/
def Protocol.wire (P : Protocol) (p : P2PPacket) : List Nat :=
  P.headerBytes p.header ++ p.content.toList 0 (P.localLength p)
    ++ p.content.toList (P.localLength p) P.sizeofFooter

/-- The packet `a` is what the deframer assembles from the frame of `p`: the
header of `p` with the length in local order, the content bytes of `p`, and the
footer of `p` with the checksum in local order. -/
def Protocol.received (P : Protocol) (p a : P2PPacket) : Prop :=
  a.header = { p.header with length := P.localLength p } ∧
  a.content.toList 0 (P.localLength p) = p.content.toList 0 (P.localLength p) ∧
  a.content.toList (P.localLength p) P.sizeofFooter
    = P.checksumNetworkToLocal (p.content.toList (P.localLength p) P.sizeofFooter)

/-- A packet the framer can send so that the deframer rebuilds it: fresh, of a
valid priority, with a header image that starts with the start token, contains
neither token elsewhere and decodes to the header; stuffed content; a footer
free of both tokens; and accepted by the receiver's integrity check and filter. -/
structure Protocol.Sendable (P : Protocol) (E : InEnv) (p : P2PPacket) : Prop where
  fresh : p.header.is_continuation = false
  prio : p.header.priority < P.kNumLevels
  codec : P.headerOfBytes (P.headerBytes p.header) = p.header
  start : (P.headerBytes p.header).head? = some P.kP2PStartToken
  header_clean : ∀ b ∈ (P.headerBytes p.header).tail,
    b ≠ P.kP2PStartToken ∧ b ≠ P.kP2PSpecialToken
  stuffed : P.stuffed (p.content.toList 0 (P.localLength p)) = true
  footer_clean : ∀ b ∈ p.content.toList (P.localLength p) P.sizeofFooter,
    b ≠ P.kP2PStartToken ∧ b ≠ P.kP2PSpecialToken
  accepted : ∀ a, P.received p a → (E.prepareToRead a).1 = true ∧
    ∀ f, E.packet_filter_ = some f → f (E.prepareToRead a).2 = true

/-! ## Vocabulary of the round trip -/

/-- The deframer committed `c` for the sent packet `p`: under the priority of
`p`, what `PrepareToRead` made of a packet assembled from the frame of `p`,
stamped with some commit time. -/
def Protocol.delivered (P : Protocol) (E : InEnv) (p : P2PPacket) (c : Nat × P2PPacket) : Prop :=
  ∃ a now, P.received p a ∧
    c = (p.header.priority, { (E.prepareToRead a).2 with commit_time_ns := now })

/-- The clock of the ideal ticks `start`, …, `start + n - 1` is past the
ingestion wait of every state the framer run from `s` meets. -/
def idealClockAhead (P : Protocol) (T : Transport) (packet_filter_ : Option (P2PPacket → Bool)) :
    Nat → Nat → OutputStream → Bool
  | 0, _, _ => true
  | n + 1, start, s =>
    decide (¬ (idealTick start).now < s.after_burst_wait_end_timestamp_ns_) &&
      idealClockAhead P T packet_filter_ n (start + 1)
        (P2PPacketOutputStream.Run P T packet_filter_ (idealTick start).write
          (idealTick start).now s).next

/-- A store with two priority-1 packets: sequence number 7 with the stuffed
content `0x7E 0x7D 0x11`, and sequence number 8 with the content `0x22`. -/
def stuffedStore : OutStore :=
  lowPriorityStore
    [demoPacket 1 7 [0x7E, 0x7D, 0x11] [0xA, 0xB], demoPacket 1 8 [0x22] [0xC, 0xD]]

/-! ## Vocabulary of preemption -/

/-- The queued packets of a priority higher than that of queue `c`, in selection
order. -/
def OutStore.above (b : OutStore) (c : Nat) : List P2PPacket :=
  (List.range c).flatMap b.queue

/-- The store of the packets selected after the head of queue `c`: the rest of
queue `c` and the queues of lower priority. -/
def OutStore.behind (b : OutStore) (c : Nat) : OutStore :=
  { queue := fun q => if q < c then [] else if q = c then (b.queue c).tail else b.queue q }

/-- The packet `p`, interrupted with `r` bytes pending: flagged as a
continuation, its length field holding the pending content bytes (line 320). -/
def Protocol.interrupted (P : Protocol) (p : P2PPacket) (r : Int) : P2PPacket :=
  { p with header := { p.header with
      is_continuation := true,
      length := P.localToNetwork (P.toLength (r - (P.sizeofFooter : Int))) } }

/-- The framer on `byteWiseTransport` after the header of a priority-1 packet of
three content bytes, about to write the first content byte; then a priority-0
packet is committed. -/
def contentPendingThenUrgent : OutputStream :=
  let s := (P2PPacketOutputStream.runTicks demoProtocol byteWiseTransport none (idealTicks 3)
    (OutputStream.init (lowPriorityStore [demoPacket 1 7 [0x11, 0x22, 0x33] [0xA, 0xB]]))).1
  { s with packet_buffer_ := s.packet_buffer_.Commit 0 (demoPacket 0 9 [0x44] [0xC, 0xD]) }

/-- The framer on `wholeBurstTransport` after the header of a priority-1 packet
of three content bytes, about to write content and footer in one `Write`; then a
priority-0 packet is committed. -/
def lastWritePendingThenUrgent : OutputStream :=
  let s := (P2PPacketOutputStream.runTicks demoProtocol wholeBurstTransport none (idealTicks 3)
    (OutputStream.init (lowPriorityStore [demoPacket 1 7 [0x11, 0x22, 0x33] [0xA, 0xB]]))).1
  { s with packet_buffer_ := s.packet_buffer_.Commit 0 (demoPacket 0 9 [0x44] [0xC, 0xD]) }

/-! ## Vocabulary of the framer's bookkeeping -/

/-- The demo packet with its `is_init` flag set. -/
def demoInitPacket (priority seq : Nat) (content footer : List Nat) : P2PPacket :=
  let p := demoPacket priority seq content footer
  { p with header := { p.header with is_init := true } }

/-- The priorities of the `Consume` calls of an event list. -/
def consumes : List OutEvent → List Nat
  | [] => []
  | OutEvent.consume p :: evs => p :: consumes evs
  | _ :: evs => consumes evs

/-- The framer on `wholeBurstTransport` about to write content and footer of a
priority-1 packet with `is_init` set, of sequence number 7. -/
def initPacketPending : OutputStream :=
  sentOnQueueOne [demoInitPacket 1 7 [1] [2, 3]] 3

/-- The framer on `wholeBurstTransport` about to write content and footer of a
priority-1 packet of sequence number 7, nothing sent before. -/
def lastBytesPending : OutputStream :=
  sentOnQueueOne [demoPacket 1 7 [1] [2, 3]] 3

/-- An outbound filter that rejects every packet. -/
def rejectAll : Option (P2PPacket → Bool) := some (fun _ => false)

/-- The framer on `wholeBurstTransport` right after the whole header of a
priority-1 packet was written at clock reading 2000000: it waits for the
ingestion of 12 bytes. -/
def headerBurstWritten : OutputStream :=
  sentOnQueueOne [demoPacket 1 7 [1] [2, 3]] 2

/-! ## Vocabulary of bursts -/

/-- The framer is in one of its two sending states. -/
def OutputStream.sending (s : OutputStream) : Bool :=
  match s.state_ with
  | OutState.kSendingHeaderBurst | OutState.kSendingBurst => true
  | _ => false

/-- The number of bytes the transport took in a tick. -/
def OutResult.written (r : OutResult) : Nat := (writtenBytes r.events).length

/-- Record of the current burst: the bytes written since the burst began, and
the value `pending_packet_bytes_` had when it began. -/
structure BurstLog where
  written : Nat
  pendingAtStart : Int

/-- The burst record after one more tick.  A tick that finds the framer in a
sending state continues the burst; a tick that finds it idle or waiting begins a
new record with what it writes itself. -/
def P2PPacketOutputStream.logStep (P : Protocol) (T : Transport)
    (packet_filter_ : Option (P2PPacket → Bool)) (k : OutTick) (s : OutputStream)
    (l : BurstLog) : BurstLog :=
  let r := P2PPacketOutputStream.Run P T packet_filter_ k.write k.now s
  if s.sending = true then { l with written := l.written + r.written }
  else { written := r.written, pendingAtStart := r.next.pending_packet_bytes_ + r.written }

/-- The burst record at the end of a run. -/
def P2PPacketOutputStream.burstLog (P : Protocol) (T : Transport)
    (packet_filter_ : Option (P2PPacket → Bool)) : List OutTick → OutputStream → BurstLog → BurstLog
  | [], _, l => l
  | k :: ks, s, l =>
    P2PPacketOutputStream.burstLog P T packet_filter_ ks
      (P2PPacketOutputStream.Run P T packet_filter_ k.write k.now s).next
      (P2PPacketOutputStream.logStep P T packet_filter_ k s l)

/-- The size recorded for a fresh current packet covers its header. -/
def OutputStream.freshTotal (P : Protocol) (s : OutputStream) : Prop :=
  s.current.header.is_continuation = false →
    (P.sizeofHeader : Int) ≤ s.total_packet_bytes_ s.current.header.priority

/-- Invariant of the byte counters of the framer. -/
def OutputStream.Sane (P : Protocol) (T : Transport) (s : OutputStream) : Prop :=
  0 ≤ s.pending_packet_bytes_ ∧
  match s.state_ with
  | OutState.kSendingHeaderBurst =>
    0 ≤ s.pending_burst_bytes_ ∧ s.pending_burst_bytes_ ≤ s.pending_packet_bytes_ ∧
      s.pending_burst_bytes_ ≤ s.total_burst_bytes_ ∧
      s.total_burst_bytes_ ≤ T.GetBurstMaxLength ∧ s.freshTotal P
  | OutState.kWaitingForHeaderBurstIngestion => s.freshTotal P
  | OutState.kSendingBurst =>
    0 ≤ s.pending_burst_bytes_ ∧ s.pending_burst_bytes_ ≤ s.pending_packet_bytes_ ∧
      s.pending_burst_bytes_ ≤ s.total_burst_bytes_ ∧
      s.total_burst_bytes_ ≤ T.GetBurstMaxLength
  | _ => True

/-- The burst record `l` agrees with the counters of the framer state `s`. -/
def OutputStream.Logged (P : Protocol) (T : Transport) (s : OutputStream) (l : BurstLog) : Prop :=
  s.Sane P T ∧ (l.written : Int) ≤ T.GetBurstMaxLength ∧ (l.written : Int) ≤ l.pendingAtStart ∧
    (s.sending = true →
      (l.written : Int) = s.total_burst_bytes_ - s.pending_burst_bytes_ ∧
        l.pendingAtStart = (l.written : Int) + s.pending_packet_bytes_)

/-- The counts requested by the `Write` calls of an event list. -/
def requests : List OutEvent → List Int
  | [] => []
  | OutEvent.write n _ :: evs => n :: requests evs
  | _ :: evs => requests evs

/-- The framer on `byteWiseTransport` right after it selected a priority-1
packet: about to write the header. -/
def headerPending : OutputStream :=
  (P2PPacketOutputStream.runTicks demoProtocol byteWiseTransport none (idealTicks 1)
    (OutputStream.init (lowPriorityStore [demoPacket 1 7 [0x11] [0xA, 0xB]]))).1

/-! ## States of the header and footer scenarios -/

/-- A transport whose bursts are shorter than the 12-byte header of the demo
protocol. -/
def narrowBurstTransport : Transport :=
  { GetBurstMaxLength := 8, GetAtomicSendMaxLength := 4,
    GetBurstIngestionNanosecondsPerByte := 10 }

/-- The framer on `narrowBurstTransport` after the first header burst (8 of 12
header bytes) of a priority-1 packet with one content byte: it waits for the
ingestion of that burst, 4 header bytes pending. -/
def headerHalfSent : OutputStream :=
  (P2PPacketOutputStream.runTicks demoProtocol narrowBurstTransport none (idealTicks 2)
    (OutputStream.init (lowPriorityStore [demoPacket 1 7 [0x11] [0xA, 0xB]]))).1

/-- The deframer after the header and the only content byte of a fresh
priority-1 packet: about to read the first of two footer bytes. -/
def footerPendingDeframer : InputStream :=
  (P2PPacketInputStream.runTicks demoProtocol demoEnv (fun _ => 0) 0 15
    [0x7E, 1, 9, 0, 0, 0, 0, 0, 0, 0, 0, 1, 0x11] InputStream.init).1

/-- The deframer after the header, the only content byte and the first footer
byte of a fresh priority-1 packet: about to read the last footer byte. -/
def lastFooterBytePending : InputStream :=
  (P2PPacketInputStream.runTicks demoProtocol demoEnv (fun _ => 0) 0 16
    [0x7E, 1, 9, 0, 0, 0, 0, 0, 0, 0, 0, 1, 0x11, 0x0A] InputStream.init).1

/-! ## States of the header-processing scenarios -/

/-- The deframer right after the complete header of a fresh priority-1 packet
declaring 5 content bytes. -/
def lengthFiveHeaderRead : InputStream :=
  (P2PPacketInputStream.runTicks demoProtocol demoEnv (fun _ => 0) 0 12
    [0x7E, 1, 9, 0, 0, 0, 0, 0, 0, 0, 0, 5] InputStream.init).1

/-- The demo protocol with 3 priority levels instead of 4. -/
def threeLevels : Protocol := { demoProtocol with kNumLevels := 3 }

/-- The deframer of `threeLevels` right after a complete header of priority 3. -/
def badPriorityHeaderRead : InputStream :=
  (P2PPacketInputStream.runTicks threeLevels demoEnv (fun _ => 0) 0 12
    [0x7E, 3, 9, 0, 0, 0, 0, 0, 0, 0, 0, 5] InputStream.init).1

/-- The deframer reading the content of a fresh priority-1 packet of declared
length 5, right after a start token was read at content index 2. -/
def startTokenAtIndexTwo : InputStream :=
  (P2PPacketInputStream.runTicks demoProtocol demoEnv (fun _ => 0) 0 4
    [0x11, 0x22, 0x7E] lengthFiveHeaderRead).1

/-! ## Reachable states of the deframer -/

/-- Polls the deframer once per entry of `ticks`; an entry gives the byte the
transport has on offer in that tick, if any, and the clock reading. -/
def P2PPacketInputStream.poll (P : Protocol) (E : InEnv) :
    List (Option Nat × Nat) → InputStream → InputStream
  | [], s => s
  | k :: ticks, s =>
    P2PPacketInputStream.poll P E ticks (P2PPacketInputStream.Run P E k.1 k.2 s).1

/-- The read counter and the interruption offsets are where the packet being
assembled allows: no offset is negative, the content counter is between 0 and
the length of the slot's packet (strictly inside it, and past the first byte,
while a start token is being disambiguated), and the footer counter is not
negative. -/
def InputStream.InRange (P : Protocol) (s : InputStream) : Prop :=
  (∀ p, 0 ≤ s.write_offset_before_break_ p) ∧
  (s.state_ = InState.kReadingContent →
    0 ≤ s.current_field_read_bytes_ ∧
    s.current_field_read_bytes_ ≤
      ((s.packet_buffer_.slot (s.incoming P).priority).header.length : Int)) ∧
  (s.state_ = InState.kDisambiguatingStartTokenInContent →
    1 ≤ s.current_field_read_bytes_ ∧
    s.current_field_read_bytes_ <
      ((s.packet_buffer_.slot (s.incoming P).priority).header.length : Int)) ∧
  (s.state_ = InState.kReadingFooter → 0 ≤ s.current_field_read_bytes_)

/-- The ticks that record an interruption offset: the tick that processes a fresh
header (lines 29-36), and a tick that leaves the content or the footer for a new
header (lines 99, 127, 133, 159). -/
def InputStream.recordsOffset (P : Protocol) (s next : InputStream) : Prop :=
  (s.state_ = InState.kReadingHeader ∧ (s.incoming P).is_continuation = false ∧
      next.state_ = InState.kReadingContent) ∨
    ((s.state_ = InState.kReadingContent ∨
        s.state_ = InState.kDisambiguatingStartTokenInContent ∨
        s.state_ = InState.kReadingFooter) ∧
      next.state_ = InState.kReadingHeader)

/-- The tick hands the packet to `PrepareToRead` (lines 170-173): it reads the
last byte of the footer and that byte is not the start token. -/
def finishesPacket (P : Protocol) (avail : Option Nat) (s : InputStream) : Prop :=
  readsFinalFooterByte P avail s ∧ avail ≠ some P.kP2PStartToken

/-- The demo deframer, fresh from construction, after the header of a priority-1
packet of 5 content bytes and one more poll: it is about to read the first
content byte. -/
def contentStart : InputStream :=
  P2PPacketInputStream.poll demoProtocol demoEnv
    [(some 0x7E, 0), (some 1, 0), (some 9, 0), (some 0, 0), (some 0, 0), (some 0, 0),
     (some 0, 0), (some 0, 0), (some 0, 0), (some 0, 0), (some 0, 0), (some 5, 0),
     (none, 0)] InputStream.init

/-! ## Runs with producers and the recorded packet sizes -/

/-- A step of a framer run: a tick of the framer, or a producer committing a
packet to the store at a priority. -/
inductive OutStep where
  | tick (k : OutTick)
  | commit (priority : Nat) (v : P2PPacket)

/-- Runs the framer through the steps of `steps`. -/
def P2PPacketOutputStream.runSteps (P : Protocol) (T : Transport)
    (packet_filter_ : Option (P2PPacket → Bool)) :
    List OutStep → OutputStream → OutputStream
  | [], s => s
  | OutStep.tick k :: steps, s =>
    P2PPacketOutputStream.runSteps P T packet_filter_ steps
      (P2PPacketOutputStream.Run P T packet_filter_ k.write k.now s).next
  | OutStep.commit priority v :: steps, s =>
    P2PPacketOutputStream.runSteps P T packet_filter_ steps
      { s with packet_buffer_ := s.packet_buffer_.Commit priority v }

/-- Every packet the producers handed to the store in the steps of `steps`, on top
of those of `b`, per priority and in commit order; nothing is ever removed. -/
def handedOver : List OutStep → OutStore → OutStore
  | [], b => b
  | OutStep.tick _ :: steps, b => handedOver steps b
  | OutStep.commit priority v :: steps, b => handedOver steps (b.Commit priority v)

/-- The step does not hand over a continuation: a commit puts a packet with
`is_continuation` clear into the queue of its own priority. -/
def OutStep.freshCommit : OutStep → Bool
  | OutStep.tick _ => true
  | OutStep.commit priority v =>
    decide (v.header.priority = priority) && !v.header.is_continuation

/-- The full framed size of a fresh packet, as line 201 computes it. -/
def Protocol.fullSize (P : Protocol) (p : P2PPacket) : Int :=
  (P.sizeofHeader : Int) + (P.networkToLocal p.header.length : Int) + (P.sizeofFooter : Int)

/-- The packet `p` after lines 319-320 flagged it: `is_continuation` set and the
length field overwritten with `len`. -/
def P2PPacket.flagged (p : P2PPacket) (len : Nat) : P2PPacket :=
  { p with header := { p.header with is_continuation := true, length := len } }

/-- Every queued packet sits in the queue of its priority with `is_continuation`
clear. -/
def OutStore.allFresh (P : Protocol) (b : OutStore) : Prop :=
  ∀ q, q < P.kNumLevels → ∀ p ∈ b.queue q,
    p.header.priority = q ∧ p.header.is_continuation = false

/-- The queue `sq` of the store against the packets `gq` handed over at its
priority: `sq` is what is left of `gq` after the first `d` packets were consumed,
its head possibly flagged by the framer, in which case `tot` is the full size of
the packet that was flagged. -/
def TrackQueue (P : Protocol) (gq sq : List P2PPacket) (tot : Int) : Prop :=
  ∃ d, d ≤ gq.length ∧
    (sq = gq.drop d ∨
      ∃ p0 rest len, gq.drop d = p0 :: rest ∧ sq = p0.flagged len :: rest ∧
        tot = P.fullSize p0)

/-- The framer is busy with a packet: between its selection and its last byte. -/
def OutputStream.live (s : OutputStream) : Prop :=
  s.state_ = OutState.kSendingHeaderBurst ∨
    s.state_ = OutState.kWaitingForHeaderBurstIngestion ∨
    s.state_ = OutState.kSendingBurst ∨
    (s.state_ = OutState.kWaitingForBurstIngestion ∧ 0 < s.pending_packet_bytes_)

/-- Invariant of the recorded packet sizes, against the packets `g` handed over so
far: these are fresh, every queue is a rest of what was handed over with at most
its head flagged and the size of a flagged head on record, and while the framer
is busy with a packet, that packet is the head of a queue and the size of that
head is on record if it is fresh. -/
structure OutputStream.Track (P : Protocol) (g : OutStore) (s : OutputStream) : Prop where
  handed : g.allFresh P
  queues : ∀ q, q < P.kNumLevels →
    TrackQueue P (g.queue q) (s.packet_buffer_.queue q) (s.total_packet_bytes_ q)
  current : s.live → ∃ c, s.current_packet_ = some c ∧ c < P.kNumLevels ∧
    s.packet_buffer_.queue c ≠ [] ∧
    ((s.packet_buffer_.front c).header.is_continuation = false →
      s.total_packet_bytes_ c = P.fullSize (s.packet_buffer_.front c))

/-- Steps of a run on `byteWiseTransport` in which a priority-1 packet of three
content bytes is preempted: four ideal ticks select it and write its header and
first content byte, a priority-0 packet is committed, the next tick writes the
second content byte and flags the packet, and eight more ticks send the
priority-0 packet and return to `kGettingNextPacket`. -/
def preemptionSteps : List OutStep :=
  (idealTicksFrom 0 4).map OutStep.tick
    ++ [OutStep.commit 0 (demoPacket 0 9 [0x44] [0xC, 0xD])]
    ++ (idealTicksFrom 4 9).map OutStep.tick

/-- The demo framer on `byteWiseTransport` after `preemptionSteps`, started on a
store that holds one priority-1 packet of three content bytes. -/
def flaggedPacketPending : OutputStream :=
  P2PPacketOutputStream.runSteps demoProtocol byteWiseTransport none preemptionSteps
    (OutputStream.init (lowPriorityStore [demoPacket 1 7 [0x11, 0x22, 0x33] [0xA, 0xB]]))

/-- The demo framer on `wholeBurstTransport` after three ideal ticks on a store
that holds one priority-1 packet of one content byte: the header is written,
content and footer are next. -/
def bodyPending : OutputStream :=
  P2PPacketOutputStream.runSteps demoProtocol wholeBurstTransport none
    ((idealTicks 3).map OutStep.tick)
    (OutputStream.init (lowPriorityStore [demoPacket 1 7 [1] [2, 3]]))

/-! ## Vocabulary of the uninterrupted send -/

/-- The events of a framer run, tick after tick. -/
def P2PPacketOutputStream.trace (P : Protocol) (T : Transport)
    (packet_filter_ : Option (P2PPacket → Bool)) :
    List OutTick → OutputStream → List OutEvent
  | [], _ => []
  | k :: ticks, s =>
    (P2PPacketOutputStream.Run P T packet_filter_ k.write k.now s).events
      ++ P2PPacketOutputStream.trace P T packet_filter_ ticks
          (P2PPacketOutputStream.Run P T packet_filter_ k.write k.now s).next

/-- The framer is busy with the head of queue `q` of the store `b`, the recorded
sizes being `tot`. -/
def OutputStream.Sending (b : OutStore) (q : Nat) (tot : Nat → Int) (s : OutputStream) : Prop :=
  s.live ∧ s.packet_buffer_ = b ∧ s.current_packet_ = some q ∧ s.total_packet_bytes_ = tot

/-- The framer right after construction on a store that holds one priority-1
packet of one content byte. -/
def onePacketQueued : OutputStream :=
  OutputStream.init (lowPriorityStore [demoPacket 1 7 [1] [2, 3]])

/-- The condition of line 297: `packet_filter_` is null or accepts the packet. -/
def passesFilter (packet_filter_ : Option (P2PPacket → Bool)) (p : P2PPacket) : Bool :=
  match packet_filter_ with
  | none => true
  | some f => f p

/-! ## Action handlers of the trajectory views -/

/-- The values of `Status` that the sources at hand name, and any other value of
the enumeration, whose declaration is not part of the sources. -/
inductive Status where
  | kSuccess
  | kDoesNotExistError
  | kUnavailableError
  | other (code : Nat)
deriving DecidableEq

/-- Modelled from its use in the handlers, its declaration not being part of the
sources: a `StatusOr<T>` holds a value, in which case `ok()` is true and
`status()` is `kSuccess`, or a status. -/
inductive StatusOr (α : Type) where
  | value (v : α)
  | error (s : Status)
deriving DecidableEq

/-- Models `StatusOr<T>::ok()`. -/
def StatusOr.ok {α : Type} : StatusOr α → Bool
  | StatusOr.value _ => true
  | StatusOr.error _ => false

/-- Models `StatusOr<T>::status()`. -/
def StatusOr.status {α : Type} : StatusOr α → Status
  | StatusOr.value _ => Status.kSuccess
  | StatusOr.error s => s

/-- The enumerators of `P2PTrajectoryViewType` the handlers switch on, and any
other value a `static_cast` of the request field can produce. -/
inductive P2PTrajectoryViewType where
  | kPlain
  | kModulated
  | kMixed
  | unknown (raw : Nat)
deriving DecidableEq

/-- The containers of head trajectory views of the trajectory store. -/
inductive ViewStore where
  | head_trajectory_views
  | head_modulated_trajectory_views
  | head_mixed_trajectory_views
deriving DecidableEq

/-- A `const TrajectoryViewInterface<HeadTargetState> *`: null, or the address of
the view held at index `id` of one of the containers. -/
structure ViewPointer where
  store : ViewStore
  id : Int
deriving DecidableEq

/-- A plain head trajectory view; the handlers do not look inside it. -/
structure HeadTrajectoryView where
  waypoints : List Nat
deriving DecidableEq

/-- An envelope trajectory view; the handlers do not look inside it. -/
structure EnvelopeTrajectoryView where
  waypoints : List Nat
deriving DecidableEq

/-- A `const EnvelopeTrajectoryView *` as the handlers produce it: null, or the
address of the view inside the block-local copy the handler makes of the entry
at index `id` of `envelope_trajectory_views()` (`const auto`, not a reference);
the copy ends with its block, before the pointer is installed. -/
inductive EnvelopePointer where
  | null
  | intoLocalCopy (id : Int)
deriving DecidableEq

/-- The three pointers the handler sets in a `HeadModulatedTrajectoryView`. -/
structure HeadModulatedTrajectoryView where
  carrier : Option ViewPointer
  modulator : Option ViewPointer
  envelope : EnvelopePointer
deriving DecidableEq

/-- The three pointers the handler sets in a `HeadMixedTrajectoryView`. -/
structure HeadMixedTrajectoryView where
  trajectory1 : Option ViewPointer
  trajectory2 : Option ViewPointer
  alpha : EnvelopePointer
deriving DecidableEq

/-- Modelled from its use in the handlers, its declaration not being part of the
sources: the containers of `TrajectoryStore` the handlers index, each entry a
`StatusOr` of a view. -/
structure TrajectoryStore where
  head_trajectory_views : Int → StatusOr HeadTrajectoryView
  head_modulated_trajectory_views : Int → StatusOr HeadModulatedTrajectoryView
  head_mixed_trajectory_views : Int → StatusOr HeadMixedTrajectoryView
  envelope_trajectory_views : Int → StatusOr EnvelopeTrajectoryView

/-- The body of one `case` of the lookup switches: `if (!maybe.ok()) result_ =
maybe.status(); else view = &*maybe;`, on the pair of `result_` and the view
pointer. -/
def lookupCase {α : Type} (maybe : StatusOr α) (address : ViewPointer)
    (acc : Status × Option ViewPointer) : Status × Option ViewPointer :=
  if maybe.ok = false then (maybe.status, acc.2) else (acc.1, some address)

/-- One lookup switch of the handlers (lines 29-54 and 56-82 of the mixed handler,
30-55 and 58-83 of the modulated one): `case kPlain`, `case kModulated` and
`case kMixed` in this order, none of them closed by a `break`, so that control
runs from the selected case through all that follow; `id` is the index the
cases use.  Any other type selects no case. -/
def lookupSwitch (store : TrajectoryStore) (type : P2PTrajectoryViewType) (id : Int)
    (acc : Status × Option ViewPointer) : Status × Option ViewPointer :=
  let plain := lookupCase (store.head_trajectory_views id)
    { store := ViewStore.head_trajectory_views, id := id }
  let modulated := lookupCase (store.head_modulated_trajectory_views id)
    { store := ViewStore.head_modulated_trajectory_views, id := id }
  let mixed := lookupCase (store.head_mixed_trajectory_views id)
    { store := ViewStore.head_mixed_trajectory_views, id := id }
  match type with
  | P2PTrajectoryViewType.kPlain => mixed (modulated (plain acc))
  | P2PTrajectoryViewType.kModulated => mixed (modulated acc)
  | P2PTrajectoryViewType.kMixed => mixed acc
  | P2PTrajectoryViewType.unknown _ => acc

/-- The states of an action handler. -/
inductive HandlerState where
  | kProcessingRequest
  | kSendingReply
deriving DecidableEq

/-- Member variables of the two handlers; `trajectory_store_` is the store the
handler refers to. -/
structure ActionHandler where
  trajectory_store_ : TrajectoryStore
  result_ : Status
  state_ : HandlerState

/-- Result of one `Run()` of a handler: the handler and store afterwards, the
`status_code` of the reply committed in this call, if any, and the value
returned. -/
structure HandlerResult where
  next : ActionHandler
  reply : Option Status
  again : Bool

/-- Models `TrySendingReply()`: `newReply` tells whether `NewReply()` is ok; if so,
a reply with `status_code = result_` is committed. -/
def ActionHandler.TrySendingReply (newReply : Bool) (h : ActionHandler) : Option Status :=
  if newReply = true then some h.result_ else none

/-- The fields of a `P2PCreateHeadMixedTrajectoryViewRequest` after the conversions
of lines 9-14, under the names of the locals they are stored in. -/
structure CreateHeadMixedTrajectoryViewRequest where
  mixed_trajectory_view_id : Int
  first_trajectory_view_type : P2PTrajectoryViewType
  first_trajectory_view_id : Int
  second_trajectory_view_type : P2PTrajectoryViewType
  second_trajectory_view_id : Int
  alpha_envelope_trajectory_view_id : Int

/-- The fields of a `P2PCreateHeadModulatedTrajectoryViewRequest` after the
conversions of lines 9-14, under the names of the locals they are stored in. -/
structure CreateHeadModulatedTrajectoryViewRequest where
  modulated_trajectory_view_id : Int
  carrier_trajectory_view_type : P2PTrajectoryViewType
  carrier_trajectory_view_id : Int
  modulator_trajectory_view_type : P2PTrajectoryViewType
  modulator_trajectory_view_id : Int
  envelope_trajectory_view_id : Int

/-- The envelope lookup of both handlers (lines 85-92 of the mixed handler, 86-93
of the modulated one), done only while `result_` is `kSuccess`: the entry is
copied into a local of the block, and the pointer taken is the address of the
view inside that copy. -/
def lookupEnvelope (store : TrajectoryStore) (id : Int) (result : Status) :
    Status × EnvelopePointer :=
  if result = Status.kSuccess then
    let maybe_alpha_envelope_trajectory_view := store.envelope_trajectory_views id
    if maybe_alpha_envelope_trajectory_view.ok = false then
      (maybe_alpha_envelope_trajectory_view.status, EnvelopePointer.null)
    else (result, EnvelopePointer.intoLocalCopy id)
  else (result, EnvelopePointer.null)

/-- Lines 20-101 of `CreateHeadMixedTrajectoryViewActionHandler::Run()`: the
processing of the request, up to the reply. -/
def CreateHeadMixedTrajectoryViewActionHandler.process
    (request : CreateHeadMixedTrajectoryViewRequest) (h : ActionHandler) : ActionHandler :=
  let store := h.trajectory_store_
  let maybe_mixed_trajectory_view :=
    store.head_mixed_trajectory_views request.mixed_trajectory_view_id
  if maybe_mixed_trajectory_view.status = Status.kDoesNotExistError then
    { h with result_ := maybe_mixed_trajectory_view.status }
  else
    let first := lookupSwitch store request.first_trajectory_view_type
      request.first_trajectory_view_id (Status.kSuccess, none)
    let second :=
      if first.1 = Status.kSuccess then
        lookupSwitch store request.second_trajectory_view_type
          request.second_trajectory_view_id (first.1, none)
      else (first.1, none)
    let alpha := lookupEnvelope store request.alpha_envelope_trajectory_view_id second.1
    if alpha.1 = Status.kSuccess then
      { h with
        result_ := Status.kSuccess,
        trajectory_store_ :=
          { store with
            head_mixed_trajectory_views := fun i =>
              if i = request.mixed_trajectory_view_id then
                StatusOr.value
                  { trajectory1 := first.2, trajectory2 := second.2, alpha := alpha.2 }
              else store.head_mixed_trajectory_views i } }
    else { h with result_ := alpha.1 }

/-- Lines 20-102 of `CreateHeadModulatedTrajectoryViewActionHandler::Run()`: the
processing of the request, up to the reply.  The cases of the second switch
index the containers with `modulated_trajectory_view_id` (lines 60, 68, 76). -/
def CreateHeadModulatedTrajectoryViewActionHandler.process
    (request : CreateHeadModulatedTrajectoryViewRequest) (h : ActionHandler) : ActionHandler :=
  let store := h.trajectory_store_
  let maybe_modulated_trajectory_view :=
    store.head_modulated_trajectory_views request.modulated_trajectory_view_id
  if maybe_modulated_trajectory_view.status = Status.kDoesNotExistError then
    { h with result_ := maybe_modulated_trajectory_view.status }
  else
    let carrier := lookupSwitch store request.carrier_trajectory_view_type
      request.carrier_trajectory_view_id (Status.kSuccess, none)
    let modulator :=
      if carrier.1 = Status.kSuccess then
        lookupSwitch store request.modulator_trajectory_view_type
          request.modulated_trajectory_view_id (carrier.1, none)
      else (carrier.1, none)
    let envelope := lookupEnvelope store request.envelope_trajectory_view_id modulator.1
    if envelope.1 = Status.kSuccess then
      { h with
        result_ := Status.kSuccess,
        trajectory_store_ :=
          { store with
            head_modulated_trajectory_views := fun i =>
              if i = request.modulated_trajectory_view_id then
                StatusOr.value
                  { carrier := carrier.2, modulator := modulator.2, envelope := envelope.2 }
              else store.head_modulated_trajectory_views i } }
    else { h with result_ := envelope.1 }

/-- The reply part shared by both `Run()` functions: after the request is
processed (`processed`), or in `kSendingReply`, try to send the reply. -/
def ActionHandler.reply (newReply : Bool) (processed : ActionHandler → ActionHandler)
    (h : ActionHandler) : HandlerResult :=
  match h.state_ with
  | HandlerState.kProcessingRequest =>
    let h1 := processed h
    match h1.TrySendingReply newReply with
    | some code => { next := h1, reply := some code, again := false }
    | none =>
      { next := { h1 with state_ := HandlerState.kSendingReply }, reply := none, again := true }
  | HandlerState.kSendingReply =>
    match h.TrySendingReply newReply with
    | some code =>
      { next := { h with state_ := HandlerState.kProcessingRequest }, reply := some code,
        again := false }
    | none => { next := h, reply := none, again := true }

/-- One call of `CreateHeadMixedTrajectoryViewActionHandler::Run()` on the request
`request`; `newReply` tells whether `NewReply()` is ok in this call. -/
def CreateHeadMixedTrajectoryViewActionHandler.Run
    (request : CreateHeadMixedTrajectoryViewRequest) (newReply : Bool) (h : ActionHandler) :
    HandlerResult :=
  h.reply newReply (CreateHeadMixedTrajectoryViewActionHandler.process request)

/-- One call of `CreateHeadModulatedTrajectoryViewActionHandler::Run()` on the
request `request`; `newReply` tells whether `NewReply()` is ok in this call. -/
def CreateHeadModulatedTrajectoryViewActionHandler.Run
    (request : CreateHeadModulatedTrajectoryViewRequest) (newReply : Bool) (h : ActionHandler) :
    HandlerResult :=
  h.reply newReply (CreateHeadModulatedTrajectoryViewActionHandler.process request)

/-- An entry of a demo container: a view `v` at the indices of `held`, a free slot
(`kUnavailableError`) at the indices of `free`, `kDoesNotExistError` elsewhere. -/
def demoSlot {α : Type} (held free : List Int) (v : α) (i : Int) : StatusOr α :=
  if i ∈ held then StatusOr.value v
  else if i ∈ free then StatusOr.error Status.kUnavailableError
  else StatusOr.error Status.kDoesNotExistError

/-- A demo trajectory store: views at the given indices of the four containers,
free slots for modulated and mixed views at the indices of `free`. -/
def demoTrajectoryStore (plain modulated mixed envelope free : List Int) : TrajectoryStore :=
  { head_trajectory_views := demoSlot plain [] { waypoints := [] },
    head_modulated_trajectory_views :=
      demoSlot modulated free
        { carrier := none, modulator := none, envelope := EnvelopePointer.null },
    head_mixed_trajectory_views :=
      demoSlot mixed free
        { trajectory1 := none, trajectory2 := none, alpha := EnvelopePointer.null },
    envelope_trajectory_views := demoSlot envelope [] { waypoints := [] } }

/-- A handler about to process a request on the store `store`. -/
def demoHandler (store : TrajectoryStore) : ActionHandler :=
  { trajectory_store_ := store, result_ := Status.kSuccess,
    state_ := HandlerState.kProcessingRequest }

/-! ## Interpolation of waypoints -/

/-- Modelled from the spec: `Waypoint<TState>` and its operators are not part of
the sources, and waypoint arithmetic is taken over the reals, so waypoints are
the elements of a vector space `W` over the scalars `K`, `w * k` being `k • w`.
This is `w / k`: scaling by the inverse of `k`, without a value when `k` is
zero, where the quotient has no value in the scalars. -/
def divide {K W : Type} [Field K] [DecidableEq K] [AddCommGroup W] [Module K W]
    (w : W) (k : K) : Option W :=
  if k = 0 then none else some (k⁻¹ • w)

/-- The function `Bezier` of lines 2-10. -/
def Bezier {K W : Type} [Field K] [AddCommGroup W] [Module K W] (a b c d : W) (t : K) : W :=
  let a1 := (1 - t) • a + t • b
  let a2 := (1 - t) • b + t • c
  let a3 := (1 - t) • c + t • d
  let b1 := (1 - t) • a1 + t • a2
  let b2 := (1 - t) • a2 + t • a3
  (1 - t) • b1 + t • b2

/-- The function `CentripetalCatmullRom` of lines 12-22.  `DistanceFrom a b` is
`a.state().DistanceFrom(b.state())` and `sqrt` is `std::sqrt`; both are
parameters.  The result has no value when one of the two divisors is zero. -/
def CentripetalCatmullRom {K W : Type} [Field K] [DecidableEq K] [AddCommGroup W] [Module K W]
    (DistanceFrom : W → W → K) (sqrt : K → K) (p0 p1 p2 p3 : W) (t : K) : Option W :=
  let d1 := DistanceFrom p0 p1
  let d2 := DistanceFrom p1 p2
  let d3 := DistanceFrom p2 p3
  let b0 := p1
  match divide (d1 • p2 - d2 • p0 + (d2 - d1) • p1) (3 * d1 + 3 * sqrt (d1 * d2)),
      divide (d3 • p1 - d2 • p3 + (d2 - d3) • p2) (3 * d3 + 3 * sqrt (d2 * d3)) with
  | some q1, some q2 =>
    let b1 := p1 + q1
    let b2 := p2 + q2
    let b3 := p2
    some (Bezier b0 b1 b2 b3 t)
  | _, _ => none

/-! # Theorems -/

/-! ## The deframer, tick by tick -/

set_option maxHeartbeats 4000000 in
/-- C2. A deframer tick commits a packet if and only if it reads the final footer
byte `b`, not the start token, so that `PrepareToRead` is run on the assembled
packet, `PrepareToRead` returns true for that packet, and the inbound filter is
null or returns true for the packet `PrepareToRead` leaves.  In that tick the
store gets exactly one more committed packet, under the incoming priority: the
packet `PrepareToRead` leaves with `commit_time_ns` set to the clock reading of
the tick, and the clock is read right before the commit.  In every other tick the
committed packets stay as they were. -/
theorem deframer_commit_iff (P : Protocol) (E : InEnv) (avail : Option Nat) (now : Nat)
    (s : InputStream) :
    ((∃ p t, InEvent.commit p t ∈ (P2PPacketInputStream.Run P E avail now s).2) ↔
      ∃ b, avail = some b ∧ readsFinalFooterByte P avail s ∧ b ≠ P.kP2PStartToken ∧
        (E.prepareToRead (s.assembled P b)).1 = true ∧
        (E.packet_filter_ = none ∨
          ∃ f, E.packet_filter_ = some f ∧ f (E.prepareToRead (s.assembled P b)).2 = true)) ∧
    (∀ b, avail = some b → readsFinalFooterByte P avail s → b ≠ P.kP2PStartToken →
      (E.prepareToRead (s.assembled P b)).1 = true →
      (E.packet_filter_ = none ∨
        ∃ f, E.packet_filter_ = some f ∧ f (E.prepareToRead (s.assembled P b)).2 = true) →
      (P2PPacketInputStream.Run P E avail now s).1.packet_buffer_.committed
          = s.packet_buffer_.committed ++
            [((s.incoming P).priority,
              { (E.prepareToRead (s.assembled P b)).2 with commit_time_ns := now })] ∧
        (P2PPacketInputStream.Run P E avail now s).2.drop
          ((P2PPacketInputStream.Run P E avail now s).2.length - 2)
          = [InEvent.clock now, InEvent.commit (s.incoming P).priority now]) ∧
    ((¬ ∃ b, avail = some b ∧ readsFinalFooterByte P avail s ∧ b ≠ P.kP2PStartToken ∧
        (E.prepareToRead (s.assembled P b)).1 = true ∧
        (E.packet_filter_ = none ∨
          ∃ f, E.packet_filter_ = some f ∧ f (E.prepareToRead (s.assembled P b)).2 = true)) →
      (P2PPacketInputStream.Run P E avail now s).1.packet_buffer_.committed
        = s.packet_buffer_.committed) := by
  generalize hr : P2PPacketInputStream.Run P E avail now s = r
  unfold P2PPacketInputStream.Run at hr
  unfold readsFinalFooterByte InputStream.assembled
  dsimp only at hr
  repeat' split at hr
  all_goals subst hr
  all_goals simp_all [InStore.setSlot, InStore.Commit, InputStream.restartHeader]

/-- C2 at a concrete tick: the demo deframer is about to read the last footer byte
of a priority-1 packet.  With an integrity check that accepts and no filter the
tick that reads `0x0B` commits; with an integrity check that refuses, the same
tick leaves the committed packets as they were. -/
theorem deframer_commit_iff_witness :
    readsFinalFooterByte demoProtocol (some 0x0B) lastFooterBytePending ∧
    (∃ p t, InEvent.commit p t ∈
      (P2PPacketInputStream.Run demoProtocol demoEnv (some 0x0B) 7 lastFooterBytePending).2) ∧
    (P2PPacketInputStream.Run demoProtocol
        { prepareToRead := fun p => (false, p), packet_filter_ := none } (some 0x0B) 7
        lastFooterBytePending).1.packet_buffer_.committed
      = lastFooterBytePending.packet_buffer_.committed :=
  have hread : readsFinalFooterByte demoProtocol (some 0x0B) lastFooterBytePending :=
    ⟨by decide, by simp, by decide, by decide⟩
  ⟨hread,
    (deframer_commit_iff demoProtocol demoEnv (some 0x0B) 7 lastFooterBytePending).1.mpr
      ⟨0x0B, rfl, hread, by decide, rfl, Or.inl rfl⟩,
    (deframer_commit_iff demoProtocol
      { prepareToRead := fun p => (false, p), packet_filter_ := none } (some 0x0B) 7
      lastFooterBytePending).2.2 (fun h => by
        obtain ⟨b, _, _, _, hp, _⟩ := h
        cases hp)⟩

/-- C3, as stated, fails: after the content byte `0x7E` of a packet of declared
length 2, the escape byte `0x7D` is stored as content byte 1 and the content
offset advances from 1 to 2, so the wire pair fills two content positions. -/
theorem escape_marker_is_kept :
    afterStartTokenInContent.state_ = InState.kDisambiguatingStartTokenInContent ∧
    afterStartTokenInContent.current_field_read_bytes_ = 1 ∧
    (afterStartTokenInContent.packet_buffer_.slot 0).header.length = 2 ∧
    (afterStartTokenInContent.packet_buffer_.slot 0).content 0 = 0x7E ∧
    (P2PPacketInputStream.Run demoProtocol demoEnv (some 0x7D) 0
        afterStartTokenInContent).1.state_ = InState.kReadingContent ∧
    (P2PPacketInputStream.Run demoProtocol demoEnv (some 0x7D) 0
        afterStartTokenInContent).1.current_field_read_bytes_ = 2 ∧
    ((P2PPacketInputStream.Run demoProtocol demoEnv (some 0x7D) 0
        afterStartTokenInContent).1.packet_buffer_.slot 0).content 1 = 0x7D ∧
    InEvent.writeContent 0 1 0x7D ∈
      (P2PPacketInputStream.Run demoProtocol demoEnv (some 0x7D) 0
        afterStartTokenInContent).2 := by
  decide

/-- C3, amended. In `kDisambiguatingStartTokenInContent`, a byte equal to the
escape token is stored at the current content offset, the offset advances by one,
the header in the slot is untouched and reading resumes in `kReadingContent`. -/
theorem escape_after_start_token_resumes_content (P : Protocol) (E : InEnv) (now : Nat)
    (s : InputStream) (h : s.state_ = InState.kDisambiguatingStartTokenInContent) :
    (P2PPacketInputStream.Run P E (some P.kP2PSpecialToken) now s).1.state_
      = InState.kReadingContent ∧
    (P2PPacketInputStream.Run P E (some P.kP2PSpecialToken) now s).1.current_field_read_bytes_
      = s.current_field_read_bytes_ + 1 ∧
    ((P2PPacketInputStream.Run P E (some P.kP2PSpecialToken) now s).1.packet_buffer_.slot
        (s.incoming P).priority).content
      = (s.packet_buffer_.slot (s.incoming P).priority).content.set
          s.current_field_read_bytes_ P.kP2PSpecialToken ∧
    ((P2PPacketInputStream.Run P E (some P.kP2PSpecialToken) now s).1.packet_buffer_.slot
        (s.incoming P).priority).header
      = (s.packet_buffer_.slot (s.incoming P).priority).header ∧
    (P2PPacketInputStream.Run P E (some P.kP2PSpecialToken) now s).2
      = [InEvent.newValue (s.incoming P).priority, InEvent.read P.kP2PSpecialToken,
         InEvent.writeContent (s.incoming P).priority s.current_field_read_bytes_
           P.kP2PSpecialToken] := by
  unfold P2PPacketInputStream.Run
  simp [h, InStore.setSlot]

/-- Witness of `escape_after_start_token_resumes_content` on the demo protocol. -/
theorem escape_after_start_token_resumes_content_witness :
    afterStartTokenInContent.state_ = InState.kDisambiguatingStartTokenInContent ∧
    (P2PPacketInputStream.Run demoProtocol demoEnv (some demoProtocol.kP2PSpecialToken) 0
        afterStartTokenInContent).1.state_ = InState.kReadingContent ∧
    (P2PPacketInputStream.Run demoProtocol demoEnv (some demoProtocol.kP2PSpecialToken) 0
        afterStartTokenInContent).1.current_field_read_bytes_
      = afterStartTokenInContent.current_field_read_bytes_ + 1 :=
  ⟨by decide,
   (escape_after_start_token_resumes_content demoProtocol demoEnv 0 afterStartTokenInContent
      (by decide)).1,
   (escape_after_start_token_resumes_content demoProtocol demoEnv 0 afterStartTokenInContent
      (by decide)).2.1⟩

/-- C4. A complete header with in-range priority and `is_continuation` set leads
to `kReadingContent` exactly when its sequence number equals the slot packet's
and its remaining length (local order) equals the slot packet's length minus
`write_offset_before_break_` of that priority; then reading resumes at that
offset and the slots and interruption offsets are untouched.  Otherwise the
state becomes `kWaitingForPacket`.  The tick reads no byte and commits nothing. -/
theorem continuation_header_accepted_iff (P : Protocol) (E : InEnv) (avail : Option Nat)
    (now : Nat) (s : InputStream)
    (hstate : s.state_ = InState.kReadingHeader)
    (hfull : (P.sizeofHeader : Int) ≤ s.current_field_read_bytes_)
    (hprio : (s.incoming P).priority < P.kNumLevels)
    (hcont : (s.incoming P).is_continuation = true) :
    ((P2PPacketInputStream.Run P E avail now s).1.state_ = InState.kReadingContent ↔
      ((s.incoming P).sequence_number
          = (s.packet_buffer_.slot (s.incoming P).priority).header.sequence_number ∧
        (P.networkToLocal (s.incoming P).length : Int)
          = ((s.packet_buffer_.slot (s.incoming P).priority).header.length : Int)
            - s.write_offset_before_break_ (s.incoming P).priority)) ∧
    ((P2PPacketInputStream.Run P E avail now s).1.state_ = InState.kReadingContent →
      (P2PPacketInputStream.Run P E avail now s).1.current_field_read_bytes_
          = s.write_offset_before_break_ (s.incoming P).priority ∧
        (P2PPacketInputStream.Run P E avail now s).1.packet_buffer_.slot = s.packet_buffer_.slot ∧
        (P2PPacketInputStream.Run P E avail now s).1.write_offset_before_break_
          = s.write_offset_before_break_) ∧
    ((P2PPacketInputStream.Run P E avail now s).1.state_ ≠ InState.kReadingContent →
      (P2PPacketInputStream.Run P E avail now s).1.state_ = InState.kWaitingForPacket) ∧
    (P2PPacketInputStream.Run P E avail now s).1.packet_buffer_.committed
      = s.packet_buffer_.committed ∧
    consumed (P2PPacketInputStream.Run P E avail now s).2 = false := by
  generalize hr : P2PPacketInputStream.Run P E avail now s = r
  unfold P2PPacketInputStream.Run at hr
  dsimp only at hr
  repeat' split at hr
  all_goals subst hr
  all_goals simp_all [consumed]
  all_goals omega

/-- Witness of `continuation_header_accepted_iff`: a continuation that matches the
interrupted packet (sequence number 9, 5 - 2 = 3 bytes left) is accepted and
resumes at offset 2. -/
theorem continuation_header_accepted_iff_witness :
    afterContinuationHeader.state_ = InState.kReadingHeader ∧
    (demoProtocol.sizeofHeader : Int) ≤ afterContinuationHeader.current_field_read_bytes_ ∧
    (afterContinuationHeader.incoming demoProtocol).priority < demoProtocol.kNumLevels ∧
    (afterContinuationHeader.incoming demoProtocol).is_continuation = true ∧
    (P2PPacketInputStream.Run demoProtocol demoEnv none 0 afterContinuationHeader).1.state_
      = InState.kReadingContent ∧
    (P2PPacketInputStream.Run demoProtocol demoEnv none 0
        afterContinuationHeader).1.current_field_read_bytes_ = 2 :=
  ⟨by decide, by decide, by decide, by decide,
   ((continuation_header_accepted_iff demoProtocol demoEnv none 0 afterContinuationHeader
      (by decide) (by decide) (by decide) (by decide)).1).2 (by decide),
   by decide⟩

/-! ## Resynchronisation of the deframer -/

/-- One more tick of the deframer run. -/
theorem runTicks_succ (P : Protocol) (E : InEnv) (clk : Nat → Nat) (t n : Nat) (bytes : List Nat)
    (s : InputStream) :
    P2PPacketInputStream.runTicks P E clk t (n + 1) bytes s
      = P2PPacketInputStream.runTicks P E clk (t + 1) n
          (if consumed (P2PPacketInputStream.Run P E bytes.head? (clk t) s).2 = true
            then bytes.tail else bytes)
          (P2PPacketInputStream.Run P E bytes.head? (clk t) s).1 := rfl

/-- A deframer run of no tick. -/
theorem runTicks_zero (P : Protocol) (E : InEnv) (clk : Nat → Nat) (t : Nat) (bytes : List Nat)
    (s : InputStream) :
    P2PPacketInputStream.runTicks P E clk t 0 bytes s = (s, bytes) := rfl

/-- From a header restart (byte 0 is the start token, one byte read), the next byte is header byte 1. -/
theorem resync_after_restart (P : Protocol) (E : InEnv) (clk : Nat → Nat) (t : Nat) (b : Nat)
    (rest : List Nat) (s : InputStream)
    (hsz : 2 ≤ P.sizeofHeader) (hb1 : b ≠ P.kP2PStartToken) (hb2 : b ≠ P.kP2PSpecialToken)
    (hst : s.state_ = InState.kReadingHeader) (hcrb : s.current_field_read_bytes_ = 1)
    (h0 : s.incoming_header_ 0 = P.kP2PStartToken) :
    Resynced P b rest s.packet_buffer_.committed
      (P2PPacketInputStream.runTicks P E clk t 1 (b :: rest) s) := by
  have hlt : ¬ ((P.sizeofHeader : Int) ≤ 1) := by omega
  simp [runTicks_succ, runTicks_zero, P2PPacketInputStream.Run, hst, hcrb, hlt, hb1, hb2,
    consumed, Resynced, Mem.set, h0]

/-- A larger tick budget keeps resynchronisation. -/
theorem ResyncWithin.mono {P : Protocol} {E : InEnv} {clk : Nat → Nat} {b : Nat} {rest : List Nat}
    {k k' t : Nat} {s : InputStream} (h : ResyncWithin P E clk b rest k t s) (hk : k ≤ k') :
    ResyncWithin P E clk b rest k' t s := by
  obtain ⟨n, hn, hr⟩ := h
  exact ⟨n, le_trans hn hk, hr⟩

/-- If the tick that reads the start token restarts header reading, two ticks resynchronise. -/
theorem resync_via_restart (P : Protocol) (E : InEnv) (clk : Nat → Nat) (t : Nat) (b : Nat)
    (rest : List Nat) (s : InputStream)
    (hsz : 2 ≤ P.sizeofHeader) (hb1 : b ≠ P.kP2PStartToken) (hb2 : b ≠ P.kP2PSpecialToken)
    (hc : consumed (P2PPacketInputStream.Run P E (some P.kP2PStartToken) (clk t) s).2 = true)
    (hst : (P2PPacketInputStream.Run P E (some P.kP2PStartToken) (clk t) s).1.state_
      = InState.kReadingHeader)
    (hcrb : (P2PPacketInputStream.Run P E (some P.kP2PStartToken) (clk t)
      s).1.current_field_read_bytes_ = 1)
    (h0 : (P2PPacketInputStream.Run P E (some P.kP2PStartToken) (clk t) s).1.incoming_header_ 0
      = P.kP2PStartToken)
    (hcm : (P2PPacketInputStream.Run P E (some P.kP2PStartToken) (clk t)
      s).1.packet_buffer_.committed = s.packet_buffer_.committed) :
    ResyncWithin P E clk b rest 2 t s := by
  refine ⟨2, le_refl _, ?_⟩
  rw [runTicks_succ]
  simp only [List.head?_cons, hc, if_true, List.tail_cons]
  rw [← hcm]
  exact resync_after_restart P E clk (t + 1) b rest _ hsz hb1 hb2 hst hcrb h0

/-- A tick that reads nothing and commits nothing postpones resynchronisation by one tick. -/
theorem resync_via_skip (P : Protocol) (E : InEnv) (clk : Nat → Nat) (t k : Nat) (b : Nat)
    (rest : List Nat) (s : InputStream)
    (hc : consumed (P2PPacketInputStream.Run P E (some P.kP2PStartToken) (clk t) s).2 = false)
    (hcm : (P2PPacketInputStream.Run P E (some P.kP2PStartToken) (clk t)
      s).1.packet_buffer_.committed = s.packet_buffer_.committed)
    (hnext : ResyncWithin P E clk b rest k (t + 1)
      (P2PPacketInputStream.Run P E (some P.kP2PStartToken) (clk t) s).1) :
    ResyncWithin P E clk b rest (k + 1) t s := by
  obtain ⟨n, hn, hr⟩ := hnext
  refine ⟨n + 1, by omega, ?_⟩
  rw [runTicks_succ]
  simp only [List.head?_cons, hc]
  rw [← hcm]
  simpa using hr

/-- Resynchronisation from `kWaitingForPacket`. -/
theorem resync_waiting (P : Protocol) (E : InEnv) (clk : Nat → Nat) (t : Nat) (b : Nat)
    (rest : List Nat) (s : InputStream)
    (hsz : 2 ≤ P.sizeofHeader) (hb1 : b ≠ P.kP2PStartToken) (hb2 : b ≠ P.kP2PSpecialToken)
    (hst : s.state_ = InState.kWaitingForPacket) :
    ResyncWithin P E clk b rest 2 t s := by
  apply resync_via_restart P E clk t b rest s hsz hb1 hb2 <;>
    simp [P2PPacketInputStream.Run, hst, consumed, Mem.set]

/-- Resynchronisation from `kDisambiguatingStartTokenInContent`. -/
theorem resync_disambiguating (P : Protocol) (E : InEnv) (clk : Nat → Nat) (t : Nat) (b : Nat)
    (rest : List Nat) (s : InputStream)
    (hsz : 2 ≤ P.sizeofHeader) (hne : P.kP2PStartToken ≠ P.kP2PSpecialToken)
    (hb1 : b ≠ P.kP2PStartToken) (hb2 : b ≠ P.kP2PSpecialToken)
    (hst : s.state_ = InState.kDisambiguatingStartTokenInContent) :
    ResyncWithin P E clk b rest 2 t s := by
  apply resync_via_restart P E clk t b rest s hsz hb1 hb2 <;>
    simp [P2PPacketInputStream.Run, hst, consumed, Mem.set, hne, InputStream.restartHeader,
      InStore.setSlot]

/-- Resynchronisation from `kReadingFooter`. -/
theorem resync_footer (P : Protocol) (E : InEnv) (clk : Nat → Nat) (t : Nat) (b : Nat)
    (rest : List Nat) (s : InputStream)
    (hsz : 2 ≤ P.sizeofHeader)
    (hb1 : b ≠ P.kP2PStartToken) (hb2 : b ≠ P.kP2PSpecialToken)
    (hst : s.state_ = InState.kReadingFooter) :
    ResyncWithin P E clk b rest 3 t s := by
  by_cases hfull : (P.sizeofFooter : Int) ≤ s.current_field_read_bytes_
  · apply resync_via_skip P E clk t 2 b rest s
    · simp [P2PPacketInputStream.Run, hst, hfull, consumed]
    · simp [P2PPacketInputStream.Run, hst, hfull]
    · apply resync_waiting P E clk (t + 1) b rest _ hsz hb1 hb2
      simp [P2PPacketInputStream.Run, hst, hfull]
  · apply ResyncWithin.mono _ (by omega : 2 ≤ 3)
    apply resync_via_restart P E clk t b rest s hsz hb1 hb2 <;>
      simp [P2PPacketInputStream.Run, hst, hfull, consumed, Mem.set, InputStream.restartHeader,
        InStore.setSlot]

/-- Resynchronisation from `kReadingContent`. -/
theorem resync_content (P : Protocol) (E : InEnv) (clk : Nat → Nat) (t : Nat) (b : Nat)
    (rest : List Nat) (s : InputStream)
    (hsz : 2 ≤ P.sizeofHeader)
    (hb1 : b ≠ P.kP2PStartToken) (hb2 : b ≠ P.kP2PSpecialToken)
    (hst : s.state_ = InState.kReadingContent) :
    ResyncWithin P E clk b rest 4 t s := by
  by_cases hfull : ((s.packet_buffer_.slot (s.incoming P).priority).header.length : Int)
      ≤ s.current_field_read_bytes_
  · apply resync_via_skip P E clk t 3 b rest s
    · simp [P2PPacketInputStream.Run, hst, hfull, consumed]
    · simp [P2PPacketInputStream.Run, hst, hfull]
    · apply resync_footer P E clk (t + 1) b rest _ hsz hb1 hb2
      simp [P2PPacketInputStream.Run, hst, hfull]
  · apply ResyncWithin.mono _ (by omega : 2 ≤ 4)
    by_cases hlast : s.current_field_read_bytes_ + 1
        < ((s.packet_buffer_.slot (s.incoming P).priority).header.length : Int)
    · -- the start token is followed by more content: disambiguation
      refine ⟨2, le_refl _, ?_⟩
      rw [runTicks_succ]
      have h1 : P2PPacketInputStream.Run P E (some P.kP2PStartToken) (clk t) s
          = ({ s with
                packet_buffer_ := s.packet_buffer_.setSlot (s.incoming P).priority
                  { s.packet_buffer_.slot (s.incoming P).priority with
                    content := (s.packet_buffer_.slot (s.incoming P).priority).content.set
                      s.current_field_read_bytes_ P.kP2PStartToken },
                current_field_read_bytes_ := s.current_field_read_bytes_ + 1,
                state_ := InState.kDisambiguatingStartTokenInContent },
              [InEvent.newValue (s.incoming P).priority, InEvent.read P.kP2PStartToken,
               InEvent.writeContent (s.incoming P).priority s.current_field_read_bytes_
                 P.kP2PStartToken]) := by
        simp [P2PPacketInputStream.Run, hst, hfull, hlast]
      simp only [List.head?_cons, h1]
      simp [runTicks_succ, runTicks_zero, P2PPacketInputStream.Run, consumed,
        Resynced, Mem.set, InputStream.restartHeader, InStore.setSlot, hb1, hb2]
    · apply resync_via_restart P E clk t b rest s hsz hb1 hb2 <;>
        simp [P2PPacketInputStream.Run, hst, hfull, hlast, consumed, Mem.set,
          InputStream.restartHeader, InStore.setSlot]

/-- Resynchronisation from `kReadingHeader`. -/
theorem resync_header (P : Protocol) (E : InEnv) (clk : Nat → Nat) (t : Nat) (b : Nat)
    (rest : List Nat) (s : InputStream)
    (hsz : 2 ≤ P.sizeofHeader)
    (hb1 : b ≠ P.kP2PStartToken) (hb2 : b ≠ P.kP2PSpecialToken)
    (hst : s.state_ = InState.kReadingHeader) :
    ResyncWithin P E clk b rest 5 t s := by
  by_cases hfull : (P.sizeofHeader : Int) ≤ s.current_field_read_bytes_
  · have hcases : (P2PPacketInputStream.Run P E (some P.kP2PStartToken) (clk t) s).1.state_
          = InState.kWaitingForPacket ∨
        (P2PPacketInputStream.Run P E (some P.kP2PStartToken) (clk t) s).1.state_
          = InState.kReadingContent := by
      simp only [P2PPacketInputStream.Run, hst, hfull, if_true]
      split_ifs <;> simp
    apply resync_via_skip P E clk t 4 b rest s
    · simp only [P2PPacketInputStream.Run, hst, hfull, if_true]
      split_ifs <;> simp [consumed]
    · simp only [P2PPacketInputStream.Run, hst, hfull, if_true]
      split_ifs <;> simp [InStore.setSlot]
    · rcases hcases with h | h
      · exact (resync_waiting P E clk (t + 1) b rest _ hsz hb1 hb2 h).mono (by omega)
      · exact resync_content P E clk (t + 1) b rest _ hsz hb1 hb2 h
  · apply ResyncWithin.mono _ (by omega : 2 ≤ 5)
    apply resync_via_restart P E clk t b rest s hsz hb1 hb2 <;>
      simp [P2PPacketInputStream.Run, hst, hfull, consumed, Mem.set, InputStream.restartHeader]

/-- C5. From every deframer state, if the transport next delivers a start token
followed by a byte `b` that is neither token, then after at most five ticks both
bytes have been read, the deframer is in `kReadingHeader` with them as header
bytes 0 and 1 and `current_field_read_bytes_ = 2`, and no packet was committed
on the way.  The two side conditions say that the header is longer than one byte
and that the two reserved byte values differ. -/
theorem resynchronization (P : Protocol) (E : InEnv) (clk : Nat → Nat) (t : Nat) (b : Nat)
    (rest : List Nat) (s : InputStream)
    (hsz : 2 ≤ P.sizeofHeader) (hne : P.kP2PStartToken ≠ P.kP2PSpecialToken)
    (hb1 : b ≠ P.kP2PStartToken) (hb2 : b ≠ P.kP2PSpecialToken) :
    ∃ n, n ≤ 5 ∧
      (P2PPacketInputStream.runTicks P E clk t n (P.kP2PStartToken :: b :: rest) s).2 = rest ∧
      (P2PPacketInputStream.runTicks P E clk t n (P.kP2PStartToken :: b :: rest) s).1.state_
        = InState.kReadingHeader ∧
      (P2PPacketInputStream.runTicks P E clk t n
        (P.kP2PStartToken :: b :: rest) s).1.incoming_header_ 0 = P.kP2PStartToken ∧
      (P2PPacketInputStream.runTicks P E clk t n
        (P.kP2PStartToken :: b :: rest) s).1.incoming_header_ 1 = b ∧
      (P2PPacketInputStream.runTicks P E clk t n
        (P.kP2PStartToken :: b :: rest) s).1.current_field_read_bytes_ = 2 ∧
      (P2PPacketInputStream.runTicks P E clk t n
        (P.kP2PStartToken :: b :: rest) s).1.packet_buffer_.committed
        = s.packet_buffer_.committed := by
  have h : ResyncWithin P E clk b rest 5 t s := by
    cases hst : s.state_
    · exact (resync_waiting P E clk t b rest s hsz hb1 hb2 hst).mono (by omega)
    · exact resync_header P E clk t b rest s hsz hb1 hb2 hst
    · exact (resync_content P E clk t b rest s hsz hb1 hb2 hst).mono (by omega)
    · exact (resync_disambiguating P E clk t b rest s hsz hne hb1 hb2 hst).mono (by omega)
    · exact (resync_footer P E clk t b rest s hsz hb1 hb2 hst).mono (by omega)
  obtain ⟨n, hn, hr⟩ := h
  exact ⟨n, hn, hr⟩

/-- Witness of `resynchronization` on the demo protocol, from the middle of the
content of a packet. -/
theorem resynchronization_witness :
    2 ≤ demoProtocol.sizeofHeader ∧
    demoProtocol.kP2PStartToken ≠ demoProtocol.kP2PSpecialToken ∧
    9 ≠ demoProtocol.kP2PStartToken ∧ 9 ≠ demoProtocol.kP2PSpecialToken ∧
    ∃ n, n ≤ 5 ∧
      (P2PPacketInputStream.runTicks demoProtocol demoEnv (fun _ => 0) 0 n
        (demoProtocol.kP2PStartToken :: 9 :: [1, 2]) afterStartTokenInContent).2 = [1, 2] ∧
      (P2PPacketInputStream.runTicks demoProtocol demoEnv (fun _ => 0) 0 n
        (demoProtocol.kP2PStartToken :: 9 :: [1, 2]) afterStartTokenInContent).1.state_
        = InState.kReadingHeader ∧
      (P2PPacketInputStream.runTicks demoProtocol demoEnv (fun _ => 0) 0 n
        (demoProtocol.kP2PStartToken :: 9 :: [1, 2])
        afterStartTokenInContent).1.incoming_header_ 0 = demoProtocol.kP2PStartToken ∧
      (P2PPacketInputStream.runTicks demoProtocol demoEnv (fun _ => 0) 0 n
        (demoProtocol.kP2PStartToken :: 9 :: [1, 2])
        afterStartTokenInContent).1.incoming_header_ 1 = 9 ∧
      (P2PPacketInputStream.runTicks demoProtocol demoEnv (fun _ => 0) 0 n
        (demoProtocol.kP2PStartToken :: 9 :: [1, 2])
        afterStartTokenInContent).1.current_field_read_bytes_ = 2 ∧
      (P2PPacketInputStream.runTicks demoProtocol demoEnv (fun _ => 0) 0 n
        (demoProtocol.kP2PStartToken :: 9 :: [1, 2])
        afterStartTokenInContent).1.packet_buffer_.committed
        = afterStartTokenInContent.packet_buffer_.committed :=
  ⟨by decide, by decide, by decide, by decide,
   resynchronization demoProtocol demoEnv (fun _ => 0) 0 9 [1, 2] afterStartTokenInContent
     (by decide) (by decide) (by decide) (by decide)⟩

/-! ## The framer: preemption and statistics -/

/-- C7: the code at a failing input.  A priority-1 packet of one content byte is
being sent byte by byte; its content byte is out and both footer bytes are
pending when a priority-0 packet is committed.  The next tick writes the first
footer byte and preempts with `pending_packet_bytes_ = 1`, below the footer
size 2: the header is flagged as a continuation and its length field becomes
`1 - 2` reduced to 16 bits, 65535, while no content byte is left to send and the
packet's length is 1. -/
theorem preemption_inside_footer_wraps_length :
    footerPendingThenUrgent.state_ = OutState.kSendingBurst ∧
    footerPendingThenUrgent.current_packet_ = some 1 ∧
    footerPendingThenUrgent.pending_packet_bytes_ = 2 ∧
    demoProtocol.networkToLocal (footerPendingThenUrgent.packet_buffer_.front 1).header.length = 1 ∧
    (P2PPacketOutputStream.Run demoProtocol byteWiseTransport none (fun n => n) 5000000
        footerPendingThenUrgent).next.state_
      = OutState.kWaitingForPartialBurstIngestionBeforeHigherPriorityPacket ∧
    (P2PPacketOutputStream.Run demoProtocol byteWiseTransport none (fun n => n) 5000000
        footerPendingThenUrgent).next.pending_packet_bytes_ = 1 ∧
    ((P2PPacketOutputStream.Run demoProtocol byteWiseTransport none (fun n => n) 5000000
        footerPendingThenUrgent).next.packet_buffer_.front 1).header.is_continuation = true ∧
    demoProtocol.networkToLocal
      ((P2PPacketOutputStream.Run demoProtocol byteWiseTransport none (fun n => n) 5000000
        footerPendingThenUrgent).next.packet_buffer_.front 1).header.length = 65535 := by
  decide

/-- C8, as stated, fails: a priority-0 packet is committed while the framer is about
to write the first 12-byte content burst of a priority-1 packet of 14 pending
bytes.  The tick writes the whole burst (`pending_burst_bytes_` reaches 0 with 2
bytes still pending) and enters `kWaitingForBurstIngestion` without flagging the
packet; once the wait is over, the next burst of the same packet is started and
written, so the priority-1 packet is sent in one piece. -/
theorem no_preemption_at_burst_boundary :
    burstPendingThenUrgent.state_ = OutState.kSendingBurst ∧
    burstPendingThenUrgent.current_packet_ = some 1 ∧
    burstPendingThenUrgent.pending_packet_bytes_ = 14 ∧
    burstPendingThenUrgent.pending_burst_bytes_ = 12 ∧
    burstPendingThenUrgent.packet_buffer_.OldestValue demoProtocol = some 0 ∧
    (P2PPacketOutputStream.Run demoProtocol wholeBurstTransport none (fun n => n) 5000000
        burstPendingThenUrgent).next.state_ = OutState.kWaitingForBurstIngestion ∧
    (P2PPacketOutputStream.Run demoProtocol wholeBurstTransport none (fun n => n) 5000000
        burstPendingThenUrgent).next.pending_burst_bytes_ = 0 ∧
    (P2PPacketOutputStream.Run demoProtocol wholeBurstTransport none (fun n => n) 5000000
        burstPendingThenUrgent).next.pending_packet_bytes_ = 2 ∧
    ((P2PPacketOutputStream.Run demoProtocol wholeBurstTransport none (fun n => n) 5000000
        burstPendingThenUrgent).next.packet_buffer_.front 1).header.is_continuation = false ∧
    (P2PPacketOutputStream.Run demoProtocol wholeBurstTransport none (fun n => n) 6000000
      (P2PPacketOutputStream.Run demoProtocol wholeBurstTransport none (fun n => n) 5000000
        burstPendingThenUrgent).next).next.state_ = OutState.kSendingBurst ∧
    (P2PPacketOutputStream.Run demoProtocol wholeBurstTransport none (fun n => n) 6000000
      (P2PPacketOutputStream.Run demoProtocol wholeBurstTransport none (fun n => n) 5000000
        burstPendingThenUrgent).next).next.current_packet_ = some 1 ∧
    (P2PPacketOutputStream.Run demoProtocol wholeBurstTransport none (fun n => n) 6000000
      (P2PPacketOutputStream.Run demoProtocol wholeBurstTransport none (fun n => n) 5000000
        burstPendingThenUrgent).next).next.pending_burst_bytes_ = 2 ∧
    (P2PPacketOutputStream.runTicks demoProtocol wholeBurstTransport none
      [{ write := fun n => n, now := 5000000 }, { write := fun n => n, now := 6000000 },
       { write := fun n => n, now := 7000000 }] burstPendingThenUrgent).2
      = [1, 2, 3, 4, 5, 6, 7, 8, 9, 10, 11, 12, 0xA, 0xB] := by
  decide

/-- C8, amended.  In `kSendingBurst`, after a `Write` that leaves packet bytes
pending: if the burst is fully written the framer enters
`kWaitingForBurstIngestion` with the store and the current packet untouched, and
the first tick after the wait starts the next burst of the same packet without
reading the store; if burst bytes remain pending, the framer asks the store for
the oldest packet and preempts (continuation flag, length field rewritten,
`kWaitingForPartialBurstIngestionBeforeHigherPriorityPacket`) exactly when that
is not the current packet. -/
theorem preemption_only_inside_a_burst (P : Protocol) (T : Transport)
    (packet_filter_ : Option (P2PPacket → Bool))
    (write : Int → Int) (now : Nat) (s : OutputStream)
    (hst : s.state_ = OutState.kSendingBurst)
    (hp : 0 < s.pending_packet_bytes_
      - write (min T.GetAtomicSendMaxLength s.pending_burst_bytes_)) :
    (s.pending_burst_bytes_ - write (min T.GetAtomicSendMaxLength s.pending_burst_bytes_) ≤ 0 →
      (P2PPacketOutputStream.Run P T packet_filter_ write now s).next.state_
          = OutState.kWaitingForBurstIngestion ∧
        (P2PPacketOutputStream.Run P T packet_filter_ write now s).next.packet_buffer_
          = s.packet_buffer_ ∧
        (P2PPacketOutputStream.Run P T packet_filter_ write now s).next.current_packet_
          = s.current_packet_ ∧
        ∀ (write2 : Int → Int) (now2 : Nat),
          ¬ now2 < (P2PPacketOutputStream.Run P T packet_filter_ write now
              s).next.after_burst_wait_end_timestamp_ns_ →
          (P2PPacketOutputStream.Run P T packet_filter_ write2 now2
              (P2PPacketOutputStream.Run P T packet_filter_ write now s).next).next
            = (P2PPacketOutputStream.Run P T packet_filter_ write now s).next.startBurst T
                OutState.kSendingBurst ∧
          (P2PPacketOutputStream.Run P T packet_filter_ write2 now2
              (P2PPacketOutputStream.Run P T packet_filter_ write now s).next).events = []) ∧
    (0 < s.pending_burst_bytes_ - write (min T.GetAtomicSendMaxLength s.pending_burst_bytes_) →
      ∀ q c, s.packet_buffer_.OldestValue P = some q → s.current_packet_ = some c →
        (q ≠ c →
          (P2PPacketOutputStream.Run P T packet_filter_ write now s).next.state_
              = OutState.kWaitingForPartialBurstIngestionBeforeHigherPriorityPacket ∧
            ((P2PPacketOutputStream.Run P T packet_filter_ write now s).next.packet_buffer_.front
                c).header.is_continuation = true ∧
            ((P2PPacketOutputStream.Run P T packet_filter_ write now s).next.packet_buffer_.front
                c).header.length
              = P.localToNetwork (P.toLength (s.pending_packet_bytes_
                  - write (min T.GetAtomicSendMaxLength s.pending_burst_bytes_)
                  - (P.sizeofFooter : Int)))) ∧
        (q = c →
          (P2PPacketOutputStream.Run P T packet_filter_ write now s).next.state_
              = OutState.kSendingBurst ∧
            (P2PPacketOutputStream.Run P T packet_filter_ write now s).next.packet_buffer_
              = s.packet_buffer_)) := by
  have hp' : ¬ (s.pending_packet_bytes_
      - write (min T.GetAtomicSendMaxLength s.pending_burst_bytes_) ≤ 0) := by omega
  constructor
  · intro hb
    have h1 : P2PPacketOutputStream.Run P T packet_filter_ write now s
        = P2PPacketOutputStream.sendingBurst P T packet_filter_ write now s := by
      simp [P2PPacketOutputStream.Run, hst]
    rw [h1]
    simp only [P2PPacketOutputStream.sendingBurst, hp', hb, if_true, if_false]
    refine ⟨trivial, trivial, trivial, ?_⟩
    intro write2 now2 hn
    simp [P2PPacketOutputStream.Run, hn, hp', OutputStream.startBurst]
  · intro hb q c hq hc
    have hb' : ¬ (s.pending_burst_bytes_
      - write (min T.GetAtomicSendMaxLength s.pending_burst_bytes_) ≤ 0) := by omega
    have h1 : P2PPacketOutputStream.Run P T packet_filter_ write now s
        = P2PPacketOutputStream.sendingBurst P T packet_filter_ write now s := by
      simp [P2PPacketOutputStream.Run, hst]
    rw [h1]
    simp only [P2PPacketOutputStream.sendingBurst, hp', hb', if_false, hq, hc]
    constructor
    · intro hne
      simp [hne, OutStore.front, OutStore.setFront, setAt]
    · intro he
      simp [he, hst]

/-- The statistics update reads only the statistics, the last-sent sequence numbers and the recorded packet sizes. -/
theorem account_congr (x s : OutputStream) (pkt : P2PPacket) (now : Nat)
    (h1 : x.stats_ = s.stats_)
    (h2 : x.last_sent_sequence_number_ = s.last_sent_sequence_number_)
    (h3 : x.total_packet_bytes_ = s.total_packet_bytes_) :
    (x.account pkt now).stats_ = (s.account pkt now).stats_ ∧
    (x.account pkt now).last_sent_sequence_number_
      = (s.account pkt now).last_sent_sequence_number_ := by
  unfold OutputStream.account
  simp only [h1, h2, h3]
  split_ifs <;> simp [h1, h2]

/-- The statistics after the body of `case kSendingBurst`. -/
theorem sendingBurst_account (P : Protocol) (T : Transport)
    (packet_filter_ : Option (P2PPacket → Bool)) (write : Int → Int) (now : Nat)
    (s : OutputStream) :
    (s.pending_packet_bytes_ - write (min T.GetAtomicSendMaxLength s.pending_burst_bytes_) ≤ 0 →
      (P2PPacketOutputStream.sendingBurst P T packet_filter_ write now s).next.stats_
          = (s.account s.current now).stats_ ∧
        (P2PPacketOutputStream.sendingBurst P T packet_filter_ write now
            s).next.last_sent_sequence_number_
          = (s.account s.current now).last_sent_sequence_number_) ∧
    (¬ s.pending_packet_bytes_ - write (min T.GetAtomicSendMaxLength s.pending_burst_bytes_) ≤ 0 →
      (P2PPacketOutputStream.sendingBurst P T packet_filter_ write now s).next.stats_ = s.stats_ ∧
        (P2PPacketOutputStream.sendingBurst P T packet_filter_ write now
            s).next.last_sent_sequence_number_ = s.last_sent_sequence_number_) := by
  constructor
  · intro h
    simp only [P2PPacketOutputStream.sendingBurst, h, if_true]
    split
    · exact account_congr _ s _ now rfl rfl rfl
    · split <;> exact account_congr _ s _ now rfl rfl rfl
  · intro h
    simp only [P2PPacketOutputStream.sendingBurst, h, if_false]
    split_ifs
    · exact ⟨rfl, rfl⟩
    · split
      · split_ifs <;> exact ⟨rfl, rfl⟩
      · exact ⟨rfl, rfl⟩

/-- A tick that writes the last byte of a packet. -/
theorem Run_account (P : Protocol) (T : Transport)
    (packet_filter_ : Option (P2PPacket → Bool)) (k : OutTick) (s : OutputStream)
    (h : sendsLastByte T k s = true) :
    (P2PPacketOutputStream.Run P T packet_filter_ k.write k.now s).next.stats_
        = (s.account s.current k.now).stats_ ∧
      (P2PPacketOutputStream.Run P T packet_filter_ k.write k.now s).next.last_sent_sequence_number_
        = (s.account s.current k.now).last_sent_sequence_number_ := by
  simp only [sendsLastByte, decide_eq_true_eq] at h
  rcases h with ⟨hst, hp⟩ | ⟨hst, hn, hpp, hp⟩
  · simp only [P2PPacketOutputStream.Run, hst]
    exact (sendingBurst_account P T packet_filter_ k.write k.now s).1 hp
  · simp only [P2PPacketOutputStream.Run, hst, hn, hpp, if_false]
    have h1 := (sendingBurst_account P T packet_filter_ k.write k.now
      (s.startBurst T OutState.kSendingHeaderBurst)).1 hp
    have hc : (s.startBurst T OutState.kSendingHeaderBurst).current = s.current := rfl
    rw [hc] at h1
    have h2 := account_congr (s.startBurst T OutState.kSendingHeaderBurst) s s.current k.now
      rfl rfl rfl
    exact ⟨h1.1.trans h2.1, h1.2.trans h2.2⟩

/-- A tick that does not write the last byte of a packet leaves the statistics alone. -/
theorem Run_stats_frame (P : Protocol) (T : Transport)
    (packet_filter_ : Option (P2PPacket → Bool)) (k : OutTick) (s : OutputStream)
    (h : sendsLastByte T k s = false) :
    (P2PPacketOutputStream.Run P T packet_filter_ k.write k.now s).next.stats_ = s.stats_ ∧
      (P2PPacketOutputStream.Run P T packet_filter_ k.write k.now s).next.last_sent_sequence_number_
        = s.last_sent_sequence_number_ := by
  simp only [sendsLastByte, decide_eq_false_iff_not, not_or, not_and] at h
  cases hst : s.state_
  · simp only [P2PPacketOutputStream.Run, hst]
    split
    · exact ⟨rfl, rfl⟩
    · simp only [OutputStream.startBurst]; split_ifs <;> exact ⟨rfl, rfl⟩
  · simp only [P2PPacketOutputStream.Run, hst]
    split_ifs <;> exact ⟨rfl, rfl⟩
  · simp only [P2PPacketOutputStream.Run, hst]
    by_cases h1 : k.now < s.after_burst_wait_end_timestamp_ns_
    · simp [h1]
    · by_cases h2 : s.pending_packet_bytes_ ≤ 0
      · simp [h1, h2, OutputStream.startBurst]
      · simp only [h1, h2, if_false]
        exact (sendingBurst_account P T packet_filter_ k.write k.now
          (s.startBurst T OutState.kSendingHeaderBurst)).2 (h.2 hst h1 h2)
  · simp only [P2PPacketOutputStream.Run, hst]
    exact (sendingBurst_account P T packet_filter_ k.write k.now s).2 (h.1 hst)
  · simp only [P2PPacketOutputStream.Run, hst]
    split_ifs <;> exact ⟨rfl, rfl⟩
  · simp only [P2PPacketOutputStream.Run, hst]
    split_ifs <;> exact ⟨rfl, rfl⟩

/-- A run in which no packet is completed leaves the statistics alone. -/
theorem runTicks_stats_frame (P : Protocol) (T : Transport)
    (packet_filter_ : Option (P2PPacket → Bool)) (ticks : List OutTick) (s : OutputStream)
    (h : quiet P T packet_filter_ ticks s = true) :
    (P2PPacketOutputStream.runTicks P T packet_filter_ ticks s).1.stats_ = s.stats_ ∧
      (P2PPacketOutputStream.runTicks P T packet_filter_ ticks s).1.last_sent_sequence_number_
        = s.last_sent_sequence_number_ := by
  induction ticks generalizing s with
  | nil => exact ⟨rfl, rfl⟩
  | cons k ks ih =>
    simp only [quiet, Bool.and_eq_true, Bool.not_eq_true'] at h
    have h1 := Run_stats_frame P T packet_filter_ k s h.1
    have h2 := ih _ h.2
    simp only [P2PPacketOutputStream.runTicks]
    exact ⟨h2.1.trans h1.1, h2.2.trans h1.2⟩

/-- The statistics update for a packet that counts as a new delivery. -/
theorem account_new (s : OutputStream) (pkt : P2PPacket) (now : Nat)
    (hi : pkt.header.is_init = false)
    (hnew : s.last_sent_sequence_number_ pkt.header.priority = kNeverSent ∨
      s.last_sent_sequence_number_ pkt.header.priority < pkt.header.sequence_number) :
    (s.account pkt now).last_sent_sequence_number_ pkt.header.priority
        = pkt.header.sequence_number ∧
    (s.account pkt now).stats_.total_packets_ pkt.header.priority
        = add64 (s.stats_.total_packets_ pkt.header.priority) 1 ∧
    (s.account pkt now).stats_.total_packet_delay_ns_ pkt.header.priority
        = add64 (s.stats_.total_packet_delay_ns_ pkt.header.priority)
            (sub64 now pkt.commit_time_ns) ∧
    (s.account pkt now).stats_.total_packet_delay_per_byte_ns_ pkt.header.priority
        = add64 (s.stats_.total_packet_delay_per_byte_ns_ pkt.header.priority)
            (sub64 now pkt.commit_time_ns / wrap64 (s.total_packet_bytes_ pkt.header.priority)) ∧
    (s.account pkt now).stats_.total_reliable_packets_ pkt.header.priority
        = (if pkt.header.requires_ack = true
            then add64 (s.stats_.total_reliable_packets_ pkt.header.priority) 1
            else s.stats_.total_reliable_packets_ pkt.header.priority) ∧
    (s.account pkt now).stats_.total_retransmissions_ = s.stats_.total_retransmissions_ := by
  have hnew' : s.last_sent_sequence_number_ pkt.header.priority = kNeverSent ∨
      pkt.header.sequence_number > s.last_sent_sequence_number_ pkt.header.priority := hnew
  unfold OutputStream.account
  simp only [hi, hnew', if_true]
  refine ⟨by simp [setAt], by simp [setAt], by simp [setAt], by simp [setAt], ?_, ?_⟩
  · split_ifs <;> simp [setAt]
  · simp

/-- The statistics update for a packet that counts as a retransmission. -/
theorem account_again (s : OutputStream) (pkt : P2PPacket) (now : Nat)
    (hi : pkt.header.is_init = false)
    (h1 : s.last_sent_sequence_number_ pkt.header.priority ≠ kNeverSent)
    (h2 : pkt.header.sequence_number ≤ s.last_sent_sequence_number_ pkt.header.priority) :
    (s.account pkt now).last_sent_sequence_number_ = s.last_sent_sequence_number_ ∧
    (s.account pkt now).stats_.total_retransmissions_ pkt.header.priority
        = add64 (s.stats_.total_retransmissions_ pkt.header.priority) 1 ∧
    (s.account pkt now).stats_.total_packets_ = s.stats_.total_packets_ ∧
    (s.account pkt now).stats_.total_packet_delay_ns_ = s.stats_.total_packet_delay_ns_ ∧
    (s.account pkt now).stats_.total_packet_delay_per_byte_ns_
        = s.stats_.total_packet_delay_per_byte_ns_ ∧
    (s.account pkt now).stats_.total_reliable_packets_ = s.stats_.total_reliable_packets_ := by
  have hc : ¬ (s.last_sent_sequence_number_ pkt.header.priority = kNeverSent ∨
      pkt.header.sequence_number > s.last_sent_sequence_number_ pkt.header.priority) := by
    push_neg
    exact ⟨h1, h2⟩
  unfold OutputStream.account
  simp only [hi, hc, if_true, if_false]
  simp [setAt]

/-- C9, amended.  Let `N` be a sequence number other than the sentinel `-1ULL`, and
let the last sequence number recorded for priority `p` be the sentinel or below
`N`.  When two non-init packets of priority `p` and sequence number `N` are sent
to completion one after the other (tick `k1` writes the last byte of the first,
no packet is completed during `mid`, tick `k2` writes the last byte of the
second), the first send increments `total_packets_[p]` and leaves
`total_retransmissions_[p]` alone, and the second increments
`total_retransmissions_[p]` and leaves `total_packets_[p]`, both latency
accumulators and `total_reliable_packets_[p]` alone. -/
theorem retransmission_accounting (P : Protocol) (T : Transport)
    (packet_filter_ : Option (P2PPacket → Bool))
    (s1 a s2 b : OutputStream) (k1 k2 : OutTick) (mid : List OutTick) (N p : Nat)
    (hN : N ≠ kNeverSent)
    (h1 : sendsLastByte T k1 s1 = true)
    (hp1 : s1.current.header.priority = p)
    (hi1 : s1.current.header.is_init = false)
    (hn1 : s1.current.header.sequence_number = N)
    (hnew : s1.last_sent_sequence_number_ p = kNeverSent ∨ s1.last_sent_sequence_number_ p < N)
    (ha : a = (P2PPacketOutputStream.Run P T packet_filter_ k1.write k1.now s1).next)
    (hq : quiet P T packet_filter_ mid a = true)
    (hs2 : s2 = (P2PPacketOutputStream.runTicks P T packet_filter_ mid a).1)
    (h2 : sendsLastByte T k2 s2 = true)
    (hp2 : s2.current.header.priority = p)
    (hi2 : s2.current.header.is_init = false)
    (hn2 : s2.current.header.sequence_number = N)
    (hb : b = (P2PPacketOutputStream.Run P T packet_filter_ k2.write k2.now s2).next) :
    a.stats_.total_packets_ p = add64 (s1.stats_.total_packets_ p) 1 ∧
    a.stats_.total_retransmissions_ p = s1.stats_.total_retransmissions_ p ∧
    b.stats_.total_retransmissions_ p = add64 (a.stats_.total_retransmissions_ p) 1 ∧
    b.stats_.total_packets_ p = a.stats_.total_packets_ p ∧
    b.stats_.total_packet_delay_ns_ p = a.stats_.total_packet_delay_ns_ p ∧
    b.stats_.total_packet_delay_per_byte_ns_ p = a.stats_.total_packet_delay_per_byte_ns_ p ∧
    b.stats_.total_reliable_packets_ p = a.stats_.total_reliable_packets_ p := by
  have ra := Run_account P T packet_filter_ k1 s1 h1
  rw [← ha] at ra
  have rb := Run_account P T packet_filter_ k2 s2 h2
  rw [← hb] at rb
  have rm := runTicks_stats_frame P T packet_filter_ mid a hq
  rw [← hs2] at rm
  subst hp1
  have n1 := account_new s1 s1.current k1.now hi1 (by rw [hn1]; exact hnew)
  have hlast : s2.last_sent_sequence_number_ s2.current.header.priority = N := by
    rw [rm.2, ra.2, hp2, n1.1, hn1]
  have n2 := account_again s2 s2.current k2.now hi2 (by rw [hlast]; exact hN)
    (by rw [hlast, hn2])
  rw [hp2] at n2
  have hsa : s2.stats_ = a.stats_ := rm.1
  refine ⟨?_, ?_, ?_, ?_, ?_, ?_, ?_⟩
  · rw [ra.1]; exact n1.2.1
  · rw [ra.1, n1.2.2.2.2.2]
  · rw [rb.1, n2.2.1, hsa]
  · rw [rb.1, n2.2.2.1, hsa]
  · rw [rb.1, n2.2.2.2.1, hsa]
  · rw [rb.1, n2.2.2.2.2.1, hsa]
  · rw [rb.1, n2.2.2.2.2.2, hsa]

/-- Witness of `preemption_only_inside_a_burst`: the burst boundary of
`no_preemption_at_burst_boundary`. -/
theorem preemption_only_inside_a_burst_witness :
    burstPendingThenUrgent.state_ = OutState.kSendingBurst ∧
    0 < burstPendingThenUrgent.pending_packet_bytes_
      - (fun n => n) (min wholeBurstTransport.GetAtomicSendMaxLength
          burstPendingThenUrgent.pending_burst_bytes_) ∧
    burstPendingThenUrgent.pending_burst_bytes_
      - (fun n => n) (min wholeBurstTransport.GetAtomicSendMaxLength
          burstPendingThenUrgent.pending_burst_bytes_) ≤ 0 ∧
    (P2PPacketOutputStream.Run demoProtocol wholeBurstTransport none (fun n => n) 5000000
        burstPendingThenUrgent).next.state_ = OutState.kWaitingForBurstIngestion ∧
    (P2PPacketOutputStream.Run demoProtocol wholeBurstTransport none (fun n => n) 5000000
        burstPendingThenUrgent).next.packet_buffer_ = burstPendingThenUrgent.packet_buffer_ :=
  ⟨by decide, by decide, by decide,
   ((preemption_only_inside_a_burst demoProtocol wholeBurstTransport none (fun n => n) 5000000
      burstPendingThenUrgent (by decide) (by decide)).1 (by decide)).1,
   ((preemption_only_inside_a_burst demoProtocol wholeBurstTransport none (fun n => n) 5000000
      burstPendingThenUrgent (by decide) (by decide)).1 (by decide)).2.1⟩

/-- C9, as stated, fails.  First scenario: the sequence number is the sentinel
`-1ULL = 2^64 - 1`; after the first send the recorded number is the sentinel
again, so the second send counts as a new delivery (`total_packets_` is 2, no
retransmission).  Second scenario: sequence number 5 is sent after 7 was sent on
the same priority; already its first send counts as a retransmission
(`total_packets_` stays 1). -/
theorem sequence_number_sent_twice_miscounted :
    ((sentOnQueueOne [demoPacket 1 (2 ^ 64 - 1) [1] [2, 3]] 5).stats_.total_packets_ 1 = 1 ∧
      (sentOnQueueOne [demoPacket 1 (2 ^ 64 - 1) [1] [2, 3]] 5).stats_.total_retransmissions_ 1
        = 0 ∧
      (sentOnQueueOne [demoPacket 1 (2 ^ 64 - 1) [1] [2, 3],
          demoPacket 1 (2 ^ 64 - 1) [1] [2, 3]] 10).stats_.total_packets_ 1 = 2 ∧
      (sentOnQueueOne [demoPacket 1 (2 ^ 64 - 1) [1] [2, 3],
          demoPacket 1 (2 ^ 64 - 1) [1] [2, 3]] 10).stats_.total_retransmissions_ 1 = 0 ∧
      ((sentOnQueueOne [demoPacket 1 (2 ^ 64 - 1) [1] [2, 3],
          demoPacket 1 (2 ^ 64 - 1) [1] [2, 3]] 10).packet_buffer_.queue 1).length = 0) ∧
    ((sentOnQueueOne [demoPacket 1 7 [1] [2, 3]] 5).stats_.total_packets_ 1 = 1 ∧
      (sentOnQueueOne [demoPacket 1 7 [1] [2, 3], demoPacket 1 5 [1] [2, 3]]
          10).stats_.total_packets_ 1 = 1 ∧
      (sentOnQueueOne [demoPacket 1 7 [1] [2, 3], demoPacket 1 5 [1] [2, 3]]
          10).stats_.total_retransmissions_ 1 = 1 ∧
      ((sentOnQueueOne [demoPacket 1 7 [1] [2, 3], demoPacket 1 5 [1] [2, 3]]
          10).packet_buffer_.queue 1).length = 0) := by
  decide

/-- Witness of `retransmission_accounting`: sequence number 7 sent twice at
priority 1, starting with no record. -/
theorem retransmission_accounting_witness :
    (7 ≠ kNeverSent ∧
      sendsLastByte wholeBurstTransport (idealTick 3) firstOfTwoPending = true ∧
      firstOfTwoPending.current.header.priority = 1 ∧
      firstOfTwoPending.current.header.is_init = false ∧
      firstOfTwoPending.current.header.sequence_number = 7 ∧
      (firstOfTwoPending.last_sent_sequence_number_ 1 = kNeverSent ∨
        firstOfTwoPending.last_sent_sequence_number_ 1 < 7) ∧
      quiet demoProtocol wholeBurstTransport none (idealTicksFrom 4 4) firstOfTwoSent = true ∧
      sendsLastByte wholeBurstTransport (idealTick 8) secondOfTwoPending = true ∧
      secondOfTwoPending.current.header.priority = 1 ∧
      secondOfTwoPending.current.header.is_init = false ∧
      secondOfTwoPending.current.header.sequence_number = 7) ∧
    (firstOfTwoSent.stats_.total_packets_ 1
        = add64 (firstOfTwoPending.stats_.total_packets_ 1) 1 ∧
      firstOfTwoSent.stats_.total_retransmissions_ 1
        = firstOfTwoPending.stats_.total_retransmissions_ 1 ∧
      secondOfTwoSent.stats_.total_retransmissions_ 1
        = add64 (firstOfTwoSent.stats_.total_retransmissions_ 1) 1 ∧
      secondOfTwoSent.stats_.total_packets_ 1 = firstOfTwoSent.stats_.total_packets_ 1 ∧
      secondOfTwoSent.stats_.total_packet_delay_ns_ 1
        = firstOfTwoSent.stats_.total_packet_delay_ns_ 1 ∧
      secondOfTwoSent.stats_.total_packet_delay_per_byte_ns_ 1
        = firstOfTwoSent.stats_.total_packet_delay_per_byte_ns_ 1 ∧
      secondOfTwoSent.stats_.total_reliable_packets_ 1
        = firstOfTwoSent.stats_.total_reliable_packets_ 1) :=
  ⟨by decide,
   retransmission_accounting demoProtocol wholeBurstTransport none firstOfTwoPending
     firstOfTwoSent secondOfTwoPending secondOfTwoSent (idealTick 3) (idealTick 8)
     (idealTicksFrom 4 4) 7 1 (by decide) (by decide) (by decide) (by decide) (by decide)
     (by decide) rfl (by decide) rfl (by decide) (by decide) (by decide) (by decide) rfl⟩

/-- The statistics update leaves the recorded packet sizes alone. -/
theorem account_total (s : OutputStream) (pkt : P2PPacket) (now : Nat) :
    (s.account pkt now).total_packet_bytes_ = s.total_packet_bytes_ := by
  unfold OutputStream.account
  dsimp only
  split_ifs <;> rfl

/-- The body of `case kSendingBurst` leaves the recorded packet sizes alone. -/
theorem sendingBurst_total (P : Protocol) (T : Transport)
    (packet_filter_ : Option (P2PPacket → Bool)) (write : Int → Int) (now : Nat)
    (s : OutputStream) :
    (P2PPacketOutputStream.sendingBurst P T packet_filter_ write now s).next.total_packet_bytes_
      = s.total_packet_bytes_ := by
  unfold P2PPacketOutputStream.sendingBurst
  dsimp only
  split_ifs
  · split
    · exact account_total _ _ _
    · split <;> exact account_total _ _ _
  · rfl
  · split
    · split_ifs <;> rfl
    · rfl

/-- Only the selection of a fresh packet records a packet size, under the priority of that packet. -/
theorem Run_total (P : Protocol) (T : Transport)
    (packet_filter_ : Option (P2PPacket → Bool)) (write : Int → Int) (now : Nat)
    (s : OutputStream) (r : Nat)
    (h : (P2PPacketOutputStream.Run P T packet_filter_ write now s).next.total_packet_bytes_ r
      ≠ s.total_packet_bytes_ r) :
    s.state_ = OutState.kGettingNextPacket ∧
      ∃ q, s.packet_buffer_.OldestValue P = some q ∧
        (s.packet_buffer_.front q).header.is_continuation = false ∧
        (s.packet_buffer_.front q).header.priority = r ∧
        (P2PPacketOutputStream.Run P T packet_filter_ write now s).next.total_packet_bytes_ r
          = (P.sizeofHeader : Int) + (P.networkToLocal (s.packet_buffer_.front q).header.length : Int)
            + (P.sizeofFooter : Int) := by
  cases hst : s.state_
  · refine ⟨rfl, ?_⟩
    cases ho : s.packet_buffer_.OldestValue P with
    | none =>
      exfalso; apply h
      simp [P2PPacketOutputStream.Run, hst, ho]
    | some q =>
      refine ⟨q, rfl, ?_⟩
      by_cases hc : (s.packet_buffer_.front q).header.is_continuation = false
      · by_cases hr : (s.packet_buffer_.front q).header.priority = r
        · refine ⟨hc, hr, ?_⟩
          simp [P2PPacketOutputStream.Run, hst, ho, hc, OutputStream.startBurst, setAt, hr]
        · exfalso; apply h
          have hr' : ¬ r = (s.packet_buffer_.front q).header.priority := fun e => hr e.symm
          simp [P2PPacketOutputStream.Run, hst, ho, hc, OutputStream.startBurst, setAt, hr']
      · exfalso; apply h
        simp [P2PPacketOutputStream.Run, hst, ho, hc, OutputStream.startBurst]
  all_goals exfalso; apply h
  · simp only [P2PPacketOutputStream.Run, hst]
    split_ifs <;> rfl
  · simp only [P2PPacketOutputStream.Run, hst]
    split_ifs
    · rfl
    · rfl
    · rfl
    · rw [sendingBurst_total]; rfl
  · simp only [P2PPacketOutputStream.Run, hst]
    rw [sendingBurst_total]
  · simp only [P2PPacketOutputStream.Run, hst]
    split_ifs <;> rfl
  · simp only [P2PPacketOutputStream.Run, hst]
    split_ifs <;> rfl

/-- Reading `a + b` bytes of the packet object is reading `a`, then `b`. -/
theorem packetBytes_append (P : Protocol) (p : P2PPacket) (off : Int) (a b : Nat) :
    P.packetBytes p off (a + b) = P.packetBytes p off a ++ P.packetBytes p (off + a) b := by
  unfold Protocol.packetBytes
  rw [List.range_add, List.map_append, List.map_map]
  congr 1
  apply List.map_congr_left
  intro k _
  simp only [Function.comp]
  congr 1
  push_cast
  ring

/-- The `n` bytes from `off` are the first `w` of them followed by the other `n - w`. -/
theorem packetBytes_split (P : Protocol) (p : P2PPacket) (off n w : Int) (hw : 0 ≤ w) (hn : w ≤ n) :
    P.packetBytes p off n.toNat
      = P.packetBytes p off w.toNat ++ P.packetBytes p (off + w) (n - w).toNat := by
  have h : n.toNat = w.toNat + (n - w).toNat := by omega
  rw [h, packetBytes_append]
  congr 2
  omega

/-- What `OldestValue` returns: a non-empty queue with only empty queues before it. -/
theorem oldest_spec (P : Protocol) (b : OutStore) (c : Nat)
    (h : b.OldestValue P = some c) :
    c < P.kNumLevels ∧ b.queue c ≠ [] ∧ ∀ q < c, b.queue q = [] := by
  unfold OutStore.OldestValue at h
  rw [List.find?_range_eq_some] at h
  obtain ⟨h1, h2, h3⟩ := h
  refine ⟨List.mem_range.mp h2, ?_, ?_⟩
  · intro he; simp [he] at h1
  · intro q hq
    have := h3 q hq
    simpa using this

/-- Removing the head of the first non-empty queue removes the first packet of the selection order. -/
theorem flatMap_range_consume (f : Nat → List P2PPacket) (c : Nat) (x : P2PPacket)
    (l : List P2PPacket) (hc : f c = x :: l) (he : ∀ q < c, f q = []) (n : Nat) (hn : c < n) :
    (List.range n).flatMap f = x :: (List.range n).flatMap (setAt f c l) := by
  induction n with
  | zero => omega
  | succ n ih =>
    rw [List.range_succ, List.flatMap_append, List.flatMap_append]
    by_cases hcn : c = n
    · subst hcn
      have e1 : (List.range c).flatMap f = [] := by
        rw [List.flatMap_eq_nil_iff]
        intro q hq
        exact he q (List.mem_range.mp hq)
      have e2 : (List.range c).flatMap (setAt f c l) = [] := by
        rw [List.flatMap_eq_nil_iff]
        intro q hq
        have hq' := List.mem_range.mp hq
        have : q ≠ c := by omega
        simp [setAt, this, he q hq']
      simp [e1, e2, hc, setAt]
    · have hlt : c < n := by omega
      rw [ih hlt]
      have : n ≠ c := fun e => hcn e.symm
      simp [setAt, this]

/-- The selection order starts with the packet `OldestValue` points to. -/
theorem packets_oldest (P : Protocol) (b : OutStore) (c : Nat)
    (h : b.OldestValue P = some c) :
    b.packets P = b.front c :: (b.Consume c).packets P := by
  obtain ⟨h1, h2, h3⟩ := oldest_spec P b c h
  obtain ⟨x, l, hx⟩ := List.exists_cons_of_ne_nil h2
  unfold OutStore.packets OutStore.Consume OutStore.front
  rw [hx]
  exact flatMap_range_consume b.queue c x l hx h3 _ h1

/-- No bytes. -/
theorem packetBytes_zero (P : Protocol) (p : P2PPacket) (off : Int) :
    P.packetBytes p off 0 = [] := rfl

/-- The first `sizeof(P2PHeader)` bytes of the packet object are the header image. -/
theorem packetBytes_header (P : Protocol) (p : P2PPacket)
    (hlen : (P.headerBytes p.header).length = P.sizeofHeader) :
    P.packetBytes p 0 P.sizeofHeader = P.headerBytes p.header := by
  apply List.ext_getElem
  · simp [Protocol.packetBytes, hlen]
  · intro i h1 h2
    simp only [Protocol.packetBytes, List.getElem_map, List.getElem_range, Protocol.packetByte]
    simp only [Protocol.packetBytes, List.length_map, List.length_range] at h1
    have hi : (0 : Int) ≤ 0 + (i : Int) ∧ 0 + (i : Int) < (P.sizeofHeader : Int) := by omega
    rw [if_pos hi]
    have : (0 + (i : Int)).toNat = i := by omega
    rw [this, List.getD_eq_getElem _ _ h2]

/-- The packet `OldestValue` points to is in its queue. -/
theorem front_mem (P : Protocol) (b : OutStore) (c : Nat) (h : b.OldestValue P = some c) :
    b.front c ∈ b.queue c := by
  obtain ⟨_, h2, _⟩ := oldest_spec P b c h
  obtain ⟨x, l, hx⟩ := List.exists_cons_of_ne_nil h2
  simp [OutStore.front, hx]

/-- In a well-formed store the oldest packet has the priority of its queue. -/
theorem StoreOK.front_priority {P : Protocol} {b : OutStore} (hb : StoreOK P b) (c : Nat)
    (h : b.OldestValue P = some c) : (b.front c).header.priority = c :=
  hb.prio c (oldest_spec P b c h).1 _ (front_mem P b c h)

/-- `Consume` keeps a store well-formed. -/
theorem StoreOK.consume {P : Protocol} {b : OutStore} (hb : StoreOK P b) (c : Nat) :
    StoreOK P (b.Consume c) := by
  constructor
  · intro q hq p hp
    by_cases hqc : q = c
    · subst hqc
      simp only [OutStore.Consume, setAt, if_true] at hp
      exact hb.prio q hq p (List.mem_of_mem_tail hp)
    · simp only [OutStore.Consume, setAt, if_neg hqc] at hp
      exact hb.prio q hq p hp
  · intro q hq p hp
    by_cases hqc : q = c
    · subst hqc
      simp only [OutStore.Consume, setAt, if_true] at hp
      exact hb.fresh q hq p (List.mem_of_mem_tail hp)
    · simp only [OutStore.Consume, setAt, if_neg hqc] at hp
      exact hb.fresh q hq p hp

/-- The queued packets are those of the queues below `kNumLevels`. -/
theorem mem_packets (P : Protocol) (b : OutStore) (p : P2PPacket) :
    p ∈ b.packets P ↔ ∃ q, q < P.kNumLevels ∧ p ∈ b.queue q := by
  simp [OutStore.packets, List.mem_flatMap]

/-- The frames of the store depend on the recorded sizes only through the continuations queued. -/
theorem storeStream_congr (P : Protocol) (tpb tpb' : Nat → Int) (b : OutStore)
    (h : ∀ p ∈ b.packets P, p.header.is_continuation = true →
      tpb' p.header.priority = tpb p.header.priority) :
    P.storeStream tpb' b = P.storeStream tpb b := by
  unfold Protocol.storeStream
  apply List.flatMap_congr
  intro p hp
  unfold Protocol.frameBytes Protocol.totalFor
  by_cases hc : p.header.is_continuation = true
  · simp only [hc, if_true, h p hp hc]
  · simp [hc]

/-- The frames of the store start with the frame of the oldest packet. -/
theorem storeStream_oldest (P : Protocol) (tpb : Nat → Int) (b : OutStore) (c : Nat)
    (h : b.OldestValue P = some c) :
    P.storeStream tpb b = P.frameBytes tpb (b.front c) ++ P.storeStream tpb (b.Consume c) := by
  unfold Protocol.storeStream
  rw [packets_oldest P b c h, List.flatMap_cons]

/-- Selecting a fresh packet of priority `c` does not change the frames of the packets queued
behind it. -/
theorem storeStream_select (P : Protocol) (tpb : Nat → Int) (b : OutStore) (c : Nat) (v : Int)
    (hb : StoreOK P b) :
    P.storeStream (setAt tpb c v) (b.Consume c) = P.storeStream tpb (b.Consume c) := by
  apply storeStream_congr
  intro p hp hc
  obtain ⟨q, hq, hm⟩ := (mem_packets P _ p).mp hp
  by_cases hqc : q = c
  · subst hqc
    simp only [OutStore.Consume, setAt, if_true] at hm
    have := hb.fresh q hq p hm
    rw [this] at hc
    exact absurd hc (by simp)
  · simp only [OutStore.Consume, setAt, if_neg hqc] at hm
    have hp' := hb.prio q hq p hm
    simp [setAt, hp', hqc]

/-- The statistics update leaves `state_` alone. -/
@[simp] theorem account_state (s : OutputStream) (pkt : P2PPacket) (now : Nat) :
    (s.account pkt now).state_ = s.state_ := by
  unfold OutputStream.account
  dsimp only
  split_ifs <;> rfl

/-- The statistics update leaves `current_packet_` alone. -/
@[simp] theorem account_current_packet (s : OutputStream) (pkt : P2PPacket) (now : Nat) :
    (s.account pkt now).current_packet_ = s.current_packet_ := by
  unfold OutputStream.account
  dsimp only
  split_ifs <;> rfl

/-- The statistics update leaves `total_packet_bytes_` alone. -/
@[simp] theorem account_total_packet_bytes (s : OutputStream) (pkt : P2PPacket) (now : Nat) :
    (s.account pkt now).total_packet_bytes_ = s.total_packet_bytes_ := by
  unfold OutputStream.account
  dsimp only
  split_ifs <;> rfl

/-- The statistics update leaves `pending_packet_bytes_` alone. -/
@[simp] theorem account_pending_packet_bytes (s : OutputStream) (pkt : P2PPacket) (now : Nat) :
    (s.account pkt now).pending_packet_bytes_ = s.pending_packet_bytes_ := by
  unfold OutputStream.account
  dsimp only
  split_ifs <;> rfl

/-- The statistics update leaves `total_burst_bytes_` alone. -/
@[simp] theorem account_total_burst_bytes (s : OutputStream) (pkt : P2PPacket) (now : Nat) :
    (s.account pkt now).total_burst_bytes_ = s.total_burst_bytes_ := by
  unfold OutputStream.account
  dsimp only
  split_ifs <;> rfl

/-- The statistics update leaves `pending_burst_bytes_` alone. -/
@[simp] theorem account_pending_burst_bytes (s : OutputStream) (pkt : P2PPacket) (now : Nat) :
    (s.account pkt now).pending_burst_bytes_ = s.pending_burst_bytes_ := by
  unfold OutputStream.account
  dsimp only
  split_ifs <;> rfl

/-- The statistics update leaves `after_burst_wait_end_timestamp_ns_` alone. -/
@[simp] theorem account_after_burst_wait_end_timestamp_ns (s : OutputStream) (pkt : P2PPacket) (now : Nat) :
    (s.account pkt now).after_burst_wait_end_timestamp_ns_ = s.after_burst_wait_end_timestamp_ns_ := by
  unfold OutputStream.account
  dsimp only
  split_ifs <;> rfl

/-- The statistics update leaves `packet_buffer_` alone. -/
@[simp] theorem account_packet_buffer (s : OutputStream) (pkt : P2PPacket) (now : Nat) :
    (s.account pkt now).packet_buffer_ = s.packet_buffer_ := by
  unfold OutputStream.account
  dsimp only
  split_ifs <;> rfl

/-- The bytes written by a tick that issues one `Write`. -/
theorem writtenBytes_single (n : Int) (l : List Nat) (evs : List OutEvent)
    (h : ∀ e ∈ evs, ∀ m bs, e ≠ OutEvent.write m bs) :
    writtenBytes (OutEvent.write n l :: evs) = l := by
  have : writtenBytes evs = [] := by
    induction evs with
    | nil => rfl
    | cons e es ih =>
      cases e with
      | write m bs => exact absurd rfl (h _ (List.mem_cons_self _ _) m bs)
      | _ => exact ih (fun e he => h e (List.mem_cons_of_mem _ he))
  simp [writtenBytes, this]

/-- Invariant and stream equation for the body of `case kSendingBurst`. -/
theorem sendingBurst_stream (P : Protocol) (T : Transport)
    (packet_filter_ : Option (P2PPacket → Bool)) (k : OutTick) (s : OutputStream)
    (hatomic : 0 ≤ T.GetAtomicSendMaxLength)
    (hf : ∀ f, packet_filter_ = some f → ∀ p, f p = true)
    (hk : k.valid) (hst : s.state_ = OutState.kSendingBurst) (hg : s.Good P) :
    (P2PPacketOutputStream.sendingBurst P T packet_filter_ k.write k.now s).next.Good P ∧
      writtenBytes (P2PPacketOutputStream.sendingBurst P T packet_filter_ k.write k.now s).events
          ++ (P2PPacketOutputStream.sendingBurst P T packet_filter_ k.write k.now s).next.remaining P
        = s.remaining P := by
  obtain ⟨hstore, hgs⟩ := hg
  rw [hst] at hgs
  obtain ⟨⟨c, hcur, hold⟩, hpb0, hpbp, hpos⟩ := hgs
  have hreq : 0 ≤ min T.GetAtomicSendMaxLength s.pending_burst_bytes_ := le_min hatomic hpb0
  obtain ⟨hw0, hw1⟩ := hk _ hreq
  have hwpb : k.write (min T.GetAtomicSendMaxLength s.pending_burst_bytes_)
      ≤ s.pending_burst_bytes_ := le_trans hw1 (min_le_right _ _)
  have hrem : s.remaining P = P.packetBytes s.current
        (s.total_packet_bytes_ s.current.header.priority - s.pending_packet_bytes_)
        s.pending_packet_bytes_.toNat
      ++ P.storeStream s.total_packet_bytes_
          (s.packet_buffer_.Consume s.current.header.priority) := by
    simp only [OutputStream.remaining, hst]
  rw [hrem]
  have hsplit := packetBytes_split P s.current
    (s.total_packet_bytes_ s.current.header.priority - s.pending_packet_bytes_)
    s.pending_packet_bytes_ (k.write (min T.GetAtomicSendMaxLength s.pending_burst_bytes_)) hw0
    (le_trans hwpb hpbp)
  unfold P2PPacketOutputStream.sendingBurst
  dsimp only
  generalize k.write (min T.GetAtomicSendMaxLength s.pending_burst_bytes_) = w at *
  by_cases h1 : s.pending_packet_bytes_ - w ≤ 0
  · -- the packet is complete
    have hweq : w = s.pending_packet_bytes_ := by omega
    rw [if_pos h1]
    have hcons : StoreOK P (s.packet_buffer_.Consume s.current.header.priority) :=
      hstore.consume _
    cases hfl : packet_filter_ with
    | none =>
      dsimp only
      refine ⟨⟨by simpa using hcons, ?_⟩, ?_⟩
      · simp only [account_pending_packet_bytes]
        exact ⟨by omega, fun h => absurd h (by omega)⟩
      · simp only [OutputStream.remaining, account_pending_packet_bytes,
          account_total_packet_bytes, account_packet_buffer, writtenBytes, List.append_nil]
        rw [if_pos h1, hweq]
    | some f =>
      dsimp only
      rw [if_pos (hf f hfl _)]
      refine ⟨⟨by simpa using hcons, ?_⟩, ?_⟩
      · simp only [account_pending_packet_bytes]
        exact ⟨by omega, fun h => absurd h (by omega)⟩
      · simp only [OutputStream.remaining, account_pending_packet_bytes,
          account_total_packet_bytes, account_packet_buffer, writtenBytes, List.append_nil]
        rw [if_pos h1, hweq]
  · rw [if_neg h1]
    by_cases h2 : s.pending_burst_bytes_ - w ≤ 0
    · rw [if_pos h2]
      refine ⟨⟨hstore, ?_⟩, ?_⟩
      · dsimp only
        exact ⟨by omega, fun _ => ⟨c, hcur, hold⟩⟩
      · simp only [OutputStream.remaining, writtenBytes, List.append_nil]
        rw [if_neg h1]
        simp only [OutputStream.current, hcur] at hsplit ⊢
        rw [hsplit, List.append_assoc]
        congr 3
        omega
    · rw [if_neg h2]
      simp only [hold, hcur, ne_eq, not_true_eq_false, if_false]
      refine ⟨⟨hstore, ?_⟩, ?_⟩
      · simp only [hst]
        exact ⟨⟨c, rfl, hold⟩, by omega, by omega, fun _ => by omega⟩
      · simp only [OutputStream.remaining, hst, writtenBytes, List.append_nil]
        simp only [OutputStream.current, hcur] at hsplit ⊢
        rw [hsplit, List.append_assoc]
        congr 3
        omega

/-- Invariant and stream equation of one framer tick: the bytes written by the
tick, followed by what remains to be written afterwards, are what remained to
be written before. -/
theorem Run_stream (P : Protocol) (T : Transport)
    (packet_filter_ : Option (P2PPacket → Bool)) (k : OutTick) (s : OutputStream)
    (hlen : ∀ h, (P.headerBytes h).length = P.sizeofHeader)
    (hhs : 1 ≤ P.sizeofHeader) (hburst : (P.sizeofHeader : Int) ≤ T.GetBurstMaxLength)
    (hatomic : 0 ≤ T.GetAtomicSendMaxLength)
    (hf : ∀ f, packet_filter_ = some f → ∀ p, f p = true)
    (hk : k.valid) (hg : s.Good P) :
    (P2PPacketOutputStream.Run P T packet_filter_ k.write k.now s).next.Good P ∧
      writtenBytes (P2PPacketOutputStream.Run P T packet_filter_ k.write k.now s).events
          ++ (P2PPacketOutputStream.Run P T packet_filter_ k.write k.now s).next.remaining P
        = s.remaining P := by
  cases hst : s.state_
  · -- kGettingNextPacket
    obtain ⟨hstore, -⟩ := hg
    simp only [P2PPacketOutputStream.Run, hst]
    cases hold : s.packet_buffer_.OldestValue P with
    | none =>
      dsimp only
      refine ⟨⟨hstore, ?_⟩, ?_⟩
      · simp only [hst]
      · simp only [OutputStream.remaining, hst, writtenBytes, List.nil_append]
    | some q =>
      dsimp only
      have hprio := hstore.front_priority q hold
      have hmin : min (P.sizeofHeader : Int) T.GetBurstMaxLength = P.sizeofHeader :=
        min_eq_left hburst
      have hhdr := packetBytes_header P (s.packet_buffer_.front q) (hlen _)
      have hsrem : s.remaining P = P.frameBytes s.total_packet_bytes_ (s.packet_buffer_.front q)
          ++ P.storeStream s.total_packet_bytes_ (s.packet_buffer_.Consume q) := by
        simp only [OutputStream.remaining, hst]
        exact storeStream_oldest P _ _ q hold
      rw [hsrem]
      by_cases hc : (s.packet_buffer_.front q).header.is_continuation = false
      · -- a fresh packet: its size is recorded
        have hc' : ¬ ((s.packet_buffer_.front q).header.is_continuation = true ∧
            s.total_packet_bytes_ (s.packet_buffer_.front q).header.priority < 0) := by
          simp [hc]
        simp only [hc, if_true, hc', if_false, OutputStream.startBurst, hmin]
        refine ⟨⟨hstore, ⟨q, rfl, hold⟩, ?_, le_refl _, rfl, ?_⟩, ?_⟩
        · show (0 : Int) < (P.sizeofHeader : Int)
          omega
        · intro _
          simp only [OutputStream.current, setAt, if_true]
        · simp only [OutputStream.remaining, OutputStream.current, writtenBytes, List.nil_append,
            sub_self, Int.toNat_ofNat, hhdr, hprio, setAt, if_true, Protocol.frameBytes,
            Protocol.totalFor, hc, Bool.false_eq_true, if_false, List.append_assoc]
          have := storeStream_select P s.total_packet_bytes_ s.packet_buffer_ q
            ((P.sizeofHeader : Int) + (P.networkToLocal (s.packet_buffer_.front q).header.length : Int)
              + (P.sizeofFooter : Int)) hstore
          simp only [setAt] at this
          rw [this]
      · -- a continuation: the recorded size is kept
        have hct : (s.packet_buffer_.front q).header.is_continuation = true := by
          simpa using hc
        have hevs : writtenBytes (if (s.packet_buffer_.front q).header.is_continuation = true ∧
            s.total_packet_bytes_ (s.packet_buffer_.front q).header.priority < 0
            then [OutEvent.assertFailed] else []) = [] := by
          split_ifs <;> rfl
        rw [hevs]
        simp only [hct, Bool.true_eq_false, if_false, OutputStream.startBurst, hmin]
        refine ⟨⟨hstore, ⟨q, rfl, hold⟩, ?_, le_refl _, rfl, ?_⟩, ?_⟩
        · show (0 : Int) < (P.sizeofHeader : Int)
          omega
        · intro h
          simp only [OutputStream.current] at h
          exact absurd h hc
        · simp only [OutputStream.remaining, OutputStream.current, List.nil_append,
            sub_self, Int.toNat_ofNat, hhdr, hprio, Protocol.frameBytes,
            Protocol.totalFor, hct, if_true, List.append_assoc]
  · -- kSendingHeaderBurst
    obtain ⟨hstore, hgs⟩ := hg
    rw [hst] at hgs
    obtain ⟨⟨c, hcur, hold⟩, hpp0, hpphs, hpb, hfresh⟩ := hgs
    obtain ⟨hw0, hw1⟩ := hk s.pending_burst_bytes_ (by omega)
    have hsplit := packetBytes_split P s.current
      ((P.sizeofHeader : Int) - s.pending_packet_bytes_) s.pending_packet_bytes_
      (k.write s.pending_burst_bytes_) hw0 (by omega)
    have hrem : s.remaining P = P.packetBytes s.current
          ((P.sizeofHeader : Int) - s.pending_packet_bytes_) s.pending_packet_bytes_.toNat
        ++ P.bodyBytes (s.total_packet_bytes_ s.current.header.priority) s.current
        ++ P.storeStream s.total_packet_bytes_
            (s.packet_buffer_.Consume s.current.header.priority) := by
      simp only [OutputStream.remaining, hst]
    rw [hrem]
    simp only [P2PPacketOutputStream.Run, hst]
    generalize k.write s.pending_burst_bytes_ = w at *
    by_cases h1 : s.pending_packet_bytes_ - w ≤ 0
    · have hweq : w = s.pending_packet_bytes_ := by omega
      rw [if_pos h1]
      refine ⟨⟨hstore, ⟨c, hcur, hold⟩, by show s.pending_packet_bytes_ - w = 0; omega, hfresh⟩, ?_⟩
      simp only [OutputStream.remaining, writtenBytes, List.append_nil]
      simp only [OutputStream.current, hcur] at hsplit ⊢
      rw [hsplit, List.append_assoc, List.append_assoc, List.append_assoc]
      congr 3
      omega
    · have h2 : ¬ s.pending_burst_bytes_ - w ≤ 0 := by omega
      rw [if_neg h1, if_neg h2]
      refine ⟨⟨hstore, ?_⟩, ?_⟩
      · simp only [hst]
        exact ⟨⟨c, hcur, hold⟩, by omega, by omega, by omega, hfresh⟩
      · simp only [OutputStream.remaining, hst, writtenBytes, List.append_nil]
        simp only [OutputStream.current, hcur] at hsplit ⊢
        rw [hsplit, List.append_assoc, List.append_assoc, List.append_assoc]
        congr 3
        omega
  · -- kWaitingForHeaderBurstIngestion
    obtain ⟨hstore, hgs⟩ := hg
    rw [hst] at hgs
    obtain ⟨⟨c, hcur, hold⟩, hpp0, hfresh⟩ := hgs
    simp only [P2PPacketOutputStream.Run, hst]
    by_cases hn : k.now < s.after_burst_wait_end_timestamp_ns_
    · rw [if_pos hn]
      refine ⟨⟨hstore, ?_⟩, ?_⟩
      · simp only [hst]
        exact ⟨⟨c, hcur, hold⟩, hpp0, hfresh⟩
      · simp only [writtenBytes, List.nil_append]
    · have hpp : s.pending_packet_bytes_ ≤ 0 := by omega
      rw [if_neg hn, if_pos hpp]
      have hpend : 0 ≤ P.pendingAfterHeader (s.total_packet_bytes_ s.current.header.priority)
          s.current := by
        unfold Protocol.pendingAfterHeader
        split_ifs with hc
        · omega
        · have := hfresh (by simpa using hc)
          omega
      have hbm : (0 : Int) ≤ T.GetBurstMaxLength := by omega
      refine ⟨⟨hstore, ?_⟩, ?_⟩
      · simp only [OutputStream.startBurst]
        refine ⟨⟨c, hcur, hold⟩, le_min hpend hbm, min_le_left _ _, ?_⟩
        intro h
        exact lt_min h (by omega)
      · simp only [OutputStream.remaining, OutputStream.startBurst, hst, writtenBytes,
          List.nil_append, hpp0, Int.toNat_zero, packetBytes_zero, Protocol.bodyBytes,
          Protocol.pendingAfterHeader, OutputStream.current]
  · -- kSendingBurst
    simp only [P2PPacketOutputStream.Run, hst]
    exact sendingBurst_stream P T packet_filter_ k s hatomic hf hk hst hg
  · -- kWaitingForBurstIngestion
    obtain ⟨hstore, hgs⟩ := hg
    rw [hst] at hgs
    obtain ⟨hpp0, hon⟩ := hgs
    simp only [P2PPacketOutputStream.Run, hst]
    by_cases hn : k.now < s.after_burst_wait_end_timestamp_ns_
    · rw [if_pos hn]
      refine ⟨⟨hstore, ?_⟩, ?_⟩
      · simp only [hst]
        exact ⟨hpp0, hon⟩
      · simp only [writtenBytes, List.nil_append]
    · rw [if_neg hn]
      by_cases hpp : s.pending_packet_bytes_ ≤ 0
      · rw [if_pos hpp]
        refine ⟨⟨hstore, trivial⟩, ?_⟩
        simp only [OutputStream.remaining, hst, writtenBytes, List.nil_append, if_pos hpp]
      · rw [if_neg hpp]
        have hbm : (0 : Int) ≤ T.GetBurstMaxLength := by omega
        refine ⟨⟨hstore, ?_⟩, ?_⟩
        · simp only [OutputStream.startBurst]
          refine ⟨hon (by omega), le_min hpp0 hbm, min_le_left _ _, ?_⟩
          intro h
          exact lt_min h (by omega)
        · simp only [OutputStream.remaining, OutputStream.startBurst, hst, writtenBytes,
            List.nil_append, if_neg hpp, OutputStream.current]
  · -- kWaitingForPartialBurstIngestionBeforeHigherPriorityPacket
    obtain ⟨hstore, -⟩ := hg
    simp only [P2PPacketOutputStream.Run, hst]
    by_cases hn : k.now < s.after_burst_wait_end_timestamp_ns_
    · rw [if_pos hn]
      refine ⟨⟨hstore, ?_⟩, ?_⟩
      · simp only [hst]
      · simp only [writtenBytes, List.nil_append]
    · rw [if_neg hn]
      refine ⟨⟨hstore, trivial⟩, ?_⟩
      simp only [OutputStream.remaining, hst, writtenBytes, List.nil_append]

/-- Invariant and stream equation of a framer run. -/
theorem runTicks_stream (P : Protocol) (T : Transport)
    (packet_filter_ : Option (P2PPacket → Bool)) (ticks : List OutTick) (s : OutputStream)
    (hlen : ∀ h, (P.headerBytes h).length = P.sizeofHeader)
    (hhs : 1 ≤ P.sizeofHeader) (hburst : (P.sizeofHeader : Int) ≤ T.GetBurstMaxLength)
    (hatomic : 0 ≤ T.GetAtomicSendMaxLength)
    (hf : ∀ f, packet_filter_ = some f → ∀ p, f p = true)
    (hk : ∀ k ∈ ticks, k.valid) (hg : s.Good P) :
    (P2PPacketOutputStream.runTicks P T packet_filter_ ticks s).1.Good P ∧
      (P2PPacketOutputStream.runTicks P T packet_filter_ ticks s).2
          ++ (P2PPacketOutputStream.runTicks P T packet_filter_ ticks s).1.remaining P
        = s.remaining P := by
  induction ticks generalizing s with
  | nil => exact ⟨hg, rfl⟩
  | cons k ks ih =>
    have h1 := Run_stream P T packet_filter_ k s hlen hhs hburst hatomic hf
      (hk k (List.mem_cons_self _ _)) hg
    have h2 := ih (P2PPacketOutputStream.Run P T packet_filter_ k.write k.now s).next
      (fun k' hk' => hk k' (List.mem_cons_of_mem _ hk')) h1.1
    simp only [P2PPacketOutputStream.runTicks]
    refine ⟨h2.1, ?_⟩
    rw [List.append_assoc, h2.2, h1.2]

/-! ## The framer: progress of a fair run -/

/-- The cost of the store depends on the recorded sizes only through the continuations queued. -/
theorem storeCost_congr (P : Protocol) (tpb tpb' : Nat → Int) (b : OutStore)
    (h : ∀ p ∈ b.packets P, p.header.is_continuation = true →
      tpb' p.header.priority = tpb p.header.priority) :
    P.storeCost tpb' b = P.storeCost tpb b := by
  unfold Protocol.storeCost
  congr 1
  apply List.map_congr_left
  intro p hp
  unfold Protocol.cost Protocol.totalFor
  by_cases hc : p.header.is_continuation = true
  · simp only [hc, if_true, h p hp hc]
  · simp [hc]

/-- The cost of the store is the cost of the oldest packet plus the cost of the others. -/
theorem storeCost_oldest (P : Protocol) (tpb : Nat → Int) (b : OutStore) (c : Nat)
    (h : b.OldestValue P = some c) :
    P.storeCost tpb b = P.cost tpb (b.front c) + P.storeCost tpb (b.Consume c) := by
  unfold Protocol.storeCost
  rw [packets_oldest P b c h, List.map_cons, List.sum_cons]

/-- Selecting a fresh packet of priority `c` does not change the cost of the packets queued
behind it. -/
theorem storeCost_select (P : Protocol) (tpb : Nat → Int) (b : OutStore) (c : Nat) (v : Int)
    (hb : StoreOK P b) :
    P.storeCost (setAt tpb c v) (b.Consume c) = P.storeCost tpb (b.Consume c) := by
  apply storeCost_congr
  intro p hp hc
  obtain ⟨q, hq, hm⟩ := (mem_packets P _ p).mp hp
  by_cases hqc : q = c
  · subst hqc
    simp only [OutStore.Consume, setAt, if_true] at hm
    have := hb.fresh q hq p hm
    rw [this] at hc
    exact absurd hc (by simp)
  · simp only [OutStore.Consume, setAt, if_neg hqc] at hm
    have hp' := hb.prio q hq p hm
    simp [setAt, hp', hqc]

/-- An idle store: no packets in selection order. -/
theorem packets_of_oldest_none (P : Protocol) (b : OutStore)
    (h : b.OldestValue P = none) : b.packets P = [] := by
  unfold OutStore.OldestValue at h
  rw [List.find?_eq_none] at h
  unfold OutStore.packets
  rw [List.flatMap_eq_nil_iff]
  intro q hq
  have := h q hq
  simpa using this

/-- Progress of the body of `case kSendingBurst` under a fair tick. -/
theorem sendingBurst_potential (P : Protocol) (T : Transport)
    (packet_filter_ : Option (P2PPacket → Bool)) (k : OutTick) (s : OutputStream)
    (hatomic : 1 ≤ T.GetAtomicSendMaxLength)
    (hf : ∀ f, packet_filter_ = some f → ∀ p, f p = true)
    (hk : k.fair s) (hst : s.state_ = OutState.kSendingBurst) (hg : s.Good P) :
    (P2PPacketOutputStream.sendingBurst P T packet_filter_ k.write k.now s).next.potential P + 1
      ≤ s.potential P := by
  obtain ⟨hstore, hgs⟩ := hg
  rw [hst] at hgs
  obtain ⟨⟨c, hcur, hold⟩, hpb0, hpbp, hpos⟩ := hgs
  obtain ⟨hval, hprog, -⟩ := hk
  have hreq : 0 ≤ min T.GetAtomicSendMaxLength s.pending_burst_bytes_ :=
    le_min (by omega) hpb0
  obtain ⟨hw0, hw1⟩ := hval _ hreq
  have hwpb : k.write (min T.GetAtomicSendMaxLength s.pending_burst_bytes_)
      ≤ s.pending_burst_bytes_ := le_trans hw1 (min_le_right _ _)
  have hw2 : 0 < s.pending_packet_bytes_ →
      1 ≤ k.write (min T.GetAtomicSendMaxLength s.pending_burst_bytes_) := by
    intro h
    exact hprog _ (le_min hatomic (hpos h))
  have hpot : s.potential P = 2 * s.pending_packet_bytes_.toNat + 2
      + P.storeCost s.total_packet_bytes_
          (s.packet_buffer_.Consume s.current.header.priority) := by
    simp only [OutputStream.potential, hst]
  rw [hpot]
  unfold P2PPacketOutputStream.sendingBurst
  dsimp only
  generalize k.write (min T.GetAtomicSendMaxLength s.pending_burst_bytes_) = w at *
  by_cases h1 : s.pending_packet_bytes_ - w ≤ 0
  · rw [if_pos h1]
    cases hfl : packet_filter_ with
    | none =>
      dsimp only
      simp only [OutputStream.potential, account_pending_packet_bytes,
        account_total_packet_bytes, account_packet_buffer]
      rw [if_pos h1]
      omega
    | some f =>
      dsimp only
      rw [if_pos (hf f hfl _)]
      simp only [OutputStream.potential, account_pending_packet_bytes,
        account_total_packet_bytes, account_packet_buffer]
      rw [if_pos h1]
      omega
  · rw [if_neg h1]
    have hw3 := hw2 (by omega)
    by_cases h2 : s.pending_burst_bytes_ - w ≤ 0
    · rw [if_pos h2]
      simp only [OutputStream.potential]
      rw [if_neg h1]
      simp only [OutputStream.current, hcur]
      omega
    · rw [if_neg h2]
      simp only [hold, hcur, ne_eq, not_true_eq_false, if_false]
      simp only [OutputStream.potential, hst]
      simp only [OutputStream.current, hcur]
      omega

/-- Progress of one fair tick: the potential drops, unless it is already zero. -/
theorem Run_potential (P : Protocol) (T : Transport)
    (packet_filter_ : Option (P2PPacket → Bool)) (k : OutTick) (s : OutputStream)
    (hburst : (P.sizeofHeader : Int) ≤ T.GetBurstMaxLength)
    (hatomic : 1 ≤ T.GetAtomicSendMaxLength)
    (hf : ∀ f, packet_filter_ = some f → ∀ p, f p = true)
    (hk : k.fair s) (hg : s.Good P) :
    (P2PPacketOutputStream.Run P T packet_filter_ k.write k.now s).next.potential P
      ≤ s.potential P - 1 := by
  cases hst : s.state_
  · -- kGettingNextPacket
    obtain ⟨hstore, -⟩ := hg
    simp only [P2PPacketOutputStream.Run, hst]
    cases hold : s.packet_buffer_.OldestValue P with
    | none =>
      dsimp only
      have hp := packets_of_oldest_none P _ hold
      simp only [OutputStream.potential, hst, Protocol.storeCost, hp, List.map_nil, List.sum_nil]
      omega
    | some q =>
      dsimp only
      have hprio := hstore.front_priority q hold
      have hmin : min (P.sizeofHeader : Int) T.GetBurstMaxLength = P.sizeofHeader :=
        min_eq_left hburst
      have hspot : s.potential P = P.cost s.total_packet_bytes_ (s.packet_buffer_.front q)
          + P.storeCost s.total_packet_bytes_ (s.packet_buffer_.Consume q) := by
        simp only [OutputStream.potential, hst]
        exact storeCost_oldest P _ _ q hold
      rw [hspot]
      by_cases hc : (s.packet_buffer_.front q).header.is_continuation = false
      · simp only [hc, if_true, OutputStream.startBurst, hmin]
        simp only [OutputStream.potential, OutputStream.current, Int.toNat_ofNat, hprio, setAt,
          if_true, Protocol.cost, Protocol.totalFor, hc, Bool.false_eq_true, if_false]
        have := storeCost_select P s.total_packet_bytes_ s.packet_buffer_ q
          ((P.sizeofHeader : Int) + (P.networkToLocal (s.packet_buffer_.front q).header.length : Int)
            + (P.sizeofFooter : Int)) hstore
        simp only [setAt] at this
        rw [this]
        omega
      · have hct : (s.packet_buffer_.front q).header.is_continuation = true := by
          simpa using hc
        simp only [hct, Bool.true_eq_false, if_false, OutputStream.startBurst, hmin]
        simp only [OutputStream.potential, OutputStream.current, Int.toNat_ofNat, hprio,
          Protocol.cost, Protocol.totalFor, hct, if_true]
        omega
  · -- kSendingHeaderBurst
    obtain ⟨hstore, hgs⟩ := hg
    rw [hst] at hgs
    obtain ⟨⟨c, hcur, hold⟩, hpp0, hpphs, hpb, hfresh⟩ := hgs
    obtain ⟨hval, hprog, -⟩ := hk
    obtain ⟨hw0, hw1⟩ := hval s.pending_burst_bytes_ (by omega)
    have hw2 := hprog s.pending_burst_bytes_ (by omega)
    have hpot : s.potential P = 2 * s.pending_packet_bytes_.toNat
        + 2 * (P.pendingAfterHeader (s.total_packet_bytes_ s.current.header.priority)
            s.current).toNat + 3
        + P.storeCost s.total_packet_bytes_
            (s.packet_buffer_.Consume s.current.header.priority) := by
      simp only [OutputStream.potential, hst]
    rw [hpot]
    simp only [P2PPacketOutputStream.Run, hst]
    generalize k.write s.pending_burst_bytes_ = w at *
    by_cases h1 : s.pending_packet_bytes_ - w ≤ 0
    · rw [if_pos h1]
      simp only [OutputStream.potential, OutputStream.current, hcur]
      omega
    · have h2 : ¬ s.pending_burst_bytes_ - w ≤ 0 := by omega
      rw [if_neg h1, if_neg h2]
      simp only [OutputStream.potential, hst, OutputStream.current, hcur]
      omega
  · -- kWaitingForHeaderBurstIngestion
    obtain ⟨hstore, hgs⟩ := hg
    rw [hst] at hgs
    obtain ⟨⟨c, hcur, hold⟩, hpp0, hfresh⟩ := hgs
    have hn : ¬ k.now < s.after_burst_wait_end_timestamp_ns_ := hk.2.2 (Or.inl hst)
    have hpp : s.pending_packet_bytes_ ≤ 0 := by omega
    have hpend : 0 ≤ P.pendingAfterHeader (s.total_packet_bytes_ s.current.header.priority)
        s.current := by
      unfold Protocol.pendingAfterHeader
      split_ifs with hc
      · omega
      · have := hfresh (by simpa using hc)
        omega
    have hpot : s.potential P
        = 2 * (P.pendingAfterHeader (s.total_packet_bytes_ s.current.header.priority)
            s.current).toNat + 3
        + P.storeCost s.total_packet_bytes_
            (s.packet_buffer_.Consume s.current.header.priority) := by
      simp only [OutputStream.potential, hst]
    rw [hpot]
    simp only [P2PPacketOutputStream.Run, hst, if_neg hn, if_pos hpp]
    simp only [OutputStream.potential, OutputStream.startBurst, OutputStream.current,
      Protocol.pendingAfterHeader]
    omega
  · -- kSendingBurst
    simp only [P2PPacketOutputStream.Run, hst]
    have := sendingBurst_potential P T packet_filter_ k s hatomic hf hk hst hg
    omega
  · -- kWaitingForBurstIngestion
    obtain ⟨hstore, hgs⟩ := hg
    rw [hst] at hgs
    obtain ⟨hpp0, hon⟩ := hgs
    have hn : ¬ k.now < s.after_burst_wait_end_timestamp_ns_ := hk.2.2 (Or.inr (Or.inl hst))
    simp only [P2PPacketOutputStream.Run, hst, if_neg hn]
    by_cases hpp : s.pending_packet_bytes_ ≤ 0
    · rw [if_pos hpp]
      simp only [OutputStream.potential, hst, if_pos hpp]
      omega
    · rw [if_neg hpp]
      simp only [OutputStream.potential, hst, if_neg hpp, OutputStream.startBurst,
        OutputStream.current]
      omega
  · -- kWaitingForPartialBurstIngestionBeforeHigherPriorityPacket
    have hn : ¬ k.now < s.after_burst_wait_end_timestamp_ns_ := hk.2.2 (Or.inr (Or.inr hst))
    simp only [P2PPacketOutputStream.Run, hst, if_neg hn]
    simp only [OutputStream.potential, hst]
    omega

/-- Progress of a fair run. -/
theorem runTicks_potential (P : Protocol) (T : Transport)
    (packet_filter_ : Option (P2PPacket → Bool)) (ticks : List OutTick) (s : OutputStream)
    (hlen : ∀ h, (P.headerBytes h).length = P.sizeofHeader)
    (hhs : 1 ≤ P.sizeofHeader) (hburst : (P.sizeofHeader : Int) ≤ T.GetBurstMaxLength)
    (hatomic : 1 ≤ T.GetAtomicSendMaxLength)
    (hf : ∀ f, packet_filter_ = some f → ∀ p, f p = true)
    (hfair : fairRun P T packet_filter_ ticks s) (hg : s.Good P) :
    (P2PPacketOutputStream.runTicks P T packet_filter_ ticks s).1.potential P
      ≤ s.potential P - ticks.length := by
  induction ticks generalizing s with
  | nil => simp [P2PPacketOutputStream.runTicks]
  | cons k ks ih =>
    obtain ⟨hk, hrest⟩ := hfair
    have h1 := Run_potential P T packet_filter_ k s hburst hatomic hf hk hg
    have hg' := (Run_stream P T packet_filter_ k s hlen hhs hburst (by omega) hf hk.1 hg).1
    have h2 := ih _ hrest hg'
    simp only [P2PPacketOutputStream.runTicks, List.length_cons]
    omega

/-- A fair run is a run of valid ticks. -/
theorem fairRun_valid (P : Protocol) (T : Transport)
    (packet_filter_ : Option (P2PPacket → Bool)) (ticks : List OutTick) (s : OutputStream)
    (hfair : fairRun P T packet_filter_ ticks s) : ∀ k ∈ ticks, k.valid := by
  induction ticks generalizing s with
  | nil => intro k hk; cases hk
  | cons k ks ih =>
    intro k' hk'
    rcases List.mem_cons.mp hk' with h | h
    · subst h; exact hfair.1.1
    · exact ih _ hfair.2 k' h

/-- At potential zero the framer is idle and nothing is queued. -/
theorem potential_zero (P : Protocol) (s : OutputStream) (h : s.potential P = 0) :
    s.state_ = OutState.kGettingNextPacket ∧ s.packet_buffer_.packets P = [] ∧
      s.remaining P = [] := by
  have hst : s.state_ = OutState.kGettingNextPacket := by
    cases hs : s.state_ <;> simp only [OutputStream.potential, hs] at h <;>
      first
      | rfl
      | omega
      | (split_ifs at h <;> omega)
  simp only [OutputStream.potential, hst, Protocol.storeCost] at h
  have hp : s.packet_buffer_.packets P = [] := by
    cases hq : s.packet_buffer_.packets P with
    | nil => rfl
    | cons x l =>
      rw [hq] at h
      simp only [List.map_cons, List.sum_cons, Protocol.cost] at h
      omega
  refine ⟨hst, hp, ?_⟩
  simp only [OutputStream.remaining, hst, Protocol.storeStream, hp, List.flatMap_nil]

/-! ## The deframer on a well-formed frame -/

/-- A byte other than the start token does not affect stuffing. -/
theorem stuffed_cons_plain (P : Protocol) (b : Nat) (l : List Nat) (hb : b ≠ P.kP2PStartToken) :
    P.stuffed (b :: l) = P.stuffed l := by
  cases l <;> simp [Protocol.stuffed, hb]

/-- In stuffed bytes a start token is followed by the escape token. -/
theorem stuffed_cons_start (P : Protocol) (l : List Nat)
    (h : P.stuffed (P.kP2PStartToken :: l) = true) :
    ∃ l', l = P.kP2PSpecialToken :: l' ∧ P.stuffed l' = true := by
  cases l with
  | nil => simp [Protocol.stuffed] at h
  | cons c l' =>
    simp only [Protocol.stuffed, if_true, Bool.and_eq_true, decide_eq_true_eq] at h
    exact ⟨l', by rw [h.1], h.2⟩

/-- Reading the byte just written. -/
theorem Mem.set_same (m : Mem) (i : Int) (v : Nat) : (m.set i v) i = v := by
  simp [Mem.set]

/-- Writing one byte leaves the others alone. -/
theorem Mem.set_other (m : Mem) (i j : Int) (v : Nat) (h : j ≠ i) : (m.set i v) j = m j := by
  simp [Mem.set, h]

/-- Writing a concatenation is writing its parts one after the other. -/
theorem Mem.setList_append (m : Mem) (i : Int) (l1 l2 : List Nat) :
    m.setList i (l1 ++ l2) = (m.setList i l1).setList (i + l1.length) l2 := by
  induction l1 generalizing m i with
  | nil => simp [Mem.setList]
  | cons b l ih =>
    show (m.set i b).setList (i + 1) (l ++ l2) = _
    rw [ih]
    simp only [Mem.setList, List.length_cons]
    push_cast
    ring_nf

/-- Writing a block leaves the bytes outside it alone. -/
theorem Mem.setList_outside (m : Mem) (i : Int) (l : List Nat) (j : Int)
    (h : j < i ∨ i + l.length ≤ j) : (m.setList i l) j = m j := by
  induction l generalizing m i with
  | nil => rfl
  | cons b l ih =>
    simp only [Mem.setList]
    simp only [List.length_cons] at h
    rw [ih]
    · apply Mem.set_other
      omega
    · push_cast at h
      omega

/-- Reading a byte of the block just written. -/
theorem Mem.setList_inside (m : Mem) (i : Int) (l : List Nat) (k : Nat) (h : k < l.length) :
    (m.setList i l) (i + k) = l[k] := by
  induction l generalizing m i k with
  | nil => simp at h
  | cons b l ih =>
    simp only [Mem.setList]
    cases k with
    | zero =>
      rw [Mem.setList_outside _ _ _ _ (by left; simp)]
      simp [Mem.set]
    | succ k =>
      have := ih (m.set i b) (i + 1) k (by simpa using h)
      simp only [List.getElem_cons_succ]
      rw [← this]
      congr 1
      push_cast
      ring

/-- Reading back the block just written. -/
theorem Mem.toList_setList (m : Mem) (i : Int) (l : List Nat) :
    (m.setList i l).toList i l.length = l := by
  apply List.ext_getElem
  · simp [Mem.toList]
  · intro k h1 h2
    simp only [Mem.toList, List.getElem_map, List.getElem_range]
    exact Mem.setList_inside m i l k h2

/-- Blocks of memories that agree on the range read are equal. -/
theorem Mem.toList_congr (m m' : Mem) (i : Int) (n : Nat)
    (h : ∀ k : Nat, k < n → m' (i + k) = m (i + k)) : m'.toList i n = m.toList i n := by
  unfold Mem.toList
  apply List.map_congr_left
  intro k hk
  exact h k (List.mem_range.mp hk)

/-- Reading a block in two parts. -/
theorem Mem.toList_append (m : Mem) (i : Int) (a b : Nat) :
    m.toList i (a + b) = m.toList i a ++ m.toList (i + a) b := by
  unfold Mem.toList
  rw [List.range_add, List.map_append, List.map_map]
  congr 1
  apply List.map_congr_left
  intro k _
  simp only [Function.comp]
  congr 1
  push_cast
  ring

/-- The second write to a slot wins. -/
theorem InStore.setSlot_setSlot (b : InStore) (p : Nat) (v w : P2PPacket) :
    (b.setSlot p v).setSlot p w = b.setSlot p w := by
  unfold InStore.setSlot
  congr 1
  funext q
  by_cases h : q = p <;> simp [h]

/-- Reading the slot just written. -/
theorem InStore.setSlot_slot (b : InStore) (p : Nat) (v : P2PPacket) :
    (b.setSlot p v).slot p = v := by
  simp [InStore.setSlot]

/-- Writing a slot commits nothing. -/
theorem InStore.setSlot_committed (b : InStore) (p : Nat) (v : P2PPacket) :
    (b.setSlot p v).committed = b.committed := rfl

/-- A deframer tick that reads the byte offered. -/
theorem runTicks_read (P : Protocol) (E : InEnv) (clk : Nat → Nat) (t n : Nat) (b : Nat)
    (rest : List Nat) (s s' : InputStream) (evs : List InEvent)
    (h : P2PPacketInputStream.Run P E (some b) (clk t) s = (s', evs))
    (hc : consumed evs = true) :
    P2PPacketInputStream.runTicks P E clk t (n + 1) (b :: rest) s
      = P2PPacketInputStream.runTicks P E clk (t + 1) n rest s' := by
  rw [runTicks_succ]
  simp only [List.head?_cons, h, hc, if_true, List.tail_cons]

/-- A deframer tick that reads nothing. -/
theorem runTicks_skip (P : Protocol) (E : InEnv) (clk : Nat → Nat) (t n : Nat)
    (bytes : List Nat) (s s' : InputStream) (evs : List InEvent)
    (h : P2PPacketInputStream.Run P E bytes.head? (clk t) s = (s', evs))
    (hc : consumed evs = false) :
    P2PPacketInputStream.runTicks P E clk t (n + 1) bytes s
      = P2PPacketInputStream.runTicks P E clk (t + 1) n bytes s' := by
  rw [runTicks_succ]
  simp only [h, hc]
  rfl

/-- Reading header bytes that are neither token. -/
theorem runTicks_header (P : Protocol) (E : InEnv) (clk : Nat → Nat) (l : List Nat) :
    ∀ (t n : Nat) (rest : List Nat) (s : InputStream) (i : Nat),
      s.state_ = InState.kReadingHeader → s.current_field_read_bytes_ = (i : Int) →
      i + l.length ≤ P.sizeofHeader →
      (∀ b ∈ l, b ≠ P.kP2PStartToken ∧ b ≠ P.kP2PSpecialToken) →
      P2PPacketInputStream.runTicks P E clk t (l.length + n) (l ++ rest) s
        = P2PPacketInputStream.runTicks P E clk (t + l.length) n rest
            { s with incoming_header_ := s.incoming_header_.setList i l,
                     current_field_read_bytes_ := (i : Int) + l.length } := by
  induction l with
  | nil =>
    intro t n rest s i hst hcrb _ _
    simp only [List.length_nil, Nat.zero_add, List.nil_append, Nat.add_zero, Mem.setList,
      Nat.cast_zero, add_zero]
    rw [← hcrb]
  | cons b l ih =>
    intro t n rest s i hst hcrb hlen hclean
    simp only [List.length_cons] at hlen
    have hb := hclean b (List.mem_cons_self _ _)
    have hnf : ¬ ((P.sizeofHeader : Int) ≤ s.current_field_read_bytes_) := by
      rw [hcrb]; omega
    have hrun : P2PPacketInputStream.Run P E (some b) (clk t) s
        = ({ s with incoming_header_ := s.incoming_header_.set i b,
                    current_field_read_bytes_ := (i : Int) + 1 }, [InEvent.read b]) := by
      simp only [P2PPacketInputStream.Run, hst]
      rw [if_neg hnf]
      simp only [if_neg hb.1, if_neg hb.2, hcrb]
    have e1 : (b :: l).length + n = (l.length + n) + 1 := by simp; omega
    rw [e1, List.cons_append, runTicks_read P E clk t _ b _ s _ _ hrun (by simp [consumed])]
    have hih := ih (t + 1) n rest
      { s with incoming_header_ := s.incoming_header_.set i b,
               current_field_read_bytes_ := (i : Int) + 1 } (i + 1) hst (by simp) (by omega)
      (fun b' hb' => hclean b' (List.mem_cons_of_mem _ hb'))
    rw [hih]
    congr 1
    · simp only [List.length_cons]; omega
    · simp only [Mem.setList, List.length_cons]
      congr 1
      push_cast
      ring

/-- Writing back the value of a slot changes nothing. -/
theorem InStore.setSlot_self (b : InStore) (p : Nat) : b.setSlot p (b.slot p) = b := by
  unfold InStore.setSlot
  have : (fun q => if q = p then b.slot p else b.slot q) = b.slot := by
    funext q
    by_cases h : q = p <;> simp [h]
  rw [this]

/-- Storing no bytes and keeping state and count changes nothing. -/
theorem InputStream.stored_nil (s : InputStream) (prio : Nat) (i : Int) :
    s.stored prio i [] s.state_ s.current_field_read_bytes_ = s := by
  unfold InputStream.stored
  simp only [Mem.setList]
  rw [InStore.setSlot_self]

/-- Storing two adjacent blocks is storing their concatenation. -/
theorem InputStream.stored_stored (s : InputStream) (prio : Nat) (i : Int) (l1 l2 : List Nat)
    (st1 st2 : InState) (c1 c2 : Int) :
    (s.stored prio i l1 st1 c1).stored prio (i + l1.length) l2 st2 c2
      = s.stored prio i (l1 ++ l2) st2 c2 := by
  unfold InputStream.stored
  simp only [InStore.setSlot_setSlot, InStore.setSlot_slot, Mem.setList_append]

/-- Storing content bytes keeps the incoming header. -/
theorem InputStream.stored_incoming (P : Protocol) (s : InputStream) (prio : Nat) (i : Int)
    (l : List Nat) (st : InState) (c : Int) :
    (s.stored prio i l st c).incoming P = s.incoming P := rfl

/-- Storing content bytes keeps the header in the slot. -/
theorem InputStream.stored_header (P : Protocol) (s : InputStream) (i : Int) (l : List Nat)
    (st : InState) (c : Int) :
    ((s.stored (s.incoming P).priority i l st c).packet_buffer_.slot
        ((s.stored (s.incoming P).priority i l st c).incoming P).priority).header
      = (s.packet_buffer_.slot (s.incoming P).priority).header := by
  simp [InputStream.stored, InputStream.incoming, InStore.setSlot]

/-- Reading stuffed content bytes. -/
theorem runTicks_content (P : Protocol) (E : InEnv) (clk : Nat → Nat) :
    ∀ (m : Nat) (l : List Nat), l.length = m → P.stuffed l = true →
    ∀ (t n : Nat) (rest : List Nat) (s : InputStream) (i : Int),
      s.state_ = InState.kReadingContent → s.current_field_read_bytes_ = i →
      i + l.length ≤ (s.packet_buffer_.slot (s.incoming P).priority).header.length →
      P2PPacketInputStream.runTicks P E clk t (l.length + n) (l ++ rest) s
        = P2PPacketInputStream.runTicks P E clk (t + l.length) n rest
            (s.stored (s.incoming P).priority i l InState.kReadingContent (i + l.length)) := by
  intro m
  induction m using Nat.strong_induction_on with
  | _ m ih =>
    intro l hlm hstuffed t n rest s i hst hcrb hlen
    match l, hlm, hstuffed, hlen with
    | [], _, _, _ =>
      simp only [List.length_nil, Nat.zero_add, List.nil_append, Nat.add_zero, Nat.cast_zero,
        add_zero]
      rw [← hcrb, ← hst, InputStream.stored_nil]
    | b :: l', hlm, hstuffed, hlen =>
      simp only [List.length_cons] at hlen hlm
      push_cast at hlen
      have hnf : ¬ (((s.packet_buffer_.slot (s.incoming P).priority).header.length : Int)
          ≤ s.current_field_read_bytes_) := by
        rw [hcrb]; omega
      by_cases hb : b = P.kP2PStartToken
      · -- a start token, followed by the escape token
        rw [hb] at hstuffed
        obtain ⟨l'', hl'', hst2⟩ := stuffed_cons_start P l' hstuffed
        subst hl''
        simp only [List.length_cons] at hlen hlm
        push_cast at hlen
        have hlt : s.current_field_read_bytes_ + 1
            < ((s.packet_buffer_.slot (s.incoming P).priority).header.length : Int) := by
          rw [hcrb]; omega
        have hrun1 : P2PPacketInputStream.Run P E (some b) (clk t) s
            = (s.stored (s.incoming P).priority i [b]
                InState.kDisambiguatingStartTokenInContent (i + 1),
               [InEvent.newValue (s.incoming P).priority, InEvent.read b,
                InEvent.writeContent (s.incoming P).priority s.current_field_read_bytes_ b]) := by
          simp only [P2PPacketInputStream.Run, hst]
          rw [if_neg hnf, if_pos hb, if_pos hlt]
          simp only [InputStream.stored, Mem.setList, hcrb]
        have hrun2 : P2PPacketInputStream.Run P E (some P.kP2PSpecialToken) (clk (t + 1))
            (s.stored (s.incoming P).priority i [b]
                InState.kDisambiguatingStartTokenInContent (i + 1))
            = ((s.stored (s.incoming P).priority i [b]
                InState.kDisambiguatingStartTokenInContent (i + 1)).stored
                  (s.incoming P).priority (i + 1) [P.kP2PSpecialToken] InState.kReadingContent
                  (i + 1 + 1),
               [InEvent.newValue (s.incoming P).priority, InEvent.read P.kP2PSpecialToken,
                InEvent.writeContent (s.incoming P).priority (i + 1) P.kP2PSpecialToken]) := by
          simp only [P2PPacketInputStream.Run, InputStream.stored, InputStream.incoming,
            if_true, Mem.setList]
        have e1 : (b :: P.kP2PSpecialToken :: l'').length + n = (l''.length + n) + 1 + 1 := by
          simp only [List.length_cons]; omega
        rw [e1, List.cons_append, List.cons_append,
          runTicks_read P E clk t _ b _ s _ _ hrun1 (by simp [consumed]),
          runTicks_read P E clk (t + 1) _ _ _ _ _ _ hrun2 (by simp [consumed])]
        have hss := InputStream.stored_stored s (s.incoming P).priority i [b]
          [P.kP2PSpecialToken] InState.kDisambiguatingStartTokenInContent
          InState.kReadingContent (i + 1) (i + 1 + 1)
        simp only [List.length_singleton, Nat.cast_one, List.singleton_append] at hss
        rw [hss]
        have hih := ih l''.length (by omega) l'' rfl hst2 (t + 1 + 1) n rest
          (s.stored (s.incoming P).priority i [b, P.kP2PSpecialToken] InState.kReadingContent
            (i + 1 + 1)) (i + 1 + 1) rfl rfl
          (by rw [InputStream.stored_header]; omega)
        rw [hih, InputStream.stored_incoming]
        have hss2 := InputStream.stored_stored s (s.incoming P).priority i
          [b, P.kP2PSpecialToken] l''
          InState.kReadingContent InState.kReadingContent (i + 1 + 1)
          (i + 1 + 1 + l''.length)
        simp only [List.length_cons, List.length_nil, List.cons_append, List.nil_append]
          at hss2
        have e2 : i + ((0 + 1 + 1 : Nat) : Int) = i + 1 + 1 := by
          push_cast; ring
        rw [e2] at hss2
        rw [hss2]
        congr 1
        · simp only [List.length_cons]; omega
        · congr 1
          simp only [List.length_cons]
          push_cast
          ring
      · -- a plain byte
        rw [stuffed_cons_plain P b l' hb] at hstuffed
        have hrun1 : P2PPacketInputStream.Run P E (some b) (clk t) s
            = (s.stored (s.incoming P).priority i [b] InState.kReadingContent (i + 1),
               [InEvent.newValue (s.incoming P).priority, InEvent.read b,
                InEvent.writeContent (s.incoming P).priority s.current_field_read_bytes_ b]) := by
          simp only [P2PPacketInputStream.Run, hst]
          rw [if_neg hnf, if_neg hb]
          simp only [InputStream.stored, Mem.setList, hcrb, hst]
        have e1 : (b :: l').length + n = (l'.length + n) + 1 := by
          simp only [List.length_cons]; omega
        rw [e1, List.cons_append,
          runTicks_read P E clk t _ b _ s _ _ hrun1 (by simp [consumed])]
        have hih := ih l'.length (by omega) l' rfl hstuffed (t + 1) n rest
          (s.stored (s.incoming P).priority i [b] InState.kReadingContent (i + 1))
          (i + 1) rfl rfl
          (by rw [InputStream.stored_header]; omega)
        rw [hih, InputStream.stored_incoming]
        have hss2 := InputStream.stored_stored s (s.incoming P).priority i [b] l'
          InState.kReadingContent InState.kReadingContent (i + 1)
          (i + 1 + l'.length)
        simp only [List.length_singleton, Nat.cast_one, List.singleton_append] at hss2
        rw [hss2]
        congr 1
        · simp only [List.length_cons]; omega
        · congr 1
          simp only [List.length_cons]
          push_cast
          ring

/-- Reading footer bytes that are neither token, the last footer byte excluded. -/
theorem runTicks_footer (P : Protocol) (E : InEnv) (clk : Nat → Nat) (l : List Nat) :
    ∀ (t n : Nat) (rest : List Nat) (s : InputStream) (j : Int),
      s.state_ = InState.kReadingFooter → s.current_field_read_bytes_ = j →
      j + l.length < P.sizeofFooter →
      (∀ b ∈ l, b ≠ P.kP2PStartToken ∧ b ≠ P.kP2PSpecialToken) →
      P2PPacketInputStream.runTicks P E clk t (l.length + n) (l ++ rest) s
        = P2PPacketInputStream.runTicks P E clk (t + l.length) n rest
            (s.stored (s.incoming P).priority
              ((s.packet_buffer_.slot (s.incoming P).priority).header.length + j) l
              InState.kReadingFooter (j + l.length)) := by
  induction l with
  | nil =>
    intro t n rest s j hst hcrb _ _
    simp only [List.length_nil, Nat.zero_add, List.nil_append, Nat.add_zero, Nat.cast_zero,
      add_zero]
    rw [← hcrb, ← hst, InputStream.stored_nil]
  | cons b l ih =>
    intro t n rest s j hst hcrb hlen hclean
    simp only [List.length_cons] at hlen
    push_cast at hlen
    have hb := hclean b (List.mem_cons_self _ _)
    have hnf : ¬ ((P.sizeofFooter : Int) ≤ s.current_field_read_bytes_) := by
      rw [hcrb]; omega
    have hnl : ¬ ((P.sizeofFooter : Int) ≤ s.current_field_read_bytes_ + 1) := by
      rw [hcrb]; omega
    have hrun : P2PPacketInputStream.Run P E (some b) (clk t) s
        = (s.stored (s.incoming P).priority
            ((s.packet_buffer_.slot (s.incoming P).priority).header.length + j) [b]
            InState.kReadingFooter (j + 1),
           [InEvent.newValue (s.incoming P).priority, InEvent.read b,
            InEvent.writeFooter (s.incoming P).priority s.current_field_read_bytes_ b]) := by
      simp only [P2PPacketInputStream.Run, hst]
      rw [if_neg hnf, if_neg hb.1]
      simp only [if_neg hb.2]
      rw [if_neg hnl]
      simp only [InputStream.stored, Mem.setList, hcrb, hst]
    have e1 : (b :: l).length + n = (l.length + n) + 1 := by simp; omega
    rw [e1, List.cons_append, runTicks_read P E clk t _ b _ s _ _ hrun (by simp [consumed])]
    have hih := ih (t + 1) n rest
      (s.stored (s.incoming P).priority
        ((s.packet_buffer_.slot (s.incoming P).priority).header.length + j) [b]
        InState.kReadingFooter (j + 1)) (j + 1) rfl rfl (by omega)
      (fun b' hb' => hclean b' (List.mem_cons_of_mem _ hb'))
    rw [hih, InputStream.stored_header, InputStream.stored_incoming]
    have hss := InputStream.stored_stored s (s.incoming P).priority
      ((s.packet_buffer_.slot (s.incoming P).priority).header.length + j) [b] l
      InState.kReadingFooter InState.kReadingFooter (j + 1) (j + 1 + l.length)
    simp only [List.length_singleton, Nat.cast_one, List.singleton_append] at hss
    rw [show ((s.packet_buffer_.slot (s.incoming P).priority).header.length : Int) + (j + 1)
      = ((s.packet_buffer_.slot (s.incoming P).priority).header.length : Int) + j + 1
      from by ring, hss]
    congr 1
    · simp only [List.length_cons]; omega
    · congr 1
      simp only [List.length_cons]
      push_cast
      ring

/-- The tick that reads the last footer byte of a packet that passes the integrity check and
the filter. -/
theorem Run_last_footer_byte (P : Protocol) (E : InEnv) (now : Nat) (b : Nat) (s : InputStream)
    (hst : s.state_ = InState.kReadingFooter)
    (hcrb : s.current_field_read_bytes_ + 1 = P.sizeofFooter)
    (hb1 : b ≠ P.kP2PStartToken) (hb2 : b ≠ P.kP2PSpecialToken)
    (hok : (E.prepareToRead (s.assembled P b)).1 = true)
    (hfl : ∀ f, E.packet_filter_ = some f → f (E.prepareToRead (s.assembled P b)).2 = true) :
    consumed (P2PPacketInputStream.Run P E (some b) now s).2 = true ∧
    (P2PPacketInputStream.Run P E (some b) now s).1.state_ = InState.kWaitingForPacket ∧
    (P2PPacketInputStream.Run P E (some b) now s).1.packet_buffer_.committed
      = s.packet_buffer_.committed ++
          [((s.incoming P).priority,
            { (E.prepareToRead (s.assembled P b)).2 with commit_time_ns := now })] := by
  have hnf : ¬ ((P.sizeofFooter : Int) ≤ s.current_field_read_bytes_) := by omega
  have hl : (P.sizeofFooter : Int) ≤ s.current_field_read_bytes_ + 1 := by omega
  simp only [P2PPacketInputStream.Run, hst]
  rw [if_neg hnf, if_neg hb1]
  simp only [if_neg hb2]
  rw [if_pos hl]
  have hok' := hok
  simp only [InputStream.assembled] at hok' hfl
  rw [if_pos hok']
  cases hf : E.packet_filter_ with
  | none =>
    simp [consumed, InStore.Commit, InStore.setSlot, InputStream.assembled]
  | some f =>
    have := hfl f hf
    simp only []
    rw [if_pos this]
    simp [consumed, InStore.Commit, InStore.setSlot, InputStream.assembled]

/-- The length of a block read. -/
theorem Mem.toList_length (m : Mem) (i : Int) (n : Nat) : (m.toList i n).length = n := by
  simp [Mem.toList]

/-- A block of one byte. -/
theorem Mem.toList_one (m : Mem) (i : Int) : m.toList i 1 = [m i] := by
  simp [Mem.toList, List.range_succ]

/-- Reading a whole header from `kWaitingForPacket`. -/
theorem runTicks_frame_header (P : Protocol) (E : InEnv) (clk : Nat → Nat) (hdr : List Nat)
    (t n : Nat) (rest : List Nat) (s : InputStream)
    (hst : s.state_ = InState.kWaitingForPacket)
    (hlen : hdr.length = P.sizeofHeader)
    (hstart : hdr.head? = some P.kP2PStartToken)
    (hclean : ∀ b ∈ hdr.tail, b ≠ P.kP2PStartToken ∧ b ≠ P.kP2PSpecialToken) :
    P2PPacketInputStream.runTicks P E clk t (hdr.length + n) (hdr ++ rest) s
      = P2PPacketInputStream.runTicks P E clk (t + hdr.length) n rest
          { s with state_ := InState.kReadingHeader,
                   incoming_header_ := s.incoming_header_.setList 0 hdr,
                   current_field_read_bytes_ := (P.sizeofHeader : Int) } := by
  match hdr, hlen, hstart, hclean with
  | b :: l, hlen, hstart, hclean =>
    simp only [List.head?_cons, Option.some.injEq] at hstart
    simp only [List.tail_cons] at hclean
    simp only [List.length_cons] at hlen
    have hrun : P2PPacketInputStream.Run P E (some b) (clk t) s
        = ({ s with incoming_header_ := s.incoming_header_.set 0 b,
                    state_ := InState.kReadingHeader, current_field_read_bytes_ := 1 },
           [InEvent.read b]) := by
      simp only [P2PPacketInputStream.Run, hst, if_pos hstart]
    have e1 : (b :: l).length + n = (l.length + n) + 1 := by
      simp only [List.length_cons]; omega
    rw [e1, List.cons_append, runTicks_read P E clk t _ b _ s _ _ hrun (by simp [consumed])]
    have hh := runTicks_header P E clk l (t + 1) n rest
      { s with incoming_header_ := s.incoming_header_.set 0 b,
               state_ := InState.kReadingHeader, current_field_read_bytes_ := 1 } 1 rfl rfl
      (by omega) hclean
    rw [hh]
    congr 1
    · simp only [List.length_cons]; omega
    · simp only [Mem.setList, Nat.cast_one, zero_add]
      congr 1
      rw [← hlen]
      push_cast
      ring

/-- The slot written by `stored`. -/
theorem InputStream.stored_slot (s : InputStream) (prio : Nat) (i : Int) (l : List Nat)
    (st : InState) (c : Int) :
    (s.stored prio i l st c).packet_buffer_.slot prio
      = { s.packet_buffer_.slot prio with
          content := (s.packet_buffer_.slot prio).content.setList i l } := by
  simp only [InputStream.stored, InStore.setSlot_slot]

/-- The content buffer after content `C`, footer `F0 ++ [fl]` and the checksum
conversion `ck` have been written. -/
theorem Mem.assembled (c0 : Mem) (C F0 : List Nat) (fl : Nat) (ck : List Nat → List Nat)
    (hck : ∀ l, (ck l).length = l.length) (c1 m : Mem)
    (hc1 : c1 = ((c0.setList 0 C).setList (C.length : Int) F0).set
      ((C.length : Int) + F0.length) fl)
    (hm : m = c1.setList (C.length : Int) (ck (c1.toList (C.length : Int) (F0.length + 1)))) :
    m.toList 0 C.length = C ∧ m.toList C.length (F0.length + 1) = ck (F0 ++ [fl]) := by
  have h1 : c1.toList (C.length : Int) (F0.length + 1) = F0 ++ [fl] := by
    rw [Mem.toList_append, Mem.toList_one]
    congr 1
    · have h0 : c1.toList (C.length : Int) F0.length
          = ((c0.setList 0 C).setList (C.length : Int) F0).toList (C.length : Int) F0.length := by
        apply Mem.toList_congr
        intro k hk
        rw [hc1, Mem.set_other]
        omega
      rw [h0, Mem.toList_setList]
    · rw [hc1, Mem.set_same]
  constructor
  · have h2 : m.toList 0 C.length = (c0.setList 0 C).toList 0 C.length := by
      apply Mem.toList_congr
      intro k hk
      rw [hm, Mem.setList_outside _ _ _ _ (Or.inl (by omega)), hc1, Mem.set_other _ _ _ _ (by omega),
        Mem.setList_outside _ _ _ _ (Or.inl (by omega))]
    rw [h2, Mem.toList_setList]
  · rw [hm, h1]
    have h3 : (ck (F0 ++ [fl])).length = F0.length + 1 := by
      rw [hck]; simp
    rw [← h3, Mem.toList_setList]

/-- The header is complete and announces a fresh packet of a valid priority. -/
theorem Run_fresh_header (P : Protocol) (E : InEnv) (avail : Option Nat) (now : Nat)
    (s : InputStream) (h : P2PHeader)
    (hst : s.state_ = InState.kReadingHeader)
    (hcrb : (P.sizeofHeader : Int) ≤ s.current_field_read_bytes_)
    (hinc : s.incoming P = h) (hprio : h.priority < P.kNumLevels)
    (hfresh : h.is_continuation = false) :
    P2PPacketInputStream.Run P E avail now s
      = ({ s with packet_buffer_ := s.packet_buffer_.setSlot h.priority
                    { s.packet_buffer_.slot h.priority with
                      header := { h with length := P.networkToLocal h.length } },
                  write_offset_before_break_ := setAt s.write_offset_before_break_ h.priority 0,
                  current_field_read_bytes_ := 0,
                  state_ := InState.kReadingContent },
         [InEvent.newValue h.priority, InEvent.writeHeader h.priority]) := by
  have hp : ¬ P.kNumLevels ≤ h.priority := by omega
  simp only [P2PPacketInputStream.Run, hst]
  rw [if_pos hcrb]
  simp only [hinc, if_neg hp, hfresh, if_true]

/-- All declared content bytes are in: the footer follows. -/
theorem Run_content_complete (P : Protocol) (E : InEnv) (avail : Option Nat) (now : Nat)
    (s : InputStream)
    (hst : s.state_ = InState.kReadingContent)
    (hcrb : ((s.packet_buffer_.slot (s.incoming P).priority).header.length : Int)
      ≤ s.current_field_read_bytes_) :
    P2PPacketInputStream.Run P E avail now s
      = ({ s with state_ := InState.kReadingFooter, current_field_read_bytes_ := 0 },
         [InEvent.newValue (s.incoming P).priority]) := by
  simp only [P2PPacketInputStream.Run, hst]
  rw [if_pos hcrb]

/-- The deframer rebuilds a sendable packet from its frame: starting in
`kWaitingForPacket`, it reads the whole frame in the length of the frame plus two
ticks, commits one packet and is back in `kWaitingForPacket`. -/
theorem runTicks_frame (P : Protocol) (E : InEnv) (clk : Nat → Nat) (p : P2PPacket)
    (hp : P.Sendable E p)
    (hlenH : ∀ h, (P.headerBytes h).length = P.sizeofHeader) (hfs : 1 ≤ P.sizeofFooter)
    (hck : ∀ l, (P.checksumNetworkToLocal l).length = l.length)
    (t n : Nat) (rest : List Nat) (s : InputStream)
    (hst : s.state_ = InState.kWaitingForPacket) :
    ∃ s' a now,
      P2PPacketInputStream.runTicks P E clk t ((P.wire p).length + 2 + n) (P.wire p ++ rest) s
        = P2PPacketInputStream.runTicks P E clk (t + ((P.wire p).length + 2)) n rest s' ∧
      s'.state_ = InState.kWaitingForPacket ∧ P.received p a ∧
      s'.packet_buffer_.committed = s.packet_buffer_.committed ++
        [(p.header.priority, { (E.prepareToRead a).2 with commit_time_ns := now })] := by
  -- the three parts of the frame
  obtain ⟨H, hH⟩ : ∃ H, H = P.headerBytes p.header := ⟨_, rfl⟩
  obtain ⟨L, hL⟩ : ∃ L, L = P.localLength p := ⟨_, rfl⟩
  obtain ⟨C, hC⟩ : ∃ C, C = p.content.toList 0 L := ⟨_, rfl⟩
  obtain ⟨k, hk⟩ : ∃ k, P.sizeofFooter = k + 1 := ⟨P.sizeofFooter - 1, by omega⟩
  obtain ⟨F0, hF0⟩ : ∃ F0, F0 = p.content.toList L k := ⟨_, rfl⟩
  obtain ⟨fl, hfl⟩ : ∃ fl, fl = p.content ((L : Int) + k) := ⟨_, rfl⟩
  have hF : p.content.toList L P.sizeofFooter = F0 ++ [fl] := by
    rw [hk, Mem.toList_append, Mem.toList_one, hF0, hfl]
  have hHlen : H.length = P.sizeofHeader := by rw [hH]; exact hlenH _
  have hClen : C.length = L := by rw [hC]; exact Mem.toList_length _ _ _
  have hF0len : F0.length = k := by rw [hF0]; exact Mem.toList_length _ _ _
  have hwire : P.wire p = H ++ (C ++ (F0 ++ [fl])) := by
    simp only [Protocol.wire, ← hL, ← hH, ← hC, hF, List.append_assoc]
  have hwlen : (P.wire p).length = H.length + (C.length + (F0.length + 1)) := by
    rw [hwire]; simp
  -- header
  obtain ⟨s2, hs2⟩ : ∃ s2 : InputStream, s2 =
      { s with
        state_ := InState.kReadingHeader,
        incoming_header_ := s.incoming_header_.setList 0 H,
        current_field_read_bytes_ := (P.sizeofHeader : Int) } := ⟨_, rfl⟩
  have hinc2 : s2.incoming P = p.header := by
    rw [hs2]
    simp only [InputStream.incoming]
    rw [← hHlen, Mem.toList_setList, hH, hp.codec]
  have step1 := runTicks_frame_header P E clk H t
    (C.length + (F0.length + (n + 1) + 1) + 1) (C ++ (F0 ++ fl :: rest)) s hst hHlen
    (by rw [hH]; exact hp.start) (by rw [hH]; exact hp.header_clean)
  rw [← hs2] at step1
  -- the header is processed
  obtain ⟨s3, hs3⟩ : ∃ s3 : InputStream, s3 =
      { s2 with
        packet_buffer_ := s2.packet_buffer_.setSlot p.header.priority
                    { s2.packet_buffer_.slot p.header.priority with
                      header := { p.header with length := P.networkToLocal p.header.length } },
        write_offset_before_break_ := setAt s2.write_offset_before_break_ p.header.priority 0,
        current_field_read_bytes_ := 0,
        state_ := InState.kReadingContent } := ⟨_, rfl⟩
  have hrun3 := Run_fresh_header P E ((C ++ (F0 ++ fl :: rest)).head?) (clk (t + H.length))
    s2 p.header (by rw [hs2]) (by rw [hs2]) hinc2 hp.prio hp.fresh
  rw [← hs3] at hrun3
  have step2 := runTicks_skip P E clk (t + H.length) (C.length + (F0.length + (n + 1) + 1))
    (C ++ (F0 ++ fl :: rest)) s2 s3 _ hrun3 (by simp [consumed])
  have hinc3 : s3.incoming P = p.header := by
    rw [hs3]; exact hinc2
  have hlen3 : (s3.packet_buffer_.slot (s3.incoming P).priority).header.length = L := by
    rw [hinc3, hs3]
    simp only [InStore.setSlot_slot, hL, Protocol.localLength]
  -- content
  have step3 := runTicks_content P E clk C.length C rfl (by rw [hC, hL]; exact hp.stuffed)
    (t + H.length + 1) (F0.length + (n + 1) + 1) (F0 ++ fl :: rest) s3 0
    (by rw [hs3]) (by rw [hs3]) (by rw [hlen3, hClen]; simp)
  obtain ⟨s4, hs4⟩ : ∃ s4 : InputStream, s4 = s3.stored (s3.incoming P).priority 0 C
      InState.kReadingContent (0 + C.length) := ⟨_, rfl⟩
  rw [← hs4] at step3
  have hinc4 : s4.incoming P = p.header := by
    rw [hs4, InputStream.stored_incoming, hinc3]
  have hlen4 : (s4.packet_buffer_.slot (s4.incoming P).priority).header.length = L := by
    rw [hs4, InputStream.stored_header, hlen3]
  -- the content is complete
  obtain ⟨s5, hs5⟩ : ∃ s5 : InputStream, s5 =
      { s4 with
        state_ := InState.kReadingFooter,
        current_field_read_bytes_ := 0 } := ⟨_, rfl⟩
  have hrun5 := Run_content_complete P E ((F0 ++ fl :: rest).head?)
    (clk (t + H.length + 1 + C.length)) s4 (by rw [hs4]; rfl)
    (by rw [hlen4, hs4]; simp [InputStream.stored, hClen])
  rw [← hs5] at hrun5
  have step4 := runTicks_skip P E clk (t + H.length + 1 + C.length) (F0.length + (n + 1))
    (F0 ++ fl :: rest) s4 s5 _ hrun5 (by simp [consumed])
  have hinc5 : s5.incoming P = p.header := by
    rw [hs5]; exact hinc4
  have hlen5 : (s5.packet_buffer_.slot (s5.incoming P).priority).header.length = L := by
    rw [hs5]; exact hlen4
  -- footer, but for its last byte
  have hFclean : ∀ b ∈ F0 ++ [fl], b ≠ P.kP2PStartToken ∧ b ≠ P.kP2PSpecialToken := by
    rw [← hF, hL]; exact hp.footer_clean
  have step5 := runTicks_footer P E clk F0 (t + H.length + 1 + C.length + 1) (n + 1)
    (fl :: rest) s5 0 (by rw [hs5]) (by rw [hs5]) (by rw [hF0len, hk]; push_cast; omega)
    (fun b hb => hFclean b (List.mem_append_left _ hb))
  obtain ⟨s6, hs6⟩ : ∃ s6 : InputStream, s6 = s5.stored (s5.incoming P).priority
      ((s5.packet_buffer_.slot (s5.incoming P).priority).header.length + 0) F0
      InState.kReadingFooter (0 + F0.length) := ⟨_, rfl⟩
  rw [← hs6] at step5
  have hinc6 : s6.incoming P = p.header := by
    rw [hs6, InputStream.stored_incoming, hinc5]
  -- the last footer byte
  have hfl6 := hFclean fl (List.mem_append_right _ (List.mem_singleton.mpr rfl))
  have hrec : P.received p (s6.assembled P fl) := by
    have hslot : s6.packet_buffer_.slot p.header.priority
        = { header := { p.header with length := L },
            content := (((s.packet_buffer_.slot p.header.priority).content.setList 0 C).setList
              (C.length : Int) F0),
            commit_time_ns := (s.packet_buffer_.slot p.header.priority).commit_time_ns } := by
      rw [hs6, hlen5, hinc5, InputStream.stored_slot, hs5]
      simp only []
      rw [hs4, hinc3, InputStream.stored_slot, hs3]
      simp only [InStore.setSlot_slot, hs2, hL, Protocol.localLength, hClen, add_zero]
    have hcrb6 : s6.current_field_read_bytes_ = (F0.length : Int) := by
      rw [hs6]; simp [InputStream.stored]
    have hmem := Mem.assembled (s.packet_buffer_.slot p.header.priority).content C F0 fl
      P.checksumNetworkToLocal hck _ _ rfl rfl
    simp only [Protocol.received, InputStream.assembled, hinc6, hslot, hcrb6, ← hL]
    rw [hF, ← hC, hk, ← hF0len, ← hClen]
    exact ⟨trivial, hmem.1, hmem.2⟩
  have hacc := hp.accepted _ hrec
  have hlast := Run_last_footer_byte P E (clk (t + H.length + 1 + C.length + 1 + F0.length)) fl s6
    (by rw [hs6]; rfl) (by rw [hs6]; simp [InputStream.stored, hF0len, hk])
    hfl6.1 hfl6.2 hacc.1 hacc.2
  obtain ⟨r, hr⟩ : ∃ r, r = P2PPacketInputStream.Run P E (some fl)
      (clk (t + H.length + 1 + C.length + 1 + F0.length)) s6 := ⟨_, rfl⟩
  rw [← hr] at hlast
  have step6 := runTicks_read P E clk (t + H.length + 1 + C.length + 1 + F0.length) n fl rest s6
    r.1 r.2 (by rw [hr]) hlast.1
  refine ⟨r.1, s6.assembled P fl, clk (t + H.length + 1 + C.length + 1 + F0.length), ?_,
    hlast.2.1, hrec, ?_⟩
  · have e : t + ((P.wire p).length + 2) = t + H.length + 1 + C.length + 1 + F0.length + 1 := by
      rw [hwlen]; omega
    rw [e, ← step6, ← step5, ← step4, ← step3, ← step2, ← step1, hwlen, hwire]
    congr 1
    · omega
    · simp
  · rw [hlast.2.2, hinc6]
    have hcm : s6.packet_buffer_.committed = s.packet_buffer_.committed := by
      rw [hs6, hs5, hs4, hs3, hs2]; rfl
    rw [hcm]

/-! ## Round trip -/

/-- An idle deframer with nothing to read stays as it is. -/
theorem runTicks_idle (P : Protocol) (E : InEnv) (clk : Nat → Nat) (n : Nat) :
    ∀ (t : Nat) (s : InputStream), s.state_ = InState.kWaitingForPacket →
      P2PPacketInputStream.runTicks P E clk t n [] s = (s, []) := by
  induction n with
  | zero => intro t s _; rfl
  | succ n ih =>
    intro t s hst
    have hrun : P2PPacketInputStream.Run P E ([] : List Nat).head? (clk t) s = (s, []) := by
      simp only [P2PPacketInputStream.Run, hst, List.head?_nil]
    rw [runTicks_skip P E clk t n [] s s [] hrun (by simp [consumed])]
    exact ih (t + 1) s hst

/-- The deframer rebuilds a sequence of sendable packets from their frames. -/
theorem runTicks_frames (P : Protocol) (E : InEnv) (clk : Nat → Nat)
    (hlenH : ∀ h, (P.headerBytes h).length = P.sizeofHeader) (hfs : 1 ≤ P.sizeofFooter)
    (hck : ∀ l, (P.checksumNetworkToLocal l).length = l.length) (ps : List P2PPacket) :
    (∀ p ∈ ps, P.Sendable E p) →
    ∀ (t n : Nat) (s : InputStream), s.state_ = InState.kWaitingForPacket →
    ∃ s' cs,
      P2PPacketInputStream.runTicks P E clk t
          ((ps.flatMap P.wire).length + 2 * ps.length + n) (ps.flatMap P.wire) s = (s', []) ∧
      s'.state_ = InState.kWaitingForPacket ∧
      s'.packet_buffer_.committed = s.packet_buffer_.committed ++ cs ∧
      List.Forall₂ (P.delivered E) ps cs := by
  induction ps with
  | nil =>
    intro _ t n s hst
    refine ⟨s, [], ?_, hst, by simp, List.Forall₂.nil⟩
    simp only [List.flatMap_nil, List.length_nil, Nat.mul_zero, Nat.zero_add]
    exact runTicks_idle P E clk n t s hst
  | cons p ps ih =>
    intro hs t n s hst
    obtain ⟨s1, a, now, hrun, hst1, hrec, hcom⟩ := runTicks_frame P E clk p
      (hs p (List.mem_cons_self _ _)) hlenH hfs hck t
      ((ps.flatMap P.wire).length + 2 * ps.length + n) (ps.flatMap P.wire) s hst
    obtain ⟨s2, cs, hrun2, hst2, hcom2, hall⟩ := ih
      (fun q hq => hs q (List.mem_cons_of_mem _ hq)) (t + ((P.wire p).length + 2)) n s1 hst1
    refine ⟨s2, (p.header.priority, { (E.prepareToRead a).2 with commit_time_ns := now }) :: cs,
      ?_, hst2, ?_, List.Forall₂.cons ⟨a, now, hrec, rfl⟩ hall⟩
    · rw [← hrun2, ← hrun]
      simp only [List.flatMap_cons, List.length_append, List.length_cons]
      congr 1
      omega
    · rw [hcom2, hcom]
      simp

/-- Bytes of a packet behind its header are content bytes. -/
theorem packetBytes_content (P : Protocol) (p : P2PPacket) (i : Int) (n : Nat) (hi : 0 ≤ i) :
    P.packetBytes p ((P.sizeofHeader : Int) + i) n = p.content.toList i n := by
  unfold Protocol.packetBytes Mem.toList
  apply List.map_congr_left
  intro k _
  have h : ¬ (0 ≤ (P.sizeofHeader : Int) + i + (k : Int) ∧
      (P.sizeofHeader : Int) + i + (k : Int) < (P.sizeofHeader : Int)) := by omega
  simp only [Protocol.packetByte, if_neg h]
  congr 1
  omega

/-- The frame the framer writes for a fresh packet is its wire frame. -/
theorem frameBytes_fresh (P : Protocol) (tpb : Nat → Int) (p : P2PPacket)
    (hfresh : p.header.is_continuation = false) : P.frameBytes tpb p = P.wire p := by
  have h1 : P.totalFor tpb p = (P.sizeofHeader : Int) + (P.networkToLocal p.header.length : Int)
      + (P.sizeofFooter : Int) := by
    simp [Protocol.totalFor, hfresh]
  have h2 : P.pendingAfterHeader (P.totalFor tpb p) p
      = ((P.networkToLocal p.header.length + P.sizeofFooter : Nat) : Int) := by
    simp only [Protocol.pendingAfterHeader, hfresh, h1]
    push_cast
    ring
  simp only [Protocol.frameBytes, Protocol.wire, Protocol.bodyBytes, h2, Int.toNat_ofNat,
    Protocol.localLength]
  rw [h1, List.append_assoc]
  congr 1
  have h3 : (P.sizeofHeader : Int) + (P.networkToLocal p.header.length : Int)
      + (P.sizeofFooter : Int) - ((P.networkToLocal p.header.length + P.sizeofFooter : Nat) : Int)
      = (P.sizeofHeader : Int) + 0 := by
    push_cast; ring
  rw [h3, packetBytes_content P p 0 _ (le_refl _), Mem.toList_append]
  simp

/-- The stream of a store of fresh packets is the concatenation of their wire frames. -/
theorem storeStream_fresh (P : Protocol) (tpb : Nat → Int) (b : OutStore)
    (hfresh : ∀ p ∈ b.packets P, p.header.is_continuation = false) :
    P.storeStream tpb b = (b.packets P).flatMap P.wire := by
  unfold Protocol.storeStream
  generalize b.packets P = ps at hfresh
  induction ps with
  | nil => rfl
  | cons p ps ih =>
    simp only [List.flatMap_cons]
    rw [frameBytes_fresh P tpb p (hfresh p (List.mem_cons_self _ _)),
      ih (fun q hq => hfresh q (List.mem_cons_of_mem _ hq))]

/-- The ideal ticks, one by one. -/
theorem idealTicksFrom_succ (start n : Nat) :
    idealTicksFrom start (n + 1) = idealTick start :: idealTicksFrom (start + 1) n := by
  simp only [idealTicksFrom, List.range_succ_eq_map, List.map_cons, List.map_map, Nat.add_zero]
  congr 1
  apply List.map_congr_left
  intro i _
  simp only [Function.comp, Nat.succ_eq_add_one]
  congr 1
  omega

/-- Ideal ticks are fair as long as their clock is past the ingestion waits. -/
theorem fairRun_idealTicksFrom (P : Protocol) (T : Transport)
    (packet_filter_ : Option (P2PPacket → Bool)) (n : Nat) :
    ∀ (start : Nat) (s : OutputStream), idealClockAhead P T packet_filter_ n start s = true →
      fairRun P T packet_filter_ (idealTicksFrom start n) s := by
  induction n with
  | zero => intro start s _; trivial
  | succ n ih =>
    intro start s h
    simp only [idealClockAhead, Bool.and_eq_true, decide_eq_true_eq] at h
    rw [idealTicksFrom_succ]
    refine ⟨⟨?_, ?_, fun _ => h.1⟩, ih _ _ h.2⟩
    · intro m hm
      exact ⟨hm, le_refl _⟩
    · intro m hm
      exact hm

/-- C1, amended.  A framer starts on a well-formed store `b` whose packets are
all sendable: fresh, of a valid priority, with a header image that starts with
the start token, holds neither token elsewhere and decodes to the header, with
byte-stuffed content and a footer free of both tokens, and accepted by the
receiver.  The header fits a burst and the transport takes at least one byte per
`Write`.  Then a fair run of at least `potential` ticks writes exactly the
concatenation of the wire frames of the packets, in selection order (by
priority, oldest first), and empties the store; and a deframer polled on these
bytes, from its initial state, at least two ticks per packet more than there are
bytes, reads them all, ends in `kWaitingForPacket` and has committed one packet
per packet sent, in the same order, each under the priority of the packet sent
and assembled from a packet with the same header (the length in local byte
order), the same content and the same footer (the checksum in local byte
order). -/
theorem round_trip (P : Protocol) (T : Transport) (packet_filter_ : Option (P2PPacket → Bool))
    (E : InEnv) (clk : Nat → Nat) (b : OutStore) (ticks : List OutTick)
    (hlen : ∀ h, (P.headerBytes h).length = P.sizeofHeader)
    (hhs : 1 ≤ P.sizeofHeader) (hfs : 1 ≤ P.sizeofFooter)
    (hck : ∀ l, (P.checksumNetworkToLocal l).length = l.length)
    (hburst : (P.sizeofHeader : Int) ≤ T.GetBurstMaxLength)
    (hatomic : 1 ≤ T.GetAtomicSendMaxLength)
    (hf : ∀ f, packet_filter_ = some f → ∀ p, f p = true)
    (hstore : StoreOK P b) (hsend : ∀ p ∈ b.packets P, P.Sendable E p)
    (hfair : fairRun P T packet_filter_ ticks (OutputStream.init b))
    (hlong : (OutputStream.init b).potential P ≤ ticks.length) :
    (P2PPacketOutputStream.runTicks P T packet_filter_ ticks
        (OutputStream.init b)).1.packet_buffer_.packets P = [] ∧
    (P2PPacketOutputStream.runTicks P T packet_filter_ ticks (OutputStream.init b)).2
      = (b.packets P).flatMap P.wire ∧
    ∀ n, (P2PPacketOutputStream.runTicks P T packet_filter_ ticks
            (OutputStream.init b)).2.length + 2 * (b.packets P).length ≤ n →
      ∃ d, P2PPacketInputStream.runTicks P E clk 0 n
            (P2PPacketOutputStream.runTicks P T packet_filter_ ticks (OutputStream.init b)).2
            InputStream.init = (d, []) ∧
        d.state_ = InState.kWaitingForPacket ∧
        List.Forall₂ (P.delivered E) (b.packets P) d.packet_buffer_.committed := by
  have hg : (OutputStream.init b).Good P := ⟨hstore, trivial⟩
  have hs := runTicks_stream P T packet_filter_ ticks (OutputStream.init b) hlen hhs hburst
    (by omega) hf (fairRun_valid P T packet_filter_ ticks _ hfair) hg
  have hp := runTicks_potential P T packet_filter_ ticks (OutputStream.init b) hlen hhs hburst
    hatomic hf hfair hg
  have hz := potential_zero P _ (show (P2PPacketOutputStream.runTicks P T packet_filter_ ticks
    (OutputStream.init b)).1.potential P = 0 by omega)
  have hout : (P2PPacketOutputStream.runTicks P T packet_filter_ ticks (OutputStream.init b)).2
      = (b.packets P).flatMap P.wire := by
    have h := hs.2
    rw [hz.2.2, List.append_nil] at h
    rw [h]
    exact storeStream_fresh P _ b (fun p hp => (hsend p hp).fresh)
  refine ⟨hz.2.1, hout, ?_⟩
  intro n hn
  rw [hout] at hn ⊢
  obtain ⟨d, cs, hrun, hst, hcom, hall⟩ := runTicks_frames P E clk hlen hfs hck (b.packets P)
    hsend 0 (n - (((b.packets P).flatMap P.wire).length + 2 * (b.packets P).length))
    InputStream.init rfl
  refine ⟨d, ?_, hst, ?_⟩
  · rw [← hrun]
    congr 1
    omega
  · rw [hcom]
    exact hall

/-- C1, as stated, fails for sequence numbers and payloads that hold the start
token.  The framer sends one priority-1 packet of sequence number `0x7E`, content
`0x11` and footer `0x0A 0x0B`; the deframer, polled 40 times on the 15 bytes
written, reads them all and commits nothing: the start token in the header
restarts the header.  The same for the packet of sequence number 7 with the
content `0x7E 0x00`: the start token in the content, not followed by the escape
token, starts a new header. -/
theorem start_token_in_frame_not_delivered :
    ((P2PPacketOutputStream.runTicks demoProtocol wholeBurstTransport none (idealTicks 40)
        (OutputStream.init (lowPriorityStore [demoPacket 1 0x7E [0x11] [0xA, 0xB]]))).2
      = [0x7E, 17, 0x7E, 0, 0, 0, 0, 0, 0, 0, 0, 1, 0x11, 0xA, 0xB] ∧
     (P2PPacketInputStream.runTicks demoProtocol demoEnv (fun t => t) 0 40
        [0x7E, 17, 0x7E, 0, 0, 0, 0, 0, 0, 0, 0, 1, 0x11, 0xA, 0xB] InputStream.init).2 = [] ∧
     (P2PPacketInputStream.runTicks demoProtocol demoEnv (fun t => t) 0 40
        [0x7E, 17, 0x7E, 0, 0, 0, 0, 0, 0, 0, 0, 1, 0x11, 0xA, 0xB]
        InputStream.init).1.packet_buffer_.committed.length = 0) ∧
    ((P2PPacketOutputStream.runTicks demoProtocol wholeBurstTransport none (idealTicks 40)
        (OutputStream.init (lowPriorityStore [demoPacket 1 7 [0x7E, 0] [0xA, 0xB]]))).2
      = [0x7E, 17, 7, 0, 0, 0, 0, 0, 0, 0, 0, 2, 0x7E, 0, 0xA, 0xB] ∧
     (P2PPacketInputStream.runTicks demoProtocol demoEnv (fun t => t) 0 40
        [0x7E, 17, 7, 0, 0, 0, 0, 0, 0, 0, 0, 2, 0x7E, 0, 0xA, 0xB] InputStream.init).2 = [] ∧
     (P2PPacketInputStream.runTicks demoProtocol demoEnv (fun t => t) 0 40
        [0x7E, 17, 7, 0, 0, 0, 0, 0, 0, 0, 0, 2, 0x7E, 0, 0xA, 0xB]
        InputStream.init).1.packet_buffer_.committed.length = 0) := by
  decide

/-- Witness of `round_trip`: two packets on the demo protocol, the first with a
stuffed start token in its content; 72 ideal ticks of the framer, 40 ticks of the
deframer. -/
theorem round_trip_witness :
    StoreOK demoProtocol stuffedStore ∧
    (OutputStream.init stuffedStore).potential demoProtocol ≤ (idealTicks 72).length ∧
    (P2PPacketOutputStream.runTicks demoProtocol wholeBurstTransport none (idealTicks 72)
        (OutputStream.init stuffedStore)).1.packet_buffer_.packets demoProtocol = [] ∧
    (P2PPacketOutputStream.runTicks demoProtocol wholeBurstTransport none (idealTicks 72)
        (OutputStream.init stuffedStore)).2
      = (stuffedStore.packets demoProtocol).flatMap demoProtocol.wire ∧
    ∃ d, P2PPacketInputStream.runTicks demoProtocol demoEnv (fun t => t) 0 40
          (P2PPacketOutputStream.runTicks demoProtocol wholeBurstTransport none (idealTicks 72)
            (OutputStream.init stuffedStore)).2 InputStream.init = (d, []) ∧
      d.state_ = InState.kWaitingForPacket ∧
      List.Forall₂ (demoProtocol.delivered demoEnv) (stuffedStore.packets demoProtocol)
        d.packet_buffer_.committed := by
  have hstore : StoreOK demoProtocol stuffedStore := ⟨by decide, by decide⟩
  have hsend : ∀ p ∈ stuffedStore.packets demoProtocol, demoProtocol.Sendable demoEnv p := by
    intro p hp
    have h : p = demoPacket 1 7 [0x7E, 0x7D, 0x11] [0xA, 0xB] ∨
        p = demoPacket 1 8 [0x22] [0xC, 0xD] := by
      simpa [OutStore.packets, stuffedStore, lowPriorityStore, demoProtocol, List.range_succ]
        using hp
    rcases h with h | h <;> subst h <;>
      exact ⟨by decide, by decide, by decide, by decide, by decide, by decide, by decide,
        fun a _ => ⟨rfl, nofun⟩⟩
  have h := round_trip demoProtocol wholeBurstTransport none demoEnv (fun t => t) stuffedStore
    (idealTicks 72) (fun h => by simp [demoProtocol, leBytes]) (by decide) (by decide)
    (fun l => List.length_reverse l) (by decide) (by decide) nofun hstore hsend
    (fairRun_idealTicksFrom demoProtocol wholeBurstTransport none 72 0 _ (by decide)) (by decide)
  exact ⟨hstore, by decide, h.1, h.2.1, h.2.2 40 (by decide)⟩

/-! ## Preemption and resumption -/

/-- The queues up to a priority, then the others. -/
theorem flatMap_range_above (f : Nat → List P2PPacket) (c : Nat) (n : Nat) :
    (List.range (c + n)).flatMap f
      = (List.range c).flatMap f
        ++ (List.range (c + n)).flatMap (fun q => if q < c then [] else f q) := by
  induction n with
  | zero =>
    have h : (List.range c).flatMap (fun q => if q < c then [] else f q) = [] := by
      rw [List.flatMap_eq_nil_iff]
      intro q hq
      simp [List.mem_range.mp hq]
    rw [Nat.add_zero, h, List.append_nil]
  | succ n ih =>
    rw [← Nat.add_assoc, List.range_succ, List.flatMap_append, List.flatMap_append, ih]
    simp

/-- The packets of a store whose current packet was rewritten: the packets of
higher priority, the rewritten packet, the packets behind it. -/
theorem packets_setFront (P : Protocol) (b : OutStore) (c : Nat) (v : P2PPacket)
    (hc : c < P.kNumLevels) :
    (b.setFront c v).packets P = b.above c ++ v :: (b.behind c).packets P := by
  obtain ⟨n, hn⟩ : ∃ n, P.kNumLevels = c + n := ⟨P.kNumLevels - c, by omega⟩
  unfold OutStore.packets OutStore.above
  rw [hn, flatMap_range_above]
  have h1 : (List.range c).flatMap (b.setFront c v).queue = (List.range c).flatMap b.queue := by
    apply List.flatMap_congr
    intro q hq
    have : q ≠ c := by have := List.mem_range.mp hq; omega
    simp [OutStore.setFront, setAt, this]
  rw [h1]
  congr 1
  rw [flatMap_range_consume (fun q => if q < c then [] else (b.setFront c v).queue q) c v
    (b.queue c).tail (by simp [OutStore.setFront, setAt]) (fun q hq => by simp [hq]) (c + n)
    (by omega)]
  congr 1
  apply List.flatMap_congr
  intro q _
  by_cases h1 : q < c
  · have : q ≠ c := by omega
    simp [OutStore.behind, setAt, h1, this]
  · by_cases h2 : q = c
    · simp [OutStore.behind, setAt, h2]
    · simp [OutStore.behind, OutStore.setFront, setAt, h1, h2]

/-- Rewriting the header of the head of a queue, priority unchanged, keeps a
store well-formed. -/
theorem StoreOK.setFront {P : Protocol} {b : OutStore} (hb : StoreOK P b) (c : Nat)
    (v : P2PPacket) (hv : v.header.priority = c) : StoreOK P (b.setFront c v) := by
  constructor
  · intro q hq p hp
    by_cases h : q = c
    · subst h
      simp only [OutStore.setFront, setAt, if_true, List.mem_cons] at hp
      rcases hp with hp | hp
      · rw [hp, hv]
      · exact hb.prio q hq p (List.mem_of_mem_tail hp)
    · simp only [OutStore.setFront, setAt, if_neg h] at hp
      exact hb.prio q hq p hp
  · intro q hq p hp
    by_cases h : q = c
    · subst h
      simp only [OutStore.setFront, setAt, if_true, List.tail_cons] at hp
      exact hb.fresh q hq p hp
    · simp only [OutStore.setFront, setAt, if_neg h] at hp
      exact hb.fresh q hq p hp

/-- Bytes behind the header do not depend on the header. -/
theorem packetBytes_interrupted (P : Protocol) (p : P2PPacket) (r : Int) (off : Int) (n : Nat)
    (hoff : (P.sizeofHeader : Int) ≤ off) :
    P.packetBytes (P.interrupted p r) off n = P.packetBytes p off n := by
  have h : off = (P.sizeofHeader : Int) + (off - (P.sizeofHeader : Int)) := by ring
  rw [h, packetBytes_content P _ _ n (by omega), packetBytes_content P _ _ n (by omega)]
  rfl

/-- The frame of an interrupted packet: its new header, then the pending bytes. -/
theorem frameBytes_interrupted (P : Protocol) (tpb : Nat → Int) (p : P2PPacket) (r : Int)
    (hn2l : ∀ x, x < P.lengthMod → P.networkToLocal (P.localToNetwork x) = x)
    (hfoot : (P.sizeofFooter : Int) ≤ r) (hmod : r - (P.sizeofFooter : Int) < P.lengthMod)
    (hoff : (P.sizeofHeader : Int) ≤ tpb p.header.priority - r) :
    ((P.networkToLocal (P.interrupted p r).header.length : Nat) : Int)
        = r - (P.sizeofFooter : Int) ∧
      P.frameBytes tpb (P.interrupted p r)
        = P.headerBytes (P.interrupted p r).header
          ++ P.packetBytes p (tpb p.header.priority - r) r.toNat := by
  have hl : P.toLength (r - (P.sizeofFooter : Int)) = (r - (P.sizeofFooter : Int)).toNat := by
    unfold Protocol.toLength
    rw [Int.emod_eq_of_lt (by omega) hmod]
  have hlt : (r - (P.sizeofFooter : Int)).toNat < P.lengthMod := by omega
  have hlen : P.networkToLocal (P.interrupted p r).header.length
      = (r - (P.sizeofFooter : Int)).toNat := by
    simp only [Protocol.interrupted, hl]
    exact hn2l _ hlt
  have h1 : P.totalFor tpb (P.interrupted p r) = tpb p.header.priority := by
    simp [Protocol.totalFor, Protocol.interrupted]
  have h2 : P.pendingAfterHeader (tpb p.header.priority) (P.interrupted p r) = r := by
    unfold Protocol.pendingAfterHeader
    rw [hlen]
    simp only [Protocol.interrupted, if_true]
    omega
  refine ⟨by rw [hlen]; omega, ?_⟩
  simp only [Protocol.frameBytes, Protocol.bodyBytes, h1, h2]
  rw [packetBytes_interrupted P p r _ _ hoff]

/-- The tick of `kSendingBurst` that interrupts the current packet. -/
theorem sendingBurst_interrupts (P : Protocol) (T : Transport)
    (packet_filter_ : Option (P2PPacket → Bool)) (write : Int → Int) (now : Nat)
    (s : OutputStream) (c1 c0 : Nat) (w : Int)
    (hcur : s.current_packet_ = some c1) (h0 : s.packet_buffer_.OldestValue P = some c0)
    (hne : c0 ≠ c1)
    (hw : write (min T.GetAtomicSendMaxLength s.pending_burst_bytes_) = w)
    (hpkt : w < s.pending_packet_bytes_) (hbst : w < s.pending_burst_bytes_) :
    (P2PPacketOutputStream.sendingBurst P T packet_filter_ write now s).next.state_
        = OutState.kWaitingForPartialBurstIngestionBeforeHigherPriorityPacket ∧
      (P2PPacketOutputStream.sendingBurst P T packet_filter_ write now s).next.packet_buffer_
        = s.packet_buffer_.setFront c1 (P.interrupted s.current (s.pending_packet_bytes_ - w)) ∧
      (P2PPacketOutputStream.sendingBurst P T packet_filter_ write now s).next.total_packet_bytes_
        = s.total_packet_bytes_ ∧
      writtenBytes (P2PPacketOutputStream.sendingBurst P T packet_filter_ write now s).events
        = P.packetBytes s.current
            (s.total_packet_bytes_ s.current.header.priority - s.pending_packet_bytes_)
            w.toNat := by
  have h1 : ¬ (s.pending_packet_bytes_ - w ≤ 0) := by omega
  have h2 : ¬ (s.pending_burst_bytes_ - w ≤ 0) := by omega
  simp only [P2PPacketOutputStream.sendingBurst, hw, if_neg h1, if_neg h2, h0, hcur]
  simp only [ne_eq, hne, not_false_eq_true, if_true, writtenBytes, List.append_nil,
    Protocol.interrupted, and_self]

/-- The frames of fresh packets are their wire frames. -/
theorem flatMap_frameBytes_fresh (P : Protocol) (tpb : Nat → Int) (ps : List P2PPacket)
    (hfresh : ∀ p ∈ ps, p.header.is_continuation = false) :
    ps.flatMap (P.frameBytes tpb) = ps.flatMap P.wire := by
  induction ps with
  | nil => rfl
  | cons p ps ih =>
    simp only [List.flatMap_cons]
    rw [frameBytes_fresh P tpb p (hfresh p (List.mem_cons_self _ _)),
      ih (fun q hq => hfresh q (List.mem_cons_of_mem _ hq))]

/-- The first packet of higher priority is the one `OldestValue` designates. -/
theorem above_oldest (P : Protocol) (b : OutStore) (c0 c1 : Nat)
    (h0 : b.OldestValue P = some c0) (hprio : c0 < c1) :
    ∃ rest, b.above c1 = b.front c0 :: rest := by
  obtain ⟨_, hne, hempty⟩ := oldest_spec P b c0 h0
  obtain ⟨x, l, hx⟩ := List.exists_cons_of_ne_nil hne
  refine ⟨(List.range c1).flatMap (setAt b.queue c0 l), ?_⟩
  unfold OutStore.above
  rw [flatMap_range_consume b.queue c0 x l hx hempty c1 hprio]
  simp [OutStore.front, hx]

/-- C6, amended.  The framer is in `kSendingBurst` on the head `P1` of queue
`c1`, past its header, and a packet of strictly higher priority is committed
(`OldestValue` designates queue `c0 < c1`; the packets above `c1` are fresh).  In
a tick whose `Write` takes `w` bytes and leaves bytes of the burst and at least
the footer of the packet pending (`r` bytes, the pending content fitting the
length field), the framer writes the next `w` bytes of `P1`, flags `P1` as a
continuation with the same sequence number and the length `r - sizeof(P2PFooter)`,
and waits for the partial burst.  From then on, a run of valid ticks writes a
prefix of: the whole frames of the packets of priority higher than `c1`, in
selection order, starting with the packet `OldestValue` designated; then the
header of `P1` again, as rewritten; then the last `r` bytes of `P1`; then the
frames of the packets behind `P1`.  A fair run of at least `potential` ticks
writes all of it and empties the store. -/
theorem preemption_resume (P : Protocol) (T : Transport)
    (packet_filter_ : Option (P2PPacket → Bool)) (k : OutTick) (ticks : List OutTick)
    (s : OutputStream) (c1 c0 : Nat) (w r : Int)
    (hlen : ∀ h, (P.headerBytes h).length = P.sizeofHeader) (hhs : 1 ≤ P.sizeofHeader)
    (hburst : (P.sizeofHeader : Int) ≤ T.GetBurstMaxLength)
    (hatomic : 1 ≤ T.GetAtomicSendMaxLength)
    (hf : ∀ f, packet_filter_ = some f → ∀ p, f p = true)
    (hn2l : ∀ x, x < P.lengthMod → P.networkToLocal (P.localToNetwork x) = x)
    (hstore : StoreOK P s.packet_buffer_)
    (hst : s.state_ = OutState.kSendingBurst) (hcur : s.current_packet_ = some c1)
    (hc1 : c1 < P.kNumLevels) (hq1 : s.packet_buffer_.queue c1 ≠ [])
    (h0 : s.packet_buffer_.OldestValue P = some c0) (hprio : c0 < c1)
    (hfresh : ∀ p ∈ s.packet_buffer_.above c1, p.header.is_continuation = false)
    (hoff : (P.sizeofHeader : Int) ≤ s.total_packet_bytes_ c1 - s.pending_packet_bytes_)
    (hw : k.write (min T.GetAtomicSendMaxLength s.pending_burst_bytes_) = w) (hw0 : 0 ≤ w)
    (hbst : w < s.pending_burst_bytes_) (hr : s.pending_packet_bytes_ - w = r) (hr0 : 0 < r)
    (hfoot : (P.sizeofFooter : Int) ≤ r) (hmod : r - (P.sizeofFooter : Int) < P.lengthMod) :
    writtenBytes (P2PPacketOutputStream.Run P T packet_filter_ k.write k.now s).events
      = P.packetBytes s.current (s.total_packet_bytes_ c1 - s.pending_packet_bytes_) w.toNat ∧
    (P2PPacketOutputStream.Run P T packet_filter_ k.write k.now s).next.state_
      = OutState.kWaitingForPartialBurstIngestionBeforeHigherPriorityPacket ∧
    (P2PPacketOutputStream.Run P T packet_filter_ k.write k.now s).next.packet_buffer_
      = s.packet_buffer_.setFront c1 (P.interrupted s.current r) ∧
    (P.interrupted s.current r).header.is_continuation = true ∧
    (P.interrupted s.current r).header.sequence_number = s.current.header.sequence_number ∧
    ((P.networkToLocal (P.interrupted s.current r).header.length : Nat) : Int)
      = r - (P.sizeofFooter : Int) ∧
    (∃ rest, s.packet_buffer_.above c1 = s.packet_buffer_.front c0 :: rest) ∧
    ((∀ k' ∈ ticks, k'.valid) →
      (P2PPacketOutputStream.runTicks P T packet_filter_ ticks
          (P2PPacketOutputStream.Run P T packet_filter_ k.write k.now s).next).2
        ++ (P2PPacketOutputStream.runTicks P T packet_filter_ ticks
          (P2PPacketOutputStream.Run P T packet_filter_ k.write k.now s).next).1.remaining P
        = (s.packet_buffer_.above c1).flatMap P.wire
          ++ (P.headerBytes (P.interrupted s.current r).header
              ++ P.packetBytes s.current (s.total_packet_bytes_ c1 - r) r.toNat)
          ++ P.storeStream s.total_packet_bytes_ (s.packet_buffer_.behind c1)) ∧
    (fairRun P T packet_filter_ ticks
        (P2PPacketOutputStream.Run P T packet_filter_ k.write k.now s).next →
      (P2PPacketOutputStream.Run P T packet_filter_ k.write k.now s).next.potential P
        ≤ ticks.length →
      (P2PPacketOutputStream.runTicks P T packet_filter_ ticks
          (P2PPacketOutputStream.Run P T packet_filter_ k.write k.now s).next).2
        = (s.packet_buffer_.above c1).flatMap P.wire
          ++ (P.headerBytes (P.interrupted s.current r).header
              ++ P.packetBytes s.current (s.total_packet_bytes_ c1 - r) r.toNat)
          ++ P.storeStream s.total_packet_bytes_ (s.packet_buffer_.behind c1) ∧
      (P2PPacketOutputStream.runTicks P T packet_filter_ ticks
          (P2PPacketOutputStream.Run P T packet_filter_ k.write k.now s).next).1.packet_buffer_.packets
          P = []) := by
  -- the current packet
  have hcurrent : s.current = s.packet_buffer_.front c1 := by
    simp only [OutputStream.current, hcur]
  have hmem : s.current ∈ s.packet_buffer_.queue c1 := by
    obtain ⟨x, l, hx⟩ := List.exists_cons_of_ne_nil hq1
    rw [hcurrent]
    simp [OutStore.front, hx]
  have hp1 : s.current.header.priority = c1 := hstore.prio c1 hc1 _ hmem
  -- the tick
  have hrun : P2PPacketOutputStream.Run P T packet_filter_ k.write k.now s
      = P2PPacketOutputStream.sendingBurst P T packet_filter_ k.write k.now s := by
    simp only [P2PPacketOutputStream.Run, hst]
  obtain ⟨t1, t2, t3, t4⟩ := sendingBurst_interrupts P T packet_filter_ k.write k.now s c1 c0 w
    hcur h0 (by omega) hw (by omega) hbst
  rw [← hrun] at t1 t2 t3 t4
  rw [hr] at t2
  rw [hp1] at t4
  obtain ⟨f1, f2⟩ := frameBytes_interrupted P s.total_packet_bytes_ s.current r hn2l hfoot hmod
    (by rw [hp1]; omega)
  rw [hp1] at f2
  -- the state after the tick
  have hok : StoreOK P (s.packet_buffer_.setFront c1 (P.interrupted s.current r)) :=
    hstore.setFront c1 _ hp1
  have hg : (P2PPacketOutputStream.Run P T packet_filter_ k.write k.now s).next.Good P := by
    refine ⟨by rw [t2]; exact hok, ?_⟩
    rw [t1]
    trivial
  have hrem : (P2PPacketOutputStream.Run P T packet_filter_ k.write k.now s).next.remaining P
      = (s.packet_buffer_.above c1).flatMap P.wire
        ++ (P.headerBytes (P.interrupted s.current r).header
            ++ P.packetBytes s.current (s.total_packet_bytes_ c1 - r) r.toNat)
        ++ P.storeStream s.total_packet_bytes_ (s.packet_buffer_.behind c1) := by
    simp only [OutputStream.remaining, t1, t2, t3, Protocol.storeStream]
    rw [packets_setFront P _ c1 _ hc1, List.flatMap_append, List.flatMap_cons, f2,
      List.append_assoc]
    rw [flatMap_frameBytes_fresh P _ _ hfresh]
    simp only [List.append_assoc]
  refine ⟨t4, t1, t2, rfl, rfl, f1, above_oldest P _ c0 c1 h0 hprio, ?_, ?_⟩
  · intro hk
    have h := (runTicks_stream P T packet_filter_ ticks _ hlen hhs hburst (by omega) hf hk hg).2
    rw [h, hrem]
  · intro hfair hlong
    have hk := fairRun_valid P T packet_filter_ ticks _ hfair
    have h := (runTicks_stream P T packet_filter_ ticks _ hlen hhs hburst (by omega) hf hk hg).2
    have hp := runTicks_potential P T packet_filter_ ticks _ hlen hhs hburst hatomic hf hfair hg
    have hz := potential_zero P _ (show (P2PPacketOutputStream.runTicks P T packet_filter_ ticks
      (P2PPacketOutputStream.Run P T packet_filter_ k.write k.now s).next).1.potential P = 0
      by omega)
    rw [hz.2.2, List.append_nil, hrem] at h
    exact ⟨h, hz.2.1⟩

/-- Swapping the bytes of a 16-bit value twice gives the value back. -/
theorem swap16_swap16 (x : Nat) (hx : x < 65536) : swap16 (swap16 x) = x := by
  unfold swap16
  have h1 : (x % 256 * 256 + x / 256 % 256) % 256 = x / 256 % 256 := by omega
  have h2 : (x % 256 * 256 + x / 256 % 256) / 256 = x % 256 := by omega
  rw [h1, h2]
  omega

/-- Witness of `preemption_resume`: on the demo protocol, a priority-0 packet is
committed when the framer is about to write the first of three content bytes of
a priority-1 packet, one byte per `Write`. -/
theorem preemption_resume_witness :
    contentPendingThenUrgent.state_ = OutState.kSendingBurst ∧
    contentPendingThenUrgent.current_packet_ = some 1 ∧
    contentPendingThenUrgent.packet_buffer_.OldestValue demoProtocol = some 0 ∧
    writtenBytes (P2PPacketOutputStream.Run demoProtocol byteWiseTransport none
        (idealTick 3).write (idealTick 3).now contentPendingThenUrgent).events
      = demoProtocol.packetBytes contentPendingThenUrgent.current
          (contentPendingThenUrgent.total_packet_bytes_ 1
            - contentPendingThenUrgent.pending_packet_bytes_) (1 : Int).toNat ∧
    (P2PPacketOutputStream.runTicks demoProtocol byteWiseTransport none (idealTicksFrom 4 71)
        (P2PPacketOutputStream.Run demoProtocol byteWiseTransport none (idealTick 3).write
          (idealTick 3).now contentPendingThenUrgent).next).2
      = (contentPendingThenUrgent.packet_buffer_.above 1).flatMap demoProtocol.wire
        ++ (demoProtocol.headerBytes
              (demoProtocol.interrupted contentPendingThenUrgent.current 4).header
            ++ demoProtocol.packetBytes contentPendingThenUrgent.current
                (contentPendingThenUrgent.total_packet_bytes_ 1 - 4) (4 : Int).toNat)
        ++ demoProtocol.storeStream contentPendingThenUrgent.total_packet_bytes_
            (contentPendingThenUrgent.packet_buffer_.behind 1) ∧
    (P2PPacketOutputStream.runTicks demoProtocol byteWiseTransport none (idealTicksFrom 4 71)
        (P2PPacketOutputStream.Run demoProtocol byteWiseTransport none (idealTick 3).write
          (idealTick 3).now contentPendingThenUrgent).next).2
      = [0x7E, 16, 9, 0, 0, 0, 0, 0, 0, 0, 0, 1, 0x44, 0xC, 0xD,
         0x7E, 21, 7, 0, 0, 0, 0, 0, 0, 0, 0, 2, 0x22, 0x33, 0xA, 0xB] := by
  have hn2l : ∀ x, x < demoProtocol.lengthMod →
      demoProtocol.networkToLocal (demoProtocol.localToNetwork x) = x :=
    fun x hx => swap16_swap16 x hx
  have h := preemption_resume demoProtocol byteWiseTransport none (idealTick 3)
    (idealTicksFrom 4 71) contentPendingThenUrgent 1 0 1 4
    (fun h => by simp [demoProtocol, leBytes]) (by decide) (by decide) (by decide) nofun hn2l
    ⟨by decide, by decide⟩ (by decide) (by decide) (by decide)
    (fun h => by have := congrArg List.length h; revert this; decide)
    (by decide) (by decide) (by decide) (by decide) (by decide) (by decide) (by decide)
    (by decide) (by decide) (by decide) (by decide)
  have hr := h.2.2.2.2.2.2.2.2
    (fairRun_idealTicksFrom demoProtocol byteWiseTransport none 71 4 _ (by decide)) (by decide)
  exact ⟨by decide, by decide, by decide, h.1, hr.1, by decide⟩

/-- C6, as stated, fails when the `Write` after the commit completes the
packet.  A priority-0 packet is committed while the framer is about to write the
three content bytes and the footer of a priority-1 packet in one `Write`: the
following ticks write content and footer of the priority-1 packet, then the frame
of the priority-0 packet, and the store is empty; the header of the
priority-1 packet is not written again. -/
theorem last_write_is_not_interrupted :
    lastWritePendingThenUrgent.state_ = OutState.kSendingBurst ∧
    lastWritePendingThenUrgent.current_packet_ = some 1 ∧
    lastWritePendingThenUrgent.pending_packet_bytes_ = 5 ∧
    lastWritePendingThenUrgent.packet_buffer_.OldestValue demoProtocol = some 0 ∧
    (P2PPacketOutputStream.runTicks demoProtocol wholeBurstTransport none (idealTicksFrom 3 12)
        lastWritePendingThenUrgent).2
      = [0x11, 0x22, 0x33, 0xA, 0xB,
         0x7E, 16, 9, 0, 0, 0, 0, 0, 0, 0, 0, 1, 0x44, 0xC, 0xD] ∧
    (P2PPacketOutputStream.runTicks demoProtocol wholeBurstTransport none (idealTicksFrom 3 12)
        lastWritePendingThenUrgent).1.state_ = OutState.kGettingNextPacket ∧
    ((P2PPacketOutputStream.runTicks demoProtocol wholeBurstTransport none (idealTicksFrom 3 12)
        lastWritePendingThenUrgent).1.packet_buffer_.packets demoProtocol).length = 0 := by
  decide

/-! ## Accounting, release and waiting of the framer -/

/-- C11.  In a tick on a current packet whose `is_init` flag is set, in
particular in the tick that writes its last byte, no statistic and no last-sent
sequence number changes, for any priority. -/
theorem init_packet_leaves_statistics (P : Protocol) (T : Transport)
    (packet_filter_ : Option (P2PPacket → Bool)) (k : OutTick) (s : OutputStream)
    (hinit : s.current.header.is_init = true) :
    (P2PPacketOutputStream.Run P T packet_filter_ k.write k.now s).next.stats_ = s.stats_ ∧
    (P2PPacketOutputStream.Run P T packet_filter_ k.write k.now s).next.last_sent_sequence_number_
      = s.last_sent_sequence_number_ := by
  have hacc : s.account s.current k.now = s := by
    simp [OutputStream.account, hinit]
  cases h : sendsLastByte T k s with
  | true =>
    have h1 := Run_account P T packet_filter_ k s h
    rw [hacc] at h1
    exact h1
  | false => exact Run_stats_frame P T packet_filter_ k s h

/-- Witness of `init_packet_leaves_statistics`: the tick that writes content and
footer of an `is_init` packet. -/
theorem init_packet_leaves_statistics_witness :
    sendsLastByte wholeBurstTransport (idealTick 3) initPacketPending = true ∧
    initPacketPending.current.header.is_init = true ∧
    (P2PPacketOutputStream.Run demoProtocol wholeBurstTransport none (idealTick 3).write
        (idealTick 3).now initPacketPending).next.stats_ = initPacketPending.stats_ ∧
    (P2PPacketOutputStream.Run demoProtocol wholeBurstTransport none (idealTick 3).write
        (idealTick 3).now initPacketPending).next.last_sent_sequence_number_
      = initPacketPending.last_sent_sequence_number_ :=
  ⟨by decide, by decide,
   init_packet_leaves_statistics demoProtocol wholeBurstTransport none (idealTick 3)
     initPacketPending (by decide)⟩

/-- The body of `case kSendingBurst` calls `Consume` once, for the priority of the
current packet, when it writes the last byte and the filter is null or accepts;
otherwise not at all. -/
theorem sendingBurst_consumes (P : Protocol) (T : Transport)
    (packet_filter_ : Option (P2PPacket → Bool)) (write : Int → Int) (now : Nat)
    (s : OutputStream) :
    (s.pending_packet_bytes_ - write (min T.GetAtomicSendMaxLength s.pending_burst_bytes_) ≤ 0 →
      ((packet_filter_ = none ∨ ∃ f, packet_filter_ = some f ∧ f s.current = true) →
        consumes (P2PPacketOutputStream.sendingBurst P T packet_filter_ write now s).events
            = [s.current.header.priority] ∧
          (P2PPacketOutputStream.sendingBurst P T packet_filter_ write now s).next.packet_buffer_
            = s.packet_buffer_.Consume s.current.header.priority) ∧
      ((∃ f, packet_filter_ = some f ∧ f s.current = false) →
        consumes (P2PPacketOutputStream.sendingBurst P T packet_filter_ write now s).events = [] ∧
          (P2PPacketOutputStream.sendingBurst P T packet_filter_ write now s).next.packet_buffer_
            = s.packet_buffer_)) ∧
    (¬ s.pending_packet_bytes_ - write (min T.GetAtomicSendMaxLength s.pending_burst_bytes_) ≤ 0 →
      consumes (P2PPacketOutputStream.sendingBurst P T packet_filter_ write now s).events
        = []) := by
  constructor
  · intro hp
    constructor
    · rintro (hf | ⟨f, hf, hacc⟩)
      · subst hf
        simp only [P2PPacketOutputStream.sendingBurst, if_pos hp, consumes,
          account_packet_buffer, and_self]
      · subst hf
        simp only [P2PPacketOutputStream.sendingBurst, if_pos hp, hacc, if_true, consumes,
          account_packet_buffer, and_self]
    · rintro ⟨f, hf, hrej⟩
      subst hf
      simp only [P2PPacketOutputStream.sendingBurst, if_pos hp, hrej, Bool.false_eq_true,
        if_false, consumes, account_packet_buffer, and_self]
  · intro hp
    simp only [P2PPacketOutputStream.sendingBurst, if_neg hp]
    split_ifs
    · rfl
    · split
      · split_ifs <;> rfl
      · rfl

/-- C12, amended.  In the tick that writes the last byte of the current packet,
`Consume` is called exactly once, for the priority of that packet, when the
outbound filter is null or accepts the packet; when the filter rejects the
packet, `Consume` is not called and the store is left as it is, so the packet
stays at the head of its queue.  No other tick calls `Consume`. -/
theorem consume_iff_filter_accepts (P : Protocol) (T : Transport)
    (packet_filter_ : Option (P2PPacket → Bool)) (k : OutTick) (s : OutputStream) :
    (sendsLastByte T k s = true →
      ((packet_filter_ = none ∨ ∃ f, packet_filter_ = some f ∧ f s.current = true) →
        consumes (P2PPacketOutputStream.Run P T packet_filter_ k.write k.now s).events
            = [s.current.header.priority] ∧
          (P2PPacketOutputStream.Run P T packet_filter_ k.write k.now s).next.packet_buffer_
            = s.packet_buffer_.Consume s.current.header.priority) ∧
      ((∃ f, packet_filter_ = some f ∧ f s.current = false) →
        consumes (P2PPacketOutputStream.Run P T packet_filter_ k.write k.now s).events = [] ∧
          (P2PPacketOutputStream.Run P T packet_filter_ k.write k.now s).next.packet_buffer_
            = s.packet_buffer_)) ∧
    (sendsLastByte T k s = false →
      consumes (P2PPacketOutputStream.Run P T packet_filter_ k.write k.now s).events = []) := by
  constructor
  · intro h
    simp only [sendsLastByte, decide_eq_true_eq] at h
    rcases h with ⟨hst, hp⟩ | ⟨hst, hn, hpp, hp⟩
    · simp only [P2PPacketOutputStream.Run, hst]
      exact (sendingBurst_consumes P T packet_filter_ k.write k.now s).1 hp
    · simp only [P2PPacketOutputStream.Run, hst, hn, hpp, if_false]
      exact (sendingBurst_consumes P T packet_filter_ k.write k.now
        (s.startBurst T OutState.kSendingHeaderBurst)).1 hp
  · intro h
    simp only [sendsLastByte, decide_eq_false_iff_not, not_or, not_and, not_le, not_not,
      not_lt] at h
    cases hst : s.state_ with
    | kGettingNextPacket =>
      simp only [P2PPacketOutputStream.Run, hst]
      split
      · rfl
      · split_ifs <;> rfl
    | kSendingHeaderBurst =>
      simp only [P2PPacketOutputStream.Run, hst]
      split_ifs <;> rfl
    | kWaitingForHeaderBurstIngestion =>
      simp only [P2PPacketOutputStream.Run, hst]
      by_cases h1 : k.now < s.after_burst_wait_end_timestamp_ns_
      · rw [if_pos h1]
        rfl
      · rw [if_neg h1]
        by_cases h2 : s.pending_packet_bytes_ ≤ 0
        · rw [if_pos h2]
          rfl
        · rw [if_neg h2]
          have h3 := h.2 hst (by omega) (by omega)
          exact (sendingBurst_consumes P T packet_filter_ k.write k.now
            (s.startBurst T OutState.kSendingHeaderBurst)).2 (by
              simp only [OutputStream.startBurst]; omega)
    | kSendingBurst =>
      simp only [P2PPacketOutputStream.Run, hst]
      exact (sendingBurst_consumes P T packet_filter_ k.write k.now s).2 (by
        have := h.1 hst; omega)
    | kWaitingForBurstIngestion =>
      simp only [P2PPacketOutputStream.Run, hst]
      split_ifs <;> rfl
    | kWaitingForPartialBurstIngestionBeforeHigherPriorityPacket =>
      simp only [P2PPacketOutputStream.Run, hst]
      split_ifs <;> rfl

/-- Witness of `consume_iff_filter_accepts`: the tick that writes content and
footer of a priority-1 packet, once with a filter that rejects and once with
none. -/
theorem consume_iff_filter_accepts_witness :
    sendsLastByte wholeBurstTransport (idealTick 3) lastBytesPending = true ∧
    (consumes (P2PPacketOutputStream.Run demoProtocol wholeBurstTransport rejectAll
        (idealTick 3).write (idealTick 3).now lastBytesPending).events = [] ∧
      (P2PPacketOutputStream.Run demoProtocol wholeBurstTransport rejectAll
        (idealTick 3).write (idealTick 3).now lastBytesPending).next.packet_buffer_
        = lastBytesPending.packet_buffer_) ∧
    (consumes (P2PPacketOutputStream.Run demoProtocol wholeBurstTransport none
        (idealTick 3).write (idealTick 3).now lastBytesPending).events
        = [lastBytesPending.current.header.priority] ∧
      (P2PPacketOutputStream.Run demoProtocol wholeBurstTransport none
        (idealTick 3).write (idealTick 3).now lastBytesPending).next.packet_buffer_
        = lastBytesPending.packet_buffer_.Consume lastBytesPending.current.header.priority) :=
  ⟨by decide,
   ((consume_iff_filter_accepts demoProtocol wholeBurstTransport rejectAll (idealTick 3)
      lastBytesPending).1 (by decide)).2 ⟨fun _ => false, rfl, rfl⟩,
   ((consume_iff_filter_accepts demoProtocol wholeBurstTransport none (idealTick 3)
      lastBytesPending).1 (by decide)).1 (Or.inl rfl)⟩

/-- C12, as stated, fails: the framer writes the last bytes of a priority-1
packet and the outbound filter rejects it.  The tick asks the filter, does not
call `Consume`, and the packet is still the head of queue 1; four ticks later the
framer is sending the same packet again. -/
theorem rejected_packet_is_not_consumed :
    sendsLastByte wholeBurstTransport (idealTick 3) lastBytesPending = true ∧
    (P2PPacketOutputStream.Run demoProtocol wholeBurstTransport rejectAll (idealTick 3).write
        (idealTick 3).now lastBytesPending).events
      = [OutEvent.write 3 [1, 2, 3], OutEvent.filter false] ∧
    ((P2PPacketOutputStream.Run demoProtocol wholeBurstTransport rejectAll (idealTick 3).write
        (idealTick 3).now lastBytesPending).next.packet_buffer_.queue 1).length = 1 ∧
    ((P2PPacketOutputStream.Run demoProtocol wholeBurstTransport rejectAll (idealTick 3).write
        (idealTick 3).now lastBytesPending).next.packet_buffer_.front 1).header.sequence_number
      = 7 ∧
    (P2PPacketOutputStream.runTicks demoProtocol wholeBurstTransport rejectAll
        (idealTicksFrom 3 8) lastBytesPending).2
      = [1, 2, 3, 0x7E, 17, 7, 0, 0, 0, 0, 0, 0, 0, 0, 1, 1, 2, 3] := by
  decide

/-- C13, amended.  In the tick that writes the last byte of the current packet
the bookkeeping is done before the outbound filter is asked and does not depend
on its answer: with a filter that rejects the packet the statistics and the
last-sent sequence numbers after the tick are those of lines 277-295, the same
as with no filter.  In particular a rejected packet without `is_init` whose
sequence number is above the last one sent (or the first on its priority) is
counted as a new delivery and its sequence number is recorded. -/
theorem rejected_packet_accounting (P : Protocol) (T : Transport) (f : P2PPacket → Bool)
    (k : OutTick) (s : OutputStream)
    (h : sendsLastByte T k s = true) (hrej : f s.current = false) :
    (P2PPacketOutputStream.Run P T (some f) k.write k.now s).next.stats_
      = (s.account s.current k.now).stats_ ∧
    (P2PPacketOutputStream.Run P T (some f) k.write k.now s).next.last_sent_sequence_number_
      = (s.account s.current k.now).last_sent_sequence_number_ ∧
    (P2PPacketOutputStream.Run P T (some f) k.write k.now s).next.stats_
      = (P2PPacketOutputStream.Run P T none k.write k.now s).next.stats_ ∧
    (P2PPacketOutputStream.Run P T (some f) k.write k.now s).next.last_sent_sequence_number_
      = (P2PPacketOutputStream.Run P T none k.write k.now s).next.last_sent_sequence_number_ ∧
    OutEvent.filter false ∈ (P2PPacketOutputStream.Run P T (some f) k.write k.now s).events ∧
    (s.current.header.is_init = false →
      (s.last_sent_sequence_number_ s.current.header.priority = kNeverSent ∨
        s.last_sent_sequence_number_ s.current.header.priority
          < s.current.header.sequence_number) →
      (P2PPacketOutputStream.Run P T (some f) k.write k.now s).next.last_sent_sequence_number_
          s.current.header.priority = s.current.header.sequence_number ∧
        (P2PPacketOutputStream.Run P T (some f) k.write k.now s).next.stats_.total_packets_
          s.current.header.priority
          = add64 (s.stats_.total_packets_ s.current.header.priority) 1) := by
  have h1 := Run_account P T (some f) k s h
  have h2 := Run_account P T none k s h
  refine ⟨h1.1, h1.2, h1.1.trans h2.1.symm, h1.2.trans h2.2.symm, ?_, ?_⟩
  · simp only [sendsLastByte, decide_eq_true_eq] at h
    rcases h with ⟨hst, hp⟩ | ⟨hst, hn, hpp, hp⟩
    · simp only [P2PPacketOutputStream.Run, hst, P2PPacketOutputStream.sendingBurst, if_pos hp,
        hrej, Bool.false_eq_true, if_false]
      simp
    · have hc : (s.startBurst T OutState.kSendingHeaderBurst).current = s.current := rfl
      have hp2 : (s.startBurst T OutState.kSendingHeaderBurst).pending_packet_bytes_
          - k.write (min T.GetAtomicSendMaxLength
              (s.startBurst T OutState.kSendingHeaderBurst).pending_burst_bytes_) ≤ 0 := hp
      simp only [P2PPacketOutputStream.Run, hst, hn, hpp, if_false,
        P2PPacketOutputStream.sendingBurst, if_pos hp2, hc, hrej, Bool.false_eq_true]
      simp
  · intro hi hnew
    have h3 := account_new s s.current k.now hi hnew
    rw [h1.1, h1.2]
    exact ⟨h3.1, h3.2.1⟩

/-- Witness of `rejected_packet_accounting`: the tick that writes content and
footer of a priority-1 packet of sequence number 7, the first on its priority,
under a filter that rejects it. -/
theorem rejected_packet_accounting_witness :
    sendsLastByte wholeBurstTransport (idealTick 3) lastBytesPending = true ∧
    (P2PPacketOutputStream.Run demoProtocol wholeBurstTransport (some (fun _ => false))
        (idealTick 3).write (idealTick 3).now lastBytesPending).next.stats_
      = (P2PPacketOutputStream.Run demoProtocol wholeBurstTransport none
        (idealTick 3).write (idealTick 3).now lastBytesPending).next.stats_ ∧
    (P2PPacketOutputStream.Run demoProtocol wholeBurstTransport (some (fun _ => false))
        (idealTick 3).write (idealTick 3).now
        lastBytesPending).next.last_sent_sequence_number_
        lastBytesPending.current.header.priority
      = lastBytesPending.current.header.sequence_number :=
  ⟨by decide,
   (rejected_packet_accounting demoProtocol wholeBurstTransport (fun _ => false) (idealTick 3)
      lastBytesPending (by decide) rfl).2.2.1,
   ((rejected_packet_accounting demoProtocol wholeBurstTransport (fun _ => false) (idealTick 3)
      lastBytesPending (by decide) rfl).2.2.2.2.2 (by decide) (by decide)).1⟩

/-- C13, as stated, fails: the framer writes the last bytes of a priority-1
packet of sequence number 7, the first on its priority, and the outbound filter
rejects it.  Before the tick nothing is recorded for priority 1; after it the
last-sent sequence number is 7, one packet and one reliable packet are counted
and the latency is accumulated. -/
theorem rejected_packet_is_accounted :
    sendsLastByte wholeBurstTransport (idealTick 3) lastBytesPending = true ∧
    (P2PPacketOutputStream.Run demoProtocol wholeBurstTransport rejectAll (idealTick 3).write
        (idealTick 3).now lastBytesPending).events
      = [OutEvent.write 3 [1, 2, 3], OutEvent.filter false] ∧
    lastBytesPending.last_sent_sequence_number_ 1 = kNeverSent ∧
    lastBytesPending.stats_.total_packets_ 1 = 0 ∧
    lastBytesPending.stats_.total_reliable_packets_ 1 = 0 ∧
    lastBytesPending.stats_.total_packet_delay_ns_ 1 = 0 ∧
    (P2PPacketOutputStream.Run demoProtocol wholeBurstTransport rejectAll (idealTick 3).write
        (idealTick 3).now lastBytesPending).next.last_sent_sequence_number_ 1 = 7 ∧
    (P2PPacketOutputStream.Run demoProtocol wholeBurstTransport rejectAll (idealTick 3).write
        (idealTick 3).now lastBytesPending).next.stats_.total_packets_ 1 = 1 ∧
    (P2PPacketOutputStream.Run demoProtocol wholeBurstTransport rejectAll (idealTick 3).write
        (idealTick 3).now lastBytesPending).next.stats_.total_reliable_packets_ 1 = 1 ∧
    (P2PPacketOutputStream.Run demoProtocol wholeBurstTransport rejectAll (idealTick 3).write
        (idealTick 3).now lastBytesPending).next.stats_.total_packet_delay_ns_ 1 = 3999995 := by
  decide

/-- The body of `case kSendingBurst` returns 0. -/
theorem sendingBurst_time (P : Protocol) (T : Transport)
    (packet_filter_ : Option (P2PPacket → Bool)) (write : Int → Int) (now : Nat)
    (s : OutputStream) :
    (P2PPacketOutputStream.sendingBurst P T packet_filter_ write now s).time_until_next_event
      = 0 := by
  unfold P2PPacketOutputStream.sendingBurst
  dsimp only
  repeat' split
  all_goals rfl

/-- C15.  In each of the three waiting states, a tick whose clock reading is
below `after_burst_wait_end_timestamp_ns_` calls `Write` zero times (it calls
no collaborator at all), leaves the framer state as it is and returns
`after_burst_wait_end_timestamp_ns_` minus the clock reading; every other tick
returns 0. -/
theorem no_write_before_wait_elapses (P : Protocol) (T : Transport)
    (packet_filter_ : Option (P2PPacket → Bool)) (k : OutTick) (s : OutputStream) :
    (s.waiting → k.now < s.after_burst_wait_end_timestamp_ns_ →
      (P2PPacketOutputStream.Run P T packet_filter_ k.write k.now s).events = [] ∧
        (P2PPacketOutputStream.Run P T packet_filter_ k.write k.now s).next = s ∧
        (P2PPacketOutputStream.Run P T packet_filter_ k.write k.now s).time_until_next_event
          = s.after_burst_wait_end_timestamp_ns_ - k.now) ∧
    (¬ (s.waiting ∧ k.now < s.after_burst_wait_end_timestamp_ns_) →
      (P2PPacketOutputStream.Run P T packet_filter_ k.write k.now s).time_until_next_event
        = 0) := by
  constructor
  · intro hw hlt
    rcases hw with hst | hst | hst <;>
      simp only [P2PPacketOutputStream.Run, hst, if_pos hlt, and_self]
  · intro hn
    cases hst : s.state_ with
    | kGettingNextPacket =>
      simp only [P2PPacketOutputStream.Run, hst]
      split <;> rfl
    | kSendingHeaderBurst =>
      simp only [P2PPacketOutputStream.Run, hst]
      split_ifs <;> rfl
    | kWaitingForHeaderBurstIngestion =>
      have hlt : ¬ k.now < s.after_burst_wait_end_timestamp_ns_ :=
        fun h => hn ⟨Or.inl hst, h⟩
      simp only [P2PPacketOutputStream.Run, hst, if_neg hlt]
      by_cases hp : s.pending_packet_bytes_ ≤ 0
      · rw [if_pos hp]
      · rw [if_neg hp]
        exact sendingBurst_time P T packet_filter_ k.write k.now _
    | kSendingBurst =>
      simp only [P2PPacketOutputStream.Run, hst]
      exact sendingBurst_time P T packet_filter_ k.write k.now s
    | kWaitingForBurstIngestion =>
      have hlt : ¬ k.now < s.after_burst_wait_end_timestamp_ns_ :=
        fun h => hn ⟨Or.inr (Or.inl hst), h⟩
      simp only [P2PPacketOutputStream.Run, hst, if_neg hlt]
      split_ifs <;> rfl
    | kWaitingForPartialBurstIngestionBeforeHigherPriorityPacket =>
      have hlt : ¬ k.now < s.after_burst_wait_end_timestamp_ns_ :=
        fun h => hn ⟨Or.inr (Or.inr hst), h⟩
      simp only [P2PPacketOutputStream.Run, hst, if_neg hlt]

/-- Witness of `no_write_before_wait_elapses`: 70 ns before the end of the wait
for a header burst, and at its end. -/
theorem no_write_before_wait_elapses_witness :
    headerBurstWritten.state_ = OutState.kWaitingForHeaderBurstIngestion ∧
    headerBurstWritten.after_burst_wait_end_timestamp_ns_ = 2000120 ∧
    ((P2PPacketOutputStream.Run demoProtocol wholeBurstTransport none (fun n => n) 2000050
        headerBurstWritten).events = [] ∧
      (P2PPacketOutputStream.Run demoProtocol wholeBurstTransport none (fun n => n) 2000050
        headerBurstWritten).next = headerBurstWritten ∧
      (P2PPacketOutputStream.Run demoProtocol wholeBurstTransport none (fun n => n) 2000050
        headerBurstWritten).time_until_next_event = 2000120 - 2000050) ∧
    (P2PPacketOutputStream.Run demoProtocol wholeBurstTransport none (fun n => n) 2000120
        headerBurstWritten).time_until_next_event = 0 :=
  ⟨by decide, by decide,
   (no_write_before_wait_elapses demoProtocol wholeBurstTransport none
      { write := fun n => n, now := 2000050 } headerBurstWritten).1 (Or.inl (by decide))
      (by decide),
   (no_write_before_wait_elapses demoProtocol wholeBurstTransport none
      { write := fun n => n, now := 2000120 } headerBurstWritten).2 (fun h => absurd h.2 (by decide))⟩

/-! ## Pacing and caps of the framer -/

/-- The length of a block of packet bytes. -/
theorem packetBytes_length (P : Protocol) (p : P2PPacket) (off : Int) (n : Nat) :
    (P.packetBytes p off n).length = n := by
  simp [Protocol.packetBytes]

/-- What the body of `case kSendingBurst` does to the byte counters, the state
and the end of the wait. -/
theorem sendingBurst_outcome (P : Protocol) (T : Transport)
    (packet_filter_ : Option (P2PPacket → Bool)) (write : Int → Int) (now : Nat)
    (s : OutputStream) (w : Int)
    (hw : write (min T.GetAtomicSendMaxLength s.pending_burst_bytes_) = w) :
    (P2PPacketOutputStream.sendingBurst P T packet_filter_ write now s).next.pending_packet_bytes_
      = s.pending_packet_bytes_ - w ∧
    (P2PPacketOutputStream.sendingBurst P T packet_filter_ write now s).written = w.toNat ∧
    ((s.pending_packet_bytes_ - w ≤ 0 ∨ s.pending_burst_bytes_ - w ≤ 0) →
      (P2PPacketOutputStream.sendingBurst P T packet_filter_ write now s).next.state_
          = OutState.kWaitingForBurstIngestion ∧
        (P2PPacketOutputStream.sendingBurst P T packet_filter_ write now
            s).next.after_burst_wait_end_timestamp_ns_
          = T.waitEnd now s.total_burst_bytes_) ∧
    (¬ s.pending_packet_bytes_ - w ≤ 0 → ¬ s.pending_burst_bytes_ - w ≤ 0 →
      ((P2PPacketOutputStream.sendingBurst P T packet_filter_ write now s).next.state_
          = OutState.kWaitingForPartialBurstIngestionBeforeHigherPriorityPacket ∧
        (P2PPacketOutputStream.sendingBurst P T packet_filter_ write now
            s).next.after_burst_wait_end_timestamp_ns_
          = T.waitEnd now (s.total_burst_bytes_ - (s.pending_burst_bytes_ - w))) ∨
      (P2PPacketOutputStream.sendingBurst P T packet_filter_ write now s).next
        = { s with pending_packet_bytes_ := s.pending_packet_bytes_ - w,
                   pending_burst_bytes_ := s.pending_burst_bytes_ - w }) := by
  subst hw
  by_cases h1 : s.pending_packet_bytes_
      - write (min T.GetAtomicSendMaxLength s.pending_burst_bytes_) ≤ 0
  · simp only [P2PPacketOutputStream.sendingBurst, OutResult.written, if_pos h1]
    cases packet_filter_ with
    | none =>
      simp [writtenBytes, packetBytes_length, h1]
    | some f =>
      by_cases hf : f s.current = true
      · simp [writtenBytes, packetBytes_length, h1, hf]
      · simp [writtenBytes, packetBytes_length, h1, hf]
  · by_cases h2 : s.pending_burst_bytes_
        - write (min T.GetAtomicSendMaxLength s.pending_burst_bytes_) ≤ 0
    · simp only [P2PPacketOutputStream.sendingBurst, OutResult.written, if_neg h1, if_pos h2]
      simp [writtenBytes, packetBytes_length, h1, h2]
    · simp only [P2PPacketOutputStream.sendingBurst, OutResult.written, if_neg h1, if_neg h2]
      split
      · split_ifs
        · simp [writtenBytes, packetBytes_length, h1, h2]
        · simp [writtenBytes, packetBytes_length, h1, h2]
      · simp [writtenBytes, packetBytes_length, h1, h2]

/-- What a tick of `kSendingHeaderBurst` does to the byte counters, the state and
the end of the wait. -/
theorem Run_header_outcome (P : Protocol) (T : Transport)
    (packet_filter_ : Option (P2PPacket → Bool)) (write : Int → Int) (now : Nat)
    (s : OutputStream) (w : Int) (hst : s.state_ = OutState.kSendingHeaderBurst)
    (hw : write s.pending_burst_bytes_ = w) :
    (P2PPacketOutputStream.Run P T packet_filter_ write now s).written = w.toNat ∧
    (((s.pending_packet_bytes_ - w ≤ 0 ∨ s.pending_burst_bytes_ - w ≤ 0) ∧
        (P2PPacketOutputStream.Run P T packet_filter_ write now s).next
          = { s with pending_packet_bytes_ := s.pending_packet_bytes_ - w,
                     pending_burst_bytes_ := s.pending_burst_bytes_ - w,
                     after_burst_wait_end_timestamp_ns_ := T.waitEnd now s.total_burst_bytes_,
                     state_ := OutState.kWaitingForHeaderBurstIngestion }) ∨
      (¬ s.pending_packet_bytes_ - w ≤ 0 ∧ ¬ s.pending_burst_bytes_ - w ≤ 0 ∧
        (P2PPacketOutputStream.Run P T packet_filter_ write now s).next
          = { s with pending_packet_bytes_ := s.pending_packet_bytes_ - w,
                     pending_burst_bytes_ := s.pending_burst_bytes_ - w })) := by
  subst hw
  by_cases h1 : s.pending_packet_bytes_ - write s.pending_burst_bytes_ ≤ 0
  · simp [P2PPacketOutputStream.Run, hst, OutResult.written, writtenBytes, packetBytes_length,
      h1]
  · by_cases h2 : s.pending_burst_bytes_ - write s.pending_burst_bytes_ ≤ 0
    · simp [P2PPacketOutputStream.Run, hst, OutResult.written, writtenBytes,
        packetBytes_length, h1, h2]
    · simp [P2PPacketOutputStream.Run, hst, OutResult.written, writtenBytes,
        packetBytes_length, h1, h2]

/-- One tick from `kSendingHeaderBurst` keeps the burst record in step and paces
by the bytes written. -/
theorem Run_logged_header (P : Protocol) (T : Transport)
    (packet_filter_ : Option (P2PPacket → Bool)) (k : OutTick) (s : OutputStream) (l : BurstLog)
    (hk : k.valid) (h : s.Logged P T l) (hst : s.state_ = OutState.kSendingHeaderBurst) :
    (P2PPacketOutputStream.Run P T packet_filter_ k.write k.now s).next.Logged P T
        (P2PPacketOutputStream.logStep P T packet_filter_ k s l) ∧
      ((P2PPacketOutputStream.Run P T packet_filter_ k.write k.now s).next.waiting →
        (P2PPacketOutputStream.Run P T packet_filter_ k.write k.now
            s).next.after_burst_wait_end_timestamp_ns_
          = T.waitEnd k.now
              (P2PPacketOutputStream.logStep P T packet_filter_ k s l).written) := by
  obtain ⟨⟨hpp, hsane⟩, hlb, hlp, hlog⟩ := h
  simp only [hst] at hsane
  obtain ⟨hb0, hbp, hbt, htb, hfresh⟩ := hsane
  have hsend : s.sending = true := by simp [OutputStream.sending, hst]
  obtain ⟨hl1, hl2⟩ := hlog hsend
  obtain ⟨hw0, hw1⟩ := hk s.pending_burst_bytes_ hb0
  obtain ⟨hwr, hout⟩ := Run_header_outcome P T packet_filter_ k.write k.now s _ hst rfl
  have hstep : P2PPacketOutputStream.logStep P T packet_filter_ k s l
      = { l with written := l.written + (k.write s.pending_burst_bytes_).toNat } := by
    simp only [P2PPacketOutputStream.logStep, hsend, if_true, hwr]
  have hcast : (((k.write s.pending_burst_bytes_).toNat : Nat) : Int)
      = k.write s.pending_burst_bytes_ := Int.toNat_of_nonneg hw0
  rw [hstep]
  rcases hout with ⟨hdone, hnext⟩ | ⟨hn1, hn2, hnext⟩
  · rw [hnext]
    refine ⟨⟨⟨by show 0 ≤ s.pending_packet_bytes_ - _; omega, hfresh⟩, ?_, ?_, ?_⟩, ?_⟩
    · show ((l.written + (k.write s.pending_burst_bytes_).toNat : Nat) : Int) ≤ _
      push_cast; omega
    · show ((l.written + (k.write s.pending_burst_bytes_).toNat : Nat) : Int) ≤ _
      push_cast; omega
    · intro hc
      simp [OutputStream.sending] at hc
    · intro _
      show T.waitEnd k.now s.total_burst_bytes_ = T.waitEnd k.now
        ((l.written + (k.write s.pending_burst_bytes_).toNat : Nat) : Int)
      congr 1
      push_cast; omega
  · rw [hnext]
    refine ⟨⟨⟨by show 0 ≤ s.pending_packet_bytes_ - _; omega, ?_⟩, ?_, ?_, ?_⟩, ?_⟩
    · simp only [hst]
      exact ⟨by omega, by omega, by omega, htb, hfresh⟩
    · show ((l.written + (k.write s.pending_burst_bytes_).toNat : Nat) : Int) ≤ _
      push_cast; omega
    · show ((l.written + (k.write s.pending_burst_bytes_).toNat : Nat) : Int) ≤ _
      push_cast; omega
    · intro _
      constructor
      · show ((l.written + (k.write s.pending_burst_bytes_).toNat : Nat) : Int)
          = s.total_burst_bytes_ - (s.pending_burst_bytes_ - _)
        push_cast; omega
      · show l.pendingAtStart = ((l.written + (k.write s.pending_burst_bytes_).toNat : Nat) : Int)
          + (s.pending_packet_bytes_ - _)
        push_cast; omega
    · intro hwt
      exfalso
      rcases hwt with h | h | h <;> simp [hst] at h

/-- The body of `case kSendingBurst`, run in a sending state, keeps the burst
record in step and paces by the bytes written. -/
theorem sendingBurst_logged (P : Protocol) (T : Transport)
    (packet_filter_ : Option (P2PPacket → Bool)) (k : OutTick) (x : OutputStream)
    (g : Nat) (p0 : Int)
    (hat : 0 ≤ T.GetAtomicSendMaxLength) (hk : k.valid)
    (hsane : x.Sane P T) (hxs : x.sending = true)
    (hg : (g : Int) = x.total_burst_bytes_ - x.pending_burst_bytes_)
    (hp0 : p0 = (g : Int) + x.pending_packet_bytes_) :
    (P2PPacketOutputStream.sendingBurst P T packet_filter_ k.write k.now x).next.Logged P T
        { written := g + (P2PPacketOutputStream.sendingBurst P T packet_filter_ k.write k.now
            x).written,
          pendingAtStart := p0 } ∧
      ((P2PPacketOutputStream.sendingBurst P T packet_filter_ k.write k.now x).next.waiting →
        (P2PPacketOutputStream.sendingBurst P T packet_filter_ k.write k.now
            x).next.after_burst_wait_end_timestamp_ns_
          = T.waitEnd k.now
              ((g + (P2PPacketOutputStream.sendingBurst P T packet_filter_ k.write k.now
                x).written : Nat) : Int)) := by
  obtain ⟨hpp, hm⟩ := hsane
  have hc : 0 ≤ x.pending_burst_bytes_ ∧ x.pending_burst_bytes_ ≤ x.pending_packet_bytes_ ∧
      x.pending_burst_bytes_ ≤ x.total_burst_bytes_ ∧
      x.total_burst_bytes_ ≤ T.GetBurstMaxLength := by
    cases hst : x.state_ <;> simp only [hst] at hm <;>
      first
      | exact ⟨hm.1, hm.2.1, hm.2.2.1, hm.2.2.2.1⟩
      | exact hm
      | (simp [OutputStream.sending, hst] at hxs)
  obtain ⟨hb0, hbp, hbt, htb⟩ := hc
  obtain ⟨hw0, hw1⟩ := hk (min T.GetAtomicSendMaxLength x.pending_burst_bytes_)
    (le_min hat hb0)
  have hw2 : k.write (min T.GetAtomicSendMaxLength x.pending_burst_bytes_)
      ≤ x.pending_burst_bytes_ := le_trans hw1 (min_le_right _ _)
  obtain ⟨o1, o2, o3, o4⟩ := sendingBurst_outcome P T packet_filter_ k.write k.now x _ rfl
  have hcast : (((k.write (min T.GetAtomicSendMaxLength x.pending_burst_bytes_)).toNat : Nat)
      : Int) = k.write (min T.GetAtomicSendMaxLength x.pending_burst_bytes_) :=
    Int.toNat_of_nonneg hw0
  rw [o2]
  by_cases hdone : x.pending_packet_bytes_
        - k.write (min T.GetAtomicSendMaxLength x.pending_burst_bytes_) ≤ 0 ∨
      x.pending_burst_bytes_ - k.write (min T.GetAtomicSendMaxLength x.pending_burst_bytes_) ≤ 0
  · obtain ⟨hs1, hs2⟩ := o3 hdone
    refine ⟨⟨⟨by rw [o1]; omega, by rw [hs1]; trivial⟩, ?_, ?_, ?_⟩, ?_⟩
    · show ((g + _ : Nat) : Int) ≤ _
      push_cast; omega
    · show ((g + _ : Nat) : Int) ≤ _
      push_cast; omega
    · intro hc
      simp [OutputStream.sending, hs1] at hc
    · intro _
      rw [hs2]
      congr 1
      push_cast
      rcases hdone with h | h <;> omega
  · have hn1 : ¬ x.pending_packet_bytes_
        - k.write (min T.GetAtomicSendMaxLength x.pending_burst_bytes_) ≤ 0 :=
      fun h => hdone (Or.inl h)
    have hn2 : ¬ x.pending_burst_bytes_
        - k.write (min T.GetAtomicSendMaxLength x.pending_burst_bytes_) ≤ 0 :=
      fun h => hdone (Or.inr h)
    rcases o4 hn1 hn2 with ⟨hs1, hs2⟩ | hnext
    · refine ⟨⟨⟨by rw [o1]; omega, by rw [hs1]; trivial⟩, ?_, ?_, ?_⟩, ?_⟩
      · show ((g + _ : Nat) : Int) ≤ _
        push_cast; omega
      · show ((g + _ : Nat) : Int) ≤ _
        push_cast; omega
      · intro hc
        simp [OutputStream.sending, hs1] at hc
      · intro _
        rw [hs2]
        congr 1
        push_cast
        omega
    · rw [hnext]
      refine ⟨⟨⟨by show 0 ≤ x.pending_packet_bytes_ - _; omega, ?_⟩, ?_, ?_, ?_⟩, ?_⟩
      · cases hst : x.state_ <;> simp only [hst] at hm ⊢ <;>
          first
          | exact ⟨by omega, by omega, by omega, htb, hm.2.2.2.2⟩
          | exact ⟨by omega, by omega, by omega, htb⟩
          | trivial
      · show ((g + _ : Nat) : Int) ≤ _
        push_cast; omega
      · show ((g + _ : Nat) : Int) ≤ _
        push_cast; omega
      · intro _
        constructor
        · show ((g + _ : Nat) : Int) = x.total_burst_bytes_ - (x.pending_burst_bytes_ - _)
          push_cast; omega
        · show p0 = ((g + _ : Nat) : Int) + (x.pending_packet_bytes_ - _)
          push_cast; omega
      · intro hwt
        exfalso
        have hxs2 := hxs
        simp only [OutputStream.sending] at hxs2
        rcases hwt with h | h | h <;>
          (change x.state_ = _ at h; rw [h] at hxs2; simp at hxs2)

/-- One tick keeps the burst record in step with the counters of the framer, and
a tick that enters a waiting state sets the end of the wait from the bytes
written since the burst began. -/
theorem Run_logged (P : Protocol) (T : Transport)
    (packet_filter_ : Option (P2PPacket → Bool)) (k : OutTick) (s : OutputStream) (l : BurstLog)
    (hbm : 0 ≤ T.GetBurstMaxLength) (hat : 0 ≤ T.GetAtomicSendMaxLength)
    (hk : k.valid) (h : s.Logged P T l) :
    (P2PPacketOutputStream.Run P T packet_filter_ k.write k.now s).next.Logged P T
        (P2PPacketOutputStream.logStep P T packet_filter_ k s l) ∧
      ((P2PPacketOutputStream.Run P T packet_filter_ k.write k.now s).next.waiting →
        ¬ (s.waiting ∧ k.now < s.after_burst_wait_end_timestamp_ns_) →
        (P2PPacketOutputStream.Run P T packet_filter_ k.write k.now
            s).next.after_burst_wait_end_timestamp_ns_
          = T.waitEnd k.now
              (P2PPacketOutputStream.logStep P T packet_filter_ k s l).written) := by
  cases hst : s.state_ with
  | kSendingHeaderBurst =>
    have h1 := Run_logged_header P T packet_filter_ k s l hk h hst
    exact ⟨h1.1, fun hw _ => h1.2 hw⟩
  | kSendingBurst =>
    have hsend : s.sending = true := by simp [OutputStream.sending, hst]
    have hrun : P2PPacketOutputStream.Run P T packet_filter_ k.write k.now s
        = P2PPacketOutputStream.sendingBurst P T packet_filter_ k.write k.now s := by
      simp only [P2PPacketOutputStream.Run, hst]
    have hstep : P2PPacketOutputStream.logStep P T packet_filter_ k s l
        = { written := l.written + (P2PPacketOutputStream.sendingBurst P T packet_filter_
              k.write k.now s).written,
            pendingAtStart := l.pendingAtStart } := by
      simp only [P2PPacketOutputStream.logStep, hsend, if_true, hrun]
    obtain ⟨hl1, hl2⟩ := h.2.2.2 hsend
    have h1 := sendingBurst_logged P T packet_filter_ k s l.written l.pendingAtStart hat hk h.1
      hsend hl1 hl2
    rw [hrun, hstep]
    exact ⟨h1.1, fun hw _ => h1.2 hw⟩
  | kGettingNextPacket =>
    obtain ⟨⟨hpp, _⟩, hlb, hlp, _⟩ := h
    have hsend : s.sending = false := by simp [OutputStream.sending, hst]
    cases hq : s.packet_buffer_.OldestValue P with
    | none =>
      have hrun : P2PPacketOutputStream.Run P T packet_filter_ k.write k.now s
          = { next := { s with current_packet_ := none }, events := [],
              time_until_next_event := 0 } := by
        simp only [P2PPacketOutputStream.Run, hst, hq]
      have hstep : P2PPacketOutputStream.logStep P T packet_filter_ k s l
          = { written := 0, pendingAtStart := s.pending_packet_bytes_ + ((0 : Nat) : Int) } := by
        simp only [P2PPacketOutputStream.logStep, hsend, hrun, OutResult.written, writtenBytes,
          List.length_nil]
        rfl
      rw [hrun, hstep]
      refine ⟨⟨⟨hpp, by simp only [hst]⟩, by simpa using hbm, by simpa using hpp, ?_⟩, ?_⟩
      · intro hc
        simp [OutputStream.sending, hst] at hc
      · intro hw
        exfalso
        rcases hw with h | h | h <;> simp [hst] at h
    | some q =>
      have hrun : True ∧
          (P2PPacketOutputStream.Run P T packet_filter_ k.write k.now s).next.state_
            = OutState.kSendingHeaderBurst ∧
          (P2PPacketOutputStream.Run P T packet_filter_ k.write k.now s).next.pending_packet_bytes_
            = (P.sizeofHeader : Int) ∧
          (P2PPacketOutputStream.Run P T packet_filter_ k.write k.now s).next.total_burst_bytes_
            = min (P.sizeofHeader : Int) T.GetBurstMaxLength ∧
          (P2PPacketOutputStream.Run P T packet_filter_ k.write k.now s).next.pending_burst_bytes_
            = min (P.sizeofHeader : Int) T.GetBurstMaxLength ∧
          (P2PPacketOutputStream.Run P T packet_filter_ k.write k.now s).written = 0 ∧
          (P2PPacketOutputStream.Run P T packet_filter_ k.write k.now s).next.freshTotal P := by
        simp only [P2PPacketOutputStream.Run, hst, hq, OutputStream.startBurst,
          OutResult.written, OutputStream.freshTotal, OutputStream.current]
        split_ifs <;> simp [writtenBytes, setAt] <;>
          first
          | (intro _; omega)
          | (intro hc; contradiction)
      obtain ⟨_, r1, r2, r3, r4, r5, r6⟩ := hrun
      have hstep : P2PPacketOutputStream.logStep P T packet_filter_ k s l
          = { written := 0, pendingAtStart := (P.sizeofHeader : Int) + ((0 : Nat) : Int) } := by
        simp only [P2PPacketOutputStream.logStep, hsend, r5, r2]
        rfl
      have hhs : (0 : Int) ≤ (P.sizeofHeader : Int) := Int.natCast_nonneg _
      rw [hstep]
      refine ⟨⟨⟨by rw [r2]; exact hhs, ?_⟩, by simpa using hbm, by simp, ?_⟩, ?_⟩
      · rw [r1]
        simp only []
        rw [r2, r3, r4]
        exact ⟨le_min hhs hbm, min_le_left _ _, le_refl _, min_le_right _ _, r6⟩
      · intro _
        rw [r2, r3, r4]
        simp
      · intro hw
        exfalso
        rcases hw with h | h | h <;> simp [r1] at h
  | kWaitingForHeaderBurstIngestion =>
    have hsane := h.1
    have hfresh : s.freshTotal P := by
      have := hsane.2
      simp only [hst] at this
      exact this
    have hsend : s.sending = false := by simp [OutputStream.sending, hst]
    by_cases hlt : k.now < s.after_burst_wait_end_timestamp_ns_
    · have hrun : P2PPacketOutputStream.Run P T packet_filter_ k.write k.now s
          = { next := s, events := [],
              time_until_next_event := s.after_burst_wait_end_timestamp_ns_ - k.now } := by
        simp only [P2PPacketOutputStream.Run, hst, if_pos hlt]
      have hstep : P2PPacketOutputStream.logStep P T packet_filter_ k s l
          = { written := 0, pendingAtStart := s.pending_packet_bytes_ + ((0 : Nat) : Int) } := by
        simp only [P2PPacketOutputStream.logStep, hsend, hrun, OutResult.written, writtenBytes,
          List.length_nil]
        rfl
      rw [hrun, hstep]
      refine ⟨⟨hsane, by simpa using hbm, by simpa using hsane.1, ?_⟩, ?_⟩
      · intro hc
        simp [OutputStream.sending, hst] at hc
      · intro _ hnew
        exact absurd ⟨Or.inl hst, hlt⟩ hnew
    · by_cases hp : s.pending_packet_bytes_ ≤ 0
      · obtain ⟨pend, hpend⟩ : ∃ pend : Int, pend
            = if s.current.header.is_continuation = true then
                (P.networkToLocal s.current.header.length : Int) + (P.sizeofFooter : Int)
              else s.total_packet_bytes_ s.current.header.priority - (P.sizeofHeader : Int) :=
          ⟨_, rfl⟩
        have hpend0 : 0 ≤ pend := by
          rw [hpend]
          split_ifs with hc
          · omega
          · have := hfresh (by simpa using hc)
            omega
        have hrun : P2PPacketOutputStream.Run P T packet_filter_ k.write k.now s
            = { next := ({ s with pending_packet_bytes_ := pend }).startBurst T
                  OutState.kSendingBurst,
                events := [], time_until_next_event := 0 } := by
          simp only [P2PPacketOutputStream.Run, hst, if_neg hlt, if_pos hp, hpend]
        have hstep : P2PPacketOutputStream.logStep P T packet_filter_ k s l
            = { written := 0, pendingAtStart := pend + ((0 : Nat) : Int) } := by
          simp only [P2PPacketOutputStream.logStep, hsend, hrun, OutResult.written, writtenBytes,
            List.length_nil]
          rfl
        rw [hrun, hstep]
        refine ⟨⟨⟨hpend0, ?_⟩, by simpa using hbm, by simpa using hpend0, ?_⟩, ?_⟩
        · exact ⟨le_min hpend0 hbm, min_le_left _ _, le_refl _, min_le_right _ _⟩
        · intro _
          simp [OutputStream.startBurst]
        · intro hw
          exfalso
          rcases hw with h | h | h <;> simp [OutputStream.startBurst] at h
      · have hrun : P2PPacketOutputStream.Run P T packet_filter_ k.write k.now s
            = P2PPacketOutputStream.sendingBurst P T packet_filter_ k.write k.now
                (s.startBurst T OutState.kSendingHeaderBurst) := by
          simp only [P2PPacketOutputStream.Run, hst, if_neg hlt, if_neg hp]
        have hx : (s.startBurst T OutState.kSendingHeaderBurst).Sane P T :=
          ⟨hsane.1, le_min hsane.1 hbm, min_le_left _ _, le_refl _, min_le_right _ _, hfresh⟩
        have h1 := sendingBurst_logged P T packet_filter_ k
          (s.startBurst T OutState.kSendingHeaderBurst) 0 s.pending_packet_bytes_ hat hk hx rfl
          (by simp [OutputStream.startBurst]) (by simp [OutputStream.startBurst])
        have o1 := (sendingBurst_outcome P T packet_filter_ k.write k.now
          (s.startBurst T OutState.kSendingHeaderBurst) _ rfl)
        have hw0 := (hk (min T.GetAtomicSendMaxLength
          (s.startBurst T OutState.kSendingHeaderBurst).pending_burst_bytes_)
          (le_min hat (le_min hsane.1 hbm))).1
        have hstep : P2PPacketOutputStream.logStep P T packet_filter_ k s l
            = { written := 0 + (P2PPacketOutputStream.sendingBurst P T packet_filter_ k.write
                  k.now (s.startBurst T OutState.kSendingHeaderBurst)).written,
                pendingAtStart := s.pending_packet_bytes_ } := by
          simp only [P2PPacketOutputStream.logStep, hsend, hrun, o1.1, o1.2.1, Nat.zero_add,
            Bool.false_eq_true, if_false]
          congr 1
          rw [Int.toNat_of_nonneg hw0]
          show s.pending_packet_bytes_ - _ + _ = _
          omega
        rw [hrun, hstep]
        exact ⟨h1.1, fun hw _ => h1.2 hw⟩
  | kWaitingForBurstIngestion =>
    have hsane := h.1
    have hsend : s.sending = false := by simp [OutputStream.sending, hst]
    by_cases hlt : k.now < s.after_burst_wait_end_timestamp_ns_
    · have hrun : P2PPacketOutputStream.Run P T packet_filter_ k.write k.now s
          = { next := s, events := [],
              time_until_next_event := s.after_burst_wait_end_timestamp_ns_ - k.now } := by
        simp only [P2PPacketOutputStream.Run, hst, if_pos hlt]
      have hstep : P2PPacketOutputStream.logStep P T packet_filter_ k s l
          = { written := 0, pendingAtStart := s.pending_packet_bytes_ + ((0 : Nat) : Int) } := by
        simp only [P2PPacketOutputStream.logStep, hsend, hrun, OutResult.written, writtenBytes,
          List.length_nil]
        rfl
      rw [hrun, hstep]
      refine ⟨⟨hsane, by simpa using hbm, by simpa using hsane.1, ?_⟩, ?_⟩
      · intro hc
        simp [OutputStream.sending, hst] at hc
      · intro _ hnew
        exact absurd ⟨Or.inr (Or.inl hst), hlt⟩ hnew
    · by_cases hp : s.pending_packet_bytes_ ≤ 0
      · have hrun : P2PPacketOutputStream.Run P T packet_filter_ k.write k.now s
            = { next := { s with state_ := OutState.kGettingNextPacket }, events := [],
                time_until_next_event := 0 } := by
          simp only [P2PPacketOutputStream.Run, hst, if_neg hlt, if_pos hp]
        have hstep : P2PPacketOutputStream.logStep P T packet_filter_ k s l
            = { written := 0, pendingAtStart := s.pending_packet_bytes_ + ((0 : Nat) : Int) } := by
          simp only [P2PPacketOutputStream.logStep, hsend, hrun, OutResult.written, writtenBytes,
            List.length_nil]
          rfl
        rw [hrun, hstep]
        refine ⟨⟨⟨hsane.1, trivial⟩, by simpa using hbm, by simpa using hsane.1, ?_⟩, ?_⟩
        · intro hc
          simp [OutputStream.sending] at hc
        · intro hw
          exfalso
          rcases hw with h | h | h <;> simp at h
      · have hrun : P2PPacketOutputStream.Run P T packet_filter_ k.write k.now s
            = { next := s.startBurst T OutState.kSendingBurst, events := [],
                time_until_next_event := 0 } := by
          simp only [P2PPacketOutputStream.Run, hst, if_neg hlt, if_neg hp]
        have hstep : P2PPacketOutputStream.logStep P T packet_filter_ k s l
            = { written := 0, pendingAtStart := s.pending_packet_bytes_ + ((0 : Nat) : Int) } := by
          simp only [P2PPacketOutputStream.logStep, hsend, hrun, OutResult.written, writtenBytes,
            List.length_nil]
          rfl
        rw [hrun, hstep]
        refine ⟨⟨⟨hsane.1, ?_⟩, by simpa using hbm, by simpa using hsane.1, ?_⟩, ?_⟩
        · exact ⟨le_min hsane.1 hbm, min_le_left _ _, le_refl _, min_le_right _ _⟩
        · intro _
          simp [OutputStream.startBurst]
        · intro hw
          exfalso
          rcases hw with h | h | h <;> simp [OutputStream.startBurst] at h
  | kWaitingForPartialBurstIngestionBeforeHigherPriorityPacket =>
    have hsane := h.1
    have hsend : s.sending = false := by simp [OutputStream.sending, hst]
    by_cases hlt : k.now < s.after_burst_wait_end_timestamp_ns_
    · have hrun : P2PPacketOutputStream.Run P T packet_filter_ k.write k.now s
          = { next := s, events := [],
              time_until_next_event := s.after_burst_wait_end_timestamp_ns_ - k.now } := by
        simp only [P2PPacketOutputStream.Run, hst, if_pos hlt]
      have hstep : P2PPacketOutputStream.logStep P T packet_filter_ k s l
          = { written := 0, pendingAtStart := s.pending_packet_bytes_ + ((0 : Nat) : Int) } := by
        simp only [P2PPacketOutputStream.logStep, hsend, hrun, OutResult.written, writtenBytes,
          List.length_nil]
        rfl
      rw [hrun, hstep]
      refine ⟨⟨hsane, by simpa using hbm, by simpa using hsane.1, ?_⟩, ?_⟩
      · intro hc
        simp [OutputStream.sending, hst] at hc
      · intro _ hnew
        exact absurd ⟨Or.inr (Or.inr hst), hlt⟩ hnew
    · have hrun : P2PPacketOutputStream.Run P T packet_filter_ k.write k.now s
          = { next := { s with state_ := OutState.kGettingNextPacket }, events := [],
              time_until_next_event := 0 } := by
        simp only [P2PPacketOutputStream.Run, hst, if_neg hlt]
      have hstep : P2PPacketOutputStream.logStep P T packet_filter_ k s l
          = { written := 0, pendingAtStart := s.pending_packet_bytes_ + ((0 : Nat) : Int) } := by
        simp only [P2PPacketOutputStream.logStep, hsend, hrun, OutResult.written, writtenBytes,
          List.length_nil]
        rfl
      rw [hrun, hstep]
      refine ⟨⟨⟨hsane.1, trivial⟩, by simpa using hbm, by simpa using hsane.1, ?_⟩, ?_⟩
      · intro hc
        simp [OutputStream.sending] at hc
      · intro hw
        exfalso
        rcases hw with h | h | h <;> simp at h

/-- A framer right after construction is sane, with an empty burst record. -/
theorem init_logged (P : Protocol) (T : Transport) (b : OutStore)
    (hbm : 0 ≤ T.GetBurstMaxLength) :
    (OutputStream.init b).Logged P T { written := 0, pendingAtStart := 0 } := by
  refine ⟨⟨le_refl _, trivial⟩, by simpa using hbm, by simp, ?_⟩
  intro hc
  simp [OutputStream.sending, OutputStream.init] at hc

/-- A framer run, tick by tick from the end. -/
theorem runTicks_snoc (P : Protocol) (T : Transport)
    (packet_filter_ : Option (P2PPacket → Bool)) (ticks : List OutTick) (k : OutTick)
    (s : OutputStream) :
    (P2PPacketOutputStream.runTicks P T packet_filter_ (ticks ++ [k]) s).1
      = (P2PPacketOutputStream.Run P T packet_filter_ k.write k.now
          (P2PPacketOutputStream.runTicks P T packet_filter_ ticks s).1).next := by
  induction ticks generalizing s with
  | nil => rfl
  | cons k' ks ih =>
    simp only [List.cons_append, P2PPacketOutputStream.runTicks]
    exact ih _

/-- The burst record of a run, tick by tick from the end. -/
theorem burstLog_snoc (P : Protocol) (T : Transport)
    (packet_filter_ : Option (P2PPacket → Bool)) (ticks : List OutTick) (k : OutTick)
    (s : OutputStream) (l : BurstLog) :
    P2PPacketOutputStream.burstLog P T packet_filter_ (ticks ++ [k]) s l
      = P2PPacketOutputStream.logStep P T packet_filter_ k
          (P2PPacketOutputStream.runTicks P T packet_filter_ ticks s).1
          (P2PPacketOutputStream.burstLog P T packet_filter_ ticks s l) := by
  induction ticks generalizing s l with
  | nil => rfl
  | cons k' ks ih =>
    simp only [List.cons_append, P2PPacketOutputStream.burstLog, P2PPacketOutputStream.runTicks]
    exact ih _ _

/-- A run of valid ticks keeps the burst record in step with the counters. -/
theorem runTicks_logged (P : Protocol) (T : Transport)
    (packet_filter_ : Option (P2PPacket → Bool)) (ticks : List OutTick) (s : OutputStream)
    (l : BurstLog) (hbm : 0 ≤ T.GetBurstMaxLength) (hat : 0 ≤ T.GetAtomicSendMaxLength)
    (hk : ∀ k ∈ ticks, k.valid) (h : s.Logged P T l) :
    (P2PPacketOutputStream.runTicks P T packet_filter_ ticks s).1.Logged P T
      (P2PPacketOutputStream.burstLog P T packet_filter_ ticks s l) := by
  induction ticks generalizing s l with
  | nil => exact h
  | cons k ks ih =>
    simp only [P2PPacketOutputStream.burstLog, P2PPacketOutputStream.runTicks]
    exact ih _ _ (fun k' hk' => hk k' (List.mem_cons_of_mem _ hk'))
      (Run_logged P T packet_filter_ k s l hbm hat (hk k (List.mem_cons_self _ _)) h).1

/-- The end of a wait without overflow of the 64-bit clock. -/
theorem waitEnd_exact (T : Transport) (now : Nat) (n : Int)
    (hn : 0 ≤ n * T.GetBurstIngestionNanosecondsPerByte)
    (hlt : (now : Int) + n * T.GetBurstIngestionNanosecondsPerByte < 2 ^ 64) :
    ((T.waitEnd now n : Nat) : Int) = (now : Int) + n * T.GetBurstIngestionNanosecondsPerByte := by
  unfold Transport.waitEnd wrap64
  rw [Int.emod_eq_of_lt (by omega) hlt, Int.toNat_of_nonneg (by omega)]

/-- C14.  The framer runs from a state whose burst record is in step with its
counters (such as the state after construction, with an empty record), the
transport lengths are not negative and every `Write` returns between 0 and the
count requested.  Whenever a tick enters a waiting state (the framer is in a
waiting state after the tick, and the tick was not one that found the wait
pending), `after_burst_wait_end_timestamp_ns_` is the clock reading of that tick
plus the number of bytes written since the burst began times
`GetBurstIngestionNanosecondsPerByte()`, as an unsigned 64-bit value; this is
the exact sum when that sum is below `2^64`.  The burst began with the last tick
that found the framer idle or waiting; the statement covers completed header
bursts, completed content and footer bursts, the last burst of a packet and
bursts cut short by a packet of higher priority. -/
theorem pacing_duration (P : Protocol) (T : Transport)
    (packet_filter_ : Option (P2PPacket → Bool)) (ticks : List OutTick) (k : OutTick)
    (s : OutputStream) (l : BurstLog)
    (hbm : 0 ≤ T.GetBurstMaxLength) (hat : 0 ≤ T.GetAtomicSendMaxLength)
    (hvalid : ∀ k' ∈ ticks ++ [k], k'.valid) (h : s.Logged P T l)
    (henter : (P2PPacketOutputStream.runTicks P T packet_filter_ (ticks ++ [k]) s).1.waiting)
    (hnew : ¬ ((P2PPacketOutputStream.runTicks P T packet_filter_ ticks s).1.waiting ∧
      k.now < (P2PPacketOutputStream.runTicks P T packet_filter_ ticks
        s).1.after_burst_wait_end_timestamp_ns_)) :
    (P2PPacketOutputStream.runTicks P T packet_filter_ (ticks ++ [k])
        s).1.after_burst_wait_end_timestamp_ns_
      = T.waitEnd k.now
          (P2PPacketOutputStream.burstLog P T packet_filter_ (ticks ++ [k]) s l).written ∧
    (0 ≤ T.GetBurstIngestionNanosecondsPerByte →
      (k.now : Int)
          + ((P2PPacketOutputStream.burstLog P T packet_filter_ (ticks ++ [k]) s l).written : Int)
            * T.GetBurstIngestionNanosecondsPerByte < 2 ^ 64 →
      (((P2PPacketOutputStream.runTicks P T packet_filter_ (ticks ++ [k])
          s).1.after_burst_wait_end_timestamp_ns_ : Nat) : Int)
        = (k.now : Int)
          + ((P2PPacketOutputStream.burstLog P T packet_filter_ (ticks ++ [k]) s l).written : Int)
            * T.GetBurstIngestionNanosecondsPerByte) := by
  have h1 := runTicks_logged P T packet_filter_ ticks s l hbm hat
    (fun k' hk' => hvalid k' (List.mem_append_left _ hk')) h
  have h2 := (Run_logged P T packet_filter_ k _ _ hbm hat
    (hvalid k (List.mem_append_right _ (List.mem_singleton.mpr rfl))) h1).2
  rw [runTicks_snoc] at henter ⊢
  rw [burstLog_snoc]
  have h3 := h2 henter hnew
  refine ⟨h3, ?_⟩
  intro hns hlt
  rw [h3]
  exact waitEnd_exact T k.now _ (mul_nonneg (Int.natCast_nonneg _) hns) hlt

/-- C16.  The framer runs from a state whose burst record is in step with its
counters (such as the state after construction, with an empty record), the
transport lengths are not negative and every `Write` returns between 0 and the
count requested.  At every point of the run the number of bytes written since
the current burst began is at most `GetBurstMaxLength()` and at most the value
`pending_packet_bytes_` had when the burst began (the header bytes, or the
content and footer bytes, still to be sent); while the framer is sending,
`pending_packet_bytes_` is that value less the bytes written, and it is never
negative. -/
theorem burst_cap (P : Protocol) (T : Transport)
    (packet_filter_ : Option (P2PPacket → Bool)) (ticks : List OutTick)
    (s : OutputStream) (l : BurstLog)
    (hbm : 0 ≤ T.GetBurstMaxLength) (hat : 0 ≤ T.GetAtomicSendMaxLength)
    (hvalid : ∀ k ∈ ticks, k.valid) (h : s.Logged P T l) :
    ((P2PPacketOutputStream.burstLog P T packet_filter_ ticks s l).written : Int)
      ≤ T.GetBurstMaxLength ∧
    ((P2PPacketOutputStream.burstLog P T packet_filter_ ticks s l).written : Int)
      ≤ (P2PPacketOutputStream.burstLog P T packet_filter_ ticks s l).pendingAtStart ∧
    0 ≤ (P2PPacketOutputStream.runTicks P T packet_filter_ ticks s).1.pending_packet_bytes_ ∧
    ((P2PPacketOutputStream.runTicks P T packet_filter_ ticks s).1.sending = true →
      (P2PPacketOutputStream.burstLog P T packet_filter_ ticks s l).pendingAtStart
        = ((P2PPacketOutputStream.burstLog P T packet_filter_ ticks s l).written : Int)
          + (P2PPacketOutputStream.runTicks P T packet_filter_ ticks
              s).1.pending_packet_bytes_) := by
  obtain ⟨h1, h2, h3, h4⟩ := runTicks_logged P T packet_filter_ ticks s l hbm hat hvalid h
  exact ⟨h2, h3, h1.1, fun hs => (h4 hs).2⟩

/-- An ideal tick is valid. -/
theorem idealTick_valid (t : Nat) : (idealTick t).valid :=
  fun _ hm => ⟨hm, le_refl _⟩

/-- Ideal ticks are valid. -/
theorem idealTicksFrom_valid (start n : Nat) : ∀ k ∈ idealTicksFrom start n, k.valid := by
  intro k hk
  simp only [idealTicksFrom, List.mem_map] at hk
  obtain ⟨i, _, rfl⟩ := hk
  intro m hm
  exact ⟨hm, le_refl _⟩

/-- Witness of `pacing_duration`: the tick that writes content and footer of a
packet, 3 bytes in one burst, at clock reading 4000000 with 10 ns per byte. -/
theorem pacing_duration_witness :
    (P2PPacketOutputStream.runTicks demoProtocol wholeBurstTransport none
        (idealTicks 3 ++ [idealTick 3])
        (OutputStream.init (lowPriorityStore [demoPacket 1 7 [1] [2, 3]]))).1.state_
      = OutState.kWaitingForBurstIngestion ∧
    (P2PPacketOutputStream.burstLog demoProtocol wholeBurstTransport none
        (idealTicks 3 ++ [idealTick 3])
        (OutputStream.init (lowPriorityStore [demoPacket 1 7 [1] [2, 3]]))
        { written := 0, pendingAtStart := 0 }).written = 3 ∧
    (P2PPacketOutputStream.runTicks demoProtocol wholeBurstTransport none
        (idealTicks 3 ++ [idealTick 3])
        (OutputStream.init (lowPriorityStore [demoPacket 1 7 [1] [2, 3]]))
        ).1.after_burst_wait_end_timestamp_ns_
      = wholeBurstTransport.waitEnd (idealTick 3).now
          (P2PPacketOutputStream.burstLog demoProtocol wholeBurstTransport none
            (idealTicks 3 ++ [idealTick 3])
            (OutputStream.init (lowPriorityStore [demoPacket 1 7 [1] [2, 3]]))
            { written := 0, pendingAtStart := 0 }).written ∧
    (P2PPacketOutputStream.runTicks demoProtocol wholeBurstTransport none
        (idealTicks 3 ++ [idealTick 3])
        (OutputStream.init (lowPriorityStore [demoPacket 1 7 [1] [2, 3]]))
        ).1.after_burst_wait_end_timestamp_ns_ = 4000030 :=
  ⟨by decide, by decide,
   (pacing_duration demoProtocol wholeBurstTransport none (idealTicks 3) (idealTick 3)
      (OutputStream.init (lowPriorityStore [demoPacket 1 7 [1] [2, 3]]))
      { written := 0, pendingAtStart := 0 } (by decide) (by decide)
      (fun k hk => (List.mem_append.mp hk).elim (idealTicksFrom_valid 0 3 k)
        (fun h => by rw [List.mem_singleton.mp h]; exact idealTick_valid 3))
      (init_logged demoProtocol wholeBurstTransport _ (by decide))
      (Or.inr (Or.inl (by decide))) (fun h => absurd h.2 (by decide))).1,
   by decide⟩

/-- Witness of `burst_cap`: a packet of 20 content bytes on `wholeBurstTransport`,
whose bursts are capped at 12 bytes, after the first content burst. -/
theorem burst_cap_witness :
    (P2PPacketOutputStream.burstLog demoProtocol wholeBurstTransport none (idealTicks 4)
        (OutputStream.init (lowPriorityStore
          [demoPacket 1 7 [1, 2, 3, 4, 5, 6, 7, 8, 9, 10, 11, 12, 13, 14, 15, 16, 17, 18, 19, 20]
            [2, 3]]))
        { written := 0, pendingAtStart := 0 }).written = 12 ∧
    (P2PPacketOutputStream.burstLog demoProtocol wholeBurstTransport none (idealTicks 4)
        (OutputStream.init (lowPriorityStore
          [demoPacket 1 7 [1, 2, 3, 4, 5, 6, 7, 8, 9, 10, 11, 12, 13, 14, 15, 16, 17, 18, 19, 20]
            [2, 3]]))
        { written := 0, pendingAtStart := 0 }).pendingAtStart = 22 ∧
    ((P2PPacketOutputStream.burstLog demoProtocol wholeBurstTransport none (idealTicks 4)
        (OutputStream.init (lowPriorityStore
          [demoPacket 1 7 [1, 2, 3, 4, 5, 6, 7, 8, 9, 10, 11, 12, 13, 14, 15, 16, 17, 18, 19, 20]
            [2, 3]]))
        { written := 0, pendingAtStart := 0 }).written : Int)
      ≤ wholeBurstTransport.GetBurstMaxLength ∧
    ((P2PPacketOutputStream.burstLog demoProtocol wholeBurstTransport none (idealTicks 4)
        (OutputStream.init (lowPriorityStore
          [demoPacket 1 7 [1, 2, 3, 4, 5, 6, 7, 8, 9, 10, 11, 12, 13, 14, 15, 16, 17, 18, 19, 20]
            [2, 3]]))
        { written := 0, pendingAtStart := 0 }).written : Int)
      ≤ (P2PPacketOutputStream.burstLog demoProtocol wholeBurstTransport none (idealTicks 4)
        (OutputStream.init (lowPriorityStore
          [demoPacket 1 7 [1, 2, 3, 4, 5, 6, 7, 8, 9, 10, 11, 12, 13, 14, 15, 16, 17, 18, 19, 20]
            [2, 3]]))
        { written := 0, pendingAtStart := 0 }).pendingAtStart :=
  ⟨by decide, by decide,
   (burst_cap demoProtocol wholeBurstTransport none (idealTicks 4)
      (OutputStream.init (lowPriorityStore
        [demoPacket 1 7 [1, 2, 3, 4, 5, 6, 7, 8, 9, 10, 11, 12, 13, 14, 15, 16, 17, 18, 19, 20]
          [2, 3]]))
      { written := 0, pendingAtStart := 0 } (by decide) (by decide)
      (idealTicksFrom_valid 0 4) (init_logged demoProtocol wholeBurstTransport _ (by decide))).1,
   (burst_cap demoProtocol wholeBurstTransport none (idealTicks 4)
      (OutputStream.init (lowPriorityStore
        [demoPacket 1 7 [1, 2, 3, 4, 5, 6, 7, 8, 9, 10, 11, 12, 13, 14, 15, 16, 17, 18, 19, 20]
          [2, 3]]))
      { written := 0, pendingAtStart := 0 } (by decide) (by decide)
      (idealTicksFrom_valid 0 4)
      (init_logged demoProtocol wholeBurstTransport _ (by decide))).2.1⟩

/-- The count requested by the body of `case kSendingBurst`. -/
theorem sendingBurst_requests (P : Protocol) (T : Transport)
    (packet_filter_ : Option (P2PPacket → Bool)) (write : Int → Int) (now : Nat)
    (s : OutputStream) :
    requests (P2PPacketOutputStream.sendingBurst P T packet_filter_ write now s).events
      = [min T.GetAtomicSendMaxLength s.pending_burst_bytes_] := by
  unfold P2PPacketOutputStream.sendingBurst
  dsimp only
  repeat' split
  all_goals rfl

/-- C17, amended.  A tick issues at most one `Write`.  A `Write` for content or
footer bytes (issued by the body of `case kSendingBurst`) asks for
`min(GetAtomicSendMaxLength(), pending_burst_bytes_)` bytes, hence for at most
`GetAtomicSendMaxLength()`.  A `Write` for header bytes issued in
`kSendingHeaderBurst` asks for `pending_burst_bytes_`, the whole rest of the
burst, whatever `GetAtomicSendMaxLength()` is.  In a sane state every request is
at most `GetBurstMaxLength()`. -/
theorem write_request_caps (P : Protocol) (T : Transport)
    (packet_filter_ : Option (P2PPacket → Bool)) (k : OutTick) (s : OutputStream) (n : Int)
    (hn : n ∈ requests (P2PPacketOutputStream.Run P T packet_filter_ k.write k.now s).events) :
    (requests (P2PPacketOutputStream.Run P T packet_filter_ k.write k.now s).events).length
      ≤ 1 ∧
    (s.state_ = OutState.kSendingHeaderBurst → n = s.pending_burst_bytes_) ∧
    (s.state_ ≠ OutState.kSendingHeaderBurst → n ≤ T.GetAtomicSendMaxLength) ∧
    (s.Sane P T → n ≤ T.GetBurstMaxLength) := by
  cases hst : s.state_ with
  | kGettingNextPacket =>
    exfalso
    simp only [P2PPacketOutputStream.Run, hst] at hn
    revert hn
    split
    · simp [requests]
    · split_ifs <;> simp [requests]
  | kSendingHeaderBurst =>
    have hr : requests (P2PPacketOutputStream.Run P T packet_filter_ k.write k.now s).events
        = [s.pending_burst_bytes_] := by
      simp only [P2PPacketOutputStream.Run, hst]
      split_ifs <;> rfl
    rw [hr] at hn ⊢
    have hn2 : n = s.pending_burst_bytes_ := by simpa using hn
    refine ⟨by simp, fun _ => hn2, fun h => absurd rfl h, ?_⟩
    intro hs
    have := hs.2
    simp only [hst] at this
    omega
  | kWaitingForHeaderBurstIngestion =>
    simp only [P2PPacketOutputStream.Run, hst] at hn ⊢
    by_cases h1 : k.now < s.after_burst_wait_end_timestamp_ns_
    · rw [if_pos h1] at hn
      simp [requests] at hn
    · rw [if_neg h1] at hn ⊢
      by_cases h2 : s.pending_packet_bytes_ ≤ 0
      · rw [if_pos h2] at hn
        simp [requests] at hn
      · rw [if_neg h2] at hn ⊢
        rw [sendingBurst_requests] at hn ⊢
        have hn2 : n = min T.GetAtomicSendMaxLength
            (s.startBurst T OutState.kSendingHeaderBurst).pending_burst_bytes_ := by
          simpa using hn
        refine ⟨by simp, fun h => by simp at h, fun _ => ?_, fun _ => ?_⟩
        · rw [hn2]; exact min_le_left _ _
        · rw [hn2]
          exact le_trans (min_le_right _ _) (min_le_right _ _)
  | kSendingBurst =>
    simp only [P2PPacketOutputStream.Run, hst] at hn ⊢
    rw [sendingBurst_requests] at hn ⊢
    have hn2 : n = min T.GetAtomicSendMaxLength s.pending_burst_bytes_ := by simpa using hn
    refine ⟨by simp, fun h => by simp at h, fun _ => ?_, fun hs => ?_⟩
    · rw [hn2]; exact min_le_left _ _
    · have := hs.2
      simp only [hst] at this
      rw [hn2]
      have := min_le_right T.GetAtomicSendMaxLength s.pending_burst_bytes_
      omega
  | kWaitingForBurstIngestion =>
    exfalso
    simp only [P2PPacketOutputStream.Run, hst] at hn
    revert hn
    split_ifs <;> simp [requests]
  | kWaitingForPartialBurstIngestionBeforeHigherPriorityPacket =>
    exfalso
    simp only [P2PPacketOutputStream.Run, hst] at hn
    revert hn
    split_ifs <;> simp [requests]

/-- Witness of `write_request_caps`: the header `Write` on `byteWiseTransport`. -/
theorem write_request_caps_witness :
    (12 : Int) ∈ requests (P2PPacketOutputStream.Run demoProtocol byteWiseTransport none
      (idealTick 1).write (idealTick 1).now headerPending).events ∧
    (headerPending.state_ = OutState.kSendingHeaderBurst →
      (12 : Int) = headerPending.pending_burst_bytes_) ∧
    (headerPending.Sane demoProtocol byteWiseTransport →
      (12 : Int) ≤ byteWiseTransport.GetBurstMaxLength) :=
  ⟨by decide,
   (write_request_caps demoProtocol byteWiseTransport none (idealTick 1) headerPending 12
      (by decide)).2.1,
   (write_request_caps demoProtocol byteWiseTransport none (idealTick 1) headerPending 12
      (by decide)).2.2.2⟩

/-- C17, as stated, fails for header bytes: on a transport whose
`GetAtomicSendMaxLength()` is 1 and whose `GetBurstMaxLength()` is 16, the
framer in `kSendingHeaderBurst` asks `Write` for the 12 bytes of the header at
once, and the transport takes them. -/
theorem header_write_exceeds_atomic_cap :
    headerPending.state_ = OutState.kSendingHeaderBurst ∧
    byteWiseTransport.GetAtomicSendMaxLength = 1 ∧
    (P2PPacketOutputStream.Run demoProtocol byteWiseTransport none (idealTick 1).write
        (idealTick 1).now headerPending).events
      = [OutEvent.write 12 [0x7E, 17, 7, 0, 0, 0, 0, 0, 0, 0, 0, 1]] ∧
    requests (P2PPacketOutputStream.Run demoProtocol byteWiseTransport none (idealTick 1).write
        (idealTick 1).now headerPending).events = [12] := by
  decide

/-! ## Multi-burst headers and tokens in the footer -/

/-- C18: the code diverges.  On a transport whose bursts take 8 bytes, the first
header burst of a packet with a 12-byte header, one content byte and a 2-byte
footer leaves 4 header bytes pending.  When the ingestion wait is over, the tick
sets `kSendingHeaderBurst` and runs into the body of `case kSendingBurst`: it
writes the 4 bytes at offset `total_packet_bytes_ - pending_packet_bytes_` = 11
of the packet, which are the last header byte, the content byte and the footer,
counts the packet as sent, consumes it and enters `kWaitingForBurstIngestion`.
The header bytes 8 to 10 are never written. -/
theorem header_continuation_runs_into_burst_body :
    headerHalfSent.state_ = OutState.kWaitingForHeaderBurstIngestion ∧
    headerHalfSent.pending_packet_bytes_ = 4 ∧
    headerHalfSent.stats_.total_packets_ 1 = 0 ∧
    (P2PPacketOutputStream.runTicks demoProtocol narrowBurstTransport none (idealTicks 2)
        (OutputStream.init (lowPriorityStore [demoPacket 1 7 [0x11] [0xA, 0xB]]))).2
      = [0x7E, 17, 7, 0, 0, 0, 0, 0] ∧
    (P2PPacketOutputStream.Run demoProtocol narrowBurstTransport none (idealTick 2).write
        (idealTick 2).now headerHalfSent).events
      = [OutEvent.write 4 [1, 0x11, 0xA, 0xB], OutEvent.consume 1] ∧
    (P2PPacketOutputStream.Run demoProtocol narrowBurstTransport none (idealTick 2).write
        (idealTick 2).now headerHalfSent).next.state_ = OutState.kWaitingForBurstIngestion ∧
    (P2PPacketOutputStream.Run demoProtocol narrowBurstTransport none (idealTick 2).write
        (idealTick 2).now headerHalfSent).next.stats_.total_packets_ 1 = 1 ∧
    ((P2PPacketOutputStream.Run demoProtocol narrowBurstTransport none (idealTick 2).write
        (idealTick 2).now headerHalfSent).next.packet_buffer_.queue 1).length = 0 ∧
    (P2PPacketOutputStream.runTicks demoProtocol narrowBurstTransport none (idealTicks 20)
        (OutputStream.init (lowPriorityStore [demoPacket 1 7 [0x11] [0xA, 0xB]]))).2
      = [0x7E, 17, 7, 0, 0, 0, 0, 0, 1, 0x11, 0xA, 0xB] := by
  decide

/-- C19, amended.  In `kReadingFooter`, before the footer is complete, a byte
equal to the start token is never taken as a checksum byte to be disambiguated:
whatever the position and whatever follows, the tick that reads it restarts
`kReadingHeader` with one header byte read, records the packet length as the
offset reached for the priority, and commits nothing.  If the next byte read is
the escape token, it is read as the second header byte, the header is dropped
and the state is `kWaitingForPacket`, nothing committed. -/
theorem start_token_in_footer_restarts_header (P : Protocol) (E : InEnv) (now now2 : Nat)
    (s : InputStream)
    (hst : s.state_ = InState.kReadingFooter)
    (hcrb : s.current_field_read_bytes_ < (P.sizeofFooter : Int))
    (hne : P.kP2PSpecialToken ≠ P.kP2PStartToken) (hsz : 2 ≤ P.sizeofHeader) :
    (P2PPacketInputStream.Run P E (some P.kP2PStartToken) now s).1.state_
      = InState.kReadingHeader ∧
    (P2PPacketInputStream.Run P E (some P.kP2PStartToken) now s).1.current_field_read_bytes_
      = 1 ∧
    (P2PPacketInputStream.Run P E (some P.kP2PStartToken) now s).1.incoming_header_ 0
      = P.kP2PStartToken ∧
    (P2PPacketInputStream.Run P E (some P.kP2PStartToken) now s).1.write_offset_before_break_
        (s.incoming P).priority
      = ((s.packet_buffer_.slot (s.incoming P).priority).header.length : Int) ∧
    (P2PPacketInputStream.Run P E (some P.kP2PStartToken) now s).1.packet_buffer_.committed
      = s.packet_buffer_.committed ∧
    (P2PPacketInputStream.Run P E (some P.kP2PSpecialToken) now2
        (P2PPacketInputStream.Run P E (some P.kP2PStartToken) now s).1).1.state_
      = InState.kWaitingForPacket ∧
    (P2PPacketInputStream.Run P E (some P.kP2PSpecialToken) now2
        (P2PPacketInputStream.Run P E (some P.kP2PStartToken) now s).1).1.packet_buffer_.committed
      = s.packet_buffer_.committed := by
  have hnf : ¬ ((P.sizeofFooter : Int) ≤ s.current_field_read_bytes_) := by omega
  have h1 : P2PPacketInputStream.Run P E (some P.kP2PStartToken) now s
      = (({ s with
            packet_buffer_ := s.packet_buffer_.setSlot (s.incoming P).priority
              { s.packet_buffer_.slot (s.incoming P).priority with
                content := (s.packet_buffer_.slot (s.incoming P).priority).content.set
                  (((s.packet_buffer_.slot (s.incoming P).priority).header.length : Int)
                    + s.current_field_read_bytes_) P.kP2PStartToken },
            current_field_read_bytes_ := s.current_field_read_bytes_ + 1,
            write_offset_before_break_ := setAt s.write_offset_before_break_
              (s.incoming P).priority
              ((s.packet_buffer_.slot (s.incoming P).priority).header.length : Int) }
          ).restartHeader P,
         [InEvent.newValue (s.incoming P).priority, InEvent.read P.kP2PStartToken,
          InEvent.writeFooter (s.incoming P).priority s.current_field_read_bytes_
            P.kP2PStartToken]) := by
    simp only [P2PPacketInputStream.Run, hst]
    rw [if_neg hnf]
    simp only [if_true]
  rw [h1]
  have hh : ¬ ((P.sizeofHeader : Int) ≤ 1) := by omega
  refine ⟨rfl, rfl, ?_, ?_, rfl, ?_, ?_⟩
  · simp [InputStream.restartHeader, Mem.set]
  · simp [InputStream.restartHeader, setAt]
  · simp only [P2PPacketInputStream.Run, InputStream.restartHeader]
    rw [if_neg hh]
    simp only [if_neg hne, if_true]
  · simp only [P2PPacketInputStream.Run, InputStream.restartHeader]
    rw [if_neg hh]
    simp only [if_neg hne, if_true]
    rfl

/-- Witness of `start_token_in_footer_restarts_header`: the first footer byte of a
packet on the demo protocol. -/
theorem start_token_in_footer_restarts_header_witness :
    footerPendingDeframer.state_ = InState.kReadingFooter ∧
    footerPendingDeframer.current_field_read_bytes_ = 0 ∧
    (P2PPacketInputStream.Run demoProtocol demoEnv (some demoProtocol.kP2PStartToken) 0
        footerPendingDeframer).1.state_ = InState.kReadingHeader ∧
    (P2PPacketInputStream.Run demoProtocol demoEnv (some demoProtocol.kP2PSpecialToken) 0
        (P2PPacketInputStream.Run demoProtocol demoEnv (some demoProtocol.kP2PStartToken) 0
          footerPendingDeframer).1).1.state_ = InState.kWaitingForPacket :=
  ⟨by decide, by decide,
   (start_token_in_footer_restarts_header demoProtocol demoEnv 0 0 footerPendingDeframer
      (by decide) (by decide) (by decide) (by decide)).1,
   (start_token_in_footer_restarts_header demoProtocol demoEnv 0 0 footerPendingDeframer
      (by decide) (by decide) (by decide) (by decide)).2.2.2.2.2.1⟩

/-- C19, as stated, fails: the deframer is about to read the first of two footer
bytes and receives the start token followed by the escape token.  The start
token puts it in `kReadingHeader`, the escape token in `kWaitingForPacket`; the
bytes that follow are discarded and nothing is committed. -/
theorem footer_start_token_is_not_disambiguated :
    footerPendingDeframer.state_ = InState.kReadingFooter ∧
    footerPendingDeframer.current_field_read_bytes_ = 0 ∧
    (P2PPacketInputStream.runTicks demoProtocol demoEnv (fun _ => 0) 0 1 [0x7E, 0x7D, 0x0A]
        footerPendingDeframer).1.state_ = InState.kReadingHeader ∧
    (P2PPacketInputStream.runTicks demoProtocol demoEnv (fun _ => 0) 0 2 [0x7E, 0x7D, 0x0A]
        footerPendingDeframer).1.state_ = InState.kWaitingForPacket ∧
    (P2PPacketInputStream.runTicks demoProtocol demoEnv (fun _ => 0) 0 10 [0x7E, 0x7D, 0x0A]
        footerPendingDeframer).1.state_ = InState.kWaitingForPacket ∧
    (P2PPacketInputStream.runTicks demoProtocol demoEnv (fun _ => 0) 0 10 [0x7E, 0x7D, 0x0A]
        footerPendingDeframer).2 = [] ∧
    (P2PPacketInputStream.runTicks demoProtocol demoEnv (fun _ => 0) 0 10 [0x7E, 0x7D, 0x0A]
        footerPendingDeframer).1.packet_buffer_.committed.length = 0 := by
  decide

/-- C20: the code diverges at the last footer position.  The deframer has read
the header, the content byte and the first of two footer bytes of a packet, and
reads the escape token as the last footer byte, with an integrity check that
accepts and no filter.  The tick sets `kWaitingForPacket` for the malformed
packet but goes on to the completion test and commits the packet.  At the first
footer position the same byte drops the packet. -/
theorem escape_as_last_footer_byte_is_committed :
    lastFooterBytePending.state_ = InState.kReadingFooter ∧
    lastFooterBytePending.current_field_read_bytes_ = 1 ∧
    lastFooterBytePending.packet_buffer_.committed.length = 0 ∧
    (P2PPacketInputStream.Run demoProtocol demoEnv (some demoProtocol.kP2PSpecialToken) 9
        lastFooterBytePending).2
      = [InEvent.newValue 1, InEvent.read 0x7D, InEvent.writeFooter 1 1 0x7D,
         InEvent.prepareToRead true, InEvent.clock 9, InEvent.commit 1 9] ∧
    (P2PPacketInputStream.Run demoProtocol demoEnv (some demoProtocol.kP2PSpecialToken) 9
        lastFooterBytePending).1.state_ = InState.kWaitingForPacket ∧
    (P2PPacketInputStream.Run demoProtocol demoEnv (some demoProtocol.kP2PSpecialToken) 9
        lastFooterBytePending).1.packet_buffer_.committed.length = 1 ∧
    (P2PPacketInputStream.Run demoProtocol demoEnv (some demoProtocol.kP2PSpecialToken) 9
        footerPendingDeframer).1.state_ = InState.kWaitingForPacket ∧
    (P2PPacketInputStream.Run demoProtocol demoEnv (some demoProtocol.kP2PSpecialToken) 9
        footerPendingDeframer).1.packet_buffer_.committed.length = 0 := by
  decide

/-! ## Header processing and interruption offsets of the deframer -/

/-- C21, amended.  A complete header with a priority in range and
`is_continuation` clear is accepted as a fresh packet whatever length it
declares: the tick enters `kReadingContent`, stores the declared length in local
byte order in the slot of the priority and consumes no byte; no comparison of
the length with a capacity takes place. -/
theorem fresh_header_accepted_for_every_length (P : Protocol) (E : InEnv) (avail : Option Nat)
    (now : Nat) (s : InputStream)
    (hst : s.state_ = InState.kReadingHeader)
    (hcrb : (P.sizeofHeader : Int) ≤ s.current_field_read_bytes_)
    (hprio : (s.incoming P).priority < P.kNumLevels)
    (hfresh : (s.incoming P).is_continuation = false) :
    (P2PPacketInputStream.Run P E avail now s).1.state_ = InState.kReadingContent ∧
    ((P2PPacketInputStream.Run P E avail now s).1.packet_buffer_.slot
        (s.incoming P).priority).header.length = P.networkToLocal (s.incoming P).length ∧
    consumed (P2PPacketInputStream.Run P E avail now s).2 = false := by
  rw [Run_fresh_header P E avail now s (s.incoming P) hst hcrb rfl hprio hfresh]
  refine ⟨rfl, ?_, rfl⟩
  simp only [InStore.setSlot_slot]

/-- Witness of `fresh_header_accepted_for_every_length`: a header declaring 5
content bytes. -/
theorem fresh_header_accepted_for_every_length_witness :
    lengthFiveHeaderRead.state_ = InState.kReadingHeader ∧
    (P2PPacketInputStream.Run demoProtocol demoEnv none 0 lengthFiveHeaderRead).1.state_
      = InState.kReadingContent ∧
    ((P2PPacketInputStream.Run demoProtocol demoEnv none 0
        lengthFiveHeaderRead).1.packet_buffer_.slot
        (lengthFiveHeaderRead.incoming demoProtocol).priority).header.length
      = demoProtocol.networkToLocal (lengthFiveHeaderRead.incoming demoProtocol).length :=
  ⟨by decide,
   (fresh_header_accepted_for_every_length demoProtocol demoEnv none 0 lengthFiveHeaderRead
      (by decide) (by decide) (by decide) (by decide)).1,
   (fresh_header_accepted_for_every_length demoProtocol demoEnv none 0 lengthFiveHeaderRead
      (by decide) (by decide) (by decide) (by decide)).2.1⟩

/-- C21, as stated, fails: take a store whose slots hold 4 content bytes
(`kCapacity` = 4).  The deframer reads a complete fresh header that declares 5
content bytes: it accepts it, the length stored in the slot is 5, and the fifth
content byte of the frame is written at content index 4. -/
theorem oversized_length_is_accepted :
    lengthFiveHeaderRead.state_ = InState.kReadingHeader ∧
    (P2PPacketInputStream.Run demoProtocol demoEnv none 0 lengthFiveHeaderRead).1.state_
      = InState.kReadingContent ∧
    4 < ((P2PPacketInputStream.Run demoProtocol demoEnv none 0
        lengthFiveHeaderRead).1.packet_buffer_.slot 1).header.length ∧
    (P2PPacketInputStream.Run demoProtocol demoEnv (some 0x55) 0
        (P2PPacketInputStream.runTicks demoProtocol demoEnv (fun _ => 0) 0 5
          [0x11, 0x22, 0x33, 0x44] lengthFiveHeaderRead).1).2
      = [InEvent.newValue 1, InEvent.read 0x55, InEvent.writeContent 1 4 0x55] ∧
    ((P2PPacketInputStream.Run demoProtocol demoEnv (some 0x55) 0
        (P2PPacketInputStream.runTicks demoProtocol demoEnv (fun _ => 0) 0 5
          [0x11, 0x22, 0x33, 0x44] lengthFiveHeaderRead).1).1.packet_buffer_.slot 1).content 4
      = 0x55 := by
  decide

/-- C23.  When a complete header has been read whose priority field is not below
the number of priority levels, the tick only sets the state to
`kWaitingForPacket`: it calls no collaborator (no slot is obtained, no byte is
read), and leaves the store, the interruption offsets and everything else as
they are. -/
theorem out_of_range_priority_rejected (P : Protocol) (E : InEnv) (avail : Option Nat)
    (now : Nat) (s : InputStream)
    (hst : s.state_ = InState.kReadingHeader)
    (hcrb : (P.sizeofHeader : Int) ≤ s.current_field_read_bytes_)
    (hprio : P.kNumLevels ≤ (s.incoming P).priority) :
    P2PPacketInputStream.Run P E avail now s
      = ({ s with state_ := InState.kWaitingForPacket }, []) := by
  simp only [P2PPacketInputStream.Run, hst]
  rw [if_pos hcrb]
  simp only [if_pos hprio]

/-- Witness of `out_of_range_priority_rejected`: priority 3 of 3 levels. -/
theorem out_of_range_priority_rejected_witness :
    badPriorityHeaderRead.state_ = InState.kReadingHeader ∧
    (badPriorityHeaderRead.incoming threeLevels).priority = 3 ∧
    P2PPacketInputStream.Run threeLevels demoEnv (some 0x11) 0 badPriorityHeaderRead
      = ({ badPriorityHeaderRead with state_ := InState.kWaitingForPacket }, []) :=
  ⟨by decide, by decide,
   out_of_range_priority_rejected threeLevels demoEnv (some 0x11) 0 badPriorityHeaderRead
     (by decide) (by decide) (by decide)⟩

/-- C26.  When a complete header with a priority in range and `is_continuation`
clear is processed, the tick puts the header into the slot of that priority with
the length converted from network to local byte order, sets
`write_offset_before_break_` for that priority to 0 and leaves the entries of all
other priorities as they are, and enters `kReadingContent` with
`current_field_read_bytes_` 0.  The content of the slot, the other slots and the
committed packets are untouched, and no byte is read. -/
theorem fresh_header_processed (P : Protocol) (E : InEnv) (avail : Option Nat)
    (now : Nat) (s : InputStream)
    (hst : s.state_ = InState.kReadingHeader)
    (hcrb : (P.sizeofHeader : Int) ≤ s.current_field_read_bytes_)
    (hprio : (s.incoming P).priority < P.kNumLevels)
    (hfresh : (s.incoming P).is_continuation = false) :
    (P2PPacketInputStream.Run P E avail now s).1.state_ = InState.kReadingContent ∧
    (P2PPacketInputStream.Run P E avail now s).1.current_field_read_bytes_ = 0 ∧
    ((P2PPacketInputStream.Run P E avail now s).1.packet_buffer_.slot
        (s.incoming P).priority).header
      = { s.incoming P with length := P.networkToLocal (s.incoming P).length } ∧
    ((P2PPacketInputStream.Run P E avail now s).1.packet_buffer_.slot
        (s.incoming P).priority).content
      = (s.packet_buffer_.slot (s.incoming P).priority).content ∧
    (∀ q, q ≠ (s.incoming P).priority →
      (P2PPacketInputStream.Run P E avail now s).1.packet_buffer_.slot q
        = s.packet_buffer_.slot q) ∧
    (P2PPacketInputStream.Run P E avail now s).1.packet_buffer_.committed
      = s.packet_buffer_.committed ∧
    (P2PPacketInputStream.Run P E avail now s).1.write_offset_before_break_
        (s.incoming P).priority = 0 ∧
    (∀ q, q ≠ (s.incoming P).priority →
      (P2PPacketInputStream.Run P E avail now s).1.write_offset_before_break_ q
        = s.write_offset_before_break_ q) ∧
    (P2PPacketInputStream.Run P E avail now s).1.incoming_header_ = s.incoming_header_ ∧
    (P2PPacketInputStream.Run P E avail now s).2
      = [InEvent.newValue (s.incoming P).priority,
         InEvent.writeHeader (s.incoming P).priority] := by
  rw [Run_fresh_header P E avail now s (s.incoming P) hst hcrb rfl hprio hfresh]
  refine ⟨rfl, rfl, ?_, ?_, ?_, rfl, ?_, ?_, rfl, rfl⟩
  · simp only [InStore.setSlot_slot]
  · simp only [InStore.setSlot_slot]
  · intro q hq
    simp [InStore.setSlot, hq]
  · simp [setAt]
  · intro q hq
    simp [setAt, hq]

/-- Witness of `fresh_header_processed`: a fresh priority-1 header declaring 5
content bytes, in network byte order `0x00 0x05`. -/
theorem fresh_header_processed_witness :
    lengthFiveHeaderRead.state_ = InState.kReadingHeader ∧
    (lengthFiveHeaderRead.incoming demoProtocol).length = 0x0500 ∧
    (P2PPacketInputStream.Run demoProtocol demoEnv none 0 lengthFiveHeaderRead).1.state_
      = InState.kReadingContent ∧
    ((P2PPacketInputStream.Run demoProtocol demoEnv none 0
        lengthFiveHeaderRead).1.packet_buffer_.slot
        (lengthFiveHeaderRead.incoming demoProtocol).priority).header
      = { lengthFiveHeaderRead.incoming demoProtocol with
          length := demoProtocol.networkToLocal
            (lengthFiveHeaderRead.incoming demoProtocol).length } ∧
    ((P2PPacketInputStream.Run demoProtocol demoEnv none 0
        lengthFiveHeaderRead).1.packet_buffer_.slot 1).header.length = 5 :=
  ⟨by decide, by decide,
   (fresh_header_processed demoProtocol demoEnv none 0 lengthFiveHeaderRead
      (by decide) (by decide) (by decide) (by decide)).1,
   (fresh_header_processed demoProtocol demoEnv none 0 lengthFiveHeaderRead
      (by decide) (by decide) (by decide) (by decide)).2.2.1,
   by decide⟩

/-- C25.  Whenever a tick leaves `kReadingContent`,
`kDisambiguatingStartTokenInContent` or `kReadingFooter` for `kReadingHeader`, it
has read a byte and set `write_offset_before_break_` for the priority of the
packet to the number of content bytes of the packet received before the byte
taken as first byte of the new header, and left the entries of the other
priorities alone.  With `k` the content index of the start token: in
`kReadingContent` the start token was the last content byte and the entry is
`length - 1` (= `k`); in `kDisambiguatingStartTokenInContent`
(`current_field_read_bytes_` = `k + 1`) the entry is `k + 1` when the byte read is
another start token and `k` when it is neither token; in `kReadingFooter` the
byte read is the start token and the entry is `length`. -/
theorem interruption_offset_recorded (P : Protocol) (E : InEnv) (avail : Option Nat)
    (now : Nat) (s : InputStream)
    (hst : s.state_ = InState.kReadingContent ∨
      s.state_ = InState.kDisambiguatingStartTokenInContent ∨
      s.state_ = InState.kReadingFooter)
    (hnext : (P2PPacketInputStream.Run P E avail now s).1.state_ = InState.kReadingHeader) :
    (∀ q, q ≠ (s.incoming P).priority →
      (P2PPacketInputStream.Run P E avail now s).1.write_offset_before_break_ q
        = s.write_offset_before_break_ q) ∧
    ∃ b, avail = some b ∧
      ((s.state_ = InState.kReadingContent ∧ b = P.kP2PStartToken ∧
          s.current_field_read_bytes_ + 1
            = ((s.packet_buffer_.slot (s.incoming P).priority).header.length : Int) ∧
          (P2PPacketInputStream.Run P E avail now s).1.write_offset_before_break_
              (s.incoming P).priority
            = ((s.packet_buffer_.slot (s.incoming P).priority).header.length : Int) - 1) ∨
        (s.state_ = InState.kDisambiguatingStartTokenInContent ∧ b = P.kP2PStartToken ∧
          (P2PPacketInputStream.Run P E avail now s).1.write_offset_before_break_
              (s.incoming P).priority = s.current_field_read_bytes_) ∨
        (s.state_ = InState.kDisambiguatingStartTokenInContent ∧ b ≠ P.kP2PStartToken ∧
          b ≠ P.kP2PSpecialToken ∧
          (P2PPacketInputStream.Run P E avail now s).1.write_offset_before_break_
              (s.incoming P).priority = s.current_field_read_bytes_ - 1) ∨
        (s.state_ = InState.kReadingFooter ∧ b = P.kP2PStartToken ∧
          (P2PPacketInputStream.Run P E avail now s).1.write_offset_before_break_
              (s.incoming P).priority
            = ((s.packet_buffer_.slot (s.incoming P).priority).header.length : Int))) := by
  rcases hst with hst | hst | hst
  · simp only [P2PPacketInputStream.Run, hst] at hnext ⊢
    by_cases h1 : ((s.packet_buffer_.slot (s.incoming P).priority).header.length : Int)
        ≤ s.current_field_read_bytes_
    · rw [if_pos h1] at hnext
      simp at hnext
    · rw [if_neg h1] at hnext ⊢
      cases avail with
      | none => simp [hst] at hnext
      | some b =>
        simp only at hnext ⊢
        by_cases hb : b = P.kP2PStartToken
        · rw [if_pos hb] at hnext ⊢
          by_cases h2 : s.current_field_read_bytes_ + 1
              < ((s.packet_buffer_.slot (s.incoming P).priority).header.length : Int)
          · rw [if_pos h2] at hnext
            simp at hnext
          · rw [if_neg h2]
            refine ⟨fun q hq => by simp [InputStream.restartHeader, setAt, hq], b, rfl,
              Or.inl ⟨trivial, hb, by omega, ?_⟩⟩
            simp only [InputStream.restartHeader, setAt, if_true]
            omega
        · rw [if_neg hb] at hnext
          simp [hst] at hnext
  · simp only [P2PPacketInputStream.Run, hst] at hnext ⊢
    cases avail with
    | none => simp [hst] at hnext
    | some b =>
      simp only at hnext ⊢
      by_cases hb : b = P.kP2PSpecialToken
      · rw [if_pos hb] at hnext
        simp at hnext
      · rw [if_neg hb]
        by_cases hb2 : b = P.kP2PStartToken
        · rw [if_pos hb2]
          refine ⟨fun q hq => by simp [InputStream.restartHeader, setAt, hq], b, rfl,
            Or.inr (Or.inl ⟨trivial, hb2, ?_⟩)⟩
          simp only [InputStream.restartHeader, setAt, if_true]
          omega
        · rw [if_neg hb2]
          refine ⟨fun q hq => by simp [InputStream.restartHeader, setAt, hq], b, rfl,
            Or.inr (Or.inr (Or.inl ⟨trivial, hb2, hb, ?_⟩))⟩
          simp only [InputStream.restartHeader, setAt, if_true]
          omega
  · simp only [P2PPacketInputStream.Run, hst] at hnext ⊢
    by_cases h1 : (P.sizeofFooter : Int) ≤ s.current_field_read_bytes_
    · rw [if_pos h1] at hnext
      simp at hnext
    · rw [if_neg h1] at hnext ⊢
      cases avail with
      | none => simp [hst] at hnext
      | some b =>
        simp only at hnext ⊢
        by_cases hb : b = P.kP2PStartToken
        · rw [if_pos hb]
          refine ⟨fun q hq => by simp [InputStream.restartHeader, setAt, hq], b, rfl,
            Or.inr (Or.inr (Or.inr ⟨trivial, hb, ?_⟩))⟩
          simp only [InputStream.restartHeader, setAt, if_true]
        · exfalso
          rw [if_neg hb] at hnext
          revert hnext
          split_ifs <;> first | (split <;> try split_ifs) | skip
          all_goals simp [hst]

/-- Witness of `interruption_offset_recorded`: a start token at content index 2 of
a priority-1 packet is followed by a byte that is neither token. -/
theorem interruption_offset_recorded_witness :
    startTokenAtIndexTwo.state_ = InState.kDisambiguatingStartTokenInContent ∧
    startTokenAtIndexTwo.current_field_read_bytes_ = 3 ∧
    (P2PPacketInputStream.Run demoProtocol demoEnv (some 9) 0 startTokenAtIndexTwo).1.state_
      = InState.kReadingHeader ∧
    (P2PPacketInputStream.Run demoProtocol demoEnv (some 9) 0
        startTokenAtIndexTwo).1.write_offset_before_break_ 1 = 2 ∧
    (∀ q, q ≠ (startTokenAtIndexTwo.incoming demoProtocol).priority →
      (P2PPacketInputStream.Run demoProtocol demoEnv (some 9) 0
          startTokenAtIndexTwo).1.write_offset_before_break_ q
        = startTokenAtIndexTwo.write_offset_before_break_ q) :=
  ⟨by decide, by decide, by decide, by decide,
   (interruption_offset_recorded demoProtocol demoEnv (some 9) 0 startTokenAtIndexTwo
      (Or.inr (Or.inl (by decide))) (by decide)).1⟩

/-! ## Index ranges of the deframer -/

/-- A tick keeps the counters in range. -/
theorem Run_inRange (P : Protocol) (E : InEnv) (avail : Option Nat) (now : Nat)
    (s : InputStream) (h : s.InRange P) :
    (P2PPacketInputStream.Run P E avail now s).1.InRange P := by
  obtain ⟨hw, hc, hd, hf⟩ := h
  generalize hr : P2PPacketInputStream.Run P E avail now s = r
  unfold P2PPacketInputStream.Run at hr
  dsimp only at hr
  repeat' split at hr
  all_goals subst hr
  all_goals simp_all [InputStream.InRange, InputStream.restartHeader, InputStream.incoming,
    InStore.setSlot, InStore.Commit, setAt]
  all_goals first
    | omega
    | (intro p; split <;> first | omega | exact hw p)

/-- Polling keeps the counters in range. -/
theorem poll_inRange (P : Protocol) (E : InEnv) (ticks : List (Option Nat × Nat)) :
    ∀ s : InputStream, s.InRange P → (P2PPacketInputStream.poll P E ticks s).InRange P := by
  induction ticks with
  | nil => intro s h; exact h
  | cons k ticks ih =>
    intro s h
    exact ih _ (Run_inRange P E k.1 k.2 s h)

/-- A deframer waiting for a packet with no negative interruption offset has its
counters in range. -/
theorem waiting_inRange (P : Protocol) (s : InputStream)
    (hst : s.state_ = InState.kWaitingForPacket)
    (hw : ∀ p, 0 ≤ s.write_offset_before_break_ p) : s.InRange P := by
  refine ⟨hw, ?_, ?_, ?_⟩ <;> intro h <;> rw [hst] at h <;> cases h

/-- Content bytes of a tick from a state with its counters in range go to the slot
of the incoming priority, at an index inside the packet's length, and are there
after the tick. -/
theorem Run_content_index (P : Protocol) (E : InEnv) (avail : Option Nat) (now : Nat)
    (s : InputStream) (h : s.InRange P) (p : Nat) (i : Int) (b : Nat)
    (hev : InEvent.writeContent p i b ∈ (P2PPacketInputStream.Run P E avail now s).2) :
    p = (s.incoming P).priority ∧ 0 ≤ i ∧
      i < ((s.packet_buffer_.slot (s.incoming P).priority).header.length : Int) ∧
      ((P2PPacketInputStream.Run P E avail now s).1.packet_buffer_.slot p).content i = b ∧
      ((P2PPacketInputStream.Run P E avail now s).1.packet_buffer_.slot p).header =
        (s.packet_buffer_.slot p).header := by
  obtain ⟨hw, hc, hd, hf⟩ := h
  generalize hr : P2PPacketInputStream.Run P E avail now s = r at hev
  unfold P2PPacketInputStream.Run at hr
  dsimp only at hr
  repeat' split at hr
  all_goals subst hr
  all_goals simp_all [InputStream.restartHeader, InputStream.incoming,
    InStore.setSlot, InStore.Commit, setAt, Mem.set]
  all_goals omega

/-- Footer bytes of a tick from a state with its counters in range go to the slot
of the incoming priority, at an offset inside the footer, and sit at that offset
behind the content unless the same tick goes on to finish the packet. -/
theorem Run_footer_index (P : Protocol) (E : InEnv) (avail : Option Nat) (now : Nat)
    (s : InputStream) (h : s.InRange P) (p : Nat) (j : Int) (b : Nat)
    (hev : InEvent.writeFooter p j b ∈ (P2PPacketInputStream.Run P E avail now s).2) :
    p = (s.incoming P).priority ∧ 0 ≤ j ∧ j < (P.sizeofFooter : Int) ∧
      ((∀ ok, InEvent.prepareToRead ok ∉ (P2PPacketInputStream.Run P E avail now s).2) →
        ((P2PPacketInputStream.Run P E avail now s).1.packet_buffer_.slot p).content
          (((s.packet_buffer_.slot p).header.length : Int) + j) = b) := by
  obtain ⟨hw, hc, hd, hf⟩ := h
  generalize hr : P2PPacketInputStream.Run P E avail now s = r at hev
  unfold P2PPacketInputStream.Run at hr
  dsimp only at hr
  repeat' split at hr
  all_goals subst hr
  all_goals simp_all [InputStream.restartHeader, InputStream.incoming,
    InStore.setSlot, InStore.Commit, setAt, Mem.set]

/-- An interruption offset changes only in a tick that records one for the
incoming priority: the tick that processes a fresh header, or a tick that leaves
the content or the footer for a new header. -/
theorem Run_offset_changes (P : Protocol) (E : InEnv) (avail : Option Nat) (now : Nat)
    (s : InputStream) (p : Nat)
    (hne : (P2PPacketInputStream.Run P E avail now s).1.write_offset_before_break_ p ≠
      s.write_offset_before_break_ p) :
    p = (s.incoming P).priority ∧
      ((s.state_ = InState.kReadingHeader ∧ (s.incoming P).is_continuation = false ∧
          (P2PPacketInputStream.Run P E avail now s).1.state_ = InState.kReadingContent) ∨
        ((s.state_ = InState.kReadingContent ∨
            s.state_ = InState.kDisambiguatingStartTokenInContent ∨
            s.state_ = InState.kReadingFooter) ∧
          (P2PPacketInputStream.Run P E avail now s).1.state_ = InState.kReadingHeader)) := by
  generalize hr : P2PPacketInputStream.Run P E avail now s = r at hne
  unfold P2PPacketInputStream.Run at hr
  dsimp only at hr
  repeat' split at hr
  all_goals subst hr
  all_goals simp_all [InputStream.restartHeader, InputStream.incoming,
    InStore.setSlot, InStore.Commit, setAt]

/-- The offset recorded by a tick that processes a fresh header or leaves the
content or the footer for a new header lies between 0 and the length of the
packet in the slot. -/
theorem Run_offset_recorded (P : Protocol) (E : InEnv) (avail : Option Nat) (now : Nat)
    (s : InputStream) (h : s.InRange P)
    (hrec : (s.state_ = InState.kReadingHeader ∧ (s.incoming P).is_continuation = false ∧
          (P2PPacketInputStream.Run P E avail now s).1.state_ = InState.kReadingContent) ∨
        ((s.state_ = InState.kReadingContent ∨
            s.state_ = InState.kDisambiguatingStartTokenInContent ∨
            s.state_ = InState.kReadingFooter) ∧
          (P2PPacketInputStream.Run P E avail now s).1.state_ = InState.kReadingHeader)) :
    0 ≤ (P2PPacketInputStream.Run P E avail now s).1.write_offset_before_break_
        (s.incoming P).priority ∧
      (P2PPacketInputStream.Run P E avail now s).1.write_offset_before_break_
        (s.incoming P).priority ≤
      (((P2PPacketInputStream.Run P E avail now s).1.packet_buffer_.slot
        (s.incoming P).priority).header.length : Int) := by
  obtain ⟨hw, hc, hd, hf⟩ := h
  generalize hr : P2PPacketInputStream.Run P E avail now s = r at hrec
  unfold P2PPacketInputStream.Run at hr
  dsimp only at hr
  repeat' split at hr
  all_goals subst hr
  all_goals simp_all [InputStream.restartHeader, InputStream.incoming,
    InStore.setSlot, InStore.Commit, setAt]
  all_goals omega

/-- The tick that accepts a continuation header resumes the content at the offset
recorded at the interruption, which lies between 0 and the length of the packet
in the slot. -/
theorem Run_resume_offset (P : Protocol) (E : InEnv) (avail : Option Nat) (now : Nat)
    (s : InputStream) (h : s.InRange P)
    (hst : s.state_ = InState.kReadingHeader)
    (hcont : (s.incoming P).is_continuation = true)
    (hnext : (P2PPacketInputStream.Run P E avail now s).1.state_ = InState.kReadingContent) :
    (P2PPacketInputStream.Run P E avail now s).1.current_field_read_bytes_ =
        s.write_offset_before_break_ (s.incoming P).priority ∧
      0 ≤ (P2PPacketInputStream.Run P E avail now s).1.current_field_read_bytes_ ∧
      (P2PPacketInputStream.Run P E avail now s).1.current_field_read_bytes_ ≤
        (((P2PPacketInputStream.Run P E avail now s).1.packet_buffer_.slot
          (s.incoming P).priority).header.length : Int) := by
  obtain ⟨hw, hc, hd, hf⟩ := h
  generalize hr : P2PPacketInputStream.Run P E avail now s = r at hnext
  unfold P2PPacketInputStream.Run at hr
  dsimp only at hr
  repeat' split at hr
  all_goals subst hr
  all_goals simp_all [InputStream.restartHeader, InputStream.incoming,
    InStore.setSlot, InStore.Commit, setAt]
  all_goals have h1 := hw (P.headerOfBytes (s.incoming_header_.toList 0 P.sizeofHeader)).priority
  all_goals omega

/-- A byte store changes memory at the index stored to only. -/
theorem Mem.set_changed (m : Mem) (k i : Int) (v : Nat) (h : (m.set k v) i ≠ m i) :
    i = k ∧ (m.set k v) i = v := by
  by_cases hik : i = k
  · subst hik
    exact ⟨rfl, Mem.set_same m i v⟩
  · exact absurd (Mem.set_other m k i v hik) h

/-- A tick leaves the slots of all priorities but the incoming one alone. -/
theorem Run_other_slots (P : Protocol) (E : InEnv) (avail : Option Nat) (now : Nat)
    (s : InputStream) (q : Nat) (hq : q ≠ (s.incoming P).priority) :
    (P2PPacketInputStream.Run P E avail now s).1.packet_buffer_.slot q
      = s.packet_buffer_.slot q := by
  generalize hr : P2PPacketInputStream.Run P E avail now s = r
  unfold P2PPacketInputStream.Run at hr
  dsimp only at hr
  repeat' split at hr
  all_goals subst hr
  all_goals simp_all [InputStream.restartHeader, InputStream.incoming,
    InStore.setSlot, InStore.Commit, setAt]

/-- A tick that does not hand the packet to `PrepareToRead` changes the content
memory of the slot at one index at most: the counter, inside the length, while
content is read, and the length plus the counter, inside the footer, while the
footer is read; the byte stored there is the byte read. -/
theorem Run_content_frame (P : Protocol) (E : InEnv) (avail : Option Nat) (now : Nat)
    (s : InputStream) (h : s.InRange P) (hfin : ¬ finishesPacket P avail s) (i : Int)
    (hne : ((P2PPacketInputStream.Run P E avail now s).1.packet_buffer_.slot
        (s.incoming P).priority).content i
      ≠ (s.packet_buffer_.slot (s.incoming P).priority).content i) :
    avail = some (((P2PPacketInputStream.Run P E avail now s).1.packet_buffer_.slot
        (s.incoming P).priority).content i) ∧
      (((s.state_ = InState.kReadingContent ∨
            s.state_ = InState.kDisambiguatingStartTokenInContent) ∧
          i = s.current_field_read_bytes_ ∧ 0 ≤ i ∧
          i < ((s.packet_buffer_.slot (s.incoming P).priority).header.length : Int)) ∨
        (s.state_ = InState.kReadingFooter ∧
          i = ((s.packet_buffer_.slot (s.incoming P).priority).header.length : Int)
            + s.current_field_read_bytes_ ∧
          0 ≤ s.current_field_read_bytes_ ∧
          s.current_field_read_bytes_ < (P.sizeofFooter : Int))) := by
  obtain ⟨hw, hc, hd, hf⟩ := h
  generalize hr : P2PPacketInputStream.Run P E avail now s = r at hne
  unfold P2PPacketInputStream.Run at hr
  unfold finishesPacket readsFinalFooterByte at hfin
  dsimp only at hr
  repeat' split at hr
  all_goals subst hr
  all_goals simp_all [InputStream.restartHeader, InputStream.incoming,
    InStore.setSlot, InStore.Commit, setAt]
  all_goals obtain ⟨h1, h2⟩ := Mem.set_changed _ _ _ _ hne
  all_goals rw [h2]
  all_goals subst h1
  all_goals first
    | exact ⟨rfl, rfl, by omega, by omega⟩
    | exact ⟨rfl, rfl⟩

/-- The packet handed to `PrepareToRead` has the header of the slot, and its
content differs from the content of the slot inside the footer only, provided
the byte order conversion of the checksum keeps its size. -/
theorem assembled_frame (P : Protocol) (s : InputStream) (b : Nat)
    (hck : ∀ l, (P.checksumNetworkToLocal l).length = l.length)
    (h0 : 0 ≤ s.current_field_read_bytes_)
    (h1 : s.current_field_read_bytes_ < (P.sizeofFooter : Int)) :
    (s.assembled P b).header = (s.packet_buffer_.slot (s.incoming P).priority).header ∧
      ∀ i, (s.assembled P b).content i
          ≠ (s.packet_buffer_.slot (s.incoming P).priority).content i →
        ((s.packet_buffer_.slot (s.incoming P).priority).header.length : Int) ≤ i ∧
          i < ((s.packet_buffer_.slot (s.incoming P).priority).header.length : Int)
            + (P.sizeofFooter : Int) := by
  refine ⟨rfl, ?_⟩
  intro i hne
  by_contra hout
  apply hne
  simp only [InputStream.assembled]
  rw [Mem.setList_outside _ _ _ _ (by
    rw [hck, Mem.toList_length]
    omega)]
  apply Mem.set_other
  omega

/-- The tick that hands the packet to `PrepareToRead` leaves in the slot the
header and the content `PrepareToRead` leaves. -/
theorem Run_finishes (P : Protocol) (E : InEnv) (b : Nat) (now : Nat)
    (s : InputStream) (hfin : finishesPacket P (some b) s) :
    ((P2PPacketInputStream.Run P E (some b) now s).1.packet_buffer_.slot
        (s.incoming P).priority).content
        = (E.prepareToRead (s.assembled P b)).2.content ∧
      ((P2PPacketInputStream.Run P E (some b) now s).1.packet_buffer_.slot
        (s.incoming P).priority).header
        = (E.prepareToRead (s.assembled P b)).2.header := by
  generalize hr : P2PPacketInputStream.Run P E (some b) now s = r
  unfold P2PPacketInputStream.Run at hr
  unfold finishesPacket readsFinalFooterByte at hfin
  unfold InputStream.assembled
  dsimp only at hr
  repeat' split at hr
  all_goals subst hr
  all_goals simp_all [InputStream.restartHeader, InputStream.incoming,
    InStore.setSlot, InStore.Commit, setAt]
  all_goals omega

/-- C27.  Start the deframer in `kWaitingForPacket` with no negative interruption
offset (as right after construction) and poll it any number of times, offering
any byte or none in each tick.  In the state `s` reached, whatever the next tick
is offered:

* the slots of all priorities but the incoming one are left as they are;
* unless the tick hands the packet to `PrepareToRead`, the content memory of the
  slot changes at one index `i` at most, where the byte read is stored: `i` is
  the counter with `0 ≤ i < length` while content is read, and `length + j`, `j`
  the counter with `0 ≤ j < sizeof(P2PFooter)`, while the footer is read;
* the tick that hands the packet to `PrepareToRead` leaves in the slot what
  `PrepareToRead` leaves of a packet that has the header of the slot and, the
  byte order conversion of the checksum keeping its size, differs from its
  content at indices `length ≤ i < length + sizeof(P2PFooter)` only;
* every content write the tick reports is at an index `0 ≤ i < length` of the
  slot of the incoming priority and every footer write at an offset
  `0 ≤ j < sizeof(P2PFooter)`;
* an entry of `write_offset_before_break_` changes only in a recording tick and
  only for the incoming priority, the offset a recording tick leaves is between 0
  and the length of the packet in the slot, and an accepted continuation resumes
  at the recorded offset, between 0 and that length. -/
theorem deframer_indices_in_range (P : Protocol) (E : InEnv) (s0 : InputStream)
    (hst : s0.state_ = InState.kWaitingForPacket)
    (hoff : ∀ p, 0 ≤ s0.write_offset_before_break_ p)
    (ticks : List (Option Nat × Nat)) (avail : Option Nat) (now : Nat) :
    ∀ s r, s = P2PPacketInputStream.poll P E ticks s0 →
      r = P2PPacketInputStream.Run P E avail now s →
      (∀ q, q ≠ (s.incoming P).priority →
        r.1.packet_buffer_.slot q = s.packet_buffer_.slot q) ∧
      (¬ finishesPacket P avail s →
        ∀ i, (r.1.packet_buffer_.slot (s.incoming P).priority).content i
            ≠ (s.packet_buffer_.slot (s.incoming P).priority).content i →
          avail = some ((r.1.packet_buffer_.slot (s.incoming P).priority).content i) ∧
          (((s.state_ = InState.kReadingContent ∨
                s.state_ = InState.kDisambiguatingStartTokenInContent) ∧
              i = s.current_field_read_bytes_ ∧ 0 ≤ i ∧
              i < ((s.packet_buffer_.slot (s.incoming P).priority).header.length : Int)) ∨
            (s.state_ = InState.kReadingFooter ∧
              i = ((s.packet_buffer_.slot (s.incoming P).priority).header.length : Int)
                + s.current_field_read_bytes_ ∧
              0 ≤ s.current_field_read_bytes_ ∧
              s.current_field_read_bytes_ < (P.sizeofFooter : Int)))) ∧
      (∀ b, avail = some b → finishesPacket P avail s →
        (r.1.packet_buffer_.slot (s.incoming P).priority).content
            = (E.prepareToRead (s.assembled P b)).2.content ∧
          (r.1.packet_buffer_.slot (s.incoming P).priority).header
            = (E.prepareToRead (s.assembled P b)).2.header ∧
          (s.assembled P b).header
            = (s.packet_buffer_.slot (s.incoming P).priority).header ∧
          ((∀ l, (P.checksumNetworkToLocal l).length = l.length) →
            ∀ i, (s.assembled P b).content i
                ≠ (s.packet_buffer_.slot (s.incoming P).priority).content i →
              ((s.packet_buffer_.slot (s.incoming P).priority).header.length : Int) ≤ i ∧
                i < ((s.packet_buffer_.slot (s.incoming P).priority).header.length : Int)
                  + (P.sizeofFooter : Int))) ∧
      (∀ p i b, InEvent.writeContent p i b ∈ r.2 →
        p = (s.incoming P).priority ∧ 0 ≤ i ∧
          i < ((s.packet_buffer_.slot p).header.length : Int) ∧
          (r.1.packet_buffer_.slot p).content i = b) ∧
      (∀ p j b, InEvent.writeFooter p j b ∈ r.2 →
        p = (s.incoming P).priority ∧ 0 ≤ j ∧ j < (P.sizeofFooter : Int) ∧
          ((∀ ok, InEvent.prepareToRead ok ∉ r.2) →
            (r.1.packet_buffer_.slot p).content
              (((s.packet_buffer_.slot p).header.length : Int) + j) = b)) ∧
      (∀ p, r.1.write_offset_before_break_ p ≠ s.write_offset_before_break_ p →
        p = (s.incoming P).priority ∧ s.recordsOffset P r.1) ∧
      (s.recordsOffset P r.1 →
        0 ≤ r.1.write_offset_before_break_ (s.incoming P).priority ∧
          r.1.write_offset_before_break_ (s.incoming P).priority ≤
            ((r.1.packet_buffer_.slot (s.incoming P).priority).header.length : Int)) ∧
      (s.state_ = InState.kReadingHeader → (s.incoming P).is_continuation = true →
        r.1.state_ = InState.kReadingContent →
        r.1.current_field_read_bytes_ =
            s.write_offset_before_break_ (s.incoming P).priority ∧
          0 ≤ r.1.current_field_read_bytes_ ∧
          r.1.current_field_read_bytes_ ≤
            ((r.1.packet_buffer_.slot (s.incoming P).priority).header.length : Int)) := by
  intro s r hs hr
  have hin : s.InRange P := by
    rw [hs]
    exact poll_inRange P E ticks s0 (waiting_inRange P s0 hst hoff)
  subst hr
  refine ⟨?_, ?_, ?_, ?_, ?_, ?_, ?_, ?_⟩
  · intro q hq
    exact Run_other_slots P E avail now s q hq
  · intro hfin i hne
    exact Run_content_frame P E avail now s hin hfin i hne
  · intro b hb hfin
    subst hb
    obtain ⟨h1, h2⟩ := Run_finishes P E b now s hfin
    have hf0 : 0 ≤ s.current_field_read_bytes_ := hin.2.2.2 hfin.1.1
    exact ⟨h1, h2, rfl, fun hck => (assembled_frame P s b hck hf0 hfin.1.2.2.1).2⟩
  · intro p i b hev
    obtain ⟨h1, h2, h3, h4, _⟩ := Run_content_index P E avail now s hin p i b hev
    refine ⟨h1, h2, ?_, h4⟩
    rw [h1]
    exact h3
  · intro p j b hev
    exact Run_footer_index P E avail now s hin p j b hev
  · intro p hne
    exact Run_offset_changes P E avail now s p hne
  · intro hrec
    exact Run_offset_recorded P E avail now s hin hrec
  · intro h1 h2 h3
    exact Run_resume_offset P E avail now s hin h1 h2 h3

/-- C27 at a concrete run: the demo deframer, fresh from construction, is fed the
header of a priority-1 packet of 5 content bytes and polled once more; the tick
that is offered the byte 0x11 stores it at index 0 of slot 1, leaves the other
slots alone and changes no other byte of the content memory. -/
theorem deframer_indices_in_range_witness :
    InputStream.init.state_ = InState.kWaitingForPacket ∧
    (∀ p, 0 ≤ InputStream.init.write_offset_before_break_ p) ∧
    (P2PPacketInputStream.Run demoProtocol demoEnv (some 0x11) 0 contentStart).2 =
      [InEvent.newValue 1, InEvent.read 0x11, InEvent.writeContent 1 0 0x11] ∧
    ¬ finishesPacket demoProtocol (some 0x11) contentStart ∧
    (∀ q, q ≠ (contentStart.incoming demoProtocol).priority →
      (P2PPacketInputStream.Run demoProtocol demoEnv (some 0x11) 0
        contentStart).1.packet_buffer_.slot q = contentStart.packet_buffer_.slot q) ∧
    (∀ i, ((P2PPacketInputStream.Run demoProtocol demoEnv (some 0x11) 0
          contentStart).1.packet_buffer_.slot
          (contentStart.incoming demoProtocol).priority).content i
        ≠ (contentStart.packet_buffer_.slot
          (contentStart.incoming demoProtocol).priority).content i →
      some 0x11 = some (((P2PPacketInputStream.Run demoProtocol demoEnv (some 0x11) 0
          contentStart).1.packet_buffer_.slot
          (contentStart.incoming demoProtocol).priority).content i) ∧
      (((contentStart.state_ = InState.kReadingContent ∨
            contentStart.state_ = InState.kDisambiguatingStartTokenInContent) ∧
          i = contentStart.current_field_read_bytes_ ∧ 0 ≤ i ∧
          i < ((contentStart.packet_buffer_.slot
            (contentStart.incoming demoProtocol).priority).header.length : Int)) ∨
        (contentStart.state_ = InState.kReadingFooter ∧
          i = ((contentStart.packet_buffer_.slot
            (contentStart.incoming demoProtocol).priority).header.length : Int)
            + contentStart.current_field_read_bytes_ ∧
          0 ≤ contentStart.current_field_read_bytes_ ∧
          contentStart.current_field_read_bytes_ < (demoProtocol.sizeofFooter : Int)))) ∧
    (∀ p i b, InEvent.writeContent p i b ∈
        (P2PPacketInputStream.Run demoProtocol demoEnv (some 0x11) 0 contentStart).2 →
      p = (contentStart.incoming demoProtocol).priority ∧ 0 ≤ i ∧
        i < ((contentStart.packet_buffer_.slot p).header.length : Int) ∧
        ((P2PPacketInputStream.Run demoProtocol demoEnv (some 0x11) 0
          contentStart).1.packet_buffer_.slot p).content i = b) :=
  have hfin : ¬ finishesPacket demoProtocol (some 0x11) contentStart :=
    fun h => absurd h.1.1 (by decide)
  have h := deframer_indices_in_range demoProtocol demoEnv InputStream.init rfl
    (fun _ => le_refl _)
    [(some 0x7E, 0), (some 1, 0), (some 9, 0), (some 0, 0), (some 0, 0), (some 0, 0),
     (some 0, 0), (some 0, 0), (some 0, 0), (some 0, 0), (some 0, 0), (some 5, 0),
     (none, 0)] (some 0x11) 0 contentStart _ rfl rfl
  ⟨rfl, fun _ => le_refl _, by decide, hfin, h.1, h.2.1 hfin, h.2.2.2.1⟩

/-! ## The recorded packet sizes of the framer -/

/-- The head of a tracked queue is a packet handed over, or one flagged with its
size on record. -/
theorem TrackQueue.head (P : Protocol) (gq sq : List P2PPacket) (tot : Int)
    (h : TrackQueue P gq sq tot) (hne : sq ≠ []) :
    ∃ p0 ∈ gq, sq.headD P2PPacket.zero = p0 ∨
      ∃ len, sq.headD P2PPacket.zero = p0.flagged len ∧ tot = P.fullSize p0 := by
  obtain ⟨d, hd, h1 | ⟨p0, rest, len, h1, h2, h3⟩⟩ := h
  · cases hsq : sq with
    | nil => exact absurd hsq hne
    | cons a l =>
      refine ⟨a, ?_, Or.inl rfl⟩
      have : a ∈ gq.drop d := by rw [← h1, hsq]; exact List.mem_cons_self _ _
      exact List.mem_of_mem_drop this
  · refine ⟨p0, ?_, Or.inr ⟨len, by rw [h2]; rfl, h3⟩⟩
    have : p0 ∈ gq.drop d := by rw [h1]; exact List.mem_cons_self _ _
    exact List.mem_of_mem_drop this

/-- The head of a tracked queue of fresh packets has the priority of the queue,
and if it is a continuation it is a flagged packet with its size on record. -/
theorem TrackQueue.head_facts (P : Protocol) (gq sq : List P2PPacket) (tot : Int) (q : Nat)
    (hg : ∀ p ∈ gq, p.header.priority = q ∧ p.header.is_continuation = false)
    (h : TrackQueue P gq sq tot) (hne : sq ≠ []) :
    (sq.headD P2PPacket.zero).header.priority = q ∧
      ((sq.headD P2PPacket.zero).header.is_continuation = true →
        ∃ p0 len, p0 ∈ gq ∧ sq.headD P2PPacket.zero = p0.flagged len ∧
          tot = P.fullSize p0) := by
  obtain ⟨p0, hp0, h1 | ⟨len, h1, h2⟩⟩ := TrackQueue.head P gq sq tot h hne
  · rw [h1]
    refine ⟨(hg p0 hp0).1, ?_⟩
    intro hc
    rw [(hg p0 hp0).2] at hc
    cases hc
  · rw [h1]
    exact ⟨(hg p0 hp0).1, fun _ => ⟨p0, len, hp0, rfl, h2⟩⟩

/-- Consuming the head of a tracked queue. -/
theorem TrackQueue.tail (P : Protocol) (gq sq : List P2PPacket) (tot tot2 : Int)
    (h : TrackQueue P gq sq tot) (hne : sq ≠ []) : TrackQueue P gq sq.tail tot2 := by
  obtain ⟨d, hd, h1 | ⟨p0, rest, len, h1, h2, h3⟩⟩ := h
  · have hlt : d < gq.length := by
      by_contra hc
      apply hne
      rw [h1]
      exact List.drop_eq_nil_of_le (by omega)
    refine ⟨d + 1, hlt, Or.inl ?_⟩
    rw [h1, List.tail_drop]
  · have hlt : d < gq.length := by
      by_contra hc
      rw [List.drop_eq_nil_of_le (by omega)] at h1
      cases h1
    refine ⟨d + 1, hlt, Or.inl ?_⟩
    rw [h2, ← List.tail_drop, h1]
    rfl

/-- Flagging the head of a tracked queue whose size is on record. -/
theorem TrackQueue.flag (P : Protocol) (gq sq : List P2PPacket) (tot : Int) (q len : Nat)
    (hg : ∀ p ∈ gq, p.header.priority = q ∧ p.header.is_continuation = false)
    (h : TrackQueue P gq sq tot) (hne : sq ≠ [])
    (htot : (sq.headD P2PPacket.zero).header.is_continuation = false →
      tot = P.fullSize (sq.headD P2PPacket.zero)) :
    TrackQueue P gq ((sq.headD P2PPacket.zero).flagged len :: sq.tail) tot := by
  obtain ⟨d, hd, h1 | ⟨p0, rest, len0, h1, h2, h3⟩⟩ := h
  · cases hsq : sq with
    | nil => exact absurd hsq hne
    | cons a l =>
      have ha : a ∈ gq := by
        have : a ∈ gq.drop d := by rw [← h1, hsq]; exact List.mem_cons_self _ _
        exact List.mem_of_mem_drop this
      refine ⟨d, hd, Or.inr ⟨a, l, len, ?_, rfl, ?_⟩⟩
      · rw [← h1, hsq]
      · have := htot (by rw [hsq]; exact (hg a ha).2)
        rw [hsq] at this
        exact this
  · refine ⟨d, hd, Or.inr ⟨p0, rest, len, h1, ?_, h3⟩⟩
    rw [h2]
    rfl

/-- A commit behind a tracked queue. -/
theorem TrackQueue.append (P : Protocol) (gq sq : List P2PPacket) (tot : Int) (v : P2PPacket)
    (h : TrackQueue P gq sq tot) : TrackQueue P (gq ++ [v]) (sq ++ [v]) tot := by
  obtain ⟨d, hd, h1 | ⟨p0, rest, len, h1, h2, h3⟩⟩ := h
  · refine ⟨d, by simp; omega, Or.inl ?_⟩
    rw [h1, List.drop_append_of_le_length hd]
  · refine ⟨d, by simp; omega, Or.inr ⟨p0, rest ++ [v], len, ?_, ?_, h3⟩⟩
    · rw [List.drop_append_of_le_length hd, h1]
      rfl
    · rw [h2]
      rfl

/-- The size on record does not matter for a tracked queue with a fresh head. -/
theorem TrackQueue.retotal (P : Protocol) (gq sq : List P2PPacket) (tot tot2 : Int)
    (h : TrackQueue P gq sq tot)
    (hf : (sq.headD P2PPacket.zero).header.is_continuation = false) :
    TrackQueue P gq sq tot2 := by
  obtain ⟨d, hd, h1 | ⟨p0, rest, len, h1, h2, h3⟩⟩ := h
  · exact ⟨d, hd, Or.inl h1⟩
  · rw [h2] at hf
    cases hf

/-- A state with the same store, recorded sizes and current packet, busy only if
the tracked one is, is tracked too. -/
theorem Track.frame (P : Protocol) (g : OutStore) (s x : OutputStream)
    (h : s.Track P g) (hb : x.packet_buffer_ = s.packet_buffer_)
    (ht : x.total_packet_bytes_ = s.total_packet_bytes_)
    (hc : x.current_packet_ = s.current_packet_) (hl : x.live → s.live) : x.Track P g := by
  refine ⟨h.handed, ?_, ?_⟩
  · intro q hq
    rw [hb, ht]
    exact h.queues q hq
  · intro hx
    rw [hb, ht, hc]
    exact h.current (hl hx)

/-- What the body of `case kSendingBurst` does to the store: nothing, or it
consumes the current packet after its last byte, or it flags the current packet
before a wait for a partial burst.  The recorded sizes and the current packet
stay. -/
theorem sendingBurst_store (P : Protocol) (T : Transport)
    (packet_filter_ : Option (P2PPacket → Bool)) (write : Int → Int) (now : Nat)
    (s : OutputStream) :
    (P2PPacketOutputStream.sendingBurst P T packet_filter_ write now s).next.total_packet_bytes_
        = s.total_packet_bytes_ ∧
      (P2PPacketOutputStream.sendingBurst P T packet_filter_ write now s).next.current_packet_
        = s.current_packet_ ∧
      ((P2PPacketOutputStream.sendingBurst P T packet_filter_ write now s).next.packet_buffer_
          = s.packet_buffer_ ∨
        ((P2PPacketOutputStream.sendingBurst P T packet_filter_ write now s).next.packet_buffer_
            = s.packet_buffer_.Consume s.current.header.priority ∧
          (P2PPacketOutputStream.sendingBurst P T packet_filter_ write now s).next.state_
            = OutState.kWaitingForBurstIngestion ∧
          (P2PPacketOutputStream.sendingBurst P T packet_filter_ write now
            s).next.pending_packet_bytes_ ≤ 0) ∨
        ∃ c len, s.current_packet_ = some c ∧
          (P2PPacketOutputStream.sendingBurst P T packet_filter_ write now s).next.packet_buffer_
            = s.packet_buffer_.setFront c (s.current.flagged len) ∧
          (P2PPacketOutputStream.sendingBurst P T packet_filter_ write now s).next.state_
            = OutState.kWaitingForPartialBurstIngestionBeforeHigherPriorityPacket) := by
  refine ⟨sendingBurst_total P T packet_filter_ write now s, ?_, ?_⟩
  · unfold P2PPacketOutputStream.sendingBurst
    dsimp only
    repeat' split
    all_goals simp
  · unfold P2PPacketOutputStream.sendingBurst
    dsimp only
    repeat' split
    all_goals simp_all [P2PPacket.flagged]
    exact Or.inr ⟨_, rfl⟩

/-- The body of `case kSendingBurst` keeps a busy framer tracked. -/
theorem sendingBurst_track (P : Protocol) (T : Transport)
    (packet_filter_ : Option (P2PPacket → Bool)) (write : Int → Int) (now : Nat)
    (g : OutStore) (s : OutputStream) (h : s.Track P g) (hl : s.live) :
    (P2PPacketOutputStream.sendingBurst P T packet_filter_ write now s).next.Track P g := by
  obtain ⟨c, hc, hcK, hne, htot⟩ := h.current hl
  obtain ⟨ht, hcur, hb | ⟨hb, hst, hp⟩ | ⟨c2, len, hc2, hb, hst⟩⟩ :=
    sendingBurst_store P T packet_filter_ write now s
  · exact Track.frame P g s _ h hb ht hcur (fun _ => hl)
  · have hcurr : s.current = s.packet_buffer_.front c := by
      simp [OutputStream.current, hc]
    have hprio : s.current.header.priority = c := by
      rw [hcurr]
      exact (TrackQueue.head_facts P _ _ _ c (h.handed c hcK) (h.queues c hcK) hne).1
    refine ⟨h.handed, ?_, ?_⟩
    · intro q hq
      rw [hb, ht, hprio]
      by_cases hqc : q = c
      · subst hqc
        simp only [OutStore.Consume, setAt, if_true]
        exact TrackQueue.tail P _ _ _ _ (h.queues q hq) hne
      · simp only [OutStore.Consume, setAt, if_neg hqc]
        exact h.queues q hq
    · intro hx
      exfalso
      rcases hx with hx | hx | hx | ⟨_, hx⟩
      · rw [hst] at hx; cases hx
      · rw [hst] at hx; cases hx
      · rw [hst] at hx; cases hx
      · omega
  · rw [hc] at hc2
    cases hc2
    have hcurr : s.current = s.packet_buffer_.front c := by
      simp [OutputStream.current, hc]
    refine ⟨h.handed, ?_, ?_⟩
    · intro q hq
      rw [hb, ht]
      by_cases hqc : q = c
      · subst hqc
        simp only [OutStore.setFront, setAt, if_true]
        rw [hcurr]
        exact TrackQueue.flag P _ _ _ q len (h.handed q hq) (h.queues q hq) hne htot
      · simp only [OutStore.setFront, setAt, if_neg hqc]
        exact h.queues q hq
    · intro hx
      exfalso
      rcases hx with hx | hx | hx | ⟨hx, _⟩ <;> rw [hst] at hx <;> cases hx

/-- A tick keeps the framer tracked. -/
theorem Run_track (P : Protocol) (T : Transport)
    (packet_filter_ : Option (P2PPacket → Bool)) (write : Int → Int) (now : Nat)
    (g : OutStore) (s : OutputStream) (h : s.Track P g) :
    (P2PPacketOutputStream.Run P T packet_filter_ write now s).next.Track P g := by
  cases hst : s.state_
  · -- kGettingNextPacket
    cases ho : s.packet_buffer_.OldestValue P with
    | none =>
      simp only [P2PPacketOutputStream.Run, hst, ho]
      refine ⟨h.handed, h.queues, ?_⟩
      intro hx
      rcases hx with hx | hx | hx | ⟨hx, _⟩ <;> cases hx
    | some q =>
      obtain ⟨hqK, hne, _⟩ := oldest_spec P s.packet_buffer_ q ho
      obtain ⟨hprio, hflag⟩ :=
        TrackQueue.head_facts P _ _ _ q (h.handed q hqK) (h.queues q hqK) hne
      simp only [P2PPacketOutputStream.Run, hst, ho]
      by_cases hc : (s.packet_buffer_.front q).header.is_continuation = false
      · rw [if_pos hc]
        refine ⟨h.handed, ?_, ?_⟩
        · intro r hr
          simp only [OutputStream.startBurst]
          by_cases hrq : r = q
          · subst hrq
            exact TrackQueue.retotal P _ _ _ _ (h.queues r hr) hc
          · have hrp : ¬ r = (s.packet_buffer_.front q).header.priority := by
              rw [show (s.packet_buffer_.front q).header.priority = q from hprio]
              exact hrq
            simp only [setAt, if_neg hrp]
            exact h.queues r hr
        · intro _
          refine ⟨q, rfl, hqK, hne, ?_⟩
          intro _
          simp only [OutputStream.startBurst, setAt]
          rw [if_pos (show q = (s.packet_buffer_.front q).header.priority from hprio.symm)]
          rfl
      · rw [if_neg hc]
        refine ⟨h.handed, h.queues, ?_⟩
        intro _
        refine ⟨q, rfl, hqK, hne, ?_⟩
        intro hf
        exact absurd hf hc
  · -- kSendingHeaderBurst
    simp only [P2PPacketOutputStream.Run, hst]
    have hl : s.live := Or.inl hst
    split_ifs <;> exact Track.frame P g s _ h rfl rfl rfl (fun _ => hl)
  · -- kWaitingForHeaderBurstIngestion
    have hl : s.live := Or.inr (Or.inl hst)
    simp only [P2PPacketOutputStream.Run, hst]
    by_cases h1 : now < s.after_burst_wait_end_timestamp_ns_
    · rw [if_pos h1]
      exact h
    · rw [if_neg h1]
      by_cases h2 : s.pending_packet_bytes_ ≤ 0
      · rw [if_pos h2]
        exact Track.frame P g s _ h rfl rfl rfl (fun _ => hl)
      · rw [if_neg h2]
        apply sendingBurst_track
        · exact Track.frame P g s _ h rfl rfl rfl (fun _ => hl)
        · exact Or.inl rfl
  · -- kSendingBurst
    simp only [P2PPacketOutputStream.Run, hst]
    exact sendingBurst_track P T packet_filter_ write now g s h (Or.inr (Or.inr (Or.inl hst)))
  · -- kWaitingForBurstIngestion
    simp only [P2PPacketOutputStream.Run, hst]
    by_cases h1 : now < s.after_burst_wait_end_timestamp_ns_
    · rw [if_pos h1]
      exact h
    · rw [if_neg h1]
      by_cases h2 : s.pending_packet_bytes_ ≤ 0
      · rw [if_pos h2]
        refine Track.frame P g s _ h rfl rfl rfl ?_
        intro hx
        rcases hx with hx | hx | hx | ⟨hx, _⟩ <;> cases hx
      · rw [if_neg h2]
        refine Track.frame P g s _ h rfl rfl rfl ?_
        intro _
        exact Or.inr (Or.inr (Or.inr ⟨hst, by omega⟩))
  · -- kWaitingForPartialBurstIngestionBeforeHigherPriorityPacket
    simp only [P2PPacketOutputStream.Run, hst]
    split_ifs
    · exact h
    · refine Track.frame P g s _ h rfl rfl rfl ?_
      intro hx
      rcases hx with hx | hx | hx | ⟨hx, _⟩ <;> cases hx

/-- A commit of a fresh packet keeps the framer tracked, against the packets
handed over including the new one. -/
theorem commit_track (P : Protocol) (g : OutStore) (s : OutputStream) (priority : Nat)
    (v : P2PPacket) (h : s.Track P g)
    (hv : (OutStep.commit priority v).freshCommit = true) :
    OutputStream.Track P (g.Commit priority v)
      { s with packet_buffer_ := s.packet_buffer_.Commit priority v } := by
  simp only [OutStep.freshCommit, Bool.and_eq_true, decide_eq_true_eq, Bool.not_eq_true'] at hv
  refine ⟨?_, ?_, ?_⟩
  · intro q hq p hp
    by_cases hqp : q = priority
    · subst hqp
      simp only [OutStore.Commit, setAt, if_true, List.mem_append, List.mem_singleton] at hp
      rcases hp with hp | hp
      · exact h.handed q hq p hp
      · rw [hp]
        exact hv
    · simp only [OutStore.Commit, setAt, if_neg hqp] at hp
      exact h.handed q hq p hp
  · intro q hq
    by_cases hqp : q = priority
    · subst hqp
      simp only [OutStore.Commit, setAt, if_true]
      exact TrackQueue.append P _ _ _ v (h.queues q hq)
    · simp only [OutStore.Commit, setAt, if_neg hqp]
      exact h.queues q hq
  · intro hx
    obtain ⟨c, hc, hcK, hne, htot⟩ := h.current hx
    refine ⟨c, hc, hcK, ?_, ?_⟩
    · by_cases hcp : c = priority
      · subst hcp
        simp [OutStore.Commit, setAt]
      · simp only [OutStore.Commit, setAt, if_neg hcp]
        exact hne
    · have hfront : OutStore.front (s.packet_buffer_.Commit priority v) c
          = s.packet_buffer_.front c := by
        by_cases hcp : c = priority
        · subst hcp
          simp only [OutStore.front, OutStore.Commit, setAt, if_true]
          cases hq : s.packet_buffer_.queue c with
          | nil => exact absurd hq hne
          | cons a l => rfl
        · simp only [OutStore.front, OutStore.Commit, setAt, if_neg hcp]
      intro hf
      show s.total_packet_bytes_ c = P.fullSize (OutStore.front (s.packet_buffer_.Commit priority v) c)
      rw [hfront] at hf ⊢
      exact htot hf

/-- A framer right after construction on a store of fresh packets is tracked. -/
theorem init_track (P : Protocol) (b : OutStore) (hb : b.allFresh P) :
    (OutputStream.init b).Track P b := by
  refine ⟨hb, ?_, ?_⟩
  · intro q _
    exact ⟨0, Nat.zero_le _, Or.inl rfl⟩
  · intro hx
    rcases hx with hx | hx | hx | ⟨hx, _⟩ <;> cases hx

/-- A run whose commits are fresh keeps the framer tracked, against the packets
handed over by the end. -/
theorem runSteps_track (P : Protocol) (T : Transport)
    (packet_filter_ : Option (P2PPacket → Bool)) (steps : List OutStep) :
    ∀ (g : OutStore) (s : OutputStream), s.Track P g →
      (∀ st ∈ steps, st.freshCommit = true) →
      (P2PPacketOutputStream.runSteps P T packet_filter_ steps s).Track P
        (handedOver steps g) := by
  induction steps with
  | nil => intro g s h _; exact h
  | cons st steps ih =>
    intro g s h hs
    have hrest : ∀ x ∈ steps, x.freshCommit = true :=
      fun x hx => hs x (List.mem_cons_of_mem _ hx)
    cases st with
    | tick k =>
      exact ih g _ (Run_track P T packet_filter_ k.write k.now g s h) hrest
    | commit priority v =>
      exact ih _ _ (commit_track P g s priority v h (hs _ (List.mem_cons_self _ _))) hrest

/-- The body of `case kSendingBurst` asserts nothing. -/
theorem sendingBurst_asserts_nothing (P : Protocol) (T : Transport)
    (packet_filter_ : Option (P2PPacket → Bool)) (write : Int → Int) (now : Nat)
    (s : OutputStream) :
    OutEvent.assertFailed ∉
      (P2PPacketOutputStream.sendingBurst P T packet_filter_ write now s).events := by
  unfold P2PPacketOutputStream.sendingBurst
  dsimp only
  repeat' split
  all_goals simp

/-- In a tracked state the assertion of line 204 holds, and a continuation
selected is a packet handed over at the priority of its queue, flagged, with the
full size of that packet on record before and after the tick. -/
theorem Run_selects_tracked (P : Protocol) (T : Transport)
    (packet_filter_ : Option (P2PPacket → Bool)) (write : Int → Int) (now : Nat)
    (g : OutStore) (s : OutputStream) (h : s.Track P g) :
    OutEvent.assertFailed ∉ (P2PPacketOutputStream.Run P T packet_filter_ write now s).events ∧
      ∀ q, s.state_ = OutState.kGettingNextPacket → s.packet_buffer_.OldestValue P = some q →
        (s.packet_buffer_.front q).header.is_continuation = true →
        (s.packet_buffer_.front q).header.priority = q ∧
        ∃ p0 len, p0 ∈ g.queue q ∧ p0.header.is_continuation = false ∧
          s.packet_buffer_.front q = p0.flagged len ∧
          s.total_packet_bytes_ q = P.fullSize p0 ∧
          (P2PPacketOutputStream.Run P T packet_filter_ write now s).next.total_packet_bytes_ q
            = P.fullSize p0 := by
  have key : ∀ q, s.packet_buffer_.OldestValue P = some q →
      (s.packet_buffer_.front q).header.is_continuation = true →
      (s.packet_buffer_.front q).header.priority = q ∧
      ∃ p0 len, p0 ∈ g.queue q ∧ p0.header.is_continuation = false ∧
        s.packet_buffer_.front q = p0.flagged len ∧
        s.total_packet_bytes_ q = P.fullSize p0 := by
    intro q ho hc
    obtain ⟨hqK, hne, _⟩ := oldest_spec P s.packet_buffer_ q ho
    obtain ⟨hprio, hflag⟩ :=
      TrackQueue.head_facts P _ _ _ q (h.handed q hqK) (h.queues q hqK) hne
    obtain ⟨p0, len, hp0, h1, h2⟩ := hflag hc
    exact ⟨hprio, p0, len, hp0, (h.handed q hqK p0 hp0).2, h1, h2⟩
  constructor
  · cases hst : s.state_
    · cases ho : s.packet_buffer_.OldestValue P with
      | none => simp [P2PPacketOutputStream.Run, hst, ho]
      | some q =>
        simp only [P2PPacketOutputStream.Run, hst, ho]
        by_cases hc : (s.packet_buffer_.front q).header.is_continuation = true
        · obtain ⟨hprio, p0, len, _, _, _, htot⟩ := key q ho hc
          have hnn : ¬ s.total_packet_bytes_ (s.packet_buffer_.front q).header.priority < 0 := by
            rw [hprio, htot]
            unfold Protocol.fullSize
            omega
          simp [hnn]
        · simp [hc]
    · simp only [P2PPacketOutputStream.Run, hst]
      split_ifs <;> simp
    · simp only [P2PPacketOutputStream.Run, hst]
      split_ifs
      · simp
      · simp
      · simp
      · exact sendingBurst_asserts_nothing P T packet_filter_ write now _
    · simp only [P2PPacketOutputStream.Run, hst]
      exact sendingBurst_asserts_nothing P T packet_filter_ write now s
    · simp only [P2PPacketOutputStream.Run, hst]
      split_ifs <;> simp
    · simp only [P2PPacketOutputStream.Run, hst]
      split_ifs <;> simp
  · intro q hst ho hc
    obtain ⟨hprio, p0, len, hp0, hf, h1, h2⟩ := key q ho hc
    refine ⟨hprio, p0, len, hp0, hf, h1, h2, ?_⟩
    rw [← h2]
    by_contra hne
    obtain ⟨_, q2, ho2, hf2, _, _⟩ := Run_total P T packet_filter_ write now s q hne
    rw [ho] at ho2
    cases ho2
    rw [hc] at hf2
    cases hf2

/-- While a tracked framer is busy with a packet, the size on record for the
priority of that packet is the full size of a packet handed over. -/
theorem Track.busy_total (P : Protocol) (g : OutStore) (s : OutputStream)
    (h : s.Track P g) (hl : s.live) :
    ∃ c p0, s.current_packet_ = some c ∧ s.current.header.priority = c ∧ p0 ∈ g.queue c ∧
      s.total_packet_bytes_ c = P.fullSize p0 := by
  obtain ⟨c, hc, hcK, hne, htot⟩ := h.current hl
  have hcurr : s.current = s.packet_buffer_.front c := by
    simp [OutputStream.current, hc]
  obtain ⟨p0, hp0, h1 | ⟨len, h1, h2⟩⟩ := TrackQueue.head P _ _ _ (h.queues c hcK) hne
  · refine ⟨c, p0, hc, ?_, hp0, ?_⟩
    · rw [hcurr]
      show ((s.packet_buffer_.queue c).headD P2PPacket.zero).header.priority = c
      rw [h1]
      exact (h.handed c hcK p0 hp0).1
    · have hf : (s.packet_buffer_.front c).header.is_continuation = false := by
        show ((s.packet_buffer_.queue c).headD P2PPacket.zero).header.is_continuation = false
        rw [h1]
        exact (h.handed c hcK p0 hp0).2
      rw [htot hf]
      show P.fullSize ((s.packet_buffer_.queue c).headD P2PPacket.zero) = _
      rw [h1]
  · refine ⟨c, p0, hc, ?_, hp0, h2⟩
    rw [hcurr]
    show ((s.packet_buffer_.queue c).headD P2PPacket.zero).header.priority = c
    rw [h1]
    exact (h.handed c hcK p0 hp0).1

/-- C22.  Run the framer from construction on a store of fresh packets, through
any ticks and any commits of fresh packets, so that every continuation in the
store was flagged by the framer itself.  In the state reached, the next tick does
not fail the assertion of line 204, and if it selects a packet with
`is_continuation` set, that packet is a packet handed over at its priority with
the two header fields of lines 319-320 overwritten, and `total_packet_bytes_` for
its priority is, before and after the tick, header + length + footer of the
packet as it was handed over. -/
theorem continuation_has_recorded_size (P : Protocol) (T : Transport)
    (packet_filter_ : Option (P2PPacket → Bool)) (b0 : OutStore) (steps : List OutStep)
    (hb0 : b0.allFresh P) (hsteps : ∀ st ∈ steps, st.freshCommit = true) (k : OutTick) :
    ∀ s, s = P2PPacketOutputStream.runSteps P T packet_filter_ steps (OutputStream.init b0) →
      OutEvent.assertFailed ∉
          (P2PPacketOutputStream.Run P T packet_filter_ k.write k.now s).events ∧
        ∀ q, s.state_ = OutState.kGettingNextPacket →
          s.packet_buffer_.OldestValue P = some q →
          (s.packet_buffer_.front q).header.is_continuation = true →
          (s.packet_buffer_.front q).header.priority = q ∧
          ∃ p0 len, p0 ∈ (handedOver steps b0).queue q ∧
            p0.header.is_continuation = false ∧
            s.packet_buffer_.front q = p0.flagged len ∧
            s.total_packet_bytes_ q = P.fullSize p0 ∧
            (P2PPacketOutputStream.Run P T packet_filter_ k.write k.now
              s).next.total_packet_bytes_ q = P.fullSize p0 := by
  intro s hs
  rw [hs]
  exact Run_selects_tracked P T packet_filter_ k.write k.now _ _
    (runSteps_track P T packet_filter_ steps b0 _ (init_track P b0 hb0) hsteps)

set_option maxRecDepth 100000 in
/-- C22 at a concrete run: after `preemptionSteps` the demo framer is about to
select the priority-1 packet it flagged, and the statement holds there. -/
theorem continuation_has_recorded_size_witness :
    (lowPriorityStore [demoPacket 1 7 [0x11, 0x22, 0x33] [0xA, 0xB]]).allFresh demoProtocol ∧
    (∀ st ∈ preemptionSteps, st.freshCommit = true) ∧
    (flaggedPacketPending.state_ = OutState.kGettingNextPacket ∧
      flaggedPacketPending.packet_buffer_.OldestValue demoProtocol = some 1 ∧
      (flaggedPacketPending.packet_buffer_.front 1).header.is_continuation = true) ∧
    OutEvent.assertFailed ∉
        (P2PPacketOutputStream.Run demoProtocol byteWiseTransport none (idealTick 13).write
          (idealTick 13).now flaggedPacketPending).events ∧
      ∀ q, flaggedPacketPending.state_ = OutState.kGettingNextPacket →
        flaggedPacketPending.packet_buffer_.OldestValue demoProtocol = some q →
        (flaggedPacketPending.packet_buffer_.front q).header.is_continuation = true →
        (flaggedPacketPending.packet_buffer_.front q).header.priority = q ∧
        ∃ p0 len, p0 ∈ (handedOver preemptionSteps
            (lowPriorityStore [demoPacket 1 7 [0x11, 0x22, 0x33] [0xA, 0xB]])).queue q ∧
          p0.header.is_continuation = false ∧
          flaggedPacketPending.packet_buffer_.front q = p0.flagged len ∧
          flaggedPacketPending.total_packet_bytes_ q = demoProtocol.fullSize p0 ∧
          (P2PPacketOutputStream.Run demoProtocol byteWiseTransport none (idealTick 13).write
            (idealTick 13).now flaggedPacketPending).next.total_packet_bytes_ q
            = demoProtocol.fullSize p0 :=
  have hb0 : (lowPriorityStore [demoPacket 1 7 [0x11, 0x22, 0x33] [0xA, 0xB]]).allFresh
      demoProtocol := by
    intro q _ p hp
    by_cases hq : q = 1
    · subst hq
      simp only [lowPriorityStore, if_true, List.mem_singleton] at hp
      rw [hp]
      exact ⟨rfl, rfl⟩
    · simp [lowPriorityStore, hq] at hp
  have hsteps : ∀ st ∈ preemptionSteps, st.freshCommit = true := by decide
  ⟨hb0, hsteps, by decide,
    continuation_has_recorded_size demoProtocol byteWiseTransport none _ preemptionSteps
      hb0 hsteps (idealTick 13) flaggedPacketPending rfl⟩

/-- A tick that writes the last byte of a packet meets a framer busy with it. -/
theorem sendsLastByte_live (T : Transport) (k : OutTick) (s : OutputStream)
    (h : sendsLastByte T k s = true) : s.live := by
  simp only [sendsLastByte, decide_eq_true_eq] at h
  rcases h with ⟨hst, _⟩ | ⟨hst, _⟩
  · exact Or.inr (Or.inr (Or.inl hst))
  · exact Or.inr (Or.inl hst)

/-- C28.  Run the framer from construction on a store of fresh packets, through
any ticks and any commits of fresh packets, with a header of at least one byte
and packet sizes that fit 64 bits.  In a tick that writes the last byte of a
packet, the tick in which lines 277-295 run, `total_packet_bytes_` for the
priority of that packet is at least `sizeof(P2PHeader) + sizeof(P2PFooter)`,
hence positive, and so is the divisor of line 287, by which the statistics of the
tick are computed. -/
theorem latency_divisor_positive (P : Protocol) (T : Transport)
    (packet_filter_ : Option (P2PPacket → Bool)) (b0 : OutStore) (steps : List OutStep)
    (hb0 : b0.allFresh P) (hsteps : ∀ st ∈ steps, st.freshCommit = true) (k : OutTick)
    (hhdr : 0 < P.sizeofHeader)
    (hfit : ∀ x, P.sizeofHeader + P.networkToLocal x + P.sizeofFooter < 2 ^ 64) :
    ∀ s, s = P2PPacketOutputStream.runSteps P T packet_filter_ steps (OutputStream.init b0) →
      sendsLastByte T k s = true →
      ((P.sizeofHeader : Int) + (P.sizeofFooter : Int)
          ≤ s.total_packet_bytes_ s.current.header.priority) ∧
        0 < s.total_packet_bytes_ s.current.header.priority ∧
        0 < wrap64 (s.total_packet_bytes_ s.current.header.priority) ∧
        (P2PPacketOutputStream.Run P T packet_filter_ k.write k.now s).next.stats_
          = (s.account s.current k.now).stats_ := by
  intro s hs hlast
  have htr : s.Track P (handedOver steps b0) := by
    rw [hs]
    exact runSteps_track P T packet_filter_ steps b0 _ (init_track P b0 hb0) hsteps
  obtain ⟨c, p0, _, hprio, _, htot⟩ :=
    Track.busy_total P _ s htr (sendsLastByte_live T k s hlast)
  rw [hprio, htot]
  have h1 := hfit p0.header.length
  have h2 : (P.fullSize p0) = ((P.sizeofHeader + P.networkToLocal p0.header.length
      + P.sizeofFooter : Nat) : Int) := by
    unfold Protocol.fullSize
    push_cast
    rfl
  refine ⟨?_, ?_, ?_, (Run_account P T packet_filter_ k s hlast).1⟩
  · rw [h2]; push_cast; omega
  · rw [h2]; push_cast; omega
  · rw [h2]
    unfold wrap64
    have h3 : ((P.sizeofHeader + P.networkToLocal p0.header.length + P.sizeofFooter : Nat) : Int)
        % (2 ^ 64 : Int)
        = ((P.sizeofHeader + P.networkToLocal p0.header.length + P.sizeofFooter : Nat) : Int) := by
      apply Int.emod_eq_of_lt
      · exact Int.natCast_nonneg _
      · have : ((2 : Int) ^ 64) = ((2 ^ 64 : Nat) : Int) := by norm_num
        rw [this]
        exact_mod_cast h1
    rw [h3, Int.toNat_natCast]
    omega

/-- C28 at a concrete run: the demo framer on `wholeBurstTransport` has written
the header of a priority-1 packet of one content byte; the next tick writes
content and footer, and the size on record is positive. -/
theorem latency_divisor_positive_witness :
    (lowPriorityStore [demoPacket 1 7 [1] [2, 3]]).allFresh demoProtocol ∧
    (∀ st ∈ (idealTicks 3).map OutStep.tick, st.freshCommit = true) ∧
    0 < demoProtocol.sizeofHeader ∧
    (∀ x, demoProtocol.sizeofHeader + demoProtocol.networkToLocal x
      + demoProtocol.sizeofFooter < 2 ^ 64) ∧
    sendsLastByte wholeBurstTransport (idealTick 3) bodyPending = true ∧
    ((demoProtocol.sizeofHeader : Int) + (demoProtocol.sizeofFooter : Int)
        ≤ bodyPending.total_packet_bytes_ bodyPending.current.header.priority) ∧
      0 < bodyPending.total_packet_bytes_ bodyPending.current.header.priority ∧
      0 < wrap64 (bodyPending.total_packet_bytes_ bodyPending.current.header.priority) ∧
      (P2PPacketOutputStream.Run demoProtocol wholeBurstTransport none (idealTick 3).write
          (idealTick 3).now bodyPending).next.stats_
        = (bodyPending.account bodyPending.current (idealTick 3).now).stats_ :=
  have hb0 : (lowPriorityStore [demoPacket 1 7 [1] [2, 3]]).allFresh demoProtocol := by
    intro q _ p hp
    by_cases hq : q = 1
    · subst hq
      simp only [lowPriorityStore, if_true, List.mem_singleton] at hp
      rw [hp]
      exact ⟨rfl, rfl⟩
    · simp [lowPriorityStore, hq] at hp
  have hsteps : ∀ st ∈ (idealTicks 3).map OutStep.tick, st.freshCommit = true := by decide
  have hfit : ∀ x, demoProtocol.sizeofHeader + demoProtocol.networkToLocal x
      + demoProtocol.sizeofFooter < 2 ^ 64 := by
    intro x
    simp only [demoProtocol, swap16]
    omega
  ⟨hb0, hsteps, by decide, hfit, by decide,
    latency_divisor_positive demoProtocol wholeBurstTransport none _ _ hb0 hsteps (idealTick 3)
      (by decide) hfit bodyPending rfl (by decide)⟩

/-! ## The uninterrupted send of a packet -/

/-- The body of `case kSendingBurst` asks the filter only after the last byte. -/
theorem sendingBurst_filter_free (P : Protocol) (T : Transport)
    (packet_filter_ : Option (P2PPacket → Bool)) (write : Int → Int) (now : Nat)
    (s : OutputStream)
    (hp : ¬ s.pending_packet_bytes_
      - write (min T.GetAtomicSendMaxLength s.pending_burst_bytes_) ≤ 0) :
    P2PPacketOutputStream.sendingBurst P T packet_filter_ write now s
      = P2PPacketOutputStream.sendingBurst P T none write now s := by
  simp only [P2PPacketOutputStream.sendingBurst, if_neg hp]

/-- A tick that does not write the last byte of a packet does not ask the filter. -/
theorem Run_filter_free (P : Protocol) (T : Transport)
    (packet_filter_ : Option (P2PPacket → Bool)) (k : OutTick) (s : OutputStream)
    (h : sendsLastByte T k s = false) :
    P2PPacketOutputStream.Run P T packet_filter_ k.write k.now s
      = P2PPacketOutputStream.Run P T none k.write k.now s := by
  simp only [sendsLastByte, decide_eq_false_iff_not, not_or, not_and, not_le, not_not,
    not_lt] at h
  cases hst : s.state_ with
  | kGettingNextPacket => simp only [P2PPacketOutputStream.Run, hst]
  | kSendingHeaderBurst => simp only [P2PPacketOutputStream.Run, hst]
  | kWaitingForHeaderBurstIngestion =>
    simp only [P2PPacketOutputStream.Run, hst]
    by_cases h1 : k.now < s.after_burst_wait_end_timestamp_ns_
    · rw [if_pos h1, if_pos h1]
    · rw [if_neg h1, if_neg h1]
      by_cases h2 : s.pending_packet_bytes_ ≤ 0
      · rw [if_pos h2, if_pos h2]
      · rw [if_neg h2, if_neg h2]
        have h3 := h.2 hst (by omega) (by omega)
        exact sendingBurst_filter_free P T packet_filter_ k.write k.now _ (by
          simp only [OutputStream.startBurst]; omega)
  | kSendingBurst =>
    simp only [P2PPacketOutputStream.Run, hst]
    exact sendingBurst_filter_free P T packet_filter_ k.write k.now s (by
      have := h.1 hst; omega)
  | kWaitingForBurstIngestion => simp only [P2PPacketOutputStream.Run, hst]
  | kWaitingForPartialBurstIngestionBeforeHigherPriorityPacket =>
    simp only [P2PPacketOutputStream.Run, hst]

/-- A run in which no packet is completed does not depend on the filter. -/
theorem quiet_filter_free (P : Protocol) (T : Transport)
    (packet_filter_ : Option (P2PPacket → Bool)) (ticks : List OutTick) :
    ∀ s : OutputStream, quiet P T packet_filter_ ticks s = true →
      quiet P T none ticks s = true ∧
        P2PPacketOutputStream.runTicks P T packet_filter_ ticks s
          = P2PPacketOutputStream.runTicks P T none ticks s ∧
        P2PPacketOutputStream.trace P T packet_filter_ ticks s
          = P2PPacketOutputStream.trace P T none ticks s := by
  induction ticks with
  | nil => intro s _; exact ⟨rfl, rfl, rfl⟩
  | cons k ks ih =>
    intro s h
    simp only [quiet, Bool.and_eq_true, Bool.not_eq_true'] at h
    have h1 := Run_filter_free P T packet_filter_ k s h.1
    rw [h1] at h
    obtain ⟨h2, h3, h4⟩ := ih _ h.2
    refine ⟨?_, ?_, ?_⟩
    · simp only [quiet, Bool.and_eq_true, Bool.not_eq_true']
      exact ⟨h.1, h2⟩
    · simp only [P2PPacketOutputStream.runTicks, h1, h3]
    · simp only [P2PPacketOutputStream.trace, h1, h4]

/-- The bytes the body of `case kSendingBurst` writes do not depend on the filter. -/
theorem sendingBurst_written_filter_free (P : Protocol) (T : Transport)
    (packet_filter_ : Option (P2PPacket → Bool)) (write : Int → Int) (now : Nat)
    (s : OutputStream) :
    writtenBytes (P2PPacketOutputStream.sendingBurst P T packet_filter_ write now s).events
      = writtenBytes (P2PPacketOutputStream.sendingBurst P T none write now s).events := by
  by_cases hp : s.pending_packet_bytes_
      - write (min T.GetAtomicSendMaxLength s.pending_burst_bytes_) ≤ 0
  · simp only [P2PPacketOutputStream.sendingBurst, if_pos hp]
    cases packet_filter_ with
    | none => rfl
    | some f =>
      dsimp only
      split_ifs <;> simp [writtenBytes]
  · rw [sendingBurst_filter_free P T packet_filter_ write now s hp]

/-- The bytes a tick writes do not depend on the filter. -/
theorem Run_written_filter_free (P : Protocol) (T : Transport)
    (packet_filter_ : Option (P2PPacket → Bool)) (k : OutTick) (s : OutputStream) :
    writtenBytes (P2PPacketOutputStream.Run P T packet_filter_ k.write k.now s).events
      = writtenBytes (P2PPacketOutputStream.Run P T none k.write k.now s).events := by
  cases hst : s.state_ with
  | kGettingNextPacket => simp only [P2PPacketOutputStream.Run, hst]
  | kSendingHeaderBurst => simp only [P2PPacketOutputStream.Run, hst]
  | kWaitingForHeaderBurstIngestion =>
    simp only [P2PPacketOutputStream.Run, hst]
    by_cases h1 : k.now < s.after_burst_wait_end_timestamp_ns_
    · rw [if_pos h1, if_pos h1]
    · rw [if_neg h1, if_neg h1]
      by_cases h2 : s.pending_packet_bytes_ ≤ 0
      · rw [if_pos h2, if_pos h2]
      · rw [if_neg h2, if_neg h2]
        exact sendingBurst_written_filter_free P T packet_filter_ k.write k.now _
  | kSendingBurst =>
    simp only [P2PPacketOutputStream.Run, hst]
    exact sendingBurst_written_filter_free P T packet_filter_ k.write k.now s
  | kWaitingForBurstIngestion => simp only [P2PPacketOutputStream.Run, hst]
  | kWaitingForPartialBurstIngestionBeforeHigherPriorityPacket =>
    simp only [P2PPacketOutputStream.Run, hst]

/-- The bytes and the last state of a run, from its last tick. -/
theorem runTicks_snoc_written (P : Protocol) (T : Transport)
    (packet_filter_ : Option (P2PPacket → Bool)) (ticks : List OutTick) (k : OutTick)
    (s : OutputStream) :
    (P2PPacketOutputStream.runTicks P T packet_filter_ (ticks ++ [k]) s).2
      = (P2PPacketOutputStream.runTicks P T packet_filter_ ticks s).2
        ++ writtenBytes (P2PPacketOutputStream.Run P T packet_filter_ k.write k.now
            (P2PPacketOutputStream.runTicks P T packet_filter_ ticks s).1).events := by
  induction ticks generalizing s with
  | nil => simp [P2PPacketOutputStream.runTicks]
  | cons k' ks ih =>
    simp only [List.cons_append, P2PPacketOutputStream.runTicks, List.append_assoc]
    exact congrArg _ (ih _)

/-- The events of a run, from its last tick. -/
theorem trace_snoc (P : Protocol) (T : Transport)
    (packet_filter_ : Option (P2PPacket → Bool)) (ticks : List OutTick) (k : OutTick)
    (s : OutputStream) :
    P2PPacketOutputStream.trace P T packet_filter_ (ticks ++ [k]) s
      = P2PPacketOutputStream.trace P T packet_filter_ ticks s
        ++ (P2PPacketOutputStream.Run P T packet_filter_ k.write k.now
            (P2PPacketOutputStream.runTicks P T packet_filter_ ticks s).1).events := by
  induction ticks generalizing s with
  | nil => simp [P2PPacketOutputStream.trace, P2PPacketOutputStream.runTicks]
  | cons k' ks ih =>
    simp only [List.cons_append, P2PPacketOutputStream.trace, P2PPacketOutputStream.runTicks,
      List.append_assoc]
    exact congrArg _ (ih _)

/-- The `Consume` calls of two event lists. -/
theorem consumes_append (a b : List OutEvent) : consumes (a ++ b) = consumes a ++ consumes b := by
  induction a with
  | nil => rfl
  | cons e es ih =>
    cases e <;> simp [consumes, ih]

/-- The bytes written in two event lists. -/
theorem writtenBytes_append (a b : List OutEvent) :
    writtenBytes (a ++ b) = writtenBytes a ++ writtenBytes b := by
  induction a with
  | nil => rfl
  | cons e es ih =>
    cases e <;> simp [writtenBytes, ih]

/-- The bytes of a run are the bytes written in its events. -/
theorem writtenBytes_trace (P : Protocol) (T : Transport)
    (packet_filter_ : Option (P2PPacket → Bool)) (ticks : List OutTick) :
    ∀ s : OutputStream,
      writtenBytes (P2PPacketOutputStream.trace P T packet_filter_ ticks s)
        = (P2PPacketOutputStream.runTicks P T packet_filter_ ticks s).2 := by
  induction ticks with
  | nil => intro s; rfl
  | cons k ks ih =>
    intro s
    simp only [P2PPacketOutputStream.trace, P2PPacketOutputStream.runTicks, writtenBytes_append,
      ih]

/-- A tick that does not write the last byte of a packet calls no `Consume`. -/
theorem Run_consumes_quiet (P : Protocol) (T : Transport)
    (packet_filter_ : Option (P2PPacket → Bool)) (k : OutTick) (s : OutputStream)
    (h : sendsLastByte T k s = false) :
    consumes (P2PPacketOutputStream.Run P T packet_filter_ k.write k.now s).events = [] := by
  simp only [sendsLastByte, decide_eq_false_iff_not, not_or, not_and, not_le, not_not,
    not_lt] at h
  cases hst : s.state_ with
  | kGettingNextPacket =>
    simp only [P2PPacketOutputStream.Run, hst]
    split
    · rfl
    · split_ifs <;> rfl
  | kSendingHeaderBurst =>
    simp only [P2PPacketOutputStream.Run, hst]
    split_ifs <;> rfl
  | kWaitingForHeaderBurstIngestion =>
    simp only [P2PPacketOutputStream.Run, hst]
    by_cases h1 : k.now < s.after_burst_wait_end_timestamp_ns_
    · rw [if_pos h1]
      rfl
    · rw [if_neg h1]
      by_cases h2 : s.pending_packet_bytes_ ≤ 0
      · rw [if_pos h2]
        rfl
      · rw [if_neg h2]
        have h3 := h.2 hst (by omega) (by omega)
        exact (sendingBurst_consumes P T packet_filter_ k.write k.now
          (s.startBurst T OutState.kSendingHeaderBurst)).2 (by
            simp only [OutputStream.startBurst]; omega)
  | kSendingBurst =>
    simp only [P2PPacketOutputStream.Run, hst]
    exact (sendingBurst_consumes P T packet_filter_ k.write k.now s).2 (by
      have := h.1 hst; omega)
  | kWaitingForBurstIngestion =>
    simp only [P2PPacketOutputStream.Run, hst]
    split_ifs <;> rfl
  | kWaitingForPartialBurstIngestionBeforeHigherPriorityPacket =>
    simp only [P2PPacketOutputStream.Run, hst]
    split_ifs <;> rfl

/-- A run in which no packet is completed calls no `Consume`. -/
theorem trace_consumes_quiet (P : Protocol) (T : Transport)
    (packet_filter_ : Option (P2PPacket → Bool)) (ticks : List OutTick) :
    ∀ s : OutputStream, quiet P T packet_filter_ ticks s = true →
      consumes (P2PPacketOutputStream.trace P T packet_filter_ ticks s) = [] := by
  induction ticks with
  | nil => intro s _; rfl
  | cons k ks ih =>
    intro s h
    simp only [quiet, Bool.and_eq_true, Bool.not_eq_true'] at h
    simp only [P2PPacketOutputStream.trace, consumes_append,
      Run_consumes_quiet P T packet_filter_ k s h.1, ih _ h.2, List.append_nil]

/-- While the framer sends the oldest packet, a tick that does not write its last
byte leaves the store, the current packet and the recorded sizes alone. -/
theorem Run_sending (P : Protocol) (T : Transport) (k : OutTick) (s : OutputStream)
    (b : OutStore) (q : Nat) (tot : Nat → Int)
    (hg : s.Good P) (hs : s.Sending b q tot) (h : sendsLastByte T k s = false) :
    (P2PPacketOutputStream.Run P T none k.write k.now s).next.Sending b q tot := by
  simp only [sendsLastByte, decide_eq_false_iff_not, not_or, not_and, not_le, not_not,
    not_lt] at h
  obtain ⟨hl, hb, hc, ht⟩ := hs
  have hsb : ∀ x : OutputStream, x.onOldest P →
      x.packet_buffer_ = b → x.current_packet_ = some q → x.total_packet_bytes_ = tot →
      (x.state_ = OutState.kSendingBurst ∨ x.state_ = OutState.kSendingHeaderBurst) →
      ¬ x.pending_packet_bytes_
        - k.write (min T.GetAtomicSendMaxLength x.pending_burst_bytes_) ≤ 0 →
      (P2PPacketOutputStream.sendingBurst P T none k.write k.now x).next.Sending b q tot := by
    intro x ⟨c, hxc, hxo⟩ hxb hxq hxt hxs hp
    have hcq : c = q := by rw [hxc] at hxq; exact Option.some.inj hxq
    subst hcq
    simp only [P2PPacketOutputStream.sendingBurst, if_neg hp]
    by_cases h2 : x.pending_burst_bytes_
        - k.write (min T.GetAtomicSendMaxLength x.pending_burst_bytes_) ≤ 0
    · rw [if_pos h2]
      exact ⟨Or.inr (Or.inr (Or.inr ⟨rfl, by show 0 < _ - _; omega⟩)), hxb, hxq, hxt⟩
    · rw [if_neg h2]
      simp only [hxo, hxc, ne_eq, not_true_eq_false, if_false]
      refine ⟨?_, hxb, rfl, hxt⟩
      rcases hxs with hxs | hxs
      · exact Or.inr (Or.inr (Or.inl hxs))
      · exact Or.inl hxs
  cases hst : s.state_ with
  | kGettingNextPacket =>
    rcases hl with hx | hx | hx | ⟨hx, _⟩ <;> rw [hst] at hx <;> cases hx
  | kSendingHeaderBurst =>
    simp only [P2PPacketOutputStream.Run, hst]
    split_ifs
    · exact ⟨Or.inr (Or.inl rfl), hb, hc, ht⟩
    · exact ⟨Or.inr (Or.inl rfl), hb, hc, ht⟩
    · exact ⟨Or.inl rfl, hb, hc, ht⟩
  | kWaitingForHeaderBurstIngestion =>
    simp only [OutputStream.Good, hst] at hg
    obtain ⟨_, hon, hp0, _⟩ := hg
    simp only [P2PPacketOutputStream.Run, hst]
    by_cases h1 : k.now < s.after_burst_wait_end_timestamp_ns_
    · rw [if_pos h1]
      exact ⟨hl, hb, hc, ht⟩
    · rw [if_neg h1, if_pos (by omega)]
      exact ⟨Or.inr (Or.inr (Or.inl rfl)), hb, hc, ht⟩
  | kSendingBurst =>
    simp only [OutputStream.Good, hst] at hg
    obtain ⟨_, hon, _⟩ := hg
    simp only [P2PPacketOutputStream.Run, hst]
    exact hsb s hon hb hc ht (Or.inl hst) (by have := h.1 hst; omega)
  | kWaitingForBurstIngestion =>
    have hp : 0 < s.pending_packet_bytes_ := by
      rcases hl with hx | hx | hx | ⟨_, hx⟩
      · rw [hst] at hx; cases hx
      · rw [hst] at hx; cases hx
      · rw [hst] at hx; cases hx
      · exact hx
    simp only [P2PPacketOutputStream.Run, hst]
    by_cases h1 : k.now < s.after_burst_wait_end_timestamp_ns_
    · rw [if_pos h1]
      exact ⟨hl, hb, hc, ht⟩
    · rw [if_neg h1, if_neg (by omega)]
      exact ⟨Or.inr (Or.inr (Or.inl rfl)), hb, hc, ht⟩
  | kWaitingForPartialBurstIngestionBeforeHigherPriorityPacket =>
    rcases hl with hx | hx | hx | ⟨hx, _⟩ <;> rw [hst] at hx <;> cases hx

/-- While the framer sends the oldest packet, a run that does not write its last
byte leaves the store, the current packet and the recorded sizes alone. -/
theorem runTicks_sending (P : Protocol) (T : Transport) (ticks : List OutTick)
    (b : OutStore) (q : Nat) (tot : Nat → Int)
    (hlen : ∀ h, (P.headerBytes h).length = P.sizeofHeader)
    (hhs : 1 ≤ P.sizeofHeader) (hburst : (P.sizeofHeader : Int) ≤ T.GetBurstMaxLength)
    (hatomic : 0 ≤ T.GetAtomicSendMaxLength) :
    ∀ s : OutputStream, (∀ k ∈ ticks, k.valid) → s.Good P → s.Sending b q tot →
      quiet P T none ticks s = true →
      (P2PPacketOutputStream.runTicks P T none ticks s).1.Good P ∧
        (P2PPacketOutputStream.runTicks P T none ticks s).1.Sending b q tot := by
  induction ticks with
  | nil => intro s _ hg hs _; exact ⟨hg, hs⟩
  | cons k ks ih =>
    intro s hk hg hs hq
    simp only [quiet, Bool.and_eq_true, Bool.not_eq_true'] at hq
    have h1 := (Run_stream P T none k s hlen hhs hburst hatomic (fun f hf => by cases hf)
      (hk k (List.mem_cons_self _ _)) hg).1
    have h2 := Run_sending P T k s b q tot hg hs hq.1
    simp only [P2PPacketOutputStream.runTicks]
    exact ih _ (fun k' hk' => hk k' (List.mem_cons_of_mem _ hk')) h1 h2 hq.2

/-- The length of the wire frame of a packet. -/
theorem wire_length (P : Protocol) (p : P2PPacket)
    (hlen : ∀ h, (P.headerBytes h).length = P.sizeofHeader) :
    (P.wire p).length = P.sizeofHeader + P.networkToLocal p.header.length + P.sizeofFooter := by
  simp [Protocol.wire, Protocol.localLength, Mem.toList, hlen]
  omega

/-- The send of a fresh oldest packet, from its selection to the tick that writes
its last byte, with nothing committed in between: the state before the last
tick, and what the last tick leaves to be written. -/
theorem uninterrupted_send (P : Protocol) (T : Transport)
    (s : OutputStream) (q : Nat) (ks : List OutTick) (k : OutTick)
    (hlen : ∀ h, (P.headerBytes h).length = P.sizeofHeader)
    (hhs : 1 ≤ P.sizeofHeader) (hburst : (P.sizeofHeader : Int) ≤ T.GetBurstMaxLength)
    (hatomic : 0 ≤ T.GetAtomicSendMaxLength)
    (hst : s.state_ = OutState.kGettingNextPacket) (hstore : StoreOK P s.packet_buffer_)
    (ho : s.packet_buffer_.OldestValue P = some q)
    (hfresh : (s.packet_buffer_.front q).header.is_continuation = false)
    (hk : ∀ x ∈ ks ++ [k], x.valid)
    (hquiet : quiet P T none ks s = true)
    (hlast : sendsLastByte T k (P2PPacketOutputStream.runTicks P T none ks s).1 = true) :
    (P2PPacketOutputStream.runTicks P T none ks s).1.Sending s.packet_buffer_ q
        (setAt s.total_packet_bytes_ q (P.fullSize (s.packet_buffer_.front q))) ∧
      (P2PPacketOutputStream.runTicks P T none (ks ++ [k]) s).2
        = P.wire (s.packet_buffer_.front q) := by
  have hprio : (s.packet_buffer_.front q).header.priority = q :=
    StoreOK.front_priority hstore q ho
  have hg : s.Good P := by
    refine ⟨hstore, ?_⟩
    simp only [hst]
  cases ks with
  | nil =>
    exfalso
    simp only [P2PPacketOutputStream.runTicks, sendsLastByte, hst, decide_eq_true_eq] at hlast
    rcases hlast with ⟨h, _⟩ | ⟨h, _⟩ <;> cases h
  | cons k0 ks =>
    simp only [quiet, Bool.and_eq_true, Bool.not_eq_true'] at hquiet
    have hk0 : k0.valid := hk k0 (by simp)
    have hks : ∀ x ∈ ks, x.valid := fun x hx => hk x (by simp [hx])
    have hkv : k.valid := hk k (by simp)
    have hg1 := (Run_stream P T none k0 s hlen hhs hburst hatomic (fun f hf => by cases hf)
      hk0 hg).1
    have hs1 : (P2PPacketOutputStream.Run P T none k0.write k0.now s).next.Sending
        s.packet_buffer_ q
        (setAt s.total_packet_bytes_ q (P.fullSize (s.packet_buffer_.front q))) := by
      simp only [P2PPacketOutputStream.Run, hst, ho, hfresh, if_true]
      refine ⟨Or.inl rfl, rfl, rfl, ?_⟩
      simp only [OutputStream.startBurst, hprio, Protocol.fullSize]
    obtain ⟨hgk, hsk⟩ := runTicks_sending P T ks s.packet_buffer_ q _ hlen hhs hburst hatomic
      _ hks hg1 hs1 hquiet.2
    have hrun : (P2PPacketOutputStream.runTicks P T none (k0 :: ks) s).1
        = (P2PPacketOutputStream.runTicks P T none ks
            (P2PPacketOutputStream.Run P T none k0.write k0.now s).next).1 := rfl
    rw [hrun] at hlast ⊢
    refine ⟨hsk, ?_⟩
    obtain ⟨x, hx⟩ : ∃ x, x = (P2PPacketOutputStream.runTicks P T none ks
        (P2PPacketOutputStream.Run P T none k0.write k0.now s).next).1 := ⟨_, rfl⟩
    rw [← hx] at hlast hgk hsk
    obtain ⟨hl, hxb, hxc, hxt⟩ := hsk
    -- the last tick runs the body of `case kSendingBurst` from `kSendingBurst`
    simp only [sendsLastByte, decide_eq_true_eq] at hlast
    have hxs : x.state_ = OutState.kSendingBurst ∧
        x.pending_packet_bytes_
          - k.write (min T.GetAtomicSendMaxLength x.pending_burst_bytes_) ≤ 0 := by
      rcases hlast with h | ⟨h1, _, h3, _⟩
      · exact h
      · exfalso
        simp only [OutputStream.Good, h1] at hgk
        omega
    have hcur : x.current = s.packet_buffer_.front q := by
      simp [OutputStream.current, hxc, hxb]
    have hstream := (runTicks_stream P T none ((k0 :: ks) ++ [k]) s hlen hhs hburst hatomic
      (fun f hf => by cases hf) hk hg)
    have hfin : (P2PPacketOutputStream.runTicks P T none ((k0 :: ks) ++ [k]) s).1
        = (P2PPacketOutputStream.Run P T none k.write k.now x).next := by
      rw [runTicks_snoc, hrun, hx]
    obtain ⟨hgf, heq⟩ := hstream
    rw [hfin] at hgf heq
    have hnext : (P2PPacketOutputStream.Run P T none k.write k.now x).next
        = (P2PPacketOutputStream.sendingBurst P T none k.write k.now x).next := by
      simp only [P2PPacketOutputStream.Run, hxs.1]
    have hout := sendingBurst_outcome P T none k.write k.now x _ rfl
    have hcons := ((sendingBurst_consumes P T none k.write k.now x).1 hxs.2).1 (Or.inl rfl)
    have htot := sendingBurst_total P T none k.write k.now x
    rw [← hnext] at hout hcons htot
    obtain ⟨y, hy⟩ : ∃ y, y = (P2PPacketOutputStream.Run P T none k.write k.now x).next :=
      ⟨_, rfl⟩
    rw [← hy] at hout hcons htot hgf heq
    have hys : y.state_ = OutState.kWaitingForBurstIngestion := (hout.2.2.1 (Or.inl hxs.2)).1
    have hyp : y.pending_packet_bytes_ ≤ 0 := by rw [hout.1]; exact hxs.2
    have hrem : y.remaining P
        = P.storeStream s.total_packet_bytes_ (s.packet_buffer_.Consume q) := by
      simp only [OutputStream.remaining, hys, if_pos hyp]
      rw [hcons.2, htot, hxt, hxb, hcur, hprio]
      exact storeStream_select P _ _ q _ hstore
    have hrem0 : s.remaining P
        = P.wire (s.packet_buffer_.front q)
          ++ P.storeStream s.total_packet_bytes_ (s.packet_buffer_.Consume q) := by
      simp only [OutputStream.remaining, hst]
      rw [storeStream_oldest P _ _ q ho, frameBytes_fresh P _ _ hfresh]
    rw [hrem, hrem0] at heq
    exact List.append_cancel_right heq

/-- The tick that writes the last byte of a packet calls `Consume` once, for the
priority of that packet, if the filter is null or accepts the packet, and not at
all if the filter rejects it. -/
theorem Run_consumes_last (P : Protocol) (T : Transport)
    (packet_filter_ : Option (P2PPacket → Bool)) (k : OutTick) (s : OutputStream)
    (h : sendsLastByte T k s = true) :
    consumes (P2PPacketOutputStream.Run P T packet_filter_ k.write k.now s).events
      = if passesFilter packet_filter_ s.current = true then [s.current.header.priority]
        else [] := by
  have key : ∀ x : OutputStream, x.current = s.current →
      x.pending_packet_bytes_
        - k.write (min T.GetAtomicSendMaxLength x.pending_burst_bytes_) ≤ 0 →
      consumes (P2PPacketOutputStream.sendingBurst P T packet_filter_ k.write k.now x).events
        = if passesFilter packet_filter_ s.current = true then [s.current.header.priority]
          else [] := by
    intro x hx hp
    have h1 := (sendingBurst_consumes P T packet_filter_ k.write k.now x).1 hp
    rw [hx] at h1
    cases packet_filter_ with
    | none =>
      simp only [passesFilter, if_true]
      exact (h1.1 (Or.inl rfl)).1
    | some f =>
      by_cases hf : f s.current = true
      · simp only [passesFilter, hf, if_true]
        exact (h1.1 (Or.inr ⟨f, rfl, hf⟩)).1
      · simp only [passesFilter, hf, if_false]
        exact (h1.2 ⟨f, rfl, by simpa using hf⟩).1
  simp only [sendsLastByte, decide_eq_true_eq] at h
  rcases h with ⟨hst, hp⟩ | ⟨hst, hn, hpp, hp⟩
  · simp only [P2PPacketOutputStream.Run, hst]
    exact key s rfl hp
  · simp only [P2PPacketOutputStream.Run, hst, hn, hpp, if_false]
    exact key _ rfl hp

/-- C24, amended.  The framer selects a fresh packet, the oldest of a well-formed
store, and nothing is committed until the tick `k` that writes its last byte;
`GetBurstMaxLength()` is at least the header size, `GetAtomicSendMaxLength()` is
not negative and every `Write` returns between 0 and the count requested.  Then
the bytes written from the selection to `k` are the header, the content and the
footer of the packet, in order and once each: header size + length + footer size
bytes.  Before `k` the statistics are untouched and `Consume` is not called.  In
`k` the statistics are updated once, with the full size of the packet as the
recorded size, and `Consume` is called once, for the priority of the packet, if
the outbound filter is null or accepts the packet; if the filter rejects the
packet, `Consume` is not called at all. -/
theorem uninterrupted_send_is_exact (P : Protocol) (T : Transport)
    (packet_filter_ : Option (P2PPacket → Bool))
    (s : OutputStream) (q : Nat) (ks : List OutTick) (k : OutTick)
    (hlen : ∀ h, (P.headerBytes h).length = P.sizeofHeader)
    (hhs : 1 ≤ P.sizeofHeader) (hburst : (P.sizeofHeader : Int) ≤ T.GetBurstMaxLength)
    (hatomic : 0 ≤ T.GetAtomicSendMaxLength)
    (hst : s.state_ = OutState.kGettingNextPacket) (hstore : StoreOK P s.packet_buffer_)
    (ho : s.packet_buffer_.OldestValue P = some q)
    (hfresh : (s.packet_buffer_.front q).header.is_continuation = false)
    (hk : ∀ x ∈ ks ++ [k], x.valid)
    (hquiet : quiet P T packet_filter_ ks s = true)
    (hlast : sendsLastByte T k
      (P2PPacketOutputStream.runTicks P T packet_filter_ ks s).1 = true) :
    (P2PPacketOutputStream.runTicks P T packet_filter_ (ks ++ [k]) s).2
        = P.wire (s.packet_buffer_.front q) ∧
      (P2PPacketOutputStream.runTicks P T packet_filter_ (ks ++ [k]) s).2.length
        = P.sizeofHeader + P.networkToLocal (s.packet_buffer_.front q).header.length
          + P.sizeofFooter ∧
      consumes (P2PPacketOutputStream.trace P T packet_filter_ ks s) = [] ∧
      (P2PPacketOutputStream.runTicks P T packet_filter_ ks s).1.stats_ = s.stats_ ∧
      (P2PPacketOutputStream.runTicks P T packet_filter_ ks s).1.last_sent_sequence_number_
        = s.last_sent_sequence_number_ ∧
      consumes (P2PPacketOutputStream.trace P T packet_filter_ (ks ++ [k]) s)
        = (if passesFilter packet_filter_ (s.packet_buffer_.front q) = true then [q]
          else []) ∧
      (P2PPacketOutputStream.runTicks P T packet_filter_ (ks ++ [k]) s).1.stats_
        = (OutputStream.account
            { s with total_packet_bytes_ :=
                       setAt s.total_packet_bytes_ q (P.fullSize (s.packet_buffer_.front q)) }
            (s.packet_buffer_.front q) k.now).stats_ ∧
      (P2PPacketOutputStream.runTicks P T packet_filter_ (ks ++ [k]) s).1.last_sent_sequence_number_
        = (OutputStream.account
            { s with total_packet_bytes_ :=
                       setAt s.total_packet_bytes_ q (P.fullSize (s.packet_buffer_.front q)) }
            (s.packet_buffer_.front q) k.now).last_sent_sequence_number_ := by
  obtain ⟨hq0, hrt, _⟩ := quiet_filter_free P T packet_filter_ ks s hquiet
  have hprio : (s.packet_buffer_.front q).header.priority = q :=
    StoreOK.front_priority hstore q ho
  obtain ⟨hfr1, hfr2⟩ := runTicks_stats_frame P T packet_filter_ ks s hquiet
  obtain ⟨x, hx⟩ : ∃ x, x = (P2PPacketOutputStream.runTicks P T packet_filter_ ks s).1 :=
    ⟨_, rfl⟩
  have hxn : x = (P2PPacketOutputStream.runTicks P T none ks s).1 := by rw [hx, hrt]
  rw [← hx] at hlast hfr1 hfr2
  have hlast0 := hlast
  rw [hxn] at hlast0
  obtain ⟨hsend, hbytes⟩ := uninterrupted_send P T s q ks k hlen hhs hburst hatomic hst hstore
    ho hfresh hk hq0 hlast0
  rw [← hxn] at hsend
  obtain ⟨_, hxb, hxc, hxt⟩ := hsend
  have hcur : x.current = s.packet_buffer_.front q := by
    simp [OutputStream.current, hxc, hxb]
  have hw : (P2PPacketOutputStream.runTicks P T packet_filter_ (ks ++ [k]) s).2
      = P.wire (s.packet_buffer_.front q) := by
    rw [runTicks_snoc_written, ← hx, Run_written_filter_free, hrt, ← hbytes,
      runTicks_snoc_written, ← hxn]
  have hacc := Run_account P T packet_filter_ k x hlast
  have hcongr := account_congr x
    { s with total_packet_bytes_ :=
               setAt s.total_packet_bytes_ q (P.fullSize (s.packet_buffer_.front q)) }
    (s.packet_buffer_.front q) k.now hfr1 hfr2 hxt
  rw [hcur] at hacc
  refine ⟨hw, ?_, trace_consumes_quiet P T packet_filter_ ks s hquiet, hx ▸ hfr1, hx ▸ hfr2,
    ?_, ?_, ?_⟩
  · rw [hw]
    exact wire_length P _ hlen
  · rw [trace_snoc, consumes_append, trace_consumes_quiet P T packet_filter_ ks s hquiet,
      List.nil_append, ← hx, Run_consumes_last P T packet_filter_ k x hlast, hcur, hprio]
  · rw [runTicks_snoc, ← hx]
    exact hacc.1.trans hcongr.1
  · rw [runTicks_snoc, ← hx]
    exact hacc.2.trans hcongr.2

/-- C24 at a concrete run: the demo framer on `wholeBurstTransport`, no filter,
sends a priority-1 packet of one content byte in four ideal ticks; the fourth
writes the last byte. -/
theorem uninterrupted_send_is_exact_witness :
    (∀ h, (demoProtocol.headerBytes h).length = demoProtocol.sizeofHeader) ∧
    1 ≤ demoProtocol.sizeofHeader ∧
    (demoProtocol.sizeofHeader : Int) ≤ wholeBurstTransport.GetBurstMaxLength ∧
    0 ≤ wholeBurstTransport.GetAtomicSendMaxLength ∧
    onePacketQueued.state_ = OutState.kGettingNextPacket ∧
    StoreOK demoProtocol onePacketQueued.packet_buffer_ ∧
    onePacketQueued.packet_buffer_.OldestValue demoProtocol = some 1 ∧
    (onePacketQueued.packet_buffer_.front 1).header.is_continuation = false ∧
    (∀ x ∈ idealTicks 3 ++ [idealTick 3], x.valid) ∧
    quiet demoProtocol wholeBurstTransport none (idealTicks 3) onePacketQueued = true ∧
    sendsLastByte wholeBurstTransport (idealTick 3)
      (P2PPacketOutputStream.runTicks demoProtocol wholeBurstTransport none (idealTicks 3)
        onePacketQueued).1 = true ∧
    ((P2PPacketOutputStream.runTicks demoProtocol wholeBurstTransport none
          (idealTicks 3 ++ [idealTick 3]) onePacketQueued).2
        = demoProtocol.wire (onePacketQueued.packet_buffer_.front 1) ∧
      (P2PPacketOutputStream.runTicks demoProtocol wholeBurstTransport none
          (idealTicks 3 ++ [idealTick 3]) onePacketQueued).2.length
        = demoProtocol.sizeofHeader
          + demoProtocol.networkToLocal (onePacketQueued.packet_buffer_.front 1).header.length
          + demoProtocol.sizeofFooter ∧
      consumes (P2PPacketOutputStream.trace demoProtocol wholeBurstTransport none
        (idealTicks 3) onePacketQueued) = [] ∧
      (P2PPacketOutputStream.runTicks demoProtocol wholeBurstTransport none (idealTicks 3)
        onePacketQueued).1.stats_ = onePacketQueued.stats_ ∧
      (P2PPacketOutputStream.runTicks demoProtocol wholeBurstTransport none (idealTicks 3)
        onePacketQueued).1.last_sent_sequence_number_
        = onePacketQueued.last_sent_sequence_number_ ∧
      consumes (P2PPacketOutputStream.trace demoProtocol wholeBurstTransport none
          (idealTicks 3 ++ [idealTick 3]) onePacketQueued)
        = (if passesFilter none (onePacketQueued.packet_buffer_.front 1) = true then [1]
          else []) ∧
      (P2PPacketOutputStream.runTicks demoProtocol wholeBurstTransport none
          (idealTicks 3 ++ [idealTick 3]) onePacketQueued).1.stats_
        = (OutputStream.account
            { onePacketQueued with
              total_packet_bytes_ :=
                setAt onePacketQueued.total_packet_bytes_ 1
                  (demoProtocol.fullSize (onePacketQueued.packet_buffer_.front 1)) }
            (onePacketQueued.packet_buffer_.front 1) (idealTick 3).now).stats_ ∧
      (P2PPacketOutputStream.runTicks demoProtocol wholeBurstTransport none
          (idealTicks 3 ++ [idealTick 3]) onePacketQueued).1.last_sent_sequence_number_
        = (OutputStream.account
            { onePacketQueued with
              total_packet_bytes_ :=
                setAt onePacketQueued.total_packet_bytes_ 1
                  (demoProtocol.fullSize (onePacketQueued.packet_buffer_.front 1)) }
            (onePacketQueued.packet_buffer_.front 1)
            (idealTick 3).now).last_sent_sequence_number_) :=
  have hlen : ∀ h, (demoProtocol.headerBytes h).length = demoProtocol.sizeofHeader :=
    fun h => by simp [demoProtocol, leBytes]
  have hstore : StoreOK demoProtocol onePacketQueued.packet_buffer_ := ⟨by decide, by decide⟩
  have hk : ∀ x ∈ idealTicks 3 ++ [idealTick 3], x.valid := by
    intro x hx
    rcases List.mem_append.mp hx with h | h
    · exact idealTicksFrom_valid 0 3 x h
    · rw [List.mem_singleton.mp h]
      exact idealTick_valid 3
  ⟨hlen, by decide, by decide, by decide, rfl, hstore, by decide, rfl, hk, by decide, by decide,
    uninterrupted_send_is_exact demoProtocol wholeBurstTransport none onePacketQueued 1
      (idealTicks 3) (idealTick 3) hlen (by decide) (by decide) (by decide) rfl hstore
      (by decide) rfl hk (by decide) (by decide)⟩

/-- C24 as stated fails when the outbound filter rejects the packet: the demo
framer on `wholeBurstTransport` with a filter that rejects everything writes the
frame of the packet in four ideal ticks, the fourth writing the last byte, and
calls `Consume` in none of them; the packet is still queued afterwards. -/
theorem rejected_send_is_not_released :
    quiet demoProtocol wholeBurstTransport rejectAll (idealTicks 3) onePacketQueued = true ∧
    sendsLastByte wholeBurstTransport (idealTick 3)
      (P2PPacketOutputStream.runTicks demoProtocol wholeBurstTransport rejectAll (idealTicks 3)
        onePacketQueued).1 = true ∧
    (P2PPacketOutputStream.runTicks demoProtocol wholeBurstTransport rejectAll
        (idealTicks 3 ++ [idealTick 3]) onePacketQueued).2
      = [0x7E, 0x11, 7, 0, 0, 0, 0, 0, 0, 0, 0, 1, 1, 2, 3] ∧
    consumes (P2PPacketOutputStream.trace demoProtocol wholeBurstTransport rejectAll
      (idealTicks 3 ++ [idealTick 3]) onePacketQueued) = [] ∧
    ((P2PPacketOutputStream.runTicks demoProtocol wholeBurstTransport rejectAll
        (idealTicks 3 ++ [idealTick 3]) onePacketQueued).1.packet_buffer_.queue 1).length
      = 1 := by
  decide

/-! ## The lookups of the trajectory view handlers -/

/-- C29: the code diverges.  Plain view 0 and envelope view 0 exist and slot 5 is
free.  A request to create mixed view 5 from the plain view 0 (twice) is answered
with `kDoesNotExistError` and creates nothing, because after the plain lookup
the switch runs on into the modulated and the mixed lookup of index 0; so is a
request to create modulated view 5 with the plain view 0 as carrier.  Once a
modulated view 0 and a mixed view 0 exist as well, such requests succeed and the
pointer installed for the plain reference is the address of the mixed view 0. -/
theorem plain_reference_runs_into_other_stores :
    ((CreateHeadMixedTrajectoryViewActionHandler.Run
        { mixed_trajectory_view_id := 5,
          first_trajectory_view_type := P2PTrajectoryViewType.kPlain,
          first_trajectory_view_id := 0,
          second_trajectory_view_type := P2PTrajectoryViewType.kPlain,
          second_trajectory_view_id := 0,
          alpha_envelope_trajectory_view_id := 0 } true
        (demoHandler (demoTrajectoryStore [0] [] [] [0] [5]))).reply
        = some Status.kDoesNotExistError ∧
      (CreateHeadMixedTrajectoryViewActionHandler.Run
        { mixed_trajectory_view_id := 5,
          first_trajectory_view_type := P2PTrajectoryViewType.kPlain,
          first_trajectory_view_id := 0,
          second_trajectory_view_type := P2PTrajectoryViewType.kPlain,
          second_trajectory_view_id := 0,
          alpha_envelope_trajectory_view_id := 0 } true
        (demoHandler (demoTrajectoryStore [0] [] [] [0]
          [5]))).next.trajectory_store_.head_mixed_trajectory_views 5
        = StatusOr.error Status.kUnavailableError) ∧
    ((CreateHeadModulatedTrajectoryViewActionHandler.Run
        { modulated_trajectory_view_id := 5,
          carrier_trajectory_view_type := P2PTrajectoryViewType.kPlain,
          carrier_trajectory_view_id := 0,
          modulator_trajectory_view_type := P2PTrajectoryViewType.kMixed,
          modulator_trajectory_view_id := 5,
          envelope_trajectory_view_id := 0 } true
        (demoHandler (demoTrajectoryStore [0] [] [] [0] [5]))).reply
        = some Status.kDoesNotExistError) ∧
    ((CreateHeadMixedTrajectoryViewActionHandler.Run
        { mixed_trajectory_view_id := 5,
          first_trajectory_view_type := P2PTrajectoryViewType.kPlain,
          first_trajectory_view_id := 0,
          second_trajectory_view_type := P2PTrajectoryViewType.kMixed,
          second_trajectory_view_id := 0,
          alpha_envelope_trajectory_view_id := 0 } true
        (demoHandler (demoTrajectoryStore [0] [0] [0] [0] [5]))).reply
        = some Status.kSuccess ∧
      (CreateHeadMixedTrajectoryViewActionHandler.Run
        { mixed_trajectory_view_id := 5,
          first_trajectory_view_type := P2PTrajectoryViewType.kPlain,
          first_trajectory_view_id := 0,
          second_trajectory_view_type := P2PTrajectoryViewType.kMixed,
          second_trajectory_view_id := 0,
          alpha_envelope_trajectory_view_id := 0 } true
        (demoHandler (demoTrajectoryStore [0] [0] [0] [0]
          [5]))).next.trajectory_store_.head_mixed_trajectory_views 5
        = StatusOr.value
            { trajectory1 := some { store := ViewStore.head_mixed_trajectory_views, id := 0 },
              trajectory2 := some { store := ViewStore.head_mixed_trajectory_views, id := 0 },
              alpha := EnvelopePointer.intoLocalCopy 0 }) ∧
    ((CreateHeadModulatedTrajectoryViewActionHandler.Run
        { modulated_trajectory_view_id := 5,
          carrier_trajectory_view_type := P2PTrajectoryViewType.kPlain,
          carrier_trajectory_view_id := 0,
          modulator_trajectory_view_type := P2PTrajectoryViewType.kMixed,
          modulator_trajectory_view_id := 5,
          envelope_trajectory_view_id := 0 } true
        (demoHandler (demoTrajectoryStore [0] [0] [0, 5] [0]
          [5]))).next.trajectory_store_.head_modulated_trajectory_views 5
        = StatusOr.value
            { carrier := some { store := ViewStore.head_mixed_trajectory_views, id := 0 },
              modulator := some { store := ViewStore.head_mixed_trajectory_views, id := 5 },
              envelope := EnvelopePointer.intoLocalCopy 0 }) := by
  decide

/-- C30: the code diverges.  Mixed views 1 and 2 and envelope view 0 exist and
slot 2 of the modulated views is free.  A request to create modulated view 2 with
the mixed view 1 as carrier and as modulator succeeds, and the modulator
installed is the address of the mixed view 2, the index of the view being
created, not of the mixed view 1.  While slot 2 of the mixed views is free as
well, the same request is answered with the status of that slot,
`kUnavailableError`, although its modulator, the mixed view 1, exists. -/
theorem modulator_is_looked_up_under_the_new_id :
    ((CreateHeadModulatedTrajectoryViewActionHandler.Run
        { modulated_trajectory_view_id := 2,
          carrier_trajectory_view_type := P2PTrajectoryViewType.kMixed,
          carrier_trajectory_view_id := 1,
          modulator_trajectory_view_type := P2PTrajectoryViewType.kMixed,
          modulator_trajectory_view_id := 1,
          envelope_trajectory_view_id := 0 } true
        (demoHandler (demoTrajectoryStore [] [] [1, 2] [0] [2]))).reply
        = some Status.kSuccess ∧
      (CreateHeadModulatedTrajectoryViewActionHandler.Run
        { modulated_trajectory_view_id := 2,
          carrier_trajectory_view_type := P2PTrajectoryViewType.kMixed,
          carrier_trajectory_view_id := 1,
          modulator_trajectory_view_type := P2PTrajectoryViewType.kMixed,
          modulator_trajectory_view_id := 1,
          envelope_trajectory_view_id := 0 } true
        (demoHandler (demoTrajectoryStore [] [] [1, 2] [0]
          [2]))).next.trajectory_store_.head_modulated_trajectory_views 2
        = StatusOr.value
            { carrier := some { store := ViewStore.head_mixed_trajectory_views, id := 1 },
              modulator := some { store := ViewStore.head_mixed_trajectory_views, id := 2 },
              envelope := EnvelopePointer.intoLocalCopy 0 }) ∧
    ((CreateHeadModulatedTrajectoryViewActionHandler.Run
        { modulated_trajectory_view_id := 2,
          carrier_trajectory_view_type := P2PTrajectoryViewType.kMixed,
          carrier_trajectory_view_id := 1,
          modulator_trajectory_view_type := P2PTrajectoryViewType.kMixed,
          modulator_trajectory_view_id := 1,
          envelope_trajectory_view_id := 0 } true
        (demoHandler (demoTrajectoryStore [] [] [1] [0] [2]))).reply
        = some Status.kUnavailableError) := by
  decide

/-! ## The cubic interpolation through the waypoints -/

/-- A Bézier curve starts at its first control point. -/
theorem Bezier_zero {K W : Type} [Field K] [AddCommGroup W] [Module K W] (a b c d : W) :
    Bezier a b c d (0 : K) = a := by
  simp [Bezier]

/-- A Bézier curve ends at its last control point. -/
theorem Bezier_one {K W : Type} [Field K] [AddCommGroup W] [Module K W] (a b c d : W) :
    Bezier a b c d (1 : K) = d := by
  simp [Bezier]

/-- With both divisors different from zero the spline has a value: the Bézier
curve on `p1`, the two inner control points and `p2`. -/
theorem CentripetalCatmullRom_some {K W : Type} [Field K] [DecidableEq K] [AddCommGroup W]
    [Module K W] (DistanceFrom : W → W → K) (sqrt : K → K) (p0 p1 p2 p3 : W) (t : K)
    (h1 : 3 * DistanceFrom p0 p1 + 3 * sqrt (DistanceFrom p0 p1 * DistanceFrom p1 p2) ≠ 0)
    (h3 : 3 * DistanceFrom p2 p3 + 3 * sqrt (DistanceFrom p1 p2 * DistanceFrom p2 p3) ≠ 0) :
    ∃ b1 b2 : W, CentripetalCatmullRom DistanceFrom sqrt p0 p1 p2 p3 t
      = some (Bezier p1 b1 b2 p2 t) := by
  simp only [CentripetalCatmullRom, divide, if_neg h1, if_neg h3]
  exact ⟨_, _, rfl⟩

/-- The divisors of the spline are positive over the reals when the two outer
distances are. -/
theorem divisor_pos (d e : ℝ) (h : 0 < d) : 3 * d + 3 * Real.sqrt (d * e) ≠ 0 := by
  have := Real.sqrt_nonneg (d * e)
  have : 0 < 3 * d + 3 * Real.sqrt (d * e) := by positivity
  exact ne_of_gt this

/-- With both divisors different from zero, over any scalars, the spline starts at
`p1` and ends at `p2`. -/
theorem CentripetalCatmullRom_ends {K W : Type} [Field K] [DecidableEq K] [AddCommGroup W]
    [Module K W] (DistanceFrom : W → W → K) (sqrt : K → K) (p0 p1 p2 p3 : W)
    (h1 : 3 * DistanceFrom p0 p1 + 3 * sqrt (DistanceFrom p0 p1 * DistanceFrom p1 p2) ≠ 0)
    (h3 : 3 * DistanceFrom p2 p3 + 3 * sqrt (DistanceFrom p1 p2 * DistanceFrom p2 p3) ≠ 0) :
    CentripetalCatmullRom DistanceFrom sqrt p0 p1 p2 p3 0 = some p1 ∧
      CentripetalCatmullRom DistanceFrom sqrt p0 p1 p2 p3 1 = some p2 := by
  obtain ⟨b1, b2, h⟩ := CentripetalCatmullRom_some DistanceFrom sqrt p0 p1 p2 p3 0 h1 h3
  obtain ⟨c1, c2, h'⟩ := CentripetalCatmullRom_some DistanceFrom sqrt p0 p1 p2 p3 1 h1 h3
  rw [h, h', Bezier_zero, Bezier_one]
  exact ⟨rfl, rfl⟩

/-- C31.  Waypoint arithmetic over the reals, `std::sqrt` the real square root.
For all waypoints `p0`, `p1`, `p2`, `p3` whose outer distances `d1` and `d3` are
positive, so that both divisors are different from zero:
`CentripetalCatmullRom(p0, p1, p2, p3, 0)` is `p1` and
`CentripetalCatmullRom(p0, p1, p2, p3, 1)` is `p2`; for every `t` the result is
the value at `t` of the Bézier curve on `p1`, two inner control points and `p2`;
and `Bezier(a, b, c, d, 0) = a`, `Bezier(a, b, c, d, 1) = d` for all control
points. -/
theorem catmull_rom_passes_through_waypoints {W : Type} [AddCommGroup W] [Module ℝ W]
    (DistanceFrom : W → W → ℝ) (p0 p1 p2 p3 : W)
    (hd1 : 0 < DistanceFrom p0 p1) (hd3 : 0 < DistanceFrom p2 p3) :
    CentripetalCatmullRom DistanceFrom Real.sqrt p0 p1 p2 p3 0 = some p1 ∧
      CentripetalCatmullRom DistanceFrom Real.sqrt p0 p1 p2 p3 1 = some p2 ∧
      (∀ t : ℝ, ∃ b1 b2 : W,
        CentripetalCatmullRom DistanceFrom Real.sqrt p0 p1 p2 p3 t
          = some (Bezier p1 b1 b2 p2 t)) ∧
      (∀ a b c d : W, Bezier a b c d (0 : ℝ) = a ∧ Bezier a b c d (1 : ℝ) = d) := by
  have h1 := divisor_pos (DistanceFrom p0 p1) (DistanceFrom p1 p2) hd1
  have h3 : 3 * DistanceFrom p2 p3
      + 3 * Real.sqrt (DistanceFrom p1 p2 * DistanceFrom p2 p3) ≠ 0 := by
    rw [mul_comm (DistanceFrom p1 p2)]
    exact divisor_pos (DistanceFrom p2 p3) (DistanceFrom p1 p2) hd3
  obtain ⟨e0, e1⟩ := CentripetalCatmullRom_ends DistanceFrom Real.sqrt p0 p1 p2 p3 h1 h3
  exact ⟨e0, e1,
    fun t => CentripetalCatmullRom_some DistanceFrom Real.sqrt p0 p1 p2 p3 t h1 h3,
    fun a b c d => ⟨Bezier_zero a b c d, Bezier_one a b c d⟩⟩

/-- C31 at concrete waypoints: pairs of seconds and a one-dimensional state, the
distance of two waypoints being the distance of their states. -/
theorem catmull_rom_passes_through_waypoints_witness :
    (0 : ℝ) < |((0 : ℝ), (0 : ℝ)).2 - ((1 : ℝ), (1 : ℝ)).2| ∧
    (0 : ℝ) < |((2 : ℝ), (3 : ℝ)).2 - ((3 : ℝ), (4 : ℝ)).2| ∧
    (CentripetalCatmullRom (fun a b : ℝ × ℝ => |a.2 - b.2|) Real.sqrt
        (0, 0) (1, 1) (2, 3) (3, 4) 0 = some ((1 : ℝ), (1 : ℝ)) ∧
      CentripetalCatmullRom (fun a b : ℝ × ℝ => |a.2 - b.2|) Real.sqrt
        (0, 0) (1, 1) (2, 3) (3, 4) 1 = some ((2 : ℝ), (3 : ℝ)) ∧
      (∀ t : ℝ, ∃ b1 b2 : ℝ × ℝ,
        CentripetalCatmullRom (fun a b : ℝ × ℝ => |a.2 - b.2|) Real.sqrt
          (0, 0) (1, 1) (2, 3) (3, 4) t = some (Bezier (1, 1) b1 b2 (2, 3) t)) ∧
      (∀ a b c d : ℝ × ℝ, Bezier a b c d (0 : ℝ) = a ∧ Bezier a b c d (1 : ℝ) = d)) :=
  ⟨by norm_num, by norm_num,
    catmull_rom_passes_through_waypoints (fun a b : ℝ × ℝ => |a.2 - b.2|)
      (0, 0) (1, 1) (2, 3) (3, 4) (by norm_num) (by norm_num)⟩

/-- Over the reals the spline has no value when the first distance is zero: the
first divisor is zero then. -/
theorem CentripetalCatmullRom_no_value {W : Type} [AddCommGroup W] [Module ℝ W]
    (DistanceFrom : W → W → ℝ) (p0 p1 p2 p3 : W) (t : ℝ) (hd1 : DistanceFrom p0 p1 = 0) :
    CentripetalCatmullRom DistanceFrom Real.sqrt p0 p1 p2 p3 t = none := by
  simp [CentripetalCatmullRom, divide, hd1]

/-- The definitions compute: on the rationals, with the rational square root, the
spline through the equally spaced waypoints 0, 1, 2, 3 is half way between 1 and
2 at `t = 1/2`. -/
theorem CentripetalCatmullRom_half :
    CentripetalCatmullRom (fun a b : ℚ => |a - b|) Rat.sqrt 0 1 2 3 (1 / 2) = some (3 / 2) := by
  have h : Rat.sqrt 1 = 1 := by decide
  norm_num [CentripetalCatmullRom, divide, Bezier, h]

end P2P
